import Mathlib

/-!
Verification of the selective direct-encoded string column reader
(`SelectiveStringDirectColumnReader.cpp`).

The reader decodes a string column stored as a length stream plus a
concatenated raw-bytes stream ("blob").  We embed the reader shallowly:

* bytes are `Nat` (with the hypothesis `< 256` where byte/word packing
  round-trips matter);
* the data stream is a `List Nat` (`blob`) together with a cursor window,
  the absolute offset of `bufferStart_` being `pos` and the window size
  `winLen` (`bufferEnd_ - bufferStart_`); `hasBuf` models nullness of
  `bufferStart_`; `toSkip` models `bytesToSkip_`;
* the page-refill policy of the byte stream (an external collaborator) is
  a parameter `sched : Nat → Nat` giving the page size offered at a refill
  point (clamped to at least one byte and to the end of the blob);
* the output buffer `rawValues_` and the raw-string arena are flat byte
  lists written with `storeBytes`; an out-of-line "pointer" is modelled as
  the byte offset into the arena;
* fallible paths return `Option`: `none` models a fatal error
  (`VELOX_CHECK` failure / reading past the end of the stream).

Definitions named after source symbols are direct translations of the
source; definitions whose doc comment starts with `Modelled from the
spec:` embed collaborators that are declared but not defined in this
repository (base-class helpers, `dwio::common` utilities, visitors).
-/

set_option maxHeartbeats 4000000

namespace StringDirect

/-- Slice of a byte list: `n` bytes starting at absolute offset `p`. -/
def blobSlice (blob : List Nat) (p n : Nat) : List Nat := (blob.drop p).take n

/-- Store `bs` into flat byte memory `mem` at byte offset `off`,
zero-padding if `mem` is shorter than `off`. -/
def storeBytes (mem : List Nat) (off : Nat) (bs : List Nat) : List Nat :=
  mem.take off ++ List.replicate (off - mem.length) 0 ++ bs ++ mem.drop (off + bs.length)

/-- Little-endian value of a byte list. -/
def fromLE : List Nat → Nat
  | [] => 0
  | b :: bs => b + 256 * fromLE bs

/-- `k`-byte little-endian encoding of `w`. -/
def toLE : Nat → Nat → List Nat
  | 0, _ => []
  | k+1, w => w % 256 :: toLE k (w / 256)

/-- Sum of `n` entries of `ls` starting at index `i`
(the loop `for (j = i; j < i + n; ++j) acc += ls[j];`). -/
def sumRange (ls : List Nat) (i n : Nat) : Nat := ((ls.drop i).take n).sum

/-- `rangeSum` from the source: `start + Σ_{i ∈ [b, e)} ls[i]`. -/
def rangeSumL (ls : List Nat) (start b e : Nat) : Nat := start + sumRange ls b (e - b)

/-- Null-bitmap test (`bits::isBitNull`; in the bitmap a set bit means
non-null); out-of-range bits are treated as non-null. -/
def isBitNull (nulls : List Bool) (i : Nat) : Bool := !(nulls.getD i true)

/-- `bits::countNonNulls` over `[b, e)`. -/
def countNonNulls (nulls : List Bool) (b e : Nat) : Nat :=
  ((nulls.drop b).take (e - b)).count true

/-- Number of null bits in `[b, e)` (`BaseVector::countNulls`). -/
def countNullsL (nulls : List Bool) (b e : Nat) : Nat :=
  ((nulls.drop b).take (e - b)).count false

/-- `bits::roundUp(n, 16)`. -/
def roundUp16 (n : Nat) : Nat := ((n + 15) / 16) * 16

/-- Cursor-side mutable state of the reader: the byte-stream window, the
deferred byte skip, the materialized length array and its cursor, the
scratch string, and (ghost) a counter of `readValue` invocations — the
"byte-cursor-read counter" observable of the spec.  `lenStream` is the
not-yet-decoded tail of the length stream (the RLE length decoder is an
external collaborator; its position is the list head). -/
structure CState where
  pos : Nat
  winLen : Nat
  hasBuf : Bool
  toSkip : Nat
  rawLengths : List Nat
  lengthIndex : Nat
  tempString : List Nat
  readCount : Nat
  lenStream : List Nat
deriving Repr, DecidableEq

/-- Output-side mutable state: the flat result-record memory
(`rawValues_`), result nulls, the raw-string arena and its used/size
counters, and the scatter map `outerNonNullRows_`. -/
structure OState where
  rawValues : List Nat
  resultNulls : List Bool
  returnReaderNulls : Bool
  anyNulls : Bool
  numValues : Nat
  arena : List Nat
  rawStringUsed : Nat
  rawStringSize : Nat
  outerNonNullRows : List Nat
deriving Repr, DecidableEq

/-- Modelled from the spec: size of the window offered by the byte stream
when it is refilled at absolute position `pos` — the page-refill policy is
owned by the stream collaborator, so it is a parameter `sched`, clamped to
at least one byte and to the end of the blob. -/
def refillLen (blob : List Nat) (sched : Nat → Nat) (pos : Nat) : Nat :=
  min (max (sched pos) 1) (blob.length - pos)

/-- Modelled from the spec: `dwio::common::skipBytes(n, stream,
bufferStart, bufferEnd)` — consume the resident window first; a skip past
the window is forwarded to the stream and leaves the window empty (the
window pointers are nulled). -/
def skipBytesOp (c : CState) (n : Nat) : CState :=
  if n ≤ c.winLen then { c with pos := c.pos + n, winLen := c.winLen - n }
  else { c with pos := c.pos + n, winLen := 0, hasBuf := false }

/-- Modelled from the spec: `dwio::common::readBytes(n, stream, scratch,
bufferStart, bufferEnd)` — copy `n` bytes into scratch, refilling the
window on exhaustion, transparently spanning page boundaries.  Reading
past the end of the stream is a fatal error (`none`). -/
def readBytesAux (blob : List Nat) (sched : Nat → Nat) : Nat → CState → Option (List Nat × CState)
  | 0, c => some ([], c)
  | n+1, c =>
    let c1 := if c.winLen = 0 then
        { c with winLen := refillLen blob sched c.pos, hasBuf := true }
      else c
    if c1.pos < blob.length ∧ 0 < c1.winLen then
      match readBytesAux blob sched n { c1 with pos := c1.pos + 1, winLen := c1.winLen - 1 } with
      | some (bs, c2) => some (blob.getD c1.pos 0 :: bs, c2)
      | none => none
    else none

/-- The opening two statements of `readValue`:
`skipBytes(bytesToSkip_, ...); bytesToSkip_ = 0;` — flush the pending
deferred skip to the stream. -/
def flushSkip (c : CState) : CState := { skipBytesOp c c.toSkip with toSkip := 0 }

/-- `SelectiveStringDirectColumnReader::readValue` — flush the pending
deferred skip, then either return a zero-copy view of the next `length`
window bytes (marking them as pending skip), or copy `length` bytes into
the scratch string across window refills. -/
def readValue (blob : List Nat) (sched : Nat → Nat) (c : CState) (length : Nat) :
    Option (List Nat × CState) :=
  let c1 := flushSkip c
  if length ≤ c1.winLen then
    some (blobSlice blob c1.pos length,
      { c1 with toSkip := length, readCount := c1.readCount + 1 })
  else
    match readBytesAux blob sched length c1 with
    | some (bs, c2) => some (bs, { c2 with tempString := bs, readCount := c2.readCount + 1 })
    | none => none

/-- `SelectiveStringDirectColumnReader::skipInDecode` — fold the lengths
of `numValues` rows (taking only their non-null ones when `kHasNulls`)
into the deferred byte skip and advance the length cursor. -/
def skipInDecodeOp (kHasNulls : Bool) (c : CState) (numValues current : Nat)
    (nulls : List Bool) : CState :=
  let n := if kHasNulls then countNonNulls nulls current (current + numValues) else numValues
  { c with toSkip := c.toSkip + sumRange c.rawLengths c.lengthIndex n,
           lengthIndex := c.lengthIndex + n }

/-- `SelectiveStringDirectColumnReader::skip` — materialize `numValues`
lengths, fold their sum into the deferred skip, then immediately flush the
deferred skip to the byte stream and reset it.  (The base-class
`SelectiveColumnReader::skip` adjustment is the identity here: no null
context is active between batches.) -/
def skipReader (n : Nat) (c : CState) : CState :=
  let c := { c with rawLengths := c.lenStream.take n, lenStream := c.lenStream.drop n }
  let c := { c with toSkip := c.toSkip + sumRange c.rawLengths 0 n }
  let c := skipBytesOp c c.toSkip
  { c with toSkip := 0 }

/-- Modelled from the spec: `SelectiveColumnReader::copyStringValue` —
append the bytes of an out-of-line value to the raw-string arena at
`rawStringUsed`, growing the caller-owned arena when capacity is
insufficient, and return the arena offset of the copy (the model of the
returned pointer). -/
def copyStringValueOp (o : OState) (bs : List Nat) : OState × Nat :=
  let len := bs.length
  let o := if o.rawStringUsed + len ≤ o.rawStringSize then o
    else { o with rawStringSize := o.rawStringUsed + len,
                  arena := o.arena ++ List.replicate (o.rawStringUsed + len - o.arena.length) 0 }
  ({ o with arena := storeBytes o.arena o.rawStringUsed bs,
            rawStringUsed := o.rawStringUsed + len }, o.rawStringUsed)

/-- Modelled from the spec: packing a `StringView(data, size)` into the
16-byte output record at record index `j` — 4-byte length, then for an
inline value (`size ≤ 12`) the value bytes zero-padded to 12, and for an
out-of-line value the 4-byte prefix followed by the 8-byte pointer
(modelled as the arena offset of the copy made by `copyStringValue`). -/
def writeStringViewAt (o : OState) (j : Nat) (bs : List Nat) : OState :=
  let len := bs.length
  if len ≤ 12 then
    { o with rawValues :=
        storeBytes o.rawValues (16 * j) (toLE 4 len ++ bs ++ List.replicate (12 - len) 0) }
  else
    let o2 := (copyStringValueOp o bs).1
    let off := (copyStringValueOp o bs).2
    { o2 with rawValues :=
        storeBytes o2.rawValues (16 * j) (toLE 4 len ++ bs.take 4 ++ toLE 8 off) }

/-- Modelled from the spec: `SelectiveColumnReader::addValue` — append a
value record at the next dense output position. -/
def addValue (o : OState) (bs : List Nat) : OState :=
  let o := writeStringViewAt o o.numValues bs
  { o with numValues := o.numValues + 1 }

/-- Modelled from the spec: `SelectiveColumnReader::addNull` — record a
null at the next dense output position. -/
def addNull (o : OState) : OState :=
  { o with resultNulls := (o.resultNulls.take o.numValues
        ++ List.replicate (o.numValues - o.resultNulls.length) false)
        ++ true :: o.resultNulls.drop (o.numValues + 1),
           anyNulls := true,
           numValues := o.numValues + 1 }

/-- Read `n` bytes of flat memory starting at `p` (zero for bytes never
written). -/
def memRead (mem : List Nat) (p n : Nat) : List Nat :=
  (List.range n).map (fun i => mem.getD (p + i) 0)

/-- Interpretation of the 16-byte output record at record index `j`:
its length, the bytes of the string it denotes, and — for an out-of-line
value — the arena offset it points to. -/
def recordAt (mem arena : List Nat) (j : Nat) : Nat × List Nat × Option Nat :=
  let len := fromLE (memRead mem (16 * j) 4)
  if len ≤ 12 then (len, memRead mem (16 * j + 4) len, none)
  else
    let off := fromLE (memRead mem (16 * j + 8) 8)
    (len, memRead arena off len, some off)

/-- Modelled from the spec: the Selection Strategy ("visitor") capability
set of §6 — `start`, `allowNulls`, `processNull`, `checkAndSkipNulls`,
`processLength`, `process` — over an abstract visitor-state type `α`.
The compile-time template parameters (`dense`, `FilterType`, `Extract`)
are fields.  The strategy can read and write the output side of the
reader state (extraction) but not the cursor side.  `checkAndSkipNulls`
returns the updated visitor state, updated row position, a skip count and
the end flag. -/
structure VisitorIface (α : Type) where
  dense : Bool
  filterAlwaysTrue : Bool
  extractToReader : Bool
  allowNulls : Bool
  startRow : α → Nat
  processNull : α → OState → α × OState × Nat × Bool
  checkAndSkipNulls : α → List Bool → Nat → α × Nat × Nat × Bool
  processLength : α → Nat → α × Option Nat × Bool
  process : α → List Nat → OState → α × OState × Nat × Bool

/-- Result of one iteration of the `decode` loop. -/
structure DecodeRes (α : Type) where
  c : CState
  o : OState
  v : α
  current : Nat
  atEnd : Bool

/-- The tail of one `decode` iteration (`++current; if (toSkip) {...};`):
advance the row position and apply the visitor-requested bulk skip. -/
def decodeFinish (kHasNulls : Bool) (nulls : List Bool) (c : CState) (o : OState)
    (v : α) (current toSkip : Nat) (atEnd : Bool) : DecodeRes α :=
  let current := current + 1
  if toSkip ≠ 0 then
    { c := skipInDecodeOp kHasNulls c toSkip current nulls, o := o, v := v,
      current := current + toSkip, atEnd := atEnd }
  else
    { c := c, o := o, v := v, current := current, atEnd := atEnd }

/-- One iteration of `SelectiveStringDirectColumnReader::decode`'s
`for (;;)` loop body, for an arbitrary visitor. -/
def decodeStep (blob : List Nat) (sched : Nat → Nat) (V : VisitorIface α)
    (kHasNulls : Bool) (nulls : List Bool) (v : α) (current : Nat)
    (c : CState) (o : OState) : Option (DecodeRes α) :=
  let allowNulls := kHasNulls && V.allowNulls
  if kHasNulls && allowNulls && isBitNull nulls current then
    let (v, o, toSkip, atEnd) := V.processNull v o
    some (decodeFinish kHasNulls nulls c o v current toSkip atEnd)
  else
    let r := if kHasNulls && !allowNulls then
        let (v, current, toSkip, atEnd) := V.checkAndSkipNulls v nulls current
        let c := if !V.dense then skipInDecodeOp false c toSkip current [] else c
        (v, current, c, atEnd)
      else (v, current, c, false)
    match r with
    | (v, current, c, earlyEnd) =>
      if earlyEnd then
        some { c := c, o := o, v := v, current := current, atEnd := true }
      else
        let length := c.rawLengths.getD c.lengthIndex 0
        let c := { c with lengthIndex := c.lengthIndex + 1 }
        let (v, toSkipOpt, atEnd1) := V.processLength v length
        match toSkipOpt with
        | some toSkip =>
          let c := { c with toSkip := c.toSkip + length }
          some (decodeFinish kHasNulls nulls c o v current toSkip atEnd1)
        | none =>
          match readValue blob sched c length with
          | none => none
          | some (value, c) =>
            let (v, o, toSkip, atEnd) := V.process v value o
            some (decodeFinish kHasNulls nulls c o v current toSkip atEnd)

/-- `SelectiveStringDirectColumnReader::decode` — the scalar decode state
machine, iterating `decodeStep` until the visitor reports the end of the
batch.  `fuel` bounds the iteration count (the source relies on the
visitor to terminate; a visitor that never ends exhausts the fuel and
yields `none`). -/
def decode (blob : List Nat) (sched : Nat → Nat) (V : VisitorIface α)
    (kHasNulls : Bool) (nulls : List Bool) :
    Nat → α → Nat → CState → OState → Option (CState × OState)
  | 0, _, _, _, _ => none
  | fuel+1, v, current, c, o =>
    match decodeStep blob sched V kHasNulls nulls v current c o with
    | none => none
    | some r => if r.atEnd then some (r.c, r.o) else decode blob sched V kHasNulls nulls fuel r.v r.current r.c r.o

/-- `rows[i]` (reads of the row-set array). -/
def rowAt (rows : List Nat) (i : Nat) : Nat := rows.getD i 0

/-- Prefix-sum offsets of a length list: `offsets[0] = 0`,
`offsets[i+1] = offsets[i] + lengths[i]` (the scalar branch of
`allSmallEnough`). -/
def offsetsOf : List Nat → List Nat
  | [] => [0]
  | l :: ls => 0 :: (offsetsOf ls).map (l + ·)

/-- `allSmallEnough` — check that all 8 lengths are at most 12; if so
return the 9 prefix-sum byte offsets and whether any length exceeds 4.
`none` plays the role of returning `false`. -/
def allSmallEnough (lengths : List Nat) : Option (List Nat × Bool) :=
  if (List.range 8).all (fun t => lengths.getD t 0 ≤ 12) then
    some (offsetsOf ((List.range 8).map (fun t => lengths.getD t 0)),
          (List.range 8).any (fun t => 4 < lengths.getD t 0))
  else none

/-- The word packing of `try8ConsecutiveSmall` for one row, over the
already-loaded words: `result[2j] = length | (word << 32)` and
`result[2j+1]` is the second 4..12-byte chunk masked down to the value
length (`mask = length == 12 ? -1ull : (1ull << (8*(length-4))) - 1`);
for a short (≤ 4) row the first word is masked instead and the second is
zero. -/
def packSmall (kGt4 : Bool) (length word word2 : Nat) : Nat × Nat :=
  if kGt4 && decide (4 < length) then
    let mask := if length = 12 then 2 ^ 64 - 1 else 2 ^ (8 * (length - 4)) - 1
    (length ||| (word <<< 32), word2 &&& mask)
  else
    let mask := 2 ^ (8 * length) - 1
    (length ||| ((word &&& mask) <<< 32), 0)

/-- The two 64-bit words written for row `i` by `try8ConsecutiveSmall`
(`word`/`word2` are the 4- and 8-byte unaligned loads at the row's byte
offset). -/
def smallRecordW (blob : List Nat) (dataPos : Nat) (off : List Nat) (kGt4 : Bool)
    (i : Nat) : Nat × Nat :=
  packSmall kGt4 (off.getD (i+1) 0 - off.getD i 0)
    (fromLE (blobSlice blob (dataPos + off.getD i 0) 4))
    (fromLE (blobSlice blob (dataPos + off.getD i 0 + 4) 8))

/-- The 8 record writes of `try8ConsecutiveSmall` (`n` counts rows
written so far; row `i` goes to record `outer[startRow+i]` when
scattering, else to record `numValues0 + i`). -/
def try8SmallWrites (blob outer : List Nat) (kScatter kGt4 : Bool) (dataPos : Nat)
    (off : List Nat) (startRow numValues0 : Nat) : Nat → List Nat → List Nat
  | 0, mem => mem
  | n+1, mem =>
    let mem := try8SmallWrites blob outer kScatter kGt4 dataPos off startRow numValues0 n mem
    let j := if kScatter then outer.getD (startRow + n) 0 else numValues0 + n
    let (w0, w1) := smallRecordW blob dataPos off kGt4 n
    storeBytes mem (16 * j) (toLE 8 w0 ++ toLE 8 w1)

/-- `try8ConsecutiveSmall` — write 8 fully-inline records, then commit
the cursor (`bufferStart_ = data + offsets[8]`, `bytesToSkip_ = 0`), the
output count and the length cursor.  Always succeeds. -/
def try8ConsecutiveSmall (blob : List Nat) (kScatter kGt4 : Bool) (dataPos : Nat)
    (off : List Nat) (startRow : Nat) (c : CState) (o : OState) : CState × OState :=
  let mem := try8SmallWrites blob o.outerNonNullRows kScatter kGt4 dataPos off startRow
      o.numValues 8 o.rawValues
  ({ c with pos := dataPos + off.getD 8 0,
            winLen := c.pos + c.winLen - (dataPos + off.getD 8 0),
            toSkip := 0,
            lengthIndex := c.lengthIndex + 8 },
   { o with rawValues := mem,
            numValues := if kScatter then o.outerNonNullRows.getD (startRow + 7) 0 + 1
                         else o.numValues + 8 })

/-- Result of the general 8-wide loop of `try8Consecutive`: fall back to
the slow path (buffers possibly partially written, nothing committed),
fatal bounds-check failure (`VELOX_CHECK_LE`), or completion of all 8
rows with the final data cursor and arena usage. -/
inductive Gen8Res where
  | abort (mem arena : List Nat)
  | fatal
  | ok (data rawUsed : Nat) (mem arena : List Nat)
deriving Repr, DecidableEq

/-- The general 8-wide row loop of `try8Consecutive` (lengths may exceed
12).  `prevRi4` carries `resultIndex + 4` of the previous iteration in
`int32` units (the source initializes `resultIndex = numValues_*4 - 4`
and pre-increments), `data` is the absolute blob offset of the next
byte, `bufEnd` the absolute offset of `bufferEnd_`. -/
def try8GenLoop (blob rows outer rawLengths : List Nat) (scatter sparse : Bool)
    (bufEnd rawStringSize : Nat) :
    Nat → Nat → Nat → Nat → Nat → Nat → List Nat → List Nat → Gen8Res
  | 0, _, data, rawUsed, _, _, mem, arena => .ok data rawUsed mem arena
  | k+1, i, data, rawUsed, prevRi4, previousRow, mem, arena =>
    let ri := if scatter then (outer.getD i 0) * 4 else prevRi4
    let dp := if sparse then
        (data + rangeSumL rawLengths 0 previousRow (rows.getD i 0), rows.getD i 0 + 1)
      else (data, previousRow)
    let data := dp.1
    let previousRow := dp.2
    let length := rawLengths.getD (rows.getD i 0) 0
    if bufEnd < data + roundUp16 length then .abort mem arena
    else
      let mem := storeBytes mem (4 * ri) (toLE 4 length)
      let first16 := blobSlice blob data 16
      let mem := if 0 < length then storeBytes mem (4 * ri + 4) first16 else mem
      if length ≤ 12 then
        let mem := storeBytes mem (4 * ri + 4 + length) (List.replicate 8 0)
        try8GenLoop blob rows outer rawLengths scatter sparse bufEnd rawStringSize
          k (i+1) (data + length) rawUsed (ri + 4) previousRow mem arena
      else if rawStringSize < rawUsed + length then .abort mem arena
      else
        let mem := storeBytes mem (4 * ri + 8) (toLE 8 rawUsed)
        let arena := storeBytes arena rawUsed first16
        if 16 < length then
          let copySize := roundUp16 (length - 16)
          if copySize ≤ bufEnd - data - 16 then
            let arena := storeBytes arena (rawUsed + 16) (blobSlice blob (data + 16) copySize)
            try8GenLoop blob rows outer rawLengths scatter sparse bufEnd rawStringSize
              k (i+1) (data + length) (rawUsed + length) (ri + 4) previousRow mem arena
          else .fatal
        else
          try8GenLoop blob rows outer rawLengths scatter sparse bufEnd rawStringSize
            k (i+1) (data + length) (rawUsed + length) (ri + 4) previousRow mem arena

/-- The general 8-wide part of `try8Consecutive` (lengths may exceed
12): run `try8GenLoop` and commit the member state — cursor, deferred
skip, arena usage, output count, length cursor — only after all 8 rows
succeed; on abort nothing but scratch bytes of the uncommitted
result/arena buffers has changed.  `some (false, ..)` models returning
`false`; `none` a fatal `VELOX_CHECK` failure. -/
def try8Commit (sparse : Bool) (rows : List Nat) (row : Nat) (c : CState) (o : OState) :
    Gen8Res → Option (Bool × CState × OState)
  | .abort mem arena => some (false, c, { o with rawValues := mem, arena := arena })
  | .fatal => none
  | .ok data rawUsed mem arena =>
    some (true,
      { c with pos := data, winLen := c.pos + c.winLen - data, toSkip := 0,
               lengthIndex := if sparse then rowAt rows (row + 7) + 1
                              else c.lengthIndex + 8 },
      { o with rawValues := mem, arena := arena, rawStringUsed := rawUsed,
               numValues := if !o.outerNonNullRows.isEmpty then
                   o.outerNonNullRows.getD (row + 7) 0 + 1
                 else o.numValues + 8 })

def try8General (blob : List Nat) (sparse : Bool) (start : Nat) (rows : List Nat)
    (row : Nat) (c : CState) (o : OState) : Option (Bool × CState × OState) :=
  try8Commit sparse rows row c o
    (try8GenLoop blob rows o.outerNonNullRows c.rawLengths (!o.outerNonNullRows.isEmpty)
      sparse (c.pos + c.winLen) o.rawStringSize 8 row (c.pos + start + c.toSkip)
      o.rawStringUsed (o.numValues * 4) (if sparse then c.lengthIndex else 0)
      o.rawValues o.arena)

/-- `try8Consecutive<scatter, sparse>(start, rows, row)` — the 8-wide
fast path: entry guard on the resident window, then the
all-short-strings sub-path (consulted in dense runs only), falling
through to the general 8-wide path.  The `scatter` template argument
always equals `!outerNonNullRows_.empty()` at the call sites, so it is
computed rather than passed. -/
def try8Consecutive (blob : List Nat) (sparse : Bool) (start : Nat) (rows : List Nat)
    (row : Nat) (c : CState) (o : OState) : Option (Bool × CState × OState) :=
  if !c.hasBuf || (c.winLen - c.toSkip < start + 8 * 12) then some (false, c, o)
  else if sparse then try8General blob sparse start rows row c o
  else
    match allSmallEnough ((List.range 8).map (fun t => c.rawLengths.getD (rowAt rows row + t) 0)) with
    | some (offsets, gt4) =>
      some (true, try8ConsecutiveSmall blob (!o.outerNonNullRows.isEmpty) gt4
        (c.pos + start + c.toSkip) offsets row c o)
    | none => try8General blob sparse start rows row c o

/-- The row loop of `extractCrossBuffers`. -/
def extractCBLoop (blob : List Nat) (sched : Nat → Nat) (lengths starts outer : List Nat)
    (scatter : Bool) (rowIndex : Nat) :
    Nat → Nat → Nat → CState → OState → Option (CState × OState)
  | 0, _, _, c, o => some (c, o)
  | k+1, i, current, c, o =>
    let gap := starts.getD i 0 - current
    let c := { c with toSkip := c.toSkip + gap }
    let size := lengths.getD i 0
    match readValue blob sched c size with
    | none => none
    | some (value, c) =>
      let current := current + size + gap
      let o := if !scatter then addValue o value
        else writeStringViewAt o (outer.getD (rowIndex + i) 0) value
      extractCBLoop blob sched lengths starts outer scatter rowIndex k (i+1) current c o

/-- `extractCrossBuffers` — the slow-path extractor: per row, fold the
gap to the row's start offset into the deferred skip, read the value
(possibly across window refills) and place it (densely via `addValue`,
or scattered through `outerNonNullRows_`), then flush the deferred skip
and resynchronize the output count when scattering. -/
def extractCrossBuffers (blob : List Nat) (sched : Nat → Nat) (lengths starts : List Nat)
    (rowIndex numValues : Nat) (c : CState) (o : OState) : Option (CState × OState) :=
  let scatter := !o.outerNonNullRows.isEmpty
  match extractCBLoop blob sched lengths starts o.outerNonNullRows scatter rowIndex
      numValues 0 0 c o with
  | none => none
  | some (c, o) =>
    let c := skipBytesOp c c.toSkip
    let c := { c with toSkip := 0 }
    let o := if scatter then
        { o with numValues := o.outerNonNullRows.getD (rowIndex + numValues - 1) 0 + 1 }
      else o
    some (c, o)

/-- The loop of `makeSparseStarts` (`i` is the output index,
`previousRow`/`startOffset` the running state). -/
def makeSparseStartsAux (rawLengths rows : List Nat) (startRow : Nat) :
    Nat → Nat → Nat → Nat → List Nat
  | 0, _, _, _ => []
  | k+1, i, previousRow, startOffset =>
    let targetRow := rowAt rows (startRow + i)
    let s := rangeSumL rawLengths startOffset previousRow targetRow
    s :: makeSparseStartsAux rawLengths rows startRow k (i+1) (targetRow + 1)
        (s + rawLengths.getD targetRow 0)

/-- `makeSparseStarts` — relative byte offsets of the selected rows,
obtained by summing the lengths of the rows skipped between them. -/
def makeSparseStarts (c : CState) (rows : List Nat) (startRow numRows : Nat) : List Nat :=
  makeSparseStartsAux c.rawLengths rows startRow numRows 0 c.lengthIndex 0

/-- `extractNSparse` — try the sparse 8-wide fast path when the group
has exactly 8 rows, otherwise (or on fallback) extract row by row via
`extractCrossBuffers` and advance the length cursor past the last row. -/
def extractNSparse (blob : List Nat) (sched : Nat → Nat) (rows : List Nat)
    (row numValues : Nat) (c : CState) (o : OState) : Option (CState × OState) :=
  match (if numValues = 8 then try8Consecutive blob true 0 rows row c o
         else some (false, c, o)) with
  | none => none
  | some (true, c, o) => some (c, o)
  | some (false, c, o) =>
    let lengths := (List.range numValues).map (fun t => c.rawLengths.getD (rowAt rows (row + t)) 0)
    let starts := makeSparseStarts c rows row numValues
    match extractCrossBuffers blob sched lengths starts row numValues c o with
    | none => none
    | some (c, o) =>
      some ({ c with lengthIndex := rowAt rows (row + numValues - 1) + 1 }, o)

/-- The batch loop of `extractSparse`: `dwio::common::rowLoop(rows, 0,
numRows, 8, dense8, sparse8, tail)` (modelled from the spec: full groups
of 8 are dispatched on whether they form a dense run of consecutive row
numbers, the final partial group goes to the tail lambda). -/
def extractSparseGo (blob : List Nat) (sched : Nat → Nat) (rows : List Nat) (numRows : Nat) :
    Nat → Nat → CState → OState → Option (CState × OState)
  | 0, _, _, _ => none
  | fuel+1, i, c, o =>
    if i + 8 ≤ numRows then
      if rowAt rows (i + 7) = rowAt rows i + 7 then
        let start := rangeSumL c.rawLengths 0 c.lengthIndex (rowAt rows i)
        let c := { c with lengthIndex := rowAt rows i }
        match try8Consecutive blob false start rows i c o with
        | none => none
        | some (true, c, o) => extractSparseGo blob sched rows numRows fuel (i + 8) c o
        | some (false, c, o) =>
          let lengths := (List.range 8).map (fun t => c.rawLengths.getD (c.lengthIndex + t) 0)
          let starts := (List.range 8).map (fun t => start + sumRange c.rawLengths c.lengthIndex t)
          let c := { c with lengthIndex := c.lengthIndex + 8 }
          match extractCrossBuffers blob sched lengths starts i 8 c o with
          | none => none
          | some (c, o) => extractSparseGo blob sched rows numRows fuel (i + 8) c o
      else
        match extractNSparse blob sched rows i 8 c o with
        | none => none
        | some (c, o) => extractSparseGo blob sched rows numRows fuel (i + 8) c o
    else if i < numRows then extractNSparse blob sched rows i (numRows - i) c o
    else some (c, o)

/-- `extractSparse(rows, numRows)`. -/
def extractSparse (blob : List Nat) (sched : Nat → Nat) (rows : List Nat) (numRows : Nat)
    (c : CState) (o : OState) : Option (CState × OState) :=
  extractSparseGo blob sched rows numRows (numRows / 8 + 1) 0 c o

/-- Modelled from the spec: `dwio::common::nonNullRowsFromDense(nulls,
numRows, outerNonNullRows_)` — the output (scatter) positions of the
non-null rows of a dense row range, i.e. the positions of the set bits. -/
def nonNullPositions (nulls : List Bool) (n : Nat) : List Nat :=
  (List.range n).filter (fun i => !(isBitNull nulls i))

/-- Modelled from the spec: `dwio::common::nonNullRowsFromSparse<false,
true>` — for a sparse row set over a nullable range, the inner rows
(each selected non-null row's ordinal in the non-null subsequence), the
outer rows (each selected non-null row's position in the row set), the
per-row-set result null flags, whether any selected row is null, and the
tail skip (non-null rows of the range left unconsumed after the last
selected non-null row, so the byte cursor stays aligned). -/
def nonNullRowsFromSparse (nulls : List Bool) (rows : List Nat) :
    List Nat × List Nat × List Bool × Bool × Nat :=
  let sel := (List.range rows.length).filter (fun k => !(isBitNull nulls (rowAt rows k)))
  let inner := sel.map (fun k => countNonNulls nulls 0 (rowAt rows k))
  let resNulls := (List.range rows.length).map (fun k => isBitNull nulls (rowAt rows k))
  let numRows := (match rows.getLast? with | some r => r | none => 0) + 1
  let tailSkip := countNonNulls nulls 0 numRows -
    (match inner.getLast? with | some t => t + 1 | none => 0)
  (inner, sel, resNulls, resNulls.any id, tailSkip)

/-- `rows[i+1] - rows[i] - 1`: the number of rows to skip between two
consecutively selected rows (0 at the end of the batch). -/
def gapAfter (rows : List Nat) (i : Nat) : Nat :=
  if i + 1 < rows.length then rowAt rows (i + 1) - rowAt rows i - 1 else 0

/-- Modelled from the spec: the no-filter (`AlwaysTrue`),
extract-to-reader Selection Strategy over a row set — visits exactly the
selected rows, appending a value (or a null) per visited row and
requesting a skip of the gap to the next selected row; the end flag is
raised on the last selected row.  Visitor state is the index into the
row set. -/
def extractAllVisitor (rows : List Nat) (dense : Bool) : VisitorIface Nat where
  dense := dense
  filterAlwaysTrue := true
  extractToReader := true
  allowNulls := true
  startRow := fun i => rowAt rows i
  processNull := fun i o =>
    (i + 1, addNull o, gapAfter rows i, decide (rows.length ≤ i + 1))
  checkAndSkipNulls := fun i _ current => (i, current, 0, false)
  processLength := fun i _ => (i, none, false)
  process := fun i bs o =>
    (i + 1, addValue o bs, gapAfter rows i, decide (rows.length ≤ i + 1))

/-- The vectorized arm of `readWithVisitor` (the `process::hasAvx2() &&
isExtract` branch): build the null scatter maps when nulls are present,
run the vectorized batch extractor over the effective row list, and
finish with `numValues_ = rows.size()`. -/
def vectorExtractPath (blob : List Nat) (sched : Nat → Nat) (dense : Bool)
    (rows : List Nat) (hasNulls : Bool) (nulls : List Bool)
    (c : CState) (o : OState) : Option (CState × OState) :=
  let res :=
    if hasNulls then
      if dense then
        let outer := nonNullPositions nulls rows.length
        let o := { o with returnReaderNulls := true, outerNonNullRows := outer }
        extractSparse blob sched rows outer.length c o
      else
        match nonNullRowsFromSparse nulls rows with
        | (inner, outer, resNulls, anyN, tailSkip) =>
          let o := { o with outerNonNullRows := outer, resultNulls := resNulls,
                            anyNulls := anyN }
          match extractSparse blob sched inner inner.length c o with
          | none => none
          | some (c, o) => some (skipInDecodeOp false c tailSkip 0 [], o)
    else extractSparse blob sched rows rows.length c o
  match res with
  | none => none
  | some (c, o) => some (c, { o with numValues := rows.length })

/-- The scalar arm of `readWithVisitor`: skip the lengths of the rows
before the visitor's first row, then run the scalar decode state machine
over all selected rows. -/
def scalarDecodePath (blob : List Nat) (sched : Nat → Nat) (V : VisitorIface α) (v0 : α)
    (rows : List Nat) (hasNulls : Bool) (nulls : List Bool)
    (c : CState) (o : OState) : Option (CState × OState) :=
  let current := V.startRow v0
  let c := skipInDecodeOp hasNulls c current 0 nulls
  decode blob sched V hasNulls nulls (rows.length + 1) v0 current c o

/-- `readWithVisitor` — dispatch between the vectorized batch extractor
(no filter, extraction to the reader's result buffer, AVX2 available)
and the scalar decode state machine.  `hasAvx2` models
`process::hasAvx2()`. -/
def readWithVisitorM (blob : List Nat) (sched : Nat → Nat) (hasAvx2 : Bool)
    (V : VisitorIface α) (v0 : α) (rows : List Nat) (hasNulls : Bool) (nulls : List Bool)
    (c : CState) (o : OState) : Option (CState × OState) :=
  let isExtract := V.filterAlwaysTrue && V.extractToReader
  if hasAvx2 && isExtract then
    vectorExtractPath blob sched V.dense rows hasNulls nulls c o
  else
    scalarDecodePath blob sched V v0 rows hasNulls nulls c o

/-- Modelled from the spec: the per-batch re-arming done by
`prepareRead` — output count, result memory, result nulls, scatter map
and arena usage are reset; the arena capacity is owned by the caller and
kept. -/
def prepareReadM (rows : List Nat) (o : OState) : OState :=
  { o with numValues := 0,
           rawValues := List.replicate (16 * rows.length) 0,
           resultNulls := List.replicate rows.length false,
           anyNulls := false, returnReaderNulls := false,
           rawStringUsed := 0, outerNonNullRows := [] }

/-- `read(offset, rows, incomingNulls)` — re-arm per-batch state,
materialize `numRows - numNulls` lengths, reset the length cursor, and
run `readWithVisitor` (instantiated, as
`StringColumnReadWithVisitorHelper` does for a no-filter scan spec, with
the extract-all visitor; its `dense` flag reflects a dense row set). -/
def readReader (blob : List Nat) (sched : Nat → Nat) (hasAvx2 : Bool) (rows : List Nat)
    (nulls : Option (List Bool)) (c : CState) (o : OState) : Option (CState × OState) :=
  let o := prepareReadM rows o
  let numRows := (match rows.getLast? with | some r => r | none => 0) + 1
  let hasN := nulls.isSome
  let nb := nulls.getD []
  let numNulls := if hasN then countNullsL nb 0 numRows else 0
  let c := { c with rawLengths := c.lenStream.take (numRows - numNulls),
                    lenStream := c.lenStream.drop (numRows - numNulls),
                    lengthIndex := 0 }
  let dense := decide (rows = List.range rows.length)
  readWithVisitorM blob sched hasAvx2 (extractAllVisitor rows dense) 0 rows hasN nb c o

/-- A fresh per-stripe cursor state with a given length stream. -/
def freshC (lenStream : List Nat) : CState :=
  { pos := 0, winLen := 0, hasBuf := false, toSkip := 0, rawLengths := [],
    lengthIndex := 0, tempString := [], readCount := 0, lenStream := lenStream }

/-- A caller-prepared output state with an arena of the given capacity. -/
def freshO (arenaSize : Nat) : OState :=
  { rawValues := [], resultNulls := [], returnReaderNulls := false, anyNulls := false,
    numValues := 0, arena := List.replicate arenaSize 0, rawStringUsed := 0,
    rawStringSize := arenaSize, outerNonNullRows := [] }

/-- Claim C3 fixture: "abc". -/
def strA : List Nat := [97, 98, 99]

/-- Claim C3 fixture: the 15-byte string ("HelloWorldFoo!."). -/
def strB : List Nat := [72, 101, 108, 108, 111, 87, 111, 114, 108, 100, 70, 111, 111, 33, 46]

/-- Claim C3 fixture: the 12-byte string. -/
def strD : List Nat := [48, 49, 50, 51, 52, 53, 54, 55, 56, 57, 58, 59]

/-- Claim C3 fixture: the data blob — concatenation of the 3-byte, the
15-byte, the empty, and the 12-byte string. -/
def blobC3 : List Nat := strA ++ strB ++ [] ++ strD

/-- Byte offset, relative to the position of ordinal 0, of the value of
ordinal `q` in the data stream: the sum of the lengths before it. -/
def ordOff (lens : List Nat) (q : Nat) : Nat := sumRange lens 0 q

/-- The expected contents of the value of ordinal `q` when ordinal 0
begins at absolute blob offset `base`. -/
def specVal (blob lens : List Nat) (base q : Nat) : List Nat :=
  blobSlice blob (base + ordOff lens q) (lens.getD q 0)

/-- Total arena bytes spilled by the given ordinals (those with length
over 12, in order). -/
def spillSum (lens : List Nat) (qs : List Nat) : Nat :=
  (qs.map (fun t => if 12 < lens.getD t 0 then lens.getD t 0 else 0)).sum

/-- Two flat memories agree below `bound`. -/
def sameBelow (m1 m2 : List Nat) (bound : Nat) : Prop :=
  ∀ p, p < bound → m1.getD p 0 = m2.getD p 0

/-- The expected interpretation of the record of ordinal `q` whose spill
offset (if any) is `u`: the length, the value bytes, and the arena
offset for an out-of-line value. -/
def specRec (blob lens : List Nat) (base q u : Nat) : Nat × List Nat × Option Nat :=
  (lens.getD q 0, specVal blob lens base q,
    if lens.getD q 0 ≤ 12 then none else some u)

/-- The output record index written by iteration `t` of the
`extractCrossBuffers` row loop: position `t` of the scatter map when
scattering, else the `t`-th dense output position. -/
def cbPos (scatter : Bool) (outer : List Nat) (rowIndex wbase t : Nat) : Nat :=
  if scatter then outer.getD (rowIndex + t) 0 else wbase + t

/-- Arena bytes spilled by the first `t` of the lengths starting at
index `i`: the out-of-line (longer than 12) ones in full. -/
def spillPart (lengths : List Nat) (i t : Nat) : Nat :=
  ((List.range t).map
    (fun s => if 12 < lengths.getD (i + s) 0 then lengths.getD (i + s) 0 else 0)).sum

/-- Length of the `t`-th row processed by the general 8-wide loop
started at row-set index `i`. -/
def g8Len (rawLengths rows : List Nat) (i t : Nat) : Nat :=
  rawLengths.getD (rows.getD (i + t) 0) 0

/-- Bytes skipped before the `t`-th row of the general 8-wide loop (the
lengths of the unselected rows in between; zero when not sparse). -/
def g8Gap (rawLengths rows : List Nat) (sparse : Bool) (prev0 i t : Nat) : Nat :=
  if sparse then
    (if t = 0 then sumRange rawLengths prev0 (rows.getD i 0 - prev0)
     else sumRange rawLengths (rows.getD (i + t - 1) 0 + 1)
            (rows.getD (i + t) 0 - rows.getD (i + t - 1) 0 - 1))
  else 0

/-- Absolute blob offset of the `t`-th value processed by the general
8-wide loop started at index `i` with data cursor `data0` and previous
row `prev0`. -/
def g8Data (rawLengths rows : List Nat) (sparse : Bool) (data0 prev0 i : Nat) : Nat → Nat
  | 0 => data0 + g8Gap rawLengths rows sparse prev0 i 0
  | t+1 => g8Data rawLengths rows sparse data0 prev0 i t + g8Len rawLengths rows i t +
      g8Gap rawLengths rows sparse prev0 i (t + 1)

/-- Arena bytes spilled by the first `t` rows of the general 8-wide
loop (the over-12 lengths in full). -/
def g8Spill (rawLengths rows : List Nat) (i : Nat) : Nat → Nat
  | 0 => 0
  | t+1 => g8Spill rawLengths rows i t +
      (if 12 < g8Len rawLengths rows i t then g8Len rawLengths rows i t else 0)

/-- The length ordinal of row `r`: how many lengths were materialized
for the rows before it (with a null bitmap, only the non-null rows have
lengths). -/
def lenOrd (hasNulls : Bool) (nulls : List Bool) (r : Nat) : Nat :=
  if hasNulls then countNonNulls nulls 0 r else r

/-- Arena bytes spilled by the scalar decode loop for the first `t`
selected rows starting at row-set ordinal `i` (null rows spill
nothing; a non-null row spills its length when over 12). -/
def nnSpill (lens : List Nat) (hasNulls : Bool) (nulls : List Bool) (rows : List Nat)
    (i : Nat) : Nat → Nat
  | 0 => 0
  | t+1 => nnSpill lens hasNulls nulls rows i t +
      (if hasNulls && isBitNull nulls (rowAt rows (i + t)) then 0
       else if 12 < lens.getD (lenOrd hasNulls nulls (rowAt rows (i + t))) 0 then
         lens.getD (lenOrd hasNulls nulls (rowAt rows (i + t))) 0
       else 0)

/-- Whether any of the `n` selected rows starting at row-set ordinal `i`
is null. -/
def anyNullIn (hasNulls : Bool) (nulls : List Bool) (rows : List Nat) (i n : Nat) : Bool :=
  (List.range n).any (fun t => hasNulls && isBitNull nulls (rowAt rows (i + t)))

/-- Modelled from the spec: the effective per-ordinal result-null
observable of a finished batch — when `returnReaderNulls` is set the
reader hands the caller the incoming null bits at the selected rows as
its result nulls; otherwise the caller reads the materialized
`resultNulls` buffer, which carries information only when `anyNulls` is
set. -/
def effNull (nulls : List Bool) (rows : List Nat) (o : OState) (k : Nat) : Bool :=
  if o.returnReaderNulls then isBitNull nulls (rowAt rows k)
  else o.anyNulls && o.resultNulls.getD k false

-- ===== theorems =====

theorem blobSlice_zero (blob : List Nat) (p : Nat) : blobSlice blob p 0 = [] := rfl

theorem blobSlice_succ (blob : List Nat) (p n : Nat) (h : p < blob.length) :
    blobSlice blob p (n+1) = blob.getD p 0 :: blobSlice blob (p+1) n := by
  unfold blobSlice
  rw [List.drop_eq_getElem_cons h, List.take_succ_cons,
    List.getD_eq_getElem blob 0 h]

theorem refillLen_pos (blob : List Nat) (sched : Nat → Nat) (pos : Nat)
    (h : pos < blob.length) : 0 < refillLen blob sched pos := by
  unfold refillLen
  have h1 : 1 ≤ max (sched pos) 1 := le_max_right _ _
  exact lt_min_iff.mpr ⟨by omega, by omega⟩

theorem refillLen_le (blob : List Nat) (sched : Nat → Nat) (pos : Nat) :
    refillLen blob sched pos ≤ blob.length - pos := by
  unfold refillLen; omega

theorem readBytesAux_spec (blob : List Nat) (sched : Nat → Nat) :
    ∀ (n : Nat) (c : CState), c.pos + c.winLen ≤ blob.length → c.pos + n ≤ blob.length →
    ∃ c', readBytesAux blob sched n c = some (blobSlice blob c.pos n, c') ∧
      c'.pos = c.pos + n ∧ c'.pos + c'.winLen ≤ blob.length ∧
      c'.toSkip = c.toSkip ∧ c'.rawLengths = c.rawLengths ∧
      c'.lengthIndex = c.lengthIndex ∧ c'.tempString = c.tempString ∧
      c'.readCount = c.readCount ∧ c'.lenStream = c.lenStream := by
  intro n
  induction n with
  | zero =>
    intro c h1 _
    exact ⟨c, rfl, by omega, h1, rfl, rfl, rfl, rfl, rfl, rfl⟩
  | succ n ih =>
    intro c h1 h2
    have hplt : c.pos < blob.length := by omega
    by_cases hw : c.winLen = 0
    · have hr1 : 0 < refillLen blob sched c.pos := refillLen_pos blob sched c.pos hplt
      have hr2 : refillLen blob sched c.pos ≤ blob.length - c.pos := refillLen_le _ _ _
      obtain ⟨c', e, hpos, hinv, h3, h4, h5, h6, h7, h8⟩ :=
        ih { c with pos := c.pos + 1, winLen := refillLen blob sched c.pos - 1,
                    hasBuf := true }
          (by show c.pos + 1 + (refillLen blob sched c.pos - 1) ≤ blob.length; omega)
          (by show c.pos + 1 + n ≤ blob.length; omega)
      have hpos' : c'.pos = c.pos + 1 + n := hpos
      have h3' : c'.toSkip = c.toSkip := h3
      have h4' : c'.rawLengths = c.rawLengths := h4
      have h5' : c'.lengthIndex = c.lengthIndex := h5
      have h6' : c'.tempString = c.tempString := h6
      have h7' : c'.readCount = c.readCount := h7
      have h8' : c'.lenStream = c.lenStream := h8
      refine ⟨c', ?_, by omega, hinv, h3', h4', h5', h6', h7', h8'⟩
      simp only [readBytesAux, hw, if_pos]
      rw [if_pos (show _ ∧ _ from ⟨hplt, hr1⟩)]
      simp only [e, blobSlice_succ blob c.pos n hplt]
    · obtain ⟨c', e, hpos, hinv, h3, h4, h5, h6, h7, h8⟩ :=
        ih { c with pos := c.pos + 1, winLen := c.winLen - 1 }
          (by show c.pos + 1 + (c.winLen - 1) ≤ blob.length; omega)
          (by show c.pos + 1 + n ≤ blob.length; omega)
      have hpos' : c'.pos = c.pos + 1 + n := hpos
      have h3' : c'.toSkip = c.toSkip := h3
      have h4' : c'.rawLengths = c.rawLengths := h4
      have h5' : c'.lengthIndex = c.lengthIndex := h5
      have h6' : c'.tempString = c.tempString := h6
      have h7' : c'.readCount = c.readCount := h7
      have h8' : c'.lenStream = c.lenStream := h8
      refine ⟨c', ?_, by omega, hinv, h3', h4', h5', h6', h7', h8'⟩
      simp only [readBytesAux, if_neg hw]
      rw [if_pos (show _ ∧ _ from ⟨hplt, by omega⟩)]
      simp only [e, blobSlice_succ blob c.pos n hplt]

@[simp] theorem skipBytesOp_pos (c : CState) (k : Nat) :
    (skipBytesOp c k).pos = c.pos + k := by
  unfold skipBytesOp; split <;> rfl

@[simp] theorem skipBytesOp_winLen (c : CState) (k : Nat) :
    (skipBytesOp c k).winLen = c.winLen - k := by
  unfold skipBytesOp; split
  · rfl
  · show 0 = c.winLen - k; omega

@[simp] theorem skipBytesOp_toSkip (c : CState) (k : Nat) :
    (skipBytesOp c k).toSkip = c.toSkip := by
  unfold skipBytesOp; split <;> rfl

@[simp] theorem skipBytesOp_rawLengths (c : CState) (k : Nat) :
    (skipBytesOp c k).rawLengths = c.rawLengths := by
  unfold skipBytesOp; split <;> rfl

@[simp] theorem skipBytesOp_lengthIndex (c : CState) (k : Nat) :
    (skipBytesOp c k).lengthIndex = c.lengthIndex := by
  unfold skipBytesOp; split <;> rfl

@[simp] theorem skipBytesOp_tempString (c : CState) (k : Nat) :
    (skipBytesOp c k).tempString = c.tempString := by
  unfold skipBytesOp; split <;> rfl

@[simp] theorem skipBytesOp_readCount (c : CState) (k : Nat) :
    (skipBytesOp c k).readCount = c.readCount := by
  unfold skipBytesOp; split <;> rfl

@[simp] theorem skipBytesOp_lenStream (c : CState) (k : Nat) :
    (skipBytesOp c k).lenStream = c.lenStream := by
  unfold skipBytesOp; split <;> rfl

@[simp] theorem flushSkip_pos (c : CState) : (flushSkip c).pos = c.pos + c.toSkip := by
  show (skipBytesOp c c.toSkip).pos = _; simp

@[simp] theorem flushSkip_winLen (c : CState) : (flushSkip c).winLen = c.winLen - c.toSkip := by
  show (skipBytesOp c c.toSkip).winLen = _; simp

@[simp] theorem flushSkip_toSkip (c : CState) : (flushSkip c).toSkip = 0 := rfl

@[simp] theorem flushSkip_rawLengths (c : CState) : (flushSkip c).rawLengths = c.rawLengths := by
  show (skipBytesOp c c.toSkip).rawLengths = _; simp

@[simp] theorem flushSkip_lengthIndex (c : CState) : (flushSkip c).lengthIndex = c.lengthIndex := by
  show (skipBytesOp c c.toSkip).lengthIndex = _; simp

@[simp] theorem flushSkip_tempString (c : CState) : (flushSkip c).tempString = c.tempString := by
  show (skipBytesOp c c.toSkip).tempString = _; simp

@[simp] theorem flushSkip_readCount (c : CState) : (flushSkip c).readCount = c.readCount := by
  show (skipBytesOp c c.toSkip).readCount = _; simp

@[simp] theorem flushSkip_lenStream (c : CState) : (flushSkip c).lenStream = c.lenStream := by
  show (skipBytesOp c c.toSkip).lenStream = _; simp

/-- Claim C4 (counterexample): on the concrete state with length stream
`[5, 7]`, `skip(2)` does not leave the summed byte count `12` deferred in
`bytesToSkip`: the cursor is physically advanced by 12 inside the `skip`
call itself and `bytesToSkip` is reset to 0 before `skip` returns
(source lines 63–64), contradicting "the physical stream advance is
deferred rather than performed inside skip". -/
theorem skip_counterexample :
    (skipReader 2 (freshC [5, 7])).toSkip = 0 ∧
    (skipReader 2 (freshC [5, 7])).pos = (freshC [5, 7]).pos + 12 ∧
    ¬((skipReader 2 (freshC [5, 7])).toSkip = 12 ∧
      (skipReader 2 (freshC [5, 7])).pos = (freshC [5, 7]).pos) := by
  decide

/-- Claim C4 (amended): `skip(n)` materializes `n` lengths from the
length stream, folds their sum (plus any previously deferred bytes) into
`bytesToSkip`, and then immediately flushes the accumulated skip to the
byte stream inside the `skip` call — advancing the cursor by that many
bytes and resetting `bytesToSkip` to zero — while copying no value bytes
and writing no output (the scratch string and the read counter are
untouched, and `skip` does not touch the output state at all). -/
theorem skip_materializes_and_flushes (n : Nat) (c : CState) :
    (skipReader n c).rawLengths = c.lenStream.take n ∧
    (skipReader n c).lenStream = c.lenStream.drop n ∧
    (skipReader n c).toSkip = 0 ∧
    (skipReader n c).pos = c.pos + c.toSkip + (c.lenStream.take n).sum ∧
    (skipReader n c).lengthIndex = c.lengthIndex ∧
    (skipReader n c).readCount = c.readCount ∧
    (skipReader n c).tempString = c.tempString := by
  have h : sumRange (c.lenStream.take n) 0 n = (c.lenStream.take n).sum := by
    unfold sumRange
    simp [List.take_take]
  unfold skipReader
  refine ⟨by simp, by simp, rfl, ?_, by simp, by simp, by simp⟩
  show (skipBytesOp _ _).pos = _
  rw [skipBytesOp_pos]
  show c.pos + (c.toSkip + sumRange (c.lenStream.take n) 0 n) = _
  rw [h]
  omega

/-- Claim C6: `readValue(n)` first flushes the pending deferred skip
(`bytesToSkip`) to the byte stream and resets it; the returned view is
always the `n` stream bytes at the flushed position.  If the resident
window then holds at least `n` bytes the view is zero-copy (the cursor
does not move; the `n` bytes are marked as pending skip; the scratch
string is untouched); otherwise the `n` bytes are copied — transparently
spanning window refills — into the reader-owned scratch string and the
view is of that copy. -/
theorem readValue_contract (blob : List Nat) (sched : Nat → Nat) (c : CState) (n : Nat)
    (hinv : c.pos + c.winLen ≤ blob.length)
    (hn : c.pos + c.toSkip + n ≤ blob.length) :
    ∃ c', readValue blob sched c n = some (blobSlice blob (c.pos + c.toSkip) n, c') ∧
      c'.rawLengths = c.rawLengths ∧ c'.lengthIndex = c.lengthIndex ∧
      c'.lenStream = c.lenStream ∧ c'.readCount = c.readCount + 1 ∧
      (n ≤ c.winLen - c.toSkip →
        c'.pos = c.pos + c.toSkip ∧ c'.winLen = c.winLen - c.toSkip ∧
        c'.toSkip = n ∧ c'.tempString = c.tempString) ∧
      (c.winLen - c.toSkip < n →
        c'.pos = c.pos + c.toSkip + n ∧ c'.toSkip = 0 ∧
        c'.tempString = blobSlice blob (c.pos + c.toSkip) n) := by
  unfold readValue
  have hw : (flushSkip c).winLen = c.winLen - c.toSkip := by simp
  have hp : (flushSkip c).pos = c.pos + c.toSkip := by simp
  by_cases hz : n ≤ (flushSkip c).winLen
  · rw [if_pos hz]
    refine ⟨_, by rw [hp], by simp, by simp, by simp, by simp,
      fun _ => ⟨by simp, by simp, rfl, by simp⟩, fun hlt => absurd hz (by omega)⟩
  · rw [if_neg hz]
    obtain ⟨c2, e, hpos, hinv2, h3, h4, h5, h6, h7, h8⟩ :=
      readBytesAux_spec blob sched n (flushSkip c)
        (by rw [hp, hw]; omega) (by rw [hp]; omega)
    rw [e]
    have hpos' : c2.pos = c.pos + c.toSkip + n := by rw [hpos, hp]
    have h3' : c2.toSkip = 0 := by rw [h3, flushSkip_toSkip]
    have h4' : c2.rawLengths = c.rawLengths := by rw [h4, flushSkip_rawLengths]
    have h5' : c2.lengthIndex = c.lengthIndex := by rw [h5, flushSkip_lengthIndex]
    have h7' : c2.readCount = c.readCount := by rw [h7, flushSkip_readCount]
    have h8' : c2.lenStream = c.lenStream := by rw [h8, flushSkip_lenStream]
    have hview : blobSlice blob (flushSkip c).pos n = blobSlice blob (c.pos + c.toSkip) n := by
      rw [hp]
    refine ⟨_, by rw [hview], by simp [h4'], by simp [h5'], by simp [h8'], by simp [h7'],
      fun hle => absurd hz (by omega), fun _ => ⟨by simp [hpos'], by simp [h3'], by simp [hview]⟩⟩

/-- Claim C6 (witness): a concrete invocation of the contract. -/
theorem readValue_contract_witness :
    ∃ c', readValue [1, 2, 3, 4, 5] (fun _ => 2) (freshC []) 3 =
        some (blobSlice [1, 2, 3, 4, 5] ((freshC []).pos + (freshC []).toSkip) 3, c') ∧
      c'.rawLengths = (freshC []).rawLengths ∧ c'.lengthIndex = (freshC []).lengthIndex ∧
      c'.lenStream = (freshC []).lenStream ∧ c'.readCount = (freshC []).readCount + 1 ∧
      (3 ≤ (freshC []).winLen - (freshC []).toSkip →
        c'.pos = (freshC []).pos + (freshC []).toSkip ∧
        c'.winLen = (freshC []).winLen - (freshC []).toSkip ∧
        c'.toSkip = 3 ∧ c'.tempString = (freshC []).tempString) ∧
      ((freshC []).winLen - (freshC []).toSkip < 3 →
        c'.pos = (freshC []).pos + (freshC []).toSkip + 3 ∧ c'.toSkip = 0 ∧
        c'.tempString = blobSlice [1, 2, 3, 4, 5] ((freshC []).pos + (freshC []).toSkip) 3) :=
  readValue_contract [1, 2, 3, 4, 5] (fun _ => 2) (freshC []) 3 (by decide) (by decide)

/-- Claim C10 (counterexample): the original claim — `readValue 0`
called with `bufferStart_`/`bufferEnd_` both null (`hasBuf = false`,
`winLen = 0`) returns an empty view "without reading, copying, or
skipping any bytes from the byte stream" — fails on the reachable state
with a pending deferred skip of 12 bytes (accrued by `skipInDecode`
before the first value read of a batch): the call returns the empty view
but first executes `skipBytes(bytesToSkip_, ...)` (source line 367),
which forwards the 12-byte skip to the stream — the cursor leaves
position 0 and lands at 12, so bytes are skipped inside the call. -/
theorem readValue_zero_counterexample :
    ({ freshC [] with toSkip := 12 } : CState).winLen = 0 ∧
    ({ freshC [] with toSkip := 12 } : CState).hasBuf = false ∧
    (readValue (List.replicate 16 7) (fun _ => 4)
        { freshC [] with toSkip := 12 } 0).map (fun r => (r.1, r.2.pos)) =
      some ([], 12) ∧
    ¬((readValue (List.replicate 16 7) (fun _ => 4)
        { freshC [] with toSkip := 12 } 0).map (fun r => r.2.pos) =
      some ({ freshC [] with toSkip := 12 } : CState).pos) := by
  decide

/-- Claim C10 (amended): `readValue 0` always succeeds — even before any
byte of the data stream has been buffered (`bufferStart_`/`bufferEnd_`
both null, `winLen = 0`, for which the post-flush window test
`0 ≤ bufferEnd_ - bufferStart_` still passes) — and returns an empty
zero-copy view without reading or copying any value byte (the scratch
string, the length cursor and the materialized lengths are untouched,
and only the ghost read counter ticks); but it first flushes the
pending deferred skip to the byte stream, advancing the cursor by
`bytesToSkip` and resetting it to zero, so the call skips bytes exactly
when a deferred skip is pending, and a length-0 row never accesses
stream contents beyond that flush. -/
theorem readValue_zero_flushes (blob : List Nat) (sched : Nat → Nat) (c : CState) :
    readValue blob sched c 0 =
      some ([], { flushSkip c with readCount := c.readCount + 1 }) ∧
    (flushSkip c).pos = c.pos + c.toSkip ∧
    (flushSkip c).toSkip = 0 ∧
    (flushSkip c).tempString = c.tempString ∧
    (flushSkip c).rawLengths = c.rawLengths ∧
    (flushSkip c).lengthIndex = c.lengthIndex := by
  refine ⟨?_, by simp, rfl, by simp, by simp, by simp⟩
  unfold readValue
  rw [if_pos (Nat.zero_le _)]
  rw [show (flushSkip c).readCount = c.readCount from by simp]
  rfl

/-- Claim C7: `readWithVisitor` runs the vectorized batch extractor
exactly when the visitor's filter is `AlwaysTrue`, its extraction target
is `ExtractToReader`, and AVX2 is available; in every other case it runs
the scalar decode state machine over all selected rows. -/
theorem readWithVisitor_dispatch (blob : List Nat) (sched : Nat → Nat) (hasAvx2 : Bool)
    (V : VisitorIface α) (v0 : α) (rows : List Nat) (hasNulls : Bool) (nulls : List Bool)
    (c : CState) (o : OState) :
    readWithVisitorM blob sched hasAvx2 V v0 rows hasNulls nulls c o =
      if hasAvx2 = true ∧ V.filterAlwaysTrue = true ∧ V.extractToReader = true then
        vectorExtractPath blob sched V.dense rows hasNulls nulls c o
      else scalarDecodePath blob sched V v0 rows hasNulls nulls c o := by
  unfold readWithVisitorM
  cases hA : hasAvx2 <;> cases hF : V.filterAlwaysTrue <;> cases hE : V.extractToReader <;>
    simp [hA, hF, hE]

theorem offsetsOf_length (ls : List Nat) : (offsetsOf ls).length = ls.length + 1 := by
  induction ls with
  | nil => rfl
  | cons l ls ih => simp [offsetsOf, ih]

theorem offsetsOf_getD (ls : List Nat) (i : Nat) (h : i ≤ ls.length) :
    (offsetsOf ls).getD i 0 = (ls.take i).sum := by
  induction ls generalizing i with
  | nil =>
    have hi : i = 0 := by simpa using h
    subst hi
    rfl
  | cons l ls ih =>
    cases i with
    | zero => rfl
    | succ i =>
      have hi : i ≤ ls.length := by simpa using h
      have hlen : i < ((offsetsOf ls).map (l + ·)).length := by
        simp [offsetsOf_length]; omega
      show ((offsetsOf ls).map (l + ·)).getD i 0 = _
      rw [List.getD_eq_getElem _ _ hlen, List.getElem_map]
      rw [List.take_succ_cons, List.sum_cons]
      have := ih i hi
      rw [List.getD_eq_getElem _ _ (by simp [offsetsOf_length]; omega)] at this
      omega

theorem take_sum_le (ls : List Nat) (b i : Nat) (h : ∀ x ∈ ls, x ≤ b) :
    (ls.take i).sum ≤ b * i := by
  induction ls generalizing i with
  | nil => simp
  | cons l ls ih =>
    cases i with
    | zero => simp
    | succ i =>
      rw [List.take_succ_cons, List.sum_cons]
      have h1 : l ≤ b := h l (by simp)
      have h2 := ih i (fun x hx => h x (by simp [hx]))
      calc l + (ls.take i).sum ≤ b + b * i := by omega
        _ = b * (i + 1) := by ring

theorem allSmallEnough_some (lengths off : List Nat) (g : Bool)
    (h : allSmallEnough lengths = some (off, g)) :
    off = offsetsOf ((List.range 8).map (fun t => lengths.getD t 0)) ∧
    ∀ x ∈ (List.range 8).map (fun t => lengths.getD t 0), x ≤ 12 := by
  unfold allSmallEnough at h
  split at h
  · rename_i hall
    refine ⟨by injection h with h'; injection h' with h1 _; exact h1.symm, ?_⟩
    intro x hx
    simp only [List.mem_map, List.mem_range] at hx
    obtain ⟨t, _, rfl⟩ := hx
    have := List.all_eq_true.mp hall t (by simp; omega)
    simpa using this
  · exact absurd h (by simp)

/-- Claim C9: if `allSmallEnough` qualifies the 8 lengths (so each is at
most 12) and the entry guard of `try8Consecutive` passed — at least
`start + 8·12` resident bytes beyond `bufferStart_ + bytesToSkip_` — then
the prefix-sum offsets satisfy `data + offsets[7] + 12 ≤ bufferEnd_`
(the bound checked by the source's debug assertion, covering every
12-byte inline load) and the final cursor advance target
`data + offsets[8]` also stays inside the resident window, where
`data = bufferStart_ + start + bytesToSkip_`. -/
theorem small_path_inbounds (lengths off : List Nat) (g : Bool) (c : CState) (start : Nat)
    (hsmall : allSmallEnough lengths = some (off, g))
    (hguard : (!c.hasBuf || decide (c.winLen - c.toSkip < start + 8 * 12)) = false) :
    c.pos + start + c.toSkip + (off.getD 7 0 + 12) ≤ c.pos + c.winLen ∧
    c.pos + start + c.toSkip + off.getD 8 0 ≤ c.pos + c.winLen := by
  obtain ⟨hoff, hb⟩ := allSmallEnough_some lengths off g hsmall
  have hlen8 : ((List.range 8).map (fun t => lengths.getD t 0)).length = 8 := by simp
  have h7 : off.getD 7 0 ≤ 84 := by
    rw [hoff, offsetsOf_getD _ 7 (by omega)]
    have := take_sum_le ((List.range 8).map (fun t => lengths.getD t 0)) 12 7 hb
    omega
  have h8 : off.getD 8 0 ≤ 96 := by
    rw [hoff, offsetsOf_getD _ 8 (by omega)]
    have := take_sum_le ((List.range 8).map (fun t => lengths.getD t 0)) 12 8 hb
    omega
  have hg : ¬ (c.winLen - c.toSkip < start + 8 * 12) := by
    rcases Bool.or_eq_false_iff.mp hguard with ⟨_, h2⟩
    exact of_decide_eq_false h2
  omega

/-- Claim C9 (witness): a concrete qualifying batch and window. -/
theorem small_path_inbounds_witness :
    (freshC []).pos + 5 + { freshC [] with winLen := 200, toSkip := 3, hasBuf := true }.toSkip +
        ((offsetsOf [1, 2, 3, 4, 5, 0, 12, 4]).getD 7 0 + 12) ≤
      { freshC [] with winLen := 200, toSkip := 3, hasBuf := true }.pos + 200 ∧
    (freshC []).pos + 5 + 3 + (offsetsOf [1, 2, 3, 4, 5, 0, 12, 4]).getD 8 0 ≤ 0 + 200 := by
  have := small_path_inbounds [1, 2, 3, 4, 5, 0, 12, 4]
    (offsetsOf [1, 2, 3, 4, 5, 0, 12, 4]) true
    { freshC [] with winLen := 200, toSkip := 3, hasBuf := true } 5
    (by decide) (by decide)
  exact ⟨this.1, this.2⟩

/-- Helper: the general 8-wide path leaves all committed state
untouched when it falls back. -/
theorem try8Commit_frame (sparse : Bool) (rows : List Nat) (row : Nat)
    (c c' : CState) (o o' : OState) (r : Gen8Res)
    (h : try8Commit sparse rows row c o r = some (false, c', o')) :
    c' = c ∧ o'.rawStringUsed = o.rawStringUsed ∧ o'.numValues = o.numValues ∧
    o'.resultNulls = o.resultNulls ∧ o'.outerNonNullRows = o.outerNonNullRows ∧
    o'.rawStringSize = o.rawStringSize ∧ o'.returnReaderNulls = o.returnReaderNulls ∧
    o'.anyNulls = o.anyNulls := by
  cases r with
  | abort mem arena =>
    simp only [try8Commit, Option.some.injEq, Prod.mk.injEq] at h
    obtain ⟨-, hc, ho⟩ := h
    subst hc
    refine ⟨rfl, ?_, ?_, ?_, ?_, ?_, ?_, ?_⟩ <;> rw [← ho]
  | fatal => simp [try8Commit] at h
  | ok data rawUsed mem arena => simp [try8Commit] at h

theorem try8General_frame (blob : List Nat) (sparse : Bool) (start : Nat)
    (rows : List Nat) (row : Nat) (c c' : CState) (o o' : OState)
    (h : try8General blob sparse start rows row c o = some (false, c', o')) :
    c' = c ∧ o'.rawStringUsed = o.rawStringUsed ∧ o'.numValues = o.numValues ∧
    o'.resultNulls = o.resultNulls ∧ o'.outerNonNullRows = o.outerNonNullRows ∧
    o'.rawStringSize = o.rawStringSize ∧ o'.returnReaderNulls = o.returnReaderNulls ∧
    o'.anyNulls = o.anyNulls :=
  try8Commit_frame sparse rows row c c' o o' _ h

/-- Claim C1: whenever an 8-wide fast-path attempt (`try8Consecutive`,
covering both the all-short-strings sub-path and the general 8-wide
path) is disqualified and returns `false` — entry guard (no buffer /
insufficient resident bytes), a row's rounded-up load not fitting the
window, or insufficient arena capacity — the whole cursor state
(`bufferStart`/window, `bytesToSkip`, `lengthIndex`, the length array,
the scratch string, the read counter) is exactly as before the attempt,
and on the output side `rawStringUsed` and `numValues` (as well as the
null/scatter bookkeeping) are unchanged; only scratch contents of the
not-yet-committed result/arena byte buffers may have been written. -/
theorem try8Consecutive_frame (blob : List Nat) (sparse : Bool) (start : Nat)
    (rows : List Nat) (row : Nat) (c c' : CState) (o o' : OState)
    (h : try8Consecutive blob sparse start rows row c o = some (false, c', o')) :
    c' = c ∧ o'.rawStringUsed = o.rawStringUsed ∧ o'.numValues = o.numValues ∧
    o'.resultNulls = o.resultNulls ∧ o'.outerNonNullRows = o.outerNonNullRows ∧
    o'.rawStringSize = o.rawStringSize ∧ o'.returnReaderNulls = o.returnReaderNulls ∧
    o'.anyNulls = o.anyNulls := by
  unfold try8Consecutive at h
  split at h
  · simp only [Option.some.injEq, Prod.mk.injEq] at h
    obtain ⟨-, hc, ho⟩ := h
    subst hc; subst ho
    exact ⟨rfl, rfl, rfl, rfl, rfl, rfl, rfl, rfl⟩
  · split at h
    · exact try8General_frame _ _ _ _ _ _ _ _ _ h
    · split at h
      · simp at h
      · exact try8General_frame _ _ _ _ _ _ _ _ _ h

/-- Claim C1 (witness): a disqualified attempt (null buffer) leaves the
cursor state untouched. -/
theorem try8Consecutive_frame_witness :
    freshC [] = freshC [] ∧ (freshO 4).rawStringUsed = (freshO 4).rawStringUsed ∧
    (freshO 4).numValues = (freshO 4).numValues ∧
    (freshO 4).resultNulls = (freshO 4).resultNulls ∧
    (freshO 4).outerNonNullRows = (freshO 4).outerNonNullRows ∧
    (freshO 4).rawStringSize = (freshO 4).rawStringSize ∧
    (freshO 4).returnReaderNulls = (freshO 4).returnReaderNulls ∧
    (freshO 4).anyNulls = (freshO 4).anyNulls :=
  try8Consecutive_frame [] false 0 [0, 1, 2, 3, 4, 5, 6, 7] 0
    (freshC []) (freshC []) (freshO 4) (freshO 4) (by decide)

@[simp] theorem skipInDecodeOp_pos (k : Bool) (c : CState) (n cur : Nat) (nl : List Bool) :
    (skipInDecodeOp k c n cur nl).pos = c.pos := rfl

@[simp] theorem skipInDecodeOp_winLen (k : Bool) (c : CState) (n cur : Nat) (nl : List Bool) :
    (skipInDecodeOp k c n cur nl).winLen = c.winLen := rfl

@[simp] theorem skipInDecodeOp_hasBuf (k : Bool) (c : CState) (n cur : Nat) (nl : List Bool) :
    (skipInDecodeOp k c n cur nl).hasBuf = c.hasBuf := rfl

@[simp] theorem skipInDecodeOp_tempString (k : Bool) (c : CState) (n cur : Nat) (nl : List Bool) :
    (skipInDecodeOp k c n cur nl).tempString = c.tempString := rfl

@[simp] theorem skipInDecodeOp_readCount (k : Bool) (c : CState) (n cur : Nat) (nl : List Bool) :
    (skipInDecodeOp k c n cur nl).readCount = c.readCount := rfl

@[simp] theorem skipInDecodeOp_rawLengths (k : Bool) (c : CState) (n cur : Nat) (nl : List Bool) :
    (skipInDecodeOp k c n cur nl).rawLengths = c.rawLengths := rfl

@[simp] theorem skipInDecodeOp_lenStream (k : Bool) (c : CState) (n cur : Nat) (nl : List Bool) :
    (skipInDecodeOp k c n cur nl).lenStream = c.lenStream := rfl

@[simp] theorem decodeFinish_o (k : Bool) (nl : List Bool) (c : CState) (o : OState)
    (v : α) (cur ts : Nat) (ae : Bool) : (decodeFinish k nl c o v cur ts ae).o = o := by
  unfold decodeFinish; split <;> rfl

@[simp] theorem decodeFinish_v (k : Bool) (nl : List Bool) (c : CState) (o : OState)
    (v : α) (cur ts : Nat) (ae : Bool) : (decodeFinish k nl c o v cur ts ae).v = v := by
  unfold decodeFinish; split <;> rfl

@[simp] theorem decodeFinish_atEnd (k : Bool) (nl : List Bool) (c : CState) (o : OState)
    (v : α) (cur ts : Nat) (ae : Bool) : (decodeFinish k nl c o v cur ts ae).atEnd = ae := by
  unfold decodeFinish; split <;> rfl

@[simp] theorem decodeFinish_c_pos (k : Bool) (nl : List Bool) (c : CState) (o : OState)
    (v : α) (cur ts : Nat) (ae : Bool) : (decodeFinish k nl c o v cur ts ae).c.pos = c.pos := by
  unfold decodeFinish; split <;> simp

@[simp] theorem decodeFinish_c_winLen (k : Bool) (nl : List Bool) (c : CState) (o : OState)
    (v : α) (cur ts : Nat) (ae : Bool) :
    (decodeFinish k nl c o v cur ts ae).c.winLen = c.winLen := by
  unfold decodeFinish; split <;> simp

@[simp] theorem decodeFinish_c_hasBuf (k : Bool) (nl : List Bool) (c : CState) (o : OState)
    (v : α) (cur ts : Nat) (ae : Bool) :
    (decodeFinish k nl c o v cur ts ae).c.hasBuf = c.hasBuf := by
  unfold decodeFinish; split <;> simp

@[simp] theorem decodeFinish_c_tempString (k : Bool) (nl : List Bool) (c : CState) (o : OState)
    (v : α) (cur ts : Nat) (ae : Bool) :
    (decodeFinish k nl c o v cur ts ae).c.tempString = c.tempString := by
  unfold decodeFinish; split <;> simp

@[simp] theorem decodeFinish_c_readCount (k : Bool) (nl : List Bool) (c : CState) (o : OState)
    (v : α) (cur ts : Nat) (ae : Bool) :
    (decodeFinish k nl c o v cur ts ae).c.readCount = c.readCount := by
  unfold decodeFinish; split <;> simp

/-- Claim C3: reading length stream `[3, 15, 0, 12]` against the blob
`strA ++ strB ++ [] ++ strD` with dense row set `[0, 1, 2, 3]` and no
nulls produces exactly those four strings in that order — whether or not
the vectorized path is available (`b`) — with the rows of length at most
12 stored fully inline in their 16-byte records (no arena offset, and
the total arena usage equals 15, so they allocate nothing), and only the
15-byte value of row 1 holding a pointer into the raw-string arena (at
offset 0). -/
theorem concrete_scenario_read (b : Bool) :
    ((readReader blobC3 (fun _ => 11) b [0, 1, 2, 3] none (freshC [3, 15, 0, 12])
        (freshO 64)).map fun co =>
      (co.2.numValues, co.2.rawStringUsed,
       recordAt co.2.rawValues co.2.arena 0, recordAt co.2.rawValues co.2.arena 1,
       recordAt co.2.rawValues co.2.arena 2, recordAt co.2.rawValues co.2.arena 3)) =
    some (4, 15, (3, strA, none), (15, strB, some 0), (0, [], none), (12, strD, none)) := by
  cases b <;> rfl

/-- Claim C3 (witness): the vectorized-path instance of the scenario. -/
theorem concrete_scenario_read_witness :
    ((readReader blobC3 (fun _ => 11) true [0, 1, 2, 3] none (freshC [3, 15, 0, 12])
        (freshO 64)).map fun co =>
      (co.2.numValues, co.2.rawStringUsed,
       recordAt co.2.rawValues co.2.arena 0, recordAt co.2.rawValues co.2.arena 1,
       recordAt co.2.rawValues co.2.arena 2, recordAt co.2.rawValues co.2.arena 3)) =
    some (4, 15, (3, strA, none), (15, strB, some 0), (0, [], none), (12, strD, none)) :=
  concrete_scenario_read true

theorem storeBytes_getD (mem : List Nat) (off : Nat) (bs : List Nat) (p : Nat) :
    (storeBytes mem off bs).getD p 0 =
      if p < off then mem.getD p 0
      else if p - off < bs.length then bs.getD (p - off) 0
      else mem.getD p 0 := by
  unfold storeBytes
  simp only [List.getD_eq_getElem?_getD, List.getElem?_append, List.getElem?_take,
    List.getElem?_drop, List.getElem?_replicate, List.length_append, List.length_take,
    List.length_replicate]
  split_ifs <;>
    first
    | rfl
    | (exfalso; omega)
    | (rw [List.getElem?_eq_none (show mem.length ≤ p by omega)]; rfl)
    | (have h : p - (min off mem.length + (off - mem.length)) = p - off := by omega
       rw [h])
    | (have h : off + bs.length + (p - (min off mem.length + (off - mem.length) + bs.length)) = p := by
         omega
       rw [h])

theorem memRead_congr (m1 m2 : List Nat) (p1 p2 n : Nat)
    (h : ∀ i, i < n → m1.getD (p1 + i) 0 = m2.getD (p2 + i) 0) :
    memRead m1 p1 n = memRead m2 p2 n := by
  unfold memRead
  exact List.map_congr_left (fun i hi => h i (List.mem_range.mp hi))

theorem memRead_storeBytes_lo (mem : List Nat) (off : Nat) (bs : List Nat) (p n : Nat)
    (h : p + n ≤ off) : memRead (storeBytes mem off bs) p n = memRead mem p n := by
  refine memRead_congr _ _ _ _ _ (fun i hi => ?_)
  rw [storeBytes_getD, if_pos (by omega)]

theorem memRead_storeBytes_hi (mem : List Nat) (off : Nat) (bs : List Nat) (p n : Nat)
    (h : off + bs.length ≤ p) : memRead (storeBytes mem off bs) p n = memRead mem p n := by
  refine memRead_congr _ _ _ _ _ (fun i hi => ?_)
  rw [storeBytes_getD, if_neg (by omega), if_neg (by omega)]

theorem memRead_storeBytes_in (mem : List Nat) (off : Nat) (bs : List Nat) (p n : Nat)
    (h1 : off ≤ p) (h2 : p + n ≤ off + bs.length) :
    memRead (storeBytes mem off bs) p n = memRead bs (p - off) n := by
  refine memRead_congr _ _ _ _ _ (fun i hi => ?_)
  rw [storeBytes_getD, if_neg (by omega), if_pos (by omega)]
  have e : p + i - off = p - off + i := by omega
  rw [e]

theorem map_range_getD (bs : List Nat) :
    (List.range bs.length).map (fun i => bs.getD i 0) = bs := by
  refine List.ext_getElem (by simp) (fun i h1 h2 => ?_)
  rw [List.getElem_map, List.getElem_range, List.getD_eq_getElem bs 0 h2]

theorem memRead_all (bs : List Nat) : memRead bs 0 bs.length = bs := by
  unfold memRead
  simpa using map_range_getD bs

theorem memRead_append (mem : List Nat) (p a b : Nat) :
    memRead mem p (a + b) = memRead mem p a ++ memRead mem (p + a) b := by
  unfold memRead
  rw [List.range_add, List.map_append, List.map_map]
  congr 1
  apply List.map_congr_left
  intro i _
  simp [Nat.add_assoc]

theorem memRead_length (mem : List Nat) (p n : Nat) : (memRead mem p n).length = n := by
  simp [memRead]

theorem memRead_eq_blobSlice (mem : List Nat) (p n : Nat) (h : p + n ≤ mem.length) :
    memRead mem p n = blobSlice mem p n := by
  refine List.ext_getElem (by simp [memRead, blobSlice]; omega) (fun i h1 h2 => ?_)
  have hi : i < n := by simpa [memRead] using h1
  simp only [memRead, blobSlice]
  rw [List.getElem_map, List.getElem_range, List.getElem_take, List.getElem_drop,
    List.getD_eq_getElem mem 0 (by omega)]

theorem toLE_length (k w : Nat) : (toLE k w).length = k := by
  induction k generalizing w with
  | zero => rfl
  | succ k ih => simp [toLE, ih]

theorem fromLE_toLE_mod (k w : Nat) : fromLE (toLE k w) = w % 2 ^ (8 * k) := by
  induction k generalizing w with
  | zero => simp [toLE, fromLE, Nat.mod_one]
  | succ k ih =>
    show (w % 256) + 256 * fromLE (toLE k (w / 256)) = _
    rw [ih]
    have h1 : 2 ^ (8 * (k + 1)) = 256 * 2 ^ (8 * k) := by ring
    rw [h1, Nat.mod_mul]

theorem toLE_fromLE (bs : List Nat) (h : ∀ b ∈ bs, b < 256) :
    toLE bs.length (fromLE bs) = bs := by
  induction bs with
  | nil => rfl
  | cons b bs ih =>
    have hb : b < 256 := h b (by simp)
    show (b + 256 * fromLE bs) % 256 :: toLE bs.length ((b + 256 * fromLE bs) / 256) = _
    have e1 : (b + 256 * fromLE bs) % 256 = b := by omega
    have e2 : (b + 256 * fromLE bs) / 256 = fromLE bs := by omega
    rw [e1, e2, ih (fun x hx => h x (by simp [hx]))]

theorem fromLE_lt (bs : List Nat) (h : ∀ b ∈ bs, b < 256) :
    fromLE bs < 2 ^ (8 * bs.length) := by
  induction bs with
  | nil => simp [fromLE]
  | cons b bs ih =>
    have hb : b < 256 := h b (by simp)
    have := ih (fun x hx => h x (by simp [hx]))
    show b + 256 * fromLE bs < 2 ^ (8 * (b :: bs).length)
    have h1 : 2 ^ (8 * (b :: bs).length) = 256 * 2 ^ (8 * bs.length) := by
      simp [List.length_cons]
      ring
    omega

theorem toLE_take (k' k w : Nat) (h : k' ≤ k) : (toLE k w).take k' = toLE k' w := by
  induction k' generalizing k w with
  | zero => simp [toLE]
  | succ k' ih =>
    cases k with
    | zero => omega
    | succ k =>
      show (w % 256 :: toLE k (w / 256)).take (k' + 1) = _
      rw [List.take_succ_cons, ih k (w / 256) (by omega)]
      rfl

theorem toLE_drop (k' k w : Nat) (h : k' ≤ k) :
    (toLE k w).drop k' = toLE (k - k') (w / 2 ^ (8 * k')) := by
  induction k' generalizing k w with
  | zero => simp [toLE]
  | succ k' ih =>
    cases k with
    | zero => omega
    | succ k =>
      show (w % 256 :: toLE k (w / 256)).drop (k' + 1) = _
      rw [List.drop_succ_cons, ih k (w / 256) (by omega)]
      have e : w / 256 / 2 ^ (8 * k') = w / 2 ^ (8 * (k' + 1)) := by
        rw [Nat.div_div_eq_div_mul]
        congr 1
        have : 8 * (k' + 1) = 8 + 8 * k' := by ring
        rw [this, pow_add]
        norm_num
      rw [e]
      congr 1
      omega

theorem toLE_mod_cancel (k w : Nat) : toLE k (w % 2 ^ (8 * k)) = toLE k w := by
  induction k generalizing w with
  | zero => rfl
  | succ k ih =>
    show (w % 2 ^ (8 * (k+1))) % 256 :: toLE k (w % 2 ^ (8 * (k+1)) / 256) = _
    have h1 : 2 ^ (8 * (k + 1)) = 256 * 2 ^ (8 * k) := by ring
    have e1 : (w % 2 ^ (8 * (k+1))) % 256 = w % 256 := by
      rw [h1]
      exact Nat.mod_mod_of_dvd w (Dvd.intro _ rfl)
    have e2 : w % 2 ^ (8 * (k+1)) / 256 = w / 256 % 2 ^ (8 * k) := by
      rw [h1]
      exact Nat.mod_mul_right_div_self w 256 (2 ^ (8 * k))
    rw [e1, e2, ih]
    rfl

theorem mem_toLE_lt (k w : Nat) : ∀ b ∈ toLE k w, b < 256 := by
  induction k generalizing w with
  | zero => simp [toLE]
  | succ k ih =>
    intro b hb
    simp only [toLE, List.mem_cons] at hb
    rcases hb with h | h
    · omega
    · exact ih (w / 256) b h

theorem lor_shiftLeft_eq_add (k a b : Nat) (h : a < 2 ^ k) :
    a ||| (b <<< k) = a + 2 ^ k * b := by
  apply Nat.eq_of_testBit_eq
  intro i
  rw [Nat.testBit_lor, Nat.testBit_shiftLeft]
  by_cases hik : i < k
  · have e1 : 2 ^ k * b = 2 ^ i * (2 ^ (k - i) * b) := by
      rw [← Nat.mul_assoc, ← pow_add]
      congr 2
      omega
    have e2 : (a + 2 ^ k * b) / 2 ^ i = a / 2 ^ i + 2 ^ (k - i) * b := by
      rw [e1, Nat.add_mul_div_left _ _ (Nat.two_pow_pos i)]
    have e3 : (a / 2 ^ i + 2 ^ (k - i) * b) % 2 = a / 2 ^ i % 2 := by
      have e4 : 2 ^ (k - i) * b = 2 * (2 ^ (k - i - 1) * b) := by
        rw [← Nat.mul_assoc]
        congr 1
        rw [← pow_succ']
        congr 1
        omega
      rw [e4]
      omega
    have hr : (a + 2 ^ k * b).testBit i = a.testBit i := by
      rw [Nat.testBit_to_div_mod, Nat.testBit_to_div_mod, e2, e3]
    rw [hr]
    have : ¬ (i ≥ k) := by omega
    simp [this]
  · have ha : a.testBit i = false :=
      Nat.testBit_lt_two_pow (lt_of_lt_of_le h (Nat.pow_le_pow_right (by omega) (by omega)))
    have e1 : (a + 2 ^ k * b) / 2 ^ k = b := by
      rw [Nat.add_mul_div_left _ _ (Nat.two_pow_pos k), Nat.div_eq_of_lt h]
      omega
    have e2 : (a + 2 ^ k * b) / 2 ^ i = b / 2 ^ (i - k) := by
      have : (2 : Nat) ^ i = 2 ^ k * 2 ^ (i - k) := by
        rw [← pow_add]
        congr 1
        omega
      rw [this, ← Nat.div_div_eq_div_mul, e1]
    have hr : (a + 2 ^ k * b).testBit i = b.testBit (i - k) := by
      rw [Nat.testBit_to_div_mod, Nat.testBit_to_div_mod, e2]
    rw [hr, ha]
    have : i ≥ k := by omega
    simp [this]

theorem toLE_zero (k : Nat) : toLE k 0 = List.replicate k 0 := by
  induction k with
  | zero => rfl
  | succ k ih => simp [toLE, ih, List.replicate_succ]

theorem toLE_split (m k x : Nat) (h : m ≤ k) :
    toLE k x = toLE m x ++ toLE (k - m) (x / 2 ^ (8 * m)) := by
  rw [← toLE_take m k x h, ← toLE_drop m k x h, List.take_append_drop]

theorem blobSlice_length (blob : List Nat) (p n : Nat) :
    (blobSlice blob p n).length = min n (blob.length - p) := by
  simp [blobSlice]

theorem mem_blobSlice (blob : List Nat) (p n : Nat) (b : Nat) (h : b ∈ blobSlice blob p n) :
    b ∈ blob :=
  List.mem_of_mem_drop (List.mem_of_mem_take h)

theorem blobSlice_append (blob : List Nat) (p a b : Nat) :
    blobSlice blob p (a + b) = blobSlice blob p a ++ blobSlice blob (p + a) b := by
  unfold blobSlice
  rw [List.take_add, List.drop_drop]
  try (congr 2 <;> omega)

theorem blobSlice_take (blob : List Nat) (p n m : Nat) :
    (blobSlice blob p n).take m = blobSlice blob p (min m n) := by
  unfold blobSlice
  rw [List.take_take]

theorem fromLE_blobSlice_lt (blob : List Nat) (p k : Nat) (h : p + k ≤ blob.length)
    (h256 : ∀ b ∈ blob, b < 256) : fromLE (blobSlice blob p k) < 2 ^ (8 * k) := by
  have hl : (blobSlice blob p k).length = k := by rw [blobSlice_length]; omega
  have := fromLE_lt (blobSlice blob p k) (fun b hb => h256 b (mem_blobSlice _ _ _ _ hb))
  rw [hl] at this
  exact this

theorem toLE_fromLE_blobSlice (blob : List Nat) (p k : Nat) (h : p + k ≤ blob.length)
    (h256 : ∀ b ∈ blob, b < 256) :
    toLE k (fromLE (blobSlice blob p k)) = blobSlice blob p k := by
  have hl : (blobSlice blob p k).length = k := by rw [blobSlice_length]; omega
  have := toLE_fromLE (blobSlice blob p k) (fun b hb => h256 b (mem_blobSlice _ _ _ _ hb))
  rw [hl] at this
  exact this


theorem packSmall_bytes (kGt4 : Bool) (len word word2 : Nat) (h12 : len ≤ 12)
    (hgt : kGt4 = false → len ≤ 4) (hw : word < 2 ^ 32) (hw2 : word2 < 2 ^ 64) :
    toLE 8 (packSmall kGt4 len word word2).1 ++ toLE 8 (packSmall kGt4 len word word2).2 =
      toLE 4 len ++ (toLE 4 word ++ toLE 8 word2).take len ++ List.replicate (12 - len) 0 := by
  unfold packSmall
  by_cases hcond : (kGt4 && decide (4 < len)) = true
  · have h4 : 4 < len := by
      have h' : kGt4 = true ∧ 4 < len := by simpa using hcond
      exact h'.2
    rw [if_pos hcond]
    show toLE 8 (len ||| (word <<< 32)) ++
      toLE 8 (word2 &&& (if len = 12 then 2 ^ 64 - 1 else 2 ^ (8 * (len - 4)) - 1)) = _
    have hmask : (if len = 12 then 2 ^ 64 - 1 else 2 ^ (8 * (len - 4)) - 1)
        = 2 ^ (8 * (len - 4)) - 1 := by
      by_cases h12' : len = 12
      · rw [if_pos h12', h12']
      · rw [if_neg h12']
    rw [hmask, Nat.and_pow_two_sub_one_eq_mod, lor_shiftLeft_eq_add 32 len word (by omega)]
    have e1 : toLE 8 (len + 2 ^ 32 * word) = toLE 4 len ++ toLE 4 word := by
      rw [toLE_split 4 8 _ (by omega)]
      have d1 : (len + 2 ^ 32 * word) % 2 ^ (8 * 4) = len := by
        have h32 : (2 : Nat) ^ (8 * 4) = 2 ^ 32 := by norm_num
        rw [h32, Nat.add_mul_mod_self_left, Nat.mod_eq_of_lt (by omega)]
      have d2 : (len + 2 ^ 32 * word) / 2 ^ (8 * 4) = word := by
        have h32 : (2 : Nat) ^ (8 * 4) = 2 ^ 32 := by norm_num
        rw [h32, Nat.add_mul_div_left _ _ (by positivity), Nat.div_eq_of_lt (by omega)]
        omega
      rw [← toLE_mod_cancel 4 (len + 2 ^ 32 * word), d1, d2]
    have e2 : toLE 8 (word2 % 2 ^ (8 * (len - 4))) =
        toLE (len - 4) word2 ++ List.replicate (12 - len) 0 := by
      rw [toLE_split (len - 4) 8 _ (by omega)]
      have d1 : word2 % 2 ^ (8 * (len - 4)) / 2 ^ (8 * (len - 4)) = 0 :=
        Nat.div_eq_of_lt (Nat.mod_lt _ (by positivity))
      rw [d1, toLE_zero, toLE_mod_cancel]
      congr 2
      omega
    rw [e1, e2]
    have e3 : (toLE 4 word ++ toLE 8 word2).take len = toLE 4 word ++ toLE (len - 4) word2 := by
      rw [List.take_append_eq_append_take,
        List.take_of_length_le (by rw [toLE_length]; omega), toLE_length,
        toLE_take (len - 4) 8 word2 (by omega)]
    rw [e3]
    simp [List.append_assoc]
  · have hle4 : len ≤ 4 := by
      by_cases h4 : 4 < len
      · cases hk : kGt4
        · exact hgt hk
        · exact absurd (by simp [hk, h4]) hcond
      · omega
    rw [if_neg hcond]
    show toLE 8 (len ||| ((word &&& 2 ^ (8 * len) - 1) <<< 32)) ++ toLE 8 0 = _
    rw [Nat.and_pow_two_sub_one_eq_mod]
    have hwm : word % 2 ^ (8 * len) < 2 ^ 32 :=
      lt_of_lt_of_le (Nat.mod_lt _ (by positivity))
        (Nat.pow_le_pow_right (by omega) (by omega))
    rw [lor_shiftLeft_eq_add 32 len _ (by omega), toLE_zero]
    rw [toLE_split 4 8 _ (by omega)]
    have d1 : (len + 2 ^ 32 * (word % 2 ^ (8 * len))) % 2 ^ (8 * 4) = len := by
      have h32 : (2 : Nat) ^ (8 * 4) = 2 ^ 32 := by norm_num
      rw [h32, Nat.add_mul_mod_self_left, Nat.mod_eq_of_lt (by omega)]
    have d2 : (len + 2 ^ 32 * (word % 2 ^ (8 * len))) / 2 ^ (8 * 4) = word % 2 ^ (8 * len) := by
      have h32 : (2 : Nat) ^ (8 * 4) = 2 ^ 32 := by norm_num
      rw [h32, Nat.add_mul_div_left _ _ (by positivity), Nat.div_eq_of_lt (by omega)]
      omega
    rw [← toLE_mod_cancel 4 (len + 2 ^ 32 * (word % 2 ^ (8 * len))), d1, d2]
    have e2 : toLE 4 (word % 2 ^ (8 * len)) = toLE len word ++ List.replicate (4 - len) 0 := by
      rw [toLE_split len 4 _ (by omega)]
      have d3 : word % 2 ^ (8 * len) / 2 ^ (8 * len) = 0 :=
        Nat.div_eq_of_lt (Nat.mod_lt _ (by positivity))
      rw [d3, toLE_zero, toLE_mod_cancel]
    rw [e2]
    have e3 : (toLE 4 word ++ toLE 8 word2).take len = toLE len word := by
      rw [List.take_append_of_le_length (by rw [toLE_length]; omega),
        toLE_take len 4 word (by omega)]
    rw [e3]
    have e4 : List.replicate (4 - len) (0 : Nat) ++ List.replicate 8 0 =
        List.replicate (12 - len) 0 := by
      rw [← List.replicate_add]
      congr 1
      omega
    simp only [List.append_assoc]
    rw [e4]

theorem smallRecordW_bytes (blob : List Nat) (dataPos : Nat) (off : List Nat) (kGt4 : Bool)
    (i len : Nat) (hlen : len = off.getD (i+1) 0 - off.getD i 0) (h12 : len ≤ 12)
    (hgt : kGt4 = false → len ≤ 4)
    (hbound : dataPos + off.getD i 0 + 12 ≤ blob.length)
    (h256 : ∀ b ∈ blob, b < 256) :
    toLE 8 (smallRecordW blob dataPos off kGt4 i).1 ++
      toLE 8 (smallRecordW blob dataPos off kGt4 i).2 =
    toLE 4 len ++ blobSlice blob (dataPos + off.getD i 0) len ++
      List.replicate (12 - len) 0 := by
  unfold smallRecordW
  rw [← hlen]
  have hw : fromLE (blobSlice blob (dataPos + off.getD i 0) 4) < 2 ^ 32 := by
    have := fromLE_blobSlice_lt blob (dataPos + off.getD i 0) 4 (by omega) h256
    norm_num at this ⊢
    omega
  have hw2 : fromLE (blobSlice blob (dataPos + off.getD i 0 + 4) 8) < 2 ^ 64 := by
    have := fromLE_blobSlice_lt blob (dataPos + off.getD i 0 + 4) 8 (by omega) h256
    norm_num at this ⊢
    omega
  rw [packSmall_bytes kGt4 len _ _ h12 hgt hw hw2]
  congr 2
  rw [toLE_fromLE_blobSlice blob _ 4 (by omega) h256,
    toLE_fromLE_blobSlice blob _ 8 (by omega) h256]
  rw [← blobSlice_append, blobSlice_take]
  congr 1
  omega

theorem append_replicate_getD (l : List Nat) (k p : Nat) :
    (l ++ List.replicate k 0).getD p 0 = l.getD p 0 := by
  rw [List.getD_eq_getElem?_getD, List.getD_eq_getElem?_getD, List.getElem?_append]
  split
  · rfl
  · rw [List.getElem?_replicate, List.getElem?_eq_none (by omega)]
    split <;> rfl

theorem memRead_sameBelow (m1 m2 : List Nat) (B p n : Nat)
    (h : sameBelow m1 m2 B) (hpn : p + n ≤ B) : memRead m2 p n = memRead m1 p n := by
  refine memRead_congr _ _ _ _ _ (fun i hi => ?_)
  exact (h (p + i) (by omega)).symm

theorem memRead_append_left (xs ys : List Nat) (n : Nat) (h : n ≤ xs.length) :
    memRead (xs ++ ys) 0 n = memRead xs 0 n := by
  refine memRead_congr _ _ _ _ _ (fun i hi => ?_)
  rw [List.getD_eq_getElem?_getD, List.getD_eq_getElem?_getD, List.getElem?_append]
  rw [if_pos (by omega)]

theorem memRead_append_right (xs ys : List Nat) (p n : Nat) :
    memRead (xs ++ ys) (xs.length + p) n = memRead ys p n := by
  refine memRead_congr _ _ _ _ _ (fun i hi => ?_)
  rw [List.getD_eq_getElem?_getD, List.getD_eq_getElem?_getD, List.getElem?_append]
  rw [if_neg (by omega)]
  rw [Nat.add_assoc, Nat.add_sub_cancel_left]

theorem sameBelow_refl (m : List Nat) (B : Nat) : sameBelow m m B := fun _ _ => rfl

theorem sameBelow_trans (m1 m2 m3 : List Nat) (B : Nat) (h1 : sameBelow m1 m2 B)
    (h2 : sameBelow m2 m3 B) : sameBelow m1 m3 B :=
  fun p hp => (h1 p hp).trans (h2 p hp)

theorem sameBelow_mono (m1 m2 : List Nat) (B B' : Nat) (h : sameBelow m1 m2 B) (hb : B' ≤ B) :
    sameBelow m1 m2 B' := fun p hp => h p (by omega)

theorem sameBelow_storeBytes (mem : List Nat) (off : Nat) (bs : List Nat) (B : Nat)
    (h : B ≤ off) : sameBelow mem (storeBytes mem off bs) B := by
  intro p hp
  rw [storeBytes_getD, if_pos (by omega)]

theorem copyStringValueOp_off (o : OState) (bs : List Nat) :
    (copyStringValueOp o bs).2 = o.rawStringUsed := by
  unfold copyStringValueOp
  by_cases h : o.rawStringUsed + bs.length ≤ o.rawStringSize <;> simp [h]

theorem copyStringValueOp_used (o : OState) (bs : List Nat) :
    (copyStringValueOp o bs).1.rawStringUsed = o.rawStringUsed + bs.length := by
  unfold copyStringValueOp
  by_cases h : o.rawStringUsed + bs.length ≤ o.rawStringSize <;> simp [h]

theorem copyStringValueOp_arena_read (o : OState) (bs : List Nat) :
    memRead (copyStringValueOp o bs).1.arena o.rawStringUsed bs.length = bs := by
  unfold copyStringValueOp
  by_cases h : o.rawStringUsed + bs.length ≤ o.rawStringSize <;>
    simp only [h, if_pos, if_neg, not_true, not_false_iff, ite_true, ite_false] <;>
    rw [show (o.rawStringUsed : Nat) = o.rawStringUsed + 0 by omega] <;>
    rw [memRead_storeBytes_in _ _ _ _ _ (by omega) (by omega)] <;>
    simp [memRead_all]

theorem copyStringValueOp_arena_frame (o : OState) (bs : List Nat) :
    sameBelow o.arena (copyStringValueOp o bs).1.arena o.rawStringUsed := by
  unfold copyStringValueOp
  by_cases h : o.rawStringUsed + bs.length ≤ o.rawStringSize <;>
    simp only [h, if_pos, if_neg, not_true, not_false_iff, ite_true, ite_false] <;>
    intro p hp <;>
    rw [storeBytes_getD, if_pos (by omega)]
  rw [append_replicate_getD]

theorem copyStringValueOp_rawValues (o : OState) (bs : List Nat) :
    (copyStringValueOp o bs).1.rawValues = o.rawValues := by
  unfold copyStringValueOp
  by_cases h : o.rawStringUsed + bs.length ≤ o.rawStringSize <;> simp [h]

theorem copyStringValueOp_resultNulls (o : OState) (bs : List Nat) :
    (copyStringValueOp o bs).1.resultNulls = o.resultNulls := by
  unfold copyStringValueOp
  by_cases h : o.rawStringUsed + bs.length ≤ o.rawStringSize <;> simp [h]

theorem copyStringValueOp_returnReaderNulls (o : OState) (bs : List Nat) :
    (copyStringValueOp o bs).1.returnReaderNulls = o.returnReaderNulls := by
  unfold copyStringValueOp
  by_cases h : o.rawStringUsed + bs.length ≤ o.rawStringSize <;> simp [h]

theorem copyStringValueOp_anyNulls (o : OState) (bs : List Nat) :
    (copyStringValueOp o bs).1.anyNulls = o.anyNulls := by
  unfold copyStringValueOp
  by_cases h : o.rawStringUsed + bs.length ≤ o.rawStringSize <;> simp [h]

theorem copyStringValueOp_numValues (o : OState) (bs : List Nat) :
    (copyStringValueOp o bs).1.numValues = o.numValues := by
  unfold copyStringValueOp
  by_cases h : o.rawStringUsed + bs.length ≤ o.rawStringSize <;> simp [h]

theorem copyStringValueOp_outer (o : OState) (bs : List Nat) :
    (copyStringValueOp o bs).1.outerNonNullRows = o.outerNonNullRows := by
  unfold copyStringValueOp
  by_cases h : o.rawStringUsed + bs.length ≤ o.rawStringSize <;> simp [h]

theorem memRead_append_right0 (xs ys : List Nat) (n : Nat) :
    memRead (xs ++ ys) xs.length n = memRead ys 0 n := by
  have h := memRead_append_right xs ys 0 n
  simpa using h

theorem memRead_front (xs ys : List Nat) (n : Nat) (h : n ≤ xs.length) :
    memRead (xs ++ ys) 0 n = memRead xs 0 n := memRead_append_left xs ys n h

theorem memRead_all_of_eq (bs : List Nat) (n : Nat) (h : n = bs.length) :
    memRead bs 0 n = bs := by
  subst h
  exact memRead_all bs

theorem writeStringViewAt_recordAt (o : OState) (j : Nat) (bs : List Nat)
    (hb : bs.length < 2 ^ 32) (hu : o.rawStringUsed < 2 ^ 64) :
    recordAt (writeStringViewAt o j bs).rawValues (writeStringViewAt o j bs).arena j =
      (bs.length, bs, if bs.length ≤ 12 then none else some o.rawStringUsed) := by
  by_cases h12 : bs.length ≤ 12
  · have hrec : (toLE 4 bs.length ++ bs ++ List.replicate (12 - bs.length) 0).length = 16 := by
      simp [toLE_length]; omega
    have hw : writeStringViewAt o j bs =
        { o with rawValues := storeBytes o.rawValues (16 * j) (toLE 4 bs.length ++ bs ++ List.replicate (12 - bs.length) 0) } := by
      simp only [writeStringViewAt]
      rw [if_pos h12]
    rw [hw]
    show recordAt (storeBytes o.rawValues (16 * j)
      (toLE 4 bs.length ++ bs ++ List.replicate (12 - bs.length) 0)) o.arena j = _
    simp only [recordAt]
    have h4 : memRead (storeBytes o.rawValues (16 * j)
        (toLE 4 bs.length ++ bs ++ List.replicate (12 - bs.length) 0)) (16 * j) 4 =
        toLE 4 bs.length := by
      rw [memRead_storeBytes_in _ _ _ _ _ (by omega) (by rw [hrec]; omega), Nat.sub_self]
      rw [List.append_assoc, memRead_front _ _ _ (by rw [toLE_length])]
      rw [memRead_all_of_eq _ _ (toLE_length 4 bs.length).symm]
    rw [h4, fromLE_toLE_mod, Nat.mod_eq_of_lt (by omega)]
    rw [if_pos h12]
    have hv : memRead (storeBytes o.rawValues (16 * j)
        (toLE 4 bs.length ++ bs ++ List.replicate (12 - bs.length) 0)) (16 * j + 4)
        bs.length = bs := by
      rw [memRead_storeBytes_in _ _ _ _ _ (by omega) (by rw [hrec]; omega)]
      rw [show 16 * j + 4 - 16 * j = (toLE 4 bs.length).length from by rw [toLE_length]; omega]
      rw [List.append_assoc, memRead_append_right0]
      rw [memRead_front _ _ _ (le_refl _), memRead_all]
    rw [hv]
    rw [if_pos h12]
  · have htk : (bs.take 4).length = 4 := by
      rw [List.length_take]; omega
    have hrec : (toLE 4 bs.length ++ bs.take 4 ++ toLE 8 o.rawStringUsed).length = 16 := by
      simp [toLE_length, htk]
    have hoff : (copyStringValueOp o bs).2 = o.rawStringUsed := copyStringValueOp_off o bs
    have hw : writeStringViewAt o j bs =
        { (copyStringValueOp o bs).1 with rawValues := storeBytes (copyStringValueOp o bs).1.rawValues (16 * j) (toLE 4 bs.length ++ bs.take 4 ++ toLE 8 o.rawStringUsed) } := by
      simp only [writeStringViewAt]
      rw [if_neg h12, hoff]
    rw [hw]
    show recordAt (storeBytes (copyStringValueOp o bs).1.rawValues (16 * j)
        (toLE 4 bs.length ++ bs.take 4 ++ toLE 8 o.rawStringUsed))
      (copyStringValueOp o bs).1.arena j = _
    simp only [recordAt]
    have h4 : memRead (storeBytes (copyStringValueOp o bs).1.rawValues (16 * j)
        (toLE 4 bs.length ++ bs.take 4 ++ toLE 8 o.rawStringUsed)) (16 * j) 4 =
        toLE 4 bs.length := by
      rw [memRead_storeBytes_in _ _ _ _ _ (by omega) (by rw [hrec]; omega), Nat.sub_self]
      rw [List.append_assoc, memRead_front _ _ _ (by rw [toLE_length])]
      rw [memRead_all_of_eq _ _ (toLE_length 4 bs.length).symm]
    rw [h4, fromLE_toLE_mod, Nat.mod_eq_of_lt (by omega)]
    rw [if_neg h12]
    have h8 : memRead (storeBytes (copyStringValueOp o bs).1.rawValues (16 * j)
        (toLE 4 bs.length ++ bs.take 4 ++ toLE 8 o.rawStringUsed)) (16 * j + 8) 8 =
        toLE 8 o.rawStringUsed := by
      rw [memRead_storeBytes_in _ _ _ _ _ (by omega) (by rw [hrec]; try omega)]
      rw [show 16 * j + 8 - 16 * j = (toLE 4 bs.length ++ bs.take 4).length from by
        simp [toLE_length, htk]]
      rw [memRead_append_right0]
      rw [memRead_all_of_eq _ _ (toLE_length 8 o.rawStringUsed).symm]
    rw [h8, fromLE_toLE_mod, Nat.mod_eq_of_lt (by omega)]
    rw [copyStringValueOp_arena_read o bs]
    rw [if_neg h12]

theorem writeStringViewAt_rawValues_frame (o : OState) (j : Nat) (bs : List Nat) :
    sameBelow o.rawValues (writeStringViewAt o j bs).rawValues (16 * j) := by
  simp only [writeStringViewAt]
  by_cases h12 : bs.length ≤ 12
  · rw [if_pos h12]
    exact sameBelow_storeBytes _ _ _ _ (le_refl _)
  · rw [if_neg h12]
    show sameBelow o.rawValues (storeBytes (copyStringValueOp o bs).1.rawValues (16 * j) _) _
    rw [copyStringValueOp_rawValues]
    exact sameBelow_storeBytes _ _ _ _ (le_refl _)

theorem writeStringViewAt_arena_frame (o : OState) (j : Nat) (bs : List Nat) :
    sameBelow o.arena (writeStringViewAt o j bs).arena o.rawStringUsed := by
  simp only [writeStringViewAt]
  by_cases h12 : bs.length ≤ 12
  · rw [if_pos h12]
    exact sameBelow_refl _ _
  · rw [if_neg h12]
    show sameBelow o.arena (copyStringValueOp o bs).1.arena _
    exact copyStringValueOp_arena_frame o bs

theorem writeStringViewAt_used (o : OState) (j : Nat) (bs : List Nat) :
    (writeStringViewAt o j bs).rawStringUsed =
      o.rawStringUsed + (if bs.length ≤ 12 then 0 else bs.length) := by
  simp only [writeStringViewAt]
  by_cases h12 : bs.length ≤ 12
  · rw [if_pos h12, if_pos h12]
    rfl
  · rw [if_neg h12, if_neg h12]
    show (copyStringValueOp o bs).1.rawStringUsed = _
    rw [copyStringValueOp_used]

theorem writeStringViewAt_numValues (o : OState) (j : Nat) (bs : List Nat) :
    (writeStringViewAt o j bs).numValues = o.numValues := by
  simp only [writeStringViewAt]
  by_cases h12 : bs.length ≤ 12
  · rw [if_pos h12]
  · rw [if_neg h12]
    show (copyStringValueOp o bs).1.numValues = _
    rw [copyStringValueOp_numValues]

theorem writeStringViewAt_resultNulls (o : OState) (j : Nat) (bs : List Nat) :
    (writeStringViewAt o j bs).resultNulls = o.resultNulls := by
  simp only [writeStringViewAt]
  by_cases h12 : bs.length ≤ 12
  · rw [if_pos h12]
  · rw [if_neg h12]
    show (copyStringValueOp o bs).1.resultNulls = _
    rw [copyStringValueOp_resultNulls]

theorem writeStringViewAt_anyNulls (o : OState) (j : Nat) (bs : List Nat) :
    (writeStringViewAt o j bs).anyNulls = o.anyNulls := by
  simp only [writeStringViewAt]
  by_cases h12 : bs.length ≤ 12
  · rw [if_pos h12]
  · rw [if_neg h12]
    show (copyStringValueOp o bs).1.anyNulls = _
    rw [copyStringValueOp_anyNulls]

theorem writeStringViewAt_returnReaderNulls (o : OState) (j : Nat) (bs : List Nat) :
    (writeStringViewAt o j bs).returnReaderNulls = o.returnReaderNulls := by
  simp only [writeStringViewAt]
  by_cases h12 : bs.length ≤ 12
  · rw [if_pos h12]
  · rw [if_neg h12]
    show (copyStringValueOp o bs).1.returnReaderNulls = _
    rw [copyStringValueOp_returnReaderNulls]

theorem writeStringViewAt_outer (o : OState) (j : Nat) (bs : List Nat) :
    (writeStringViewAt o j bs).outerNonNullRows = o.outerNonNullRows := by
  simp only [writeStringViewAt]
  by_cases h12 : bs.length ≤ 12
  · rw [if_pos h12]
  · rw [if_neg h12]
    show (copyStringValueOp o bs).1.outerNonNullRows = _
    rw [copyStringValueOp_outer]

theorem recordAt_stable (rv1 rv2 ar1 ar2 : List Nat) (j B : Nat)
    (hrv : sameBelow rv1 rv2 (16 * j + 16))
    (har : sameBelow ar1 ar2 B)
    (hB : ∀ off, (recordAt rv1 ar1 j).2.2 = some off → off + (recordAt rv1 ar1 j).1 ≤ B) :
    recordAt rv2 ar2 j = recordAt rv1 ar1 j := by
  have h4 : memRead rv2 (16 * j) 4 = memRead rv1 (16 * j) 4 :=
    memRead_sameBelow _ _ _ _ _ hrv (by omega)
  simp only [recordAt]
  rw [h4]
  by_cases h12 : fromLE (memRead rv1 (16 * j) 4) ≤ 12
  · rw [if_pos h12, if_pos h12]
    have hv : memRead rv2 (16 * j + 4) (fromLE (memRead rv1 (16 * j) 4)) =
        memRead rv1 (16 * j + 4) (fromLE (memRead rv1 (16 * j) 4)) :=
      memRead_sameBelow _ _ _ _ _ hrv (by omega)
    rw [hv]
  · rw [if_neg h12, if_neg h12]
    have h8 : memRead rv2 (16 * j + 8) 8 = memRead rv1 (16 * j + 8) 8 :=
      memRead_sameBelow _ _ _ _ _ hrv (by omega)
    rw [h8]
    have hsome : (recordAt rv1 ar1 j).2.2 = some (fromLE (memRead rv1 (16 * j + 8) 8)) := by
      simp [recordAt, h12]
    have hoff := hB _ hsome
    have hlen : (recordAt rv1 ar1 j).1 = fromLE (memRead rv1 (16 * j) 4) := by
      simp [recordAt, h12]
    rw [hlen] at hoff
    have hv : memRead ar2 (fromLE (memRead rv1 (16 * j + 8) 8))
        (fromLE (memRead rv1 (16 * j) 4)) =
        memRead ar1 (fromLE (memRead rv1 (16 * j + 8) 8))
        (fromLE (memRead rv1 (16 * j) 4)) :=
      memRead_sameBelow _ _ _ _ _ har (by omega)
    rw [hv]

theorem addValue_recordAt (o : OState) (bs : List Nat)
    (hb : bs.length < 2 ^ 32) (hu : o.rawStringUsed < 2 ^ 64) :
    recordAt (addValue o bs).rawValues (addValue o bs).arena o.numValues =
      (bs.length, bs, if bs.length ≤ 12 then none else some o.rawStringUsed) := by
  show recordAt (writeStringViewAt o o.numValues bs).rawValues
    (writeStringViewAt o o.numValues bs).arena o.numValues = _
  exact writeStringViewAt_recordAt o o.numValues bs hb hu

theorem addValue_numValues (o : OState) (bs : List Nat) :
    (addValue o bs).numValues = o.numValues + 1 := by
  show (writeStringViewAt o o.numValues bs).numValues + 1 = _
  rw [writeStringViewAt_numValues]

theorem readValue_run (blob : List Nat) (sched : Nat → Nat) (c : CState) (n : Nat)
    (hinv : c.pos + c.winLen ≤ blob.length)
    (hn : c.pos + c.toSkip + n ≤ blob.length) :
    ∃ c', readValue blob sched c n = some (blobSlice blob (c.pos + c.toSkip) n, c') ∧
      c'.pos + c'.toSkip = c.pos + c.toSkip + n ∧
      c'.pos + c'.winLen ≤ blob.length ∧
      c'.rawLengths = c.rawLengths ∧ c'.lengthIndex = c.lengthIndex ∧
      c'.lenStream = c.lenStream := by
  unfold readValue
  have hp : (flushSkip c).pos = c.pos + c.toSkip := by simp
  have hw : (flushSkip c).winLen = c.winLen - c.toSkip := by simp
  by_cases hz : n ≤ (flushSkip c).winLen
  · rw [if_pos hz]
    refine ⟨_, by rw [hp], rfl, ?_, by simp, by simp, by simp⟩
    show c.pos + c.toSkip + (flushSkip c).winLen ≤ blob.length
    rw [hw]
    omega
  · rw [if_neg hz]
    obtain ⟨c2, e, hpos, hinv2, h3, h4, h5, h6, h7, h8⟩ :=
      readBytesAux_spec blob sched n (flushSkip c)
        (by rw [hp, hw]; omega) (by rw [hp]; omega)
    rw [e]
    have h3' : c2.toSkip = 0 := by rw [h3, flushSkip_toSkip]
    refine ⟨_, by rw [hp], ?_, ?_, ?_, ?_, ?_⟩
    · show c2.pos + c2.toSkip = c.pos + c.toSkip + n
      rw [hpos, h3', hp]
      omega
    · show c2.pos + c2.winLen ≤ blob.length
      exact hinv2
    · show c2.rawLengths = c.rawLengths
      rw [h4, flushSkip_rawLengths]
    · show c2.lengthIndex = c.lengthIndex
      rw [h5, flushSkip_lengthIndex]
    · show c2.lenStream = c.lenStream
      rw [h8, flushSkip_lenStream]

theorem spillPart_zero (lengths : List Nat) (i : Nat) : spillPart lengths i 0 = 0 := rfl

theorem spillPart_succ (lengths : List Nat) (i t : Nat) :
    spillPart lengths i (t + 1) = spillPart lengths i t +
      (if 12 < lengths.getD (i + t) 0 then lengths.getD (i + t) 0 else 0) := by
  unfold spillPart
  rw [List.range_succ, List.map_append, List.sum_append]
  simp

theorem spillPart_front (lengths : List Nat) (i : Nat) :
    ∀ t, spillPart lengths i (t + 1) =
      (if 12 < lengths.getD i 0 then lengths.getD i 0 else 0) + spillPart lengths (i + 1) t := by
  intro t
  induction t with
  | zero =>
    rw [spillPart_succ, spillPart_zero, spillPart_zero, Nat.zero_add, Nat.add_zero,
      Nat.add_zero]
  | succ t ih =>
    rw [spillPart_succ, ih, spillPart_succ]
    have e : i + (t + 1) = i + 1 + t := by omega
    rw [e, Nat.add_assoc]

theorem spillPart_mono (lengths : List Nat) (i : Nat) :
    ∀ k t, t ≤ k → spillPart lengths i t ≤ spillPart lengths i k := by
  intro k
  induction k with
  | zero =>
    intro t ht
    have he : t = 0 := by omega
    subst he
    exact le_refl _
  | succ k ih =>
    intro t ht
    by_cases he : t = k + 1
    · subst he
      exact le_refl _
    · have h1 := ih t (by omega)
      rw [spillPart_succ]
      omega

theorem chain_lt (f : Nat → Nat) (n : Nat) (h : ∀ t, t + 1 < n → f t < f (t + 1)) :
    ∀ a b, a < b → b < n → f a < f b := by
  intro a b
  induction b with
  | zero => intro h1 _; omega
  | succ b ih =>
    intro hab hbn
    have hb : f b < f (b + 1) := h b hbn
    by_cases h' : a < b
    · exact lt_trans (ih h' (by omega)) hb
    · have he : a = b := by omega
      subst he
      exact hb

theorem addValue_resultNulls (o : OState) (bs : List Nat) :
    (addValue o bs).resultNulls = o.resultNulls := by
  show (writeStringViewAt o o.numValues bs).resultNulls = o.resultNulls
  exact writeStringViewAt_resultNulls _ _ _

theorem addValue_returnReaderNulls (o : OState) (bs : List Nat) :
    (addValue o bs).returnReaderNulls = o.returnReaderNulls := by
  show (writeStringViewAt o o.numValues bs).returnReaderNulls = o.returnReaderNulls
  exact writeStringViewAt_returnReaderNulls _ _ _

theorem addValue_anyNulls (o : OState) (bs : List Nat) :
    (addValue o bs).anyNulls = o.anyNulls := by
  show (writeStringViewAt o o.numValues bs).anyNulls = o.anyNulls
  exact writeStringViewAt_anyNulls _ _ _

theorem addValue_outer (o : OState) (bs : List Nat) :
    (addValue o bs).outerNonNullRows = o.outerNonNullRows := by
  show (writeStringViewAt o o.numValues bs).outerNonNullRows = o.outerNonNullRows
  exact writeStringViewAt_outer _ _ _

theorem addValue_used (o : OState) (bs : List Nat) :
    (addValue o bs).rawStringUsed =
      o.rawStringUsed + (if bs.length ≤ 12 then 0 else bs.length) := by
  show (writeStringViewAt o o.numValues bs).rawStringUsed = _
  exact writeStringViewAt_used _ _ _

theorem addValue_rawValues_frame (o : OState) (bs : List Nat) :
    sameBelow o.rawValues (addValue o bs).rawValues (16 * o.numValues) := by
  show sameBelow o.rawValues (writeStringViewAt o o.numValues bs).rawValues _
  exact writeStringViewAt_rawValues_frame _ _ _

theorem addValue_arena_frame (o : OState) (bs : List Nat) :
    sameBelow o.arena (addValue o bs).arena o.rawStringUsed := by
  show sameBelow o.arena (writeStringViewAt o o.numValues bs).arena _
  exact writeStringViewAt_arena_frame _ _ _

theorem extractCBLoop_spec (blob : List Nat) (sched : Nat → Nat)
    (lengths starts outer : List Nat) (scatter : Bool) (rowIndex wbase : Nat) (base : Nat) :
    ∀ (k i current : Nat) (c : CState) (o : OState),
    c.pos + c.toSkip = base + current →
    c.pos + c.winLen ≤ blob.length →
    (scatter = false → o.numValues = wbase + i) →
    (0 < k → current ≤ starts.getD i 0) →
    (∀ t, t + 1 < k →
      starts.getD (i + t) 0 + lengths.getD (i + t) 0 ≤ starts.getD (i + t + 1) 0) →
    (∀ t, t < k → base + starts.getD (i + t) 0 + lengths.getD (i + t) 0 ≤ blob.length) →
    (∀ t, t + 1 < k → cbPos scatter outer rowIndex wbase (i + t) <
        cbPos scatter outer rowIndex wbase (i + t + 1)) →
    (∀ t, t < k → lengths.getD (i + t) 0 < 2 ^ 32) →
    o.rawStringUsed + spillPart lengths i k < 2 ^ 64 →
    ∃ c' o', extractCBLoop blob sched lengths starts outer scatter rowIndex k i current c o =
        some (c', o') ∧
      c'.pos + c'.toSkip = base + (if k = 0 then current
        else starts.getD (i + k - 1) 0 + lengths.getD (i + k - 1) 0) ∧
      c'.pos + c'.winLen ≤ blob.length ∧
      c'.rawLengths = c.rawLengths ∧ c'.lengthIndex = c.lengthIndex ∧
      c'.lenStream = c.lenStream ∧
      o'.numValues = o.numValues + (if scatter then 0 else k) ∧
      o'.rawStringUsed = o.rawStringUsed + spillPart lengths i k ∧
      o'.resultNulls = o.resultNulls ∧ o'.returnReaderNulls = o.returnReaderNulls ∧
      o'.anyNulls = o.anyNulls ∧ o'.outerNonNullRows = o.outerNonNullRows ∧
      (∀ B, (∀ t, t < k → B ≤ 16 * cbPos scatter outer rowIndex wbase (i + t)) →
        sameBelow o.rawValues o'.rawValues B) ∧
      sameBelow o.arena o'.arena o.rawStringUsed ∧
      (∀ t, t < k →
        recordAt o'.rawValues o'.arena (cbPos scatter outer rowIndex wbase (i + t)) =
          (lengths.getD (i + t) 0,
           blobSlice blob (base + starts.getD (i + t) 0) (lengths.getD (i + t) 0),
           if lengths.getD (i + t) 0 ≤ 12 then none
           else some (o.rawStringUsed + spillPart lengths i t))) := by
  intro k
  induction k with
  | zero =>
    intro i current c o hcur hwin _ _ _ _ _ _ _
    exact ⟨c, o, rfl, by simpa using hcur, hwin, rfl, rfl, rfl,
      by simp, by simp [spillPart_zero], rfl, rfl, rfl, rfl,
      fun B _ => sameBelow_refl _ _, sameBelow_refl _ _, fun t ht => absurd ht (by omega)⟩
  | succ k ih =>
    intro i current c o hcur hwin hnum hfirst hstep hbound hmono hlen32 hu64
    have hc0 : current ≤ starts.getD i 0 := hfirst (by omega)
    have hb0 : base + starts.getD i 0 + lengths.getD i 0 ≤ blob.length := by
      have h := hbound 0 (by omega)
      rw [Nat.add_zero] at h
      exact h
    have hl0 : lengths.getD i 0 < 2 ^ 32 := by
      have h := hlen32 0 (by omega)
      rw [Nat.add_zero] at h
      exact h
    have hcur1 : ({ c with toSkip := c.toSkip + (starts.getD i 0 - current) } : CState).pos +
        ({ c with toSkip := c.toSkip + (starts.getD i 0 - current) } : CState).toSkip =
        base + starts.getD i 0 := by
      show c.pos + (c.toSkip + (starts.getD i 0 - current)) = base + starts.getD i 0
      omega
    obtain ⟨c2, e, hsum2, hwin2, hrl2, hli2, hls2⟩ :=
      readValue_run blob sched { c with toSkip := c.toSkip + (starts.getD i 0 - current) }
        (lengths.getD i 0)
        (by show c.pos + c.winLen ≤ blob.length; exact hwin)
        (by show c.pos + (c.toSkip + (starts.getD i 0 - current)) + lengths.getD i 0 ≤
              blob.length
            omega)
    rw [hcur1] at e
    have hsum2' : c2.pos + c2.toSkip = base + starts.getD i 0 + lengths.getD i 0 := by
      rw [hsum2, hcur1]
    have hrl2' : c2.rawLengths = c.rawLengths := hrl2
    have hli2' : c2.lengthIndex = c.lengthIndex := hli2
    have hls2' : c2.lenStream = c.lenStream := hls2
    have hvlen : (blobSlice blob (base + starts.getD i 0) (lengths.getD i 0)).length =
        lengths.getD i 0 := by
      rw [blobSlice_length]
      omega
    have huse : o.rawStringUsed < 2 ^ 64 := by
      have := spillPart_mono lengths i (k + 1) 0 (by omega)
      rw [spillPart_zero] at this
      omega
    rw [show extractCBLoop blob sched lengths starts outer scatter rowIndex (k + 1) i
          current c o =
        (match readValue blob sched
            { c with toSkip := c.toSkip + (starts.getD i 0 - current) }
            (lengths.getD i 0) with
          | none => none
          | some (value, c3) =>
            extractCBLoop blob sched lengths starts outer scatter rowIndex k (i + 1)
              (current + lengths.getD i 0 + (starts.getD i 0 - current)) c3
              (if !scatter then addValue o value
               else writeStringViewAt o (outer.getD (rowIndex + i) 0) value)) from rfl]
    rw [e]
    show ∃ c' o', extractCBLoop blob sched lengths starts outer scatter rowIndex k (i + 1)
        (current + lengths.getD i 0 + (starts.getD i 0 - current)) c2
        (if !scatter then addValue o (blobSlice blob (base + starts.getD i 0)
            (lengths.getD i 0))
         else writeStringViewAt o (outer.getD (rowIndex + i) 0)
            (blobSlice blob (base + starts.getD i 0) (lengths.getD i 0))) =
        some (c', o') ∧ _
    set value := blobSlice blob (base + starts.getD i 0) (lengths.getD i 0) with hvdef
    set o1 := (if !scatter then addValue o value
      else writeStringViewAt o (outer.getD (rowIndex + i) 0) value) with ho1def
    have hj0 : cbPos scatter outer rowIndex wbase i =
        (if scatter then outer.getD (rowIndex + i) 0 else wbase + i) := rfl
    have ho1numInc : o1.numValues = o.numValues + (if scatter then 0 else 1) := by
      rw [ho1def]
      cases scatter with
      | false => exact addValue_numValues o value
      | true => exact writeStringViewAt_numValues o _ value
    have ho1used : o1.rawStringUsed = o.rawStringUsed +
        (if 12 < lengths.getD i 0 then lengths.getD i 0 else 0) := by
      rw [ho1def]
      cases scatter with
      | false =>
        show (addValue o value).rawStringUsed = _
        rw [addValue_used, hvlen]
        by_cases h12 : lengths.getD i 0 ≤ 12
        · rw [if_pos h12, if_neg (by omega)]
        · rw [if_neg h12, if_pos (by omega)]
      | true =>
        show (writeStringViewAt o (outer.getD (rowIndex + i) 0) value).rawStringUsed = _
        rw [writeStringViewAt_used, hvlen]
        by_cases h12 : lengths.getD i 0 ≤ 12
        · rw [if_pos h12, if_neg (by omega)]
        · rw [if_neg h12, if_pos (by omega)]
    have ho1res : o1.resultNulls = o.resultNulls := by
      rw [ho1def]
      cases scatter with
      | false => exact addValue_resultNulls o value
      | true => exact writeStringViewAt_resultNulls _ _ _
    have ho1ret : o1.returnReaderNulls = o.returnReaderNulls := by
      rw [ho1def]
      cases scatter with
      | false => exact addValue_returnReaderNulls o value
      | true => exact writeStringViewAt_returnReaderNulls _ _ _
    have ho1any : o1.anyNulls = o.anyNulls := by
      rw [ho1def]
      cases scatter with
      | false => exact addValue_anyNulls o value
      | true => exact writeStringViewAt_anyNulls _ _ _
    have ho1out : o1.outerNonNullRows = o.outerNonNullRows := by
      rw [ho1def]
      cases scatter with
      | false => exact addValue_outer o value
      | true => exact writeStringViewAt_outer _ _ _
    have ho1rec : recordAt o1.rawValues o1.arena (cbPos scatter outer rowIndex wbase i) =
        (lengths.getD i 0, value,
         if lengths.getD i 0 ≤ 12 then none else some o.rawStringUsed) := by
      rw [ho1def, hj0]
      cases scatter with
      | false =>
        rw [← hnum rfl]
        have h := addValue_recordAt o value (by rw [hvlen]; exact hl0) huse
        rw [hvlen] at h
        exact h
      | true =>
        have h := writeStringViewAt_recordAt o (outer.getD (rowIndex + i) 0) value
          (by rw [hvlen]; exact hl0) huse
        rw [hvlen] at h
        exact h
    have ho1rv : sameBelow o.rawValues o1.rawValues
        (16 * cbPos scatter outer rowIndex wbase i) := by
      rw [ho1def, hj0]
      cases scatter with
      | false =>
        rw [← hnum rfl]
        exact addValue_rawValues_frame o value
      | true =>
        exact writeStringViewAt_rawValues_frame _ _ _
    have ho1ar : sameBelow o.arena o1.arena o.rawStringUsed := by
      rw [ho1def]
      cases scatter with
      | false => exact addValue_arena_frame o value
      | true => exact writeStringViewAt_arena_frame _ _ _
    obtain ⟨c', o', eIH, hsumF, hwinF, hrlF, hliF, hlsF, hnumF, husedF, hresF, hretF,
        hanyF, houtF, hrvF, harF, hrecF⟩ :=
      ih (i + 1) (current + lengths.getD i 0 + (starts.getD i 0 - current)) c2 o1
        (by rw [hsum2']; omega)
        hwin2
        (by intro hs; rw [ho1numInc, hnum hs, hs]; simp; omega)
        (by intro hk
            have h := hstep 0 (by omega)
            rw [Nat.add_zero] at h
            omega)
        (by intro t ht
            have h := hstep (t + 1) (by omega)
            have e1 : i + (t + 1) = i + 1 + t := by omega
            rw [e1] at h
            exact h)
        (by intro t ht
            have h := hbound (t + 1) (by omega)
            have e1 : i + (t + 1) = i + 1 + t := by omega
            rw [e1] at h
            exact h)
        (by intro t ht
            have h := hmono (t + 1) (by omega)
            have e1 : i + (t + 1) = i + 1 + t := by omega
            rw [e1] at h
            exact h)
        (by intro t ht
            have h := hlen32 (t + 1) (by omega)
            have e1 : i + (t + 1) = i + 1 + t := by omega
            rw [e1] at h
            exact h)
        (by rw [ho1used]
            have h := spillPart_front lengths i k
            omega)
    refine ⟨c', o', eIH, ?_, hwinF, ?_, ?_, ?_, ?_, ?_, hresF.trans ho1res,
      hretF.trans ho1ret, hanyF.trans ho1any, houtF.trans ho1out, ?_, ?_, ?_⟩
    · rw [if_neg (Nat.succ_ne_zero k)]
      by_cases hk : k = 0
      · rw [if_pos hk] at hsumF
        subst hk
        have e1 : i + (0 + 1) - 1 = i := by omega
        rw [e1]
        omega
      · rw [if_neg hk] at hsumF
        have e1 : i + 1 + k - 1 = i + (k + 1) - 1 := by omega
        rw [e1] at hsumF
        exact hsumF
    · exact hrlF.trans hrl2'
    · exact hliF.trans hli2'
    · exact hlsF.trans hls2'
    · rw [hnumF, ho1numInc]
      cases scatter with
      | false => simp; omega
      | true => simp
    · rw [husedF, ho1used]
      have h := spillPart_front lengths i k
      omega
    · intro B hB
      have h0 : B ≤ 16 * cbPos scatter outer rowIndex wbase i := by
        have h := hB 0 (by omega)
        rw [Nat.add_zero] at h
        exact h
      refine sameBelow_trans _ o1.rawValues _ _ (sameBelow_mono _ _ _ _ ho1rv h0) ?_
      refine hrvF B ?_
      intro t ht
      have h := hB (t + 1) (by omega)
      have e1 : i + (t + 1) = i + 1 + t := by omega
      rw [e1] at h
      exact h
    · refine sameBelow_trans _ o1.arena _ _ ho1ar ?_
      refine sameBelow_mono _ _ _ _ harF ?_
      rw [ho1used]
      omega
    · intro t ht
      cases t with
      | zero =>
        rw [Nat.add_zero, spillPart_zero, Nat.add_zero]
        have hchain : ∀ s, s < k →
            16 * cbPos scatter outer rowIndex wbase i + 16 ≤
              16 * cbPos scatter outer rowIndex wbase (i + 1 + s) := by
          intro s hs
          have h : cbPos scatter outer rowIndex wbase (i + 0) <
              cbPos scatter outer rowIndex wbase (i + (s + 1)) :=
            chain_lt (fun t => cbPos scatter outer rowIndex wbase (i + t)) (k + 1)
              (fun t htk => hmono t htk) 0 (s + 1) (by omega) (by omega)
          have e1 : i + 0 = i := by omega
          have e2 : i + (s + 1) = i + 1 + s := by omega
          rw [e1, e2] at h
          omega
        have hstab := recordAt_stable o1.rawValues o'.rawValues o1.arena o'.arena
          (cbPos scatter outer rowIndex wbase i) o1.rawStringUsed
          (by refine hrvF _ ?_
              intro s hs
              exact hchain s hs)
          harF
          (by intro off hoff
              have h2 : (recordAt o1.rawValues o1.arena
                  (cbPos scatter outer rowIndex wbase i)).2.2 =
                  (if lengths.getD i 0 ≤ 12 then none else some o.rawStringUsed) := by
                rw [ho1rec]
              have h1 : (recordAt o1.rawValues o1.arena
                  (cbPos scatter outer rowIndex wbase i)).1 = lengths.getD i 0 := by
                rw [ho1rec]
              rw [h2] at hoff
              rw [h1, ho1used]
              by_cases h12 : lengths.getD i 0 ≤ 12
              · rw [if_pos h12] at hoff
                exact absurd hoff (by simp)
              · rw [if_neg h12] at hoff
                have he : off = o.rawStringUsed := (Option.some.inj hoff).symm
                subst he
                rw [if_pos (by omega)])
        rw [hstab, ho1rec]
      | succ s =>
        have h := hrecF s (by omega)
        have e1 : i + 1 + s = i + (s + 1) := by omega
        rw [e1] at h
        have e2 : o.rawStringUsed + spillPart lengths i (s + 1) =
            o1.rawStringUsed + spillPart lengths (i + 1) s := by
          rw [ho1used, spillPart_front]
          omega
        rw [h, e2]

theorem extractCrossBuffers_spec (blob : List Nat) (sched : Nat → Nat)
    (lengths starts : List Nat) (rowIndex numValues : Nat) (c : CState) (o : OState)
    (hk : 0 < numValues)
    (hwin : c.pos + c.winLen ≤ blob.length)
    (hstep : ∀ t, t + 1 < numValues →
      starts.getD t 0 + lengths.getD t 0 ≤ starts.getD (t + 1) 0)
    (hbound : ∀ t, t < numValues →
      c.pos + c.toSkip + starts.getD t 0 + lengths.getD t 0 ≤ blob.length)
    (hmono : ∀ t, t + 1 < numValues →
      cbPos (!o.outerNonNullRows.isEmpty) o.outerNonNullRows rowIndex o.numValues t <
      cbPos (!o.outerNonNullRows.isEmpty) o.outerNonNullRows rowIndex o.numValues (t + 1))
    (hlen32 : ∀ t, t < numValues → lengths.getD t 0 < 2 ^ 32)
    (hu64 : o.rawStringUsed + spillPart lengths 0 numValues < 2 ^ 64) :
    ∃ c' o', extractCrossBuffers blob sched lengths starts rowIndex numValues c o =
        some (c', o') ∧
      c'.pos = c.pos + c.toSkip + starts.getD (numValues - 1) 0 +
        lengths.getD (numValues - 1) 0 ∧
      c'.toSkip = 0 ∧ c'.pos + c'.winLen ≤ blob.length ∧
      c'.rawLengths = c.rawLengths ∧ c'.lengthIndex = c.lengthIndex ∧
      c'.lenStream = c.lenStream ∧
      o'.numValues = cbPos (!o.outerNonNullRows.isEmpty) o.outerNonNullRows rowIndex
        o.numValues (numValues - 1) + 1 ∧
      o'.rawStringUsed = o.rawStringUsed + spillPart lengths 0 numValues ∧
      o'.resultNulls = o.resultNulls ∧ o'.returnReaderNulls = o.returnReaderNulls ∧
      o'.anyNulls = o.anyNulls ∧ o'.outerNonNullRows = o.outerNonNullRows ∧
      (∀ B, (∀ t, t < numValues → B ≤ 16 * cbPos (!o.outerNonNullRows.isEmpty)
          o.outerNonNullRows rowIndex o.numValues t) →
        sameBelow o.rawValues o'.rawValues B) ∧
      sameBelow o.arena o'.arena o.rawStringUsed ∧
      (∀ t, t < numValues →
        recordAt o'.rawValues o'.arena (cbPos (!o.outerNonNullRows.isEmpty)
            o.outerNonNullRows rowIndex o.numValues t) =
          (lengths.getD t 0,
           blobSlice blob (c.pos + c.toSkip + starts.getD t 0) (lengths.getD t 0),
           if lengths.getD t 0 ≤ 12 then none
           else some (o.rawStringUsed + spillPart lengths 0 t))) := by
  obtain ⟨c1, o1, eL, hsum1, hwin1, hrl1, hli1, hls1, hnum1, hused1, hres1, hret1,
      hany1, hout1, hrv1, har1, hrec1⟩ :=
    extractCBLoop_spec blob sched lengths starts o.outerNonNullRows
      (!o.outerNonNullRows.isEmpty) rowIndex o.numValues (c.pos + c.toSkip)
      numValues 0 0 c o
      (by omega)
      hwin
      (by intro hs; omega)
      (fun _ => Nat.zero_le _)
      (by intro t ht
          rw [Nat.zero_add]
          exact hstep t ht)
      (by intro t ht
          rw [Nat.zero_add]
          have h := hbound t ht
          omega)
      (by intro t ht
          rw [Nat.zero_add]
          exact hmono t ht)
      (by intro t ht
          rw [Nat.zero_add]
          exact hlen32 t ht)
      hu64
  rw [if_neg (by omega)] at hsum1
  have e1 : 0 + numValues - 1 = numValues - 1 := by omega
  rw [e1] at hsum1
  simp only [extractCrossBuffers]
  rw [eL]
  have hlast : c.pos + c.toSkip + starts.getD (numValues - 1) 0 +
      lengths.getD (numValues - 1) 0 ≤ blob.length := hbound (numValues - 1) (by omega)
  refine ⟨_, _, rfl, ?_, rfl, ?_, ?_, ?_, ?_, ?_, ?_, ?_, ?_, ?_, ?_, ?_, ?_, ?_⟩
  · show (skipBytesOp c1 c1.toSkip).pos = _
    rw [skipBytesOp_pos]
    omega
  · show (skipBytesOp c1 c1.toSkip).pos + (skipBytesOp c1 c1.toSkip).winLen ≤ blob.length
    rw [skipBytesOp_pos, skipBytesOp_winLen]
    omega
  · show (skipBytesOp c1 c1.toSkip).rawLengths = c.rawLengths
    rw [skipBytesOp_rawLengths]
    exact hrl1
  · show (skipBytesOp c1 c1.toSkip).lengthIndex = c.lengthIndex
    rw [skipBytesOp_lengthIndex]
    exact hli1
  · show (skipBytesOp c1 c1.toSkip).lenStream = c.lenStream
    rw [skipBytesOp_lenStream]
    exact hls1
  · cases hsc : o.outerNonNullRows.isEmpty with
    | true =>
      rw [hsc] at hnum1
      have h1 : o1.numValues = o.numValues + numValues := by
        rw [hnum1]
        simp
      show o1.numValues = o.numValues + (numValues - 1) + 1
      omega
    | false =>
      show o1.outerNonNullRows.getD (rowIndex + numValues - 1) 0 + 1 =
        cbPos (!false) o.outerNonNullRows rowIndex o.numValues (numValues - 1) + 1
      rw [hout1]
      show o.outerNonNullRows.getD (rowIndex + numValues - 1) 0 + 1 =
        o.outerNonNullRows.getD (rowIndex + (numValues - 1)) 0 + 1
      have e2 : rowIndex + numValues - 1 = rowIndex + (numValues - 1) := by omega
      rw [e2]
  · cases hsc : o.outerNonNullRows.isEmpty with
    | true =>
      show o1.rawStringUsed = _
      exact hused1
    | false =>
      show o1.rawStringUsed = _
      exact hused1
  · cases hsc : o.outerNonNullRows.isEmpty with
    | true => exact hres1
    | false => exact hres1
  · cases hsc : o.outerNonNullRows.isEmpty with
    | true => exact hret1
    | false => exact hret1
  · cases hsc : o.outerNonNullRows.isEmpty with
    | true => exact hany1
    | false => exact hany1
  · cases hsc : o.outerNonNullRows.isEmpty with
    | true => exact hout1
    | false => exact hout1
  · intro B hB
    have h := hrv1 B (by
      intro t ht
      rw [Nat.zero_add]
      exact hB t ht)
    cases hsc : o.outerNonNullRows.isEmpty with
    | true => exact h
    | false => exact h
  · cases hsc : o.outerNonNullRows.isEmpty with
    | true => exact har1
    | false => exact har1
  · intro t ht
    have h := hrec1 t ht
    rw [Nat.zero_add] at h
    cases hsc : o.outerNonNullRows.isEmpty with
    | true =>
      rw [hsc] at h
      exact h
    | false =>
      rw [hsc] at h
      exact h

theorem recordAt_store_inline (mem arena : List Nat) (j len : Nat) (val : List Nat)
    (hv : val.length = len) (h12 : len ≤ 12) :
    recordAt (storeBytes mem (16 * j) (toLE 4 len ++ val ++ List.replicate (12 - len) 0))
        arena j = (len, val, none) := by
  have hrec : (toLE 4 len ++ val ++ List.replicate (12 - len) 0).length = 16 := by
    simp [toLE_length, hv]
    omega
  simp only [recordAt]
  have h4 : memRead (storeBytes mem (16 * j)
      (toLE 4 len ++ val ++ List.replicate (12 - len) 0)) (16 * j) 4 = toLE 4 len := by
    rw [memRead_storeBytes_in _ _ _ _ _ (by omega) (by rw [hrec]; omega), Nat.sub_self]
    rw [List.append_assoc, memRead_front _ _ _ (by rw [toLE_length])]
    rw [memRead_all_of_eq _ _ (toLE_length 4 len).symm]
  rw [h4, fromLE_toLE_mod, Nat.mod_eq_of_lt (by omega)]
  rw [if_pos h12]
  have hval : memRead (storeBytes mem (16 * j)
      (toLE 4 len ++ val ++ List.replicate (12 - len) 0)) (16 * j + 4) len = val := by
    rw [memRead_storeBytes_in _ _ _ _ _ (by omega) (by rw [hrec]; omega)]
    rw [show 16 * j + 4 - 16 * j = (toLE 4 len).length from by rw [toLE_length]; omega]
    rw [List.append_assoc, memRead_append_right0]
    rw [memRead_front _ _ _ (by omega), memRead_all_of_eq _ _ hv.symm]
  rw [hval]

theorem try8SmallWrites_spec (blob outer : List Nat) (kScatter kGt4 : Bool)
    (dataPos : Nat) (off : List Nat) (startRow numValues0 : Nat) (arena : List Nat)
    (hmonoJ : ∀ t, t + 1 < 8 → cbPos kScatter outer startRow numValues0 t <
      cbPos kScatter outer startRow numValues0 (t + 1))
    (hoffm : ∀ t, t < 8 → off.getD t 0 ≤ off.getD (t + 1) 0)
    (h12 : ∀ t, t < 8 → off.getD (t + 1) 0 - off.getD t 0 ≤ 12)
    (hgt : kGt4 = false → ∀ t, t < 8 → off.getD (t + 1) 0 - off.getD t 0 ≤ 4)
    (hbound : ∀ t, t < 8 → dataPos + off.getD t 0 + 12 ≤ blob.length)
    (h256 : ∀ b ∈ blob, b < 256) :
    ∀ n, n ≤ 8 → ∀ mem,
    (∀ B, (∀ t, t < n → B ≤ 16 * cbPos kScatter outer startRow numValues0 t) →
      sameBelow mem (try8SmallWrites blob outer kScatter kGt4 dataPos off startRow
        numValues0 n mem) B) ∧
    (∀ t, t < n →
      recordAt (try8SmallWrites blob outer kScatter kGt4 dataPos off startRow
          numValues0 n mem) arena (cbPos kScatter outer startRow numValues0 t) =
        (off.getD (t + 1) 0 - off.getD t 0,
         blobSlice blob (dataPos + off.getD t 0) (off.getD (t + 1) 0 - off.getD t 0),
         none)) := by
  intro n
  induction n with
  | zero =>
    intro _ mem
    exact ⟨fun B _ => sameBelow_refl _ _, fun t ht => absurd ht (by omega)⟩
  | succ n ih =>
    intro hn mem
    obtain ⟨ihF, ihR⟩ := ih (by omega) mem
    have hj : (if kScatter then outer.getD (startRow + n) 0 else numValues0 + n) =
        cbPos kScatter outer startRow numValues0 n := rfl
    have hlenn : (blobSlice blob (dataPos + off.getD n 0)
        (off.getD (n + 1) 0 - off.getD n 0)).length = off.getD (n + 1) 0 - off.getD n 0 := by
      rw [blobSlice_length]
      have := hbound n (by omega)
      have := h12 n (by omega)
      omega
    have hbytes := smallRecordW_bytes blob dataPos off kGt4 n
      (off.getD (n + 1) 0 - off.getD n 0) rfl (h12 n (by omega))
      (fun hf => hgt hf n (by omega)) (hbound n (by omega)) h256
    have hstep : try8SmallWrites blob outer kScatter kGt4 dataPos off startRow
        numValues0 (n + 1) mem =
        storeBytes (try8SmallWrites blob outer kScatter kGt4 dataPos off startRow
            numValues0 n mem)
          (16 * cbPos kScatter outer startRow numValues0 n)
          (toLE 8 (smallRecordW blob dataPos off kGt4 n).1 ++
           toLE 8 (smallRecordW blob dataPos off kGt4 n).2) := rfl
    constructor
    · intro B hB
      rw [hstep]
      refine sameBelow_trans _ _ _ _ (ihF B (fun t ht => hB t (by omega))) ?_
      exact sameBelow_storeBytes _ _ _ _ (hB n (by omega))
    · intro t ht
      by_cases hte : t = n
      · subst hte
        rw [hstep, hbytes]
        exact recordAt_store_inline _ arena _ _ _ hlenn (h12 t (by omega))
      · have htn : t < n := by omega
        have hlt : cbPos kScatter outer startRow numValues0 t <
            cbPos kScatter outer startRow numValues0 n := by
          refine chain_lt (fun s => cbPos kScatter outer startRow numValues0 s) 8
            (fun s hs => hmonoJ s hs) t n htn (by omega)
        have hrec := ihR t htn
        rw [hstep]
        have hstab := recordAt_stable
          (try8SmallWrites blob outer kScatter kGt4 dataPos off startRow numValues0 n mem)
          (storeBytes (try8SmallWrites blob outer kScatter kGt4 dataPos off startRow
              numValues0 n mem)
            (16 * cbPos kScatter outer startRow numValues0 n)
            (toLE 8 (smallRecordW blob dataPos off kGt4 n).1 ++
             toLE 8 (smallRecordW blob dataPos off kGt4 n).2))
          arena arena (cbPos kScatter outer startRow numValues0 t) 0
          (sameBelow_storeBytes _ _ _ _ (by omega))
          (sameBelow_refl _ _)
          (by intro o hoff
              rw [hrec] at hoff
              exact absurd hoff (by simp))
        rw [hstab, hrec]

theorem try8ConsecutiveSmall_spec (blob : List Nat) (kScatter kGt4 : Bool)
    (dataPos : Nat) (off : List Nat) (startRow : Nat) (c : CState) (o : OState)
    (hmonoJ : ∀ t, t + 1 < 8 → cbPos kScatter o.outerNonNullRows startRow o.numValues t <
      cbPos kScatter o.outerNonNullRows startRow o.numValues (t + 1))
    (hoffm : ∀ t, t < 8 → off.getD t 0 ≤ off.getD (t + 1) 0)
    (h12 : ∀ t, t < 8 → off.getD (t + 1) 0 - off.getD t 0 ≤ 12)
    (hgt : kGt4 = false → ∀ t, t < 8 → off.getD (t + 1) 0 - off.getD t 0 ≤ 4)
    (hbound : ∀ t, t < 8 → dataPos + off.getD t 0 + 12 ≤ blob.length)
    (h256 : ∀ b ∈ blob, b < 256)
    (hwin : c.pos + c.winLen ≤ blob.length)
    (hd8 : dataPos + off.getD 8 0 ≤ blob.length) :
    (try8ConsecutiveSmall blob kScatter kGt4 dataPos off startRow c o).1.pos =
        dataPos + off.getD 8 0 ∧
    (try8ConsecutiveSmall blob kScatter kGt4 dataPos off startRow c o).1.toSkip = 0 ∧
    (try8ConsecutiveSmall blob kScatter kGt4 dataPos off startRow c o).1.pos +
      (try8ConsecutiveSmall blob kScatter kGt4 dataPos off startRow c o).1.winLen ≤
        blob.length ∧
    (try8ConsecutiveSmall blob kScatter kGt4 dataPos off startRow c o).1.rawLengths =
        c.rawLengths ∧
    (try8ConsecutiveSmall blob kScatter kGt4 dataPos off startRow c o).1.lengthIndex =
        c.lengthIndex + 8 ∧
    (try8ConsecutiveSmall blob kScatter kGt4 dataPos off startRow c o).1.lenStream =
        c.lenStream ∧
    (try8ConsecutiveSmall blob kScatter kGt4 dataPos off startRow c o).2.numValues =
        cbPos kScatter o.outerNonNullRows startRow o.numValues 7 + 1 ∧
    (try8ConsecutiveSmall blob kScatter kGt4 dataPos off startRow c o).2.rawStringUsed =
        o.rawStringUsed ∧
    (try8ConsecutiveSmall blob kScatter kGt4 dataPos off startRow c o).2.arena = o.arena ∧
    (try8ConsecutiveSmall blob kScatter kGt4 dataPos off startRow c o).2.resultNulls =
        o.resultNulls ∧
    (try8ConsecutiveSmall blob kScatter kGt4 dataPos off startRow c o).2.returnReaderNulls =
        o.returnReaderNulls ∧
    (try8ConsecutiveSmall blob kScatter kGt4 dataPos off startRow c o).2.anyNulls =
        o.anyNulls ∧
    (try8ConsecutiveSmall blob kScatter kGt4 dataPos off startRow c o).2.outerNonNullRows =
        o.outerNonNullRows ∧
    (∀ B, (∀ t, t < 8 → B ≤ 16 * cbPos kScatter o.outerNonNullRows startRow o.numValues t) →
      sameBelow o.rawValues
        (try8ConsecutiveSmall blob kScatter kGt4 dataPos off startRow c o).2.rawValues B) ∧
    (∀ t, t < 8 →
      recordAt (try8ConsecutiveSmall blob kScatter kGt4 dataPos off startRow c o).2.rawValues
          (try8ConsecutiveSmall blob kScatter kGt4 dataPos off startRow c o).2.arena
          (cbPos kScatter o.outerNonNullRows startRow o.numValues t) =
        (off.getD (t + 1) 0 - off.getD t 0,
         blobSlice blob (dataPos + off.getD t 0) (off.getD (t + 1) 0 - off.getD t 0),
         none)) := by
  obtain ⟨hF, hR⟩ := try8SmallWrites_spec blob o.outerNonNullRows kScatter kGt4 dataPos off
    startRow o.numValues o.arena hmonoJ hoffm h12 hgt hbound h256 8 (le_refl 8) o.rawValues
  refine ⟨rfl, rfl, ?_, rfl, rfl, rfl, ?_, rfl, rfl, rfl, rfl, rfl, rfl, ?_, ?_⟩
  · show dataPos + off.getD 8 0 + (c.pos + c.winLen - (dataPos + off.getD 8 0)) ≤ blob.length
    omega
  · show (if kScatter then o.outerNonNullRows.getD (startRow + 7) 0 + 1
        else o.numValues + 8) = cbPos kScatter o.outerNonNullRows startRow o.numValues 7 + 1
    cases kScatter with
    | false => rfl
    | true => rfl
  · intro B hB
    exact hF B hB
  · intro t ht
    exact hR t ht

theorem roundUp16_ge (n : Nat) : n ≤ roundUp16 n := by
  unfold roundUp16
  omega

theorem roundUp16_ge16 (n : Nat) (h : 1 ≤ n) : 16 ≤ roundUp16 n := by
  unfold roundUp16
  omega

theorem roundUp16_sub16 (n : Nat) (h : 16 < n) : roundUp16 (n - 16) = roundUp16 n - 16 := by
  unfold roundUp16
  omega

theorem memRead_take (bs : List Nat) (n : Nat) (h : n ≤ bs.length) :
    memRead bs 0 n = bs.take n := by
  rw [memRead_eq_blobSlice _ _ _ (by omega)]
  show (bs.drop 0).take n = bs.take n
  rw [List.drop_zero]

theorem cbPos_shift0 (scatter : Bool) (outer : List Nat) (i jbase t : Nat) :
    cbPos scatter outer (i + 1) (cbPos scatter outer i jbase 0 + 1) t =
      cbPos scatter outer i jbase (t + 1) := by
  unfold cbPos
  cases scatter with
  | true =>
    show outer.getD (i + 1 + t) 0 = outer.getD (i + (t + 1)) 0
    have e : i + 1 + t = i + (t + 1) := by omega
    rw [e]
  | false =>
    show jbase + 0 + 1 + t = jbase + (t + 1)
    omega

theorem g8Len_shift (rawLengths rows : List Nat) (i t : Nat) :
    g8Len rawLengths rows (i + 1) t = g8Len rawLengths rows i (t + 1) := by
  unfold g8Len
  have e : i + 1 + t = i + (t + 1) := by omega
  rw [e]

theorem g8Gap_shift (rawLengths rows : List Nat) (sparse : Bool) (prev0 i t : Nat) :
    g8Gap rawLengths rows sparse (if sparse then rows.getD i 0 + 1 else prev0) (i + 1) t =
      g8Gap rawLengths rows sparse prev0 i (t + 1) := by
  cases sparse with
  | false => rfl
  | true =>
    unfold g8Gap
    cases t with
    | zero =>
      show sumRange rawLengths ((rows.getD i 0 + 1 : Nat))
          (rows.getD (i + 1) 0 - (rows.getD i 0 + 1)) =
        sumRange rawLengths (rows.getD (i + (0 + 1) - 1) 0 + 1)
          (rows.getD (i + (0 + 1)) 0 - rows.getD (i + (0 + 1) - 1) 0 - 1)
      have e1 : i + (0 + 1) - 1 = i := by omega
      have e2 : i + (0 + 1) = i + 1 := by omega
      rw [e1, e2]
      rfl
    | succ s =>
      show sumRange rawLengths (rows.getD (i + 1 + (s + 1) - 1) 0 + 1)
          (rows.getD (i + 1 + (s + 1)) 0 - rows.getD (i + 1 + (s + 1) - 1) 0 - 1) =
        sumRange rawLengths (rows.getD (i + (s + 1 + 1) - 1) 0 + 1)
          (rows.getD (i + (s + 1 + 1)) 0 - rows.getD (i + (s + 1 + 1) - 1) 0 - 1)
      have e1 : i + 1 + (s + 1) - 1 = i + (s + 1 + 1) - 1 := by omega
      have e2 : i + 1 + (s + 1) = i + (s + 1 + 1) := by omega
      rw [e1, e2]

theorem g8Data_shift (rawLengths rows : List Nat) (sparse : Bool) (data0 prev0 i : Nat) :
    ∀ t, g8Data rawLengths rows sparse
        (g8Data rawLengths rows sparse data0 prev0 i 0 + g8Len rawLengths rows i 0)
        (if sparse then rows.getD i 0 + 1 else prev0) (i + 1) t =
      g8Data rawLengths rows sparse data0 prev0 i (t + 1) := by
  intro t
  induction t with
  | zero =>
    show g8Data rawLengths rows sparse data0 prev0 i 0 + g8Len rawLengths rows i 0 +
        g8Gap rawLengths rows sparse (if sparse then rows.getD i 0 + 1 else prev0) (i + 1) 0 =
      g8Data rawLengths rows sparse data0 prev0 i 0 + g8Len rawLengths rows i 0 +
        g8Gap rawLengths rows sparse prev0 i (0 + 1)
    rw [g8Gap_shift]
  | succ t ih =>
    show g8Data rawLengths rows sparse
        (g8Data rawLengths rows sparse data0 prev0 i 0 + g8Len rawLengths rows i 0)
        (if sparse then rows.getD i 0 + 1 else prev0) (i + 1) t +
        g8Len rawLengths rows (i + 1) t +
        g8Gap rawLengths rows sparse (if sparse then rows.getD i 0 + 1 else prev0) (i + 1)
          (t + 1) =
      g8Data rawLengths rows sparse data0 prev0 i (t + 1) + g8Len rawLengths rows i (t + 1) +
        g8Gap rawLengths rows sparse prev0 i (t + 1 + 1)
    rw [ih, g8Len_shift, g8Gap_shift]

theorem g8Spill_front (rawLengths rows : List Nat) (i : Nat) :
    ∀ t, g8Spill rawLengths rows i (t + 1) =
      (if 12 < g8Len rawLengths rows i 0 then g8Len rawLengths rows i 0 else 0) +
        g8Spill rawLengths rows (i + 1) t := by
  intro t
  induction t with
  | zero =>
    show g8Spill rawLengths rows i 0 +
        (if 12 < g8Len rawLengths rows i 0 then g8Len rawLengths rows i 0 else 0) =
      (if 12 < g8Len rawLengths rows i 0 then g8Len rawLengths rows i 0 else 0) +
        g8Spill rawLengths rows (i + 1) 0
    show (0 : Nat) + _ = _ + (0 : Nat)
    omega
  | succ t ih =>
    show g8Spill rawLengths rows i (t + 1) +
        (if 12 < g8Len rawLengths rows i (t + 1) then g8Len rawLengths rows i (t + 1)
         else 0) =
      (if 12 < g8Len rawLengths rows i 0 then g8Len rawLengths rows i 0 else 0) +
        (g8Spill rawLengths rows (i + 1) t +
         (if 12 < g8Len rawLengths rows (i + 1) t then g8Len rawLengths rows (i + 1) t
          else 0))
    rw [ih, g8Len_shift]
    omega

theorem g8Spill_mono (rawLengths rows : List Nat) (i : Nat) :
    ∀ k t, t ≤ k → g8Spill rawLengths rows i t ≤ g8Spill rawLengths rows i k := by
  intro k
  induction k with
  | zero =>
    intro t ht
    have he : t = 0 := by omega
    subst he
    exact le_refl _
  | succ k ih =>
    intro t ht
    by_cases he : t = k + 1
    · subst he
      exact le_refl _
    · have h1 := ih t (by omega)
      show _ ≤ g8Spill rawLengths rows i k + _
      omega

theorem try8GenLoop_succ (blob rows outer rawLengths : List Nat) (scatter sparse : Bool)
    (bufEnd rawStringSize k i data rawUsed pr4 prev : Nat) (mem arena : List Nat) :
    try8GenLoop blob rows outer rawLengths scatter sparse bufEnd rawStringSize
      (k + 1) i data rawUsed pr4 prev mem arena =
    (let ri := if scatter then (outer.getD i 0) * 4 else pr4
     let dp := if sparse then
         (data + rangeSumL rawLengths 0 prev (rows.getD i 0), rows.getD i 0 + 1)
       else (data, prev)
     let length := rawLengths.getD (rows.getD i 0) 0
     if bufEnd < dp.1 + roundUp16 length then .abort mem arena
     else
       let mem1 := storeBytes mem (4 * ri) (toLE 4 length)
       let mem2 := if 0 < length then
           storeBytes mem1 (4 * ri + 4) (blobSlice blob dp.1 16)
         else mem1
       if length ≤ 12 then
         try8GenLoop blob rows outer rawLengths scatter sparse bufEnd rawStringSize
           k (i + 1) (dp.1 + length) rawUsed (ri + 4) dp.2
           (storeBytes mem2 (4 * ri + 4 + length) (List.replicate 8 0)) arena
       else if rawStringSize < rawUsed + length then .abort mem2 arena
       else
         let mem3 := storeBytes mem2 (4 * ri + 8) (toLE 8 rawUsed)
         let arena1 := storeBytes arena rawUsed (blobSlice blob dp.1 16)
         if 16 < length then
           if roundUp16 (length - 16) ≤ bufEnd - dp.1 - 16 then
             try8GenLoop blob rows outer rawLengths scatter sparse bufEnd rawStringSize
               k (i + 1) (dp.1 + length) (rawUsed + length) (ri + 4) dp.2 mem3
               (storeBytes arena1 (rawUsed + 16)
                 (blobSlice blob (dp.1 + 16) (roundUp16 (length - 16))))
           else .fatal
         else
           try8GenLoop blob rows outer rawLengths scatter sparse bufEnd rawStringSize
             k (i + 1) (dp.1 + length) (rawUsed + length) (ri + 4) dp.2 mem3 arena1) := rfl

theorem gen8_record_inline (blob mem arena : List Nat) (j L D : Nat) (hL12 : L ≤ 12)
    (hpos : 0 < L) (hblob : D + 16 ≤ blob.length) :
    recordAt (storeBytes (storeBytes (storeBytes mem (16 * j) (toLE 4 L))
        (16 * j + 4) (blobSlice blob D 16)) (16 * j + 4 + L) (List.replicate 8 0))
      arena j = (L, blobSlice blob D L, none) := by
  have hf16 : (blobSlice blob D 16).length = 16 := by
    rw [blobSlice_length]
    omega
  simp only [recordAt]
  have h4 : memRead (storeBytes (storeBytes (storeBytes mem (16 * j) (toLE 4 L))
      (16 * j + 4) (blobSlice blob D 16)) (16 * j + 4 + L) (List.replicate 8 0))
      (16 * j) 4 = toLE 4 L := by
    rw [memRead_storeBytes_lo _ _ _ _ _ (by omega), memRead_storeBytes_lo _ _ _ _ _ (by omega)]
    rw [memRead_storeBytes_in _ _ _ _ _ (by omega) (by rw [toLE_length]), Nat.sub_self]
    rw [memRead_all_of_eq _ _ (toLE_length 4 L).symm]
  rw [h4, fromLE_toLE_mod, Nat.mod_eq_of_lt (by omega), if_pos hL12]
  have hval : memRead (storeBytes (storeBytes (storeBytes mem (16 * j) (toLE 4 L))
      (16 * j + 4) (blobSlice blob D 16)) (16 * j + 4 + L) (List.replicate 8 0))
      (16 * j + 4) L = blobSlice blob D L := by
    rw [memRead_storeBytes_lo _ _ _ _ _ (by omega)]
    rw [memRead_storeBytes_in _ _ _ _ _ (by omega) (by rw [hf16]; omega), Nat.sub_self]
    rw [memRead_take _ _ (by rw [hf16]; omega), blobSlice_take]
    congr 1
    omega
  rw [hval]

theorem gen8_record_zero (blob mem arena : List Nat) (j : Nat) :
    recordAt (storeBytes (storeBytes mem (16 * j) (toLE 4 0))
        (16 * j + 4) (List.replicate 8 0)) arena j = (0, [], none) := by
  simp only [recordAt]
  have h4 : memRead (storeBytes (storeBytes mem (16 * j) (toLE 4 0))
      (16 * j + 4) (List.replicate 8 0)) (16 * j) 4 = toLE 4 0 := by
    rw [memRead_storeBytes_lo _ _ _ _ _ (by omega)]
    rw [memRead_storeBytes_in _ _ _ _ _ (by omega) (by rw [toLE_length]), Nat.sub_self]
    rw [memRead_all_of_eq _ _ (toLE_length 4 0).symm]
  rw [h4, fromLE_toLE_mod]
  rw [if_pos (by omega)]
  rfl

theorem gen8_record_ptr (blob mem arena : List Nat) (j L D u : Nat) (hL : 12 < L)
    (hL32 : L < 2 ^ 32) (hu : u < 2 ^ 64) (hblob : D + 16 ≤ blob.length) :
    recordAt (storeBytes (storeBytes (storeBytes mem (16 * j) (toLE 4 L))
        (16 * j + 4) (blobSlice blob D 16)) (16 * j + 8) (toLE 8 u)) arena j =
      (L, memRead arena u L, some u) := by
  have hf16 : (blobSlice blob D 16).length = 16 := by
    rw [blobSlice_length]
    omega
  simp only [recordAt]
  have h4 : memRead (storeBytes (storeBytes (storeBytes mem (16 * j) (toLE 4 L))
      (16 * j + 4) (blobSlice blob D 16)) (16 * j + 8) (toLE 8 u)) (16 * j) 4 = toLE 4 L := by
    rw [memRead_storeBytes_lo _ _ _ _ _ (by omega), memRead_storeBytes_lo _ _ _ _ _ (by omega)]
    rw [memRead_storeBytes_in _ _ _ _ _ (by omega) (by rw [toLE_length]), Nat.sub_self]
    rw [memRead_all_of_eq _ _ (toLE_length 4 L).symm]
  rw [h4, fromLE_toLE_mod, Nat.mod_eq_of_lt (by omega), if_neg (by omega)]
  have h8 : memRead (storeBytes (storeBytes (storeBytes mem (16 * j) (toLE 4 L))
      (16 * j + 4) (blobSlice blob D 16)) (16 * j + 8) (toLE 8 u)) (16 * j + 8) 8 =
      toLE 8 u := by
    rw [memRead_storeBytes_in _ _ _ _ _ (by omega) (by rw [toLE_length]), Nat.sub_self]
    rw [memRead_all_of_eq _ _ (toLE_length 8 u).symm]
  rw [h8, fromLE_toLE_mod, Nat.mod_eq_of_lt (by omega)]

theorem gen8_arena_short (blob arena : List Nat) (u D L : Nat) (hL : L ≤ 16)
    (hblob : D + 16 ≤ blob.length) :
    memRead (storeBytes arena u (blobSlice blob D 16)) u L = blobSlice blob D L := by
  have hf16 : (blobSlice blob D 16).length = 16 := by
    rw [blobSlice_length]
    omega
  rw [memRead_storeBytes_in _ _ _ _ _ (le_refl u) (by rw [hf16]; omega), Nat.sub_self]
  rw [memRead_take _ _ (by rw [hf16]; omega), blobSlice_take]
  congr 1
  omega

theorem gen8_arena_long (blob arena : List Nat) (u D L cs : Nat) (h16 : 16 ≤ L)
    (hcs : L - 16 ≤ cs) (hblob : D + 16 + cs ≤ blob.length) :
    memRead (storeBytes (storeBytes arena u (blobSlice blob D 16)) (u + 16)
        (blobSlice blob (D + 16) cs)) u L = blobSlice blob D L := by
  have hf16 : (blobSlice blob D 16).length = 16 := by
    rw [blobSlice_length]
    omega
  have hcl : (blobSlice blob (D + 16) cs).length = cs := by
    rw [blobSlice_length]
    omega
  rw [show L = 16 + (L - 16) from by omega]
  rw [memRead_append, blobSlice_append]
  congr 1
  · rw [memRead_storeBytes_lo _ _ _ _ _ (le_refl _)]
    rw [memRead_storeBytes_in _ _ _ _ _ (le_refl u) (by rw [hf16]), Nat.sub_self]
    rw [memRead_all_of_eq _ _ hf16.symm]
  · rw [memRead_storeBytes_in _ _ _ _ _ (by omega) (by rw [hcl]; omega),
      Nat.sub_self]
    rw [memRead_take _ _ (by rw [hcl]; omega), blobSlice_take]
    congr 1
    omega

theorem try8GenLoop_frames (blob rows outer rawLengths : List Nat) (scatter sparse : Bool)
    (bufEnd rawStringSize Bm Ba : Nat) :
    ∀ (k i data rawUsed jbase previousRow : Nat) (mem arena : List Nat),
    (∀ t, t < k → Bm ≤ 16 * cbPos scatter outer i jbase t) →
    Ba ≤ rawUsed →
    (match try8GenLoop blob rows outer rawLengths scatter sparse bufEnd rawStringSize
        k i data rawUsed (4 * jbase) previousRow mem arena with
     | .abort m a => sameBelow mem m Bm ∧ sameBelow arena a Ba
     | .fatal => True
     | .ok _ _ m a => sameBelow mem m Bm ∧ sameBelow arena a Ba) := by
  intro k
  induction k with
  | zero =>
    intro i data rawUsed jbase previousRow mem arena _ _
    exact ⟨sameBelow_refl _ _, sameBelow_refl _ _⟩
  | succ k ih =>
    intro i data rawUsed jbase previousRow mem arena hB hBa
    rw [try8GenLoop_succ]
    dsimp only
    set RI := (if scatter then outer.getD i 0 * 4 else 4 * jbase) with hRIdef
    set DP := (if sparse then
        (data + rangeSumL rawLengths 0 previousRow (rows.getD i 0), rows.getD i 0 + 1)
      else (data, previousRow)) with hDPdef
    set L := rawLengths.getD (rows.getD i 0) 0 with hLdef
    have hri : RI = 4 * cbPos scatter outer i jbase 0 := by
      rw [hRIdef]
      unfold cbPos
      cases scatter with
      | true =>
        show outer.getD i 0 * 4 = 4 * outer.getD (i + 0) 0
        rw [Nat.add_zero]
        omega
      | false =>
        show 4 * jbase = 4 * (jbase + 0)
        omega
    have hB0 : Bm ≤ 16 * cbPos scatter outer i jbase 0 := hB 0 (by omega)
    have hBsh : ∀ t, t < k →
        Bm ≤ 16 * cbPos scatter outer (i + 1) (cbPos scatter outer i jbase 0 + 1) t := by
      intro t ht
      rw [cbPos_shift0]
      exact hB (t + 1) (by omega)
    have hri4 : RI + 4 = 4 * (cbPos scatter outer i jbase 0 + 1) := by
      rw [hri]
      omega
    by_cases h1 : bufEnd < DP.1 + roundUp16 L
    · rw [if_pos h1]
      exact ⟨sameBelow_refl _ _, sameBelow_refl _ _⟩
    · rw [if_neg h1]
      have hmm2 : sameBelow mem (if 0 < L then
          storeBytes (storeBytes mem (4 * RI) (toLE 4 L)) (4 * RI + 4)
            (blobSlice blob DP.1 16)
        else storeBytes mem (4 * RI) (toLE 4 L)) Bm := by
        by_cases hz : 0 < L
        · rw [if_pos hz]
          refine sameBelow_trans _ (storeBytes mem (4 * RI) (toLE 4 L)) _ _
            (sameBelow_storeBytes mem (4 * RI) (toLE 4 L) Bm (by rw [hri]; omega)) ?_
          exact sameBelow_storeBytes _ _ _ _ (by rw [hri]; omega)
        · rw [if_neg hz]
          exact sameBelow_storeBytes _ _ _ _ (by rw [hri]; omega)
      by_cases h2 : L ≤ 12
      · rw [if_pos h2, hri4]
        have hmm : sameBelow mem (storeBytes (if 0 < L then
            storeBytes (storeBytes mem (4 * RI) (toLE 4 L)) (4 * RI + 4)
              (blobSlice blob DP.1 16)
          else storeBytes mem (4 * RI) (toLE 4 L)) (4 * RI + 4 + L)
            (List.replicate 8 0)) Bm := by
          refine sameBelow_trans _ _ _ _ hmm2 ?_
          exact sameBelow_storeBytes _ _ _ _ (by rw [hri]; omega)
        have hrec := ih (i + 1) (DP.1 + L) rawUsed (cbPos scatter outer i jbase 0 + 1) DP.2
          (storeBytes (if 0 < L then
              storeBytes (storeBytes mem (4 * RI) (toLE 4 L)) (4 * RI + 4)
                (blobSlice blob DP.1 16)
            else storeBytes mem (4 * RI) (toLE 4 L)) (4 * RI + 4 + L)
            (List.replicate 8 0)) arena hBsh hBa
        revert hrec
        cases htry : try8GenLoop blob rows outer rawLengths scatter sparse bufEnd
            rawStringSize k (i + 1) (DP.1 + L) rawUsed
            (4 * (cbPos scatter outer i jbase 0 + 1)) DP.2
            (storeBytes (if 0 < L then
                storeBytes (storeBytes mem (4 * RI) (toLE 4 L)) (4 * RI + 4)
                  (blobSlice blob DP.1 16)
              else storeBytes mem (4 * RI) (toLE 4 L)) (4 * RI + 4 + L)
              (List.replicate 8 0)) arena with
        | abort m a =>
          intro hrec
          exact ⟨sameBelow_trans _ _ _ _ hmm hrec.1, hrec.2⟩
        | fatal =>
          intro _
          trivial
        | ok d u m a =>
          intro hrec
          exact ⟨sameBelow_trans _ _ _ _ hmm hrec.1, hrec.2⟩
      · rw [if_neg h2]
        by_cases h3 : rawStringSize < rawUsed + L
        · rw [if_pos h3]
          exact ⟨hmm2, sameBelow_refl _ _⟩
        · rw [if_neg h3]
          have hmm3 : sameBelow mem (storeBytes (if 0 < L then
              storeBytes (storeBytes mem (4 * RI) (toLE 4 L)) (4 * RI + 4)
                (blobSlice blob DP.1 16)
            else storeBytes mem (4 * RI) (toLE 4 L)) (4 * RI + 8) (toLE 8 rawUsed)) Bm := by
            refine sameBelow_trans _ _ _ _ hmm2 ?_
            exact sameBelow_storeBytes _ _ _ _ (by rw [hri]; omega)
          have har1 : sameBelow arena (storeBytes arena rawUsed
              (blobSlice blob DP.1 16)) Ba :=
            sameBelow_storeBytes _ _ _ _ hBa
          by_cases h4 : 16 < L
          · rw [if_pos h4]
            by_cases h5 : roundUp16 (L - 16) ≤ bufEnd - DP.1 - 16
            · rw [if_pos h5, hri4]
              have har2 : sameBelow arena (storeBytes (storeBytes arena rawUsed
                  (blobSlice blob DP.1 16)) (rawUsed + 16)
                  (blobSlice blob (DP.1 + 16) (roundUp16 (L - 16)))) Ba := by
                refine sameBelow_trans _ _ _ _ har1 ?_
                exact sameBelow_storeBytes _ _ _ _ (by omega)
              have hrec := ih (i + 1) (DP.1 + L) (rawUsed + L)
                (cbPos scatter outer i jbase 0 + 1) DP.2
                (storeBytes (if 0 < L then
                    storeBytes (storeBytes mem (4 * RI) (toLE 4 L)) (4 * RI + 4)
                      (blobSlice blob DP.1 16)
                  else storeBytes mem (4 * RI) (toLE 4 L)) (4 * RI + 8) (toLE 8 rawUsed))
                (storeBytes (storeBytes arena rawUsed (blobSlice blob DP.1 16))
                  (rawUsed + 16) (blobSlice blob (DP.1 + 16) (roundUp16 (L - 16))))
                hBsh (by omega)
              revert hrec
              cases htry : try8GenLoop blob rows outer rawLengths scatter sparse bufEnd
                  rawStringSize k (i + 1) (DP.1 + L) (rawUsed + L)
                  (4 * (cbPos scatter outer i jbase 0 + 1)) DP.2
                  (storeBytes (if 0 < L then
                      storeBytes (storeBytes mem (4 * RI) (toLE 4 L)) (4 * RI + 4)
                        (blobSlice blob DP.1 16)
                    else storeBytes mem (4 * RI) (toLE 4 L)) (4 * RI + 8) (toLE 8 rawUsed))
                  (storeBytes (storeBytes arena rawUsed (blobSlice blob DP.1 16))
                    (rawUsed + 16) (blobSlice blob (DP.1 + 16) (roundUp16 (L - 16)))) with
              | abort m a =>
                intro hrec
                exact ⟨sameBelow_trans _ _ _ _ hmm3 hrec.1,
                  sameBelow_trans _ _ _ _ har2 hrec.2⟩
              | fatal =>
                intro _
                trivial
              | ok d u m a =>
                intro hrec
                exact ⟨sameBelow_trans _ _ _ _ hmm3 hrec.1,
                  sameBelow_trans _ _ _ _ har2 hrec.2⟩
            · rw [if_neg h5]
              trivial
          · rw [if_neg h4]
            have hrec := ih (i + 1) (DP.1 + L) (rawUsed + L)
              (cbPos scatter outer i jbase 0 + 1) DP.2
              (storeBytes (if 0 < L then
                  storeBytes (storeBytes mem (4 * RI) (toLE 4 L)) (4 * RI + 4)
                    (blobSlice blob DP.1 16)
                else storeBytes mem (4 * RI) (toLE 4 L)) (4 * RI + 8) (toLE 8 rawUsed))
              (storeBytes arena rawUsed (blobSlice blob DP.1 16)) hBsh (by omega)
            rw [hri4]
            revert hrec
            cases htry : try8GenLoop blob rows outer rawLengths scatter sparse bufEnd
                rawStringSize k (i + 1) (DP.1 + L) (rawUsed + L)
                (4 * (cbPos scatter outer i jbase 0 + 1)) DP.2
                (storeBytes (if 0 < L then
                    storeBytes (storeBytes mem (4 * RI) (toLE 4 L)) (4 * RI + 4)
                      (blobSlice blob DP.1 16)
                  else storeBytes mem (4 * RI) (toLE 4 L)) (4 * RI + 8) (toLE 8 rawUsed))
                (storeBytes arena rawUsed (blobSlice blob DP.1 16)) with
            | abort m a =>
              intro hrec
              exact ⟨sameBelow_trans _ _ _ _ hmm3 hrec.1,
                sameBelow_trans _ _ _ _ har1 hrec.2⟩
            | fatal =>
              intro _
              trivial
            | ok d u m a =>
              intro hrec
              exact ⟨sameBelow_trans _ _ _ _ hmm3 hrec.1,
                sameBelow_trans _ _ _ _ har1 hrec.2⟩

theorem try8GenLoop_ok (blob rows outer rawLengths : List Nat) (scatter sparse : Bool)
    (bufEnd rawStringSize : Nat) (hbe : bufEnd ≤ blob.length)
    (hsz64 : rawStringSize < 2 ^ 64) :
    ∀ (k i data rawUsed jbase previousRow : Nat) (mem arena : List Nat),
    (∀ t, t < k → g8Data rawLengths rows sparse data previousRow i t +
        roundUp16 (g8Len rawLengths rows i t) ≤ bufEnd) →
    rawUsed + g8Spill rawLengths rows i k ≤ rawStringSize →
    (∀ t, t < k → g8Len rawLengths rows i t < 2 ^ 32) →
    (∀ t, t + 1 < k → cbPos scatter outer i jbase t < cbPos scatter outer i jbase (t + 1)) →
    ∃ mem' arena',
      try8GenLoop blob rows outer rawLengths scatter sparse bufEnd rawStringSize
        k i data rawUsed (4 * jbase) previousRow mem arena =
        .ok (if k = 0 then data
             else g8Data rawLengths rows sparse data previousRow i (k - 1) +
               g8Len rawLengths rows i (k - 1))
          (rawUsed + g8Spill rawLengths rows i k) mem' arena' ∧
      (∀ B, (∀ t, t < k → B ≤ 16 * cbPos scatter outer i jbase t) →
        sameBelow mem mem' B) ∧
      sameBelow arena arena' rawUsed ∧
      (∀ t, t < k →
        recordAt mem' arena' (cbPos scatter outer i jbase t) =
          (g8Len rawLengths rows i t,
           blobSlice blob (g8Data rawLengths rows sparse data previousRow i t)
             (g8Len rawLengths rows i t),
           if g8Len rawLengths rows i t ≤ 12 then none
           else some (rawUsed + g8Spill rawLengths rows i t))) := by
  intro k
  induction k with
  | zero =>
    intro i data rawUsed jbase previousRow mem arena _ _ _ _
    refine ⟨mem, arena, ?_, fun B _ => sameBelow_refl _ _, sameBelow_refl _ _,
      fun t ht => absurd ht (by omega)⟩
    show Gen8Res.ok data rawUsed mem arena =
      Gen8Res.ok (if 0 = 0 then data
          else g8Data rawLengths rows sparse data previousRow i (0 - 1) +
            g8Len rawLengths rows i (0 - 1))
        (rawUsed + g8Spill rawLengths rows i 0) mem arena
    rfl
  | succ k ih =>
    intro i data rawUsed jbase previousRow mem arena hBE hSS hlen32 hmono
    rw [try8GenLoop_succ]
    dsimp only
    set RI := (if scatter then outer.getD i 0 * 4 else 4 * jbase) with hRIdef
    set DP := (if sparse then
        (data + rangeSumL rawLengths 0 previousRow (rows.getD i 0), rows.getD i 0 + 1)
      else (data, previousRow)) with hDPdef
    set L := rawLengths.getD (rows.getD i 0) 0 with hLdef
    have hri : RI = 4 * cbPos scatter outer i jbase 0 := by
      rw [hRIdef]
      unfold cbPos
      cases scatter with
      | true =>
        show outer.getD i 0 * 4 = 4 * outer.getD (i + 0) 0
        rw [Nat.add_zero]
        omega
      | false =>
        show 4 * jbase = 4 * (jbase + 0)
        omega
    have hri4 : RI + 4 = 4 * (cbPos scatter outer i jbase 0 + 1) := by
      rw [hri]
      omega
    have hL0 : g8Len rawLengths rows i 0 = L := by
      rw [hLdef]
      unfold g8Len
      rw [Nat.add_zero]
    have hD : DP.1 = g8Data rawLengths rows sparse data previousRow i 0 := by
      rw [hDPdef]
      cases sparse with
      | false =>
        show data = data + 0
        omega
      | true =>
        show data + (0 + sumRange rawLengths previousRow (rows.getD i 0 - previousRow)) =
          data + sumRange rawLengths previousRow (rows.getD i 0 - previousRow)
        omega
    have hP : DP.2 = (if sparse then rows.getD i 0 + 1 else previousRow) := by
      rw [hDPdef]
      cases sparse with
      | false => rfl
      | true => rfl
    have hBE0 : DP.1 + roundUp16 L ≤ bufEnd := by
      have h := hBE 0 (by omega)
      rw [hL0, ← hD] at h
      exact h
    have hL32 : L < 2 ^ 32 := by
      have h := hlen32 0 (by omega)
      rw [hL0] at h
      exact h
    have hu64 : rawUsed < 2 ^ 64 := by
      omega
    have hBE' : ∀ t, t < k → g8Data rawLengths rows sparse (DP.1 + L) DP.2 (i + 1) t +
        roundUp16 (g8Len rawLengths rows (i + 1) t) ≤ bufEnd := by
      intro t ht
      rw [g8Len_shift, hD, ← hL0, hP, g8Data_shift]
      exact hBE (t + 1) (by omega)
    have hlen32' : ∀ t, t < k → g8Len rawLengths rows (i + 1) t < 2 ^ 32 := by
      intro t ht
      rw [g8Len_shift]
      exact hlen32 (t + 1) (by omega)
    have hmono' : ∀ t, t + 1 < k →
        cbPos scatter outer (i + 1) (cbPos scatter outer i jbase 0 + 1) t <
        cbPos scatter outer (i + 1) (cbPos scatter outer i jbase 0 + 1) (t + 1) := by
      intro t ht
      rw [cbPos_shift0, cbPos_shift0]
      exact hmono (t + 1) (by omega)
    have hchain : ∀ s, s < k →
        16 * cbPos scatter outer i jbase 0 + 16 ≤
          16 * cbPos scatter outer (i + 1) (cbPos scatter outer i jbase 0 + 1) s := by
      intro s hs
      rw [cbPos_shift0]
      have h : cbPos scatter outer i jbase 0 < cbPos scatter outer i jbase (s + 1) := by
        refine chain_lt (fun t => cbPos scatter outer i jbase t) (k + 1)
          (fun t htk => hmono t htk) 0 (s + 1) (by omega) (by omega)
      omega
    have hdataeq : ∀ r : Nat,
        (if k = 0 then DP.1 + L
         else g8Data rawLengths rows sparse (DP.1 + L) DP.2 (i + 1) (k - 1) +
           g8Len rawLengths rows (i + 1) (k - 1)) =
        (if k + 1 = 0 then data
         else g8Data rawLengths rows sparse data previousRow i (k + 1 - 1) +
           g8Len rawLengths rows i (k + 1 - 1)) := by
      intro r
      rw [if_neg (Nat.succ_ne_zero k)]
      by_cases hk : k = 0
      · subst hk
        rw [if_pos rfl]
        show DP.1 + L = g8Data rawLengths rows sparse data previousRow i 0 +
          g8Len rawLengths rows i 0
        rw [hD, hL0]
      · rw [if_neg hk]
        have e1 : k - 1 + 1 = k := by omega
        have h2' := g8Data_shift rawLengths rows sparse data previousRow i (k - 1)
        rw [e1] at h2'
        have h3' := g8Len_shift rawLengths rows i (k - 1)
        rw [e1] at h3'
        rw [hD, ← hL0, hP, h2', h3']
        rw [show k + 1 - 1 = k from by omega]
    rw [if_neg (show ¬ bufEnd < DP.1 + roundUp16 L from by omega)]
    by_cases h2 : L ≤ 12
    · rw [if_pos h2, hri4]
      have hSS' : rawUsed + g8Spill rawLengths rows (i + 1) k ≤ rawStringSize := by
        have h := g8Spill_front rawLengths rows i k
        rw [hL0, if_neg (by omega)] at h
        omega
      obtain ⟨mem', arena', eIH, hFm, hFa, hRec⟩ :=
        ih (i + 1) (DP.1 + L) rawUsed (cbPos scatter outer i jbase 0 + 1) DP.2
          (storeBytes (if 0 < L then
              storeBytes (storeBytes mem (4 * RI) (toLE 4 L)) (4 * RI + 4)
                (blobSlice blob DP.1 16)
            else storeBytes mem (4 * RI) (toLE 4 L)) (4 * RI + 4 + L)
            (List.replicate 8 0)) arena hBE' hSS' hlen32' hmono'
      have hused : rawUsed + g8Spill rawLengths rows (i + 1) k =
          rawUsed + g8Spill rawLengths rows i (k + 1) := by
        have h := g8Spill_front rawLengths rows i k
        rw [hL0, if_neg (by omega)] at h
        omega
      have hrec0 : recordAt (storeBytes (if 0 < L then
          storeBytes (storeBytes mem (4 * RI) (toLE 4 L)) (4 * RI + 4)
            (blobSlice blob DP.1 16)
        else storeBytes mem (4 * RI) (toLE 4 L)) (4 * RI + 4 + L)
          (List.replicate 8 0)) arena (cbPos scatter outer i jbase 0) =
          (L, blobSlice blob DP.1 L, none) := by
        by_cases hz : 0 < L
        · rw [if_pos hz]
          have e1 : 4 * RI = 16 * cbPos scatter outer i jbase 0 := by
            rw [hri]
            omega
          rw [e1]
          have hblob : DP.1 + 16 ≤ blob.length := by
            have := roundUp16_ge16 L hz
            omega
          exact gen8_record_inline blob mem arena (cbPos scatter outer i jbase 0) L DP.1
            h2 hz hblob
        · rw [if_neg hz]
          have hzz : L = 0 := by omega
          rw [hzz]
          have e1 : 4 * RI = 16 * cbPos scatter outer i jbase 0 := by
            rw [hri]
            omega
          rw [e1, Nat.add_zero]
          rw [show blobSlice blob DP.1 0 = ([] : List Nat) from rfl]
          exact gen8_record_zero blob mem arena (cbPos scatter outer i jbase 0)
      refine ⟨mem', arena', ?_, ?_, hFa, ?_⟩
      · rw [eIH, hdataeq 0, hused]
      · intro B hB
        refine sameBelow_trans _ (storeBytes (if 0 < L then
            storeBytes (storeBytes mem (4 * RI) (toLE 4 L)) (4 * RI + 4)
              (blobSlice blob DP.1 16)
          else storeBytes mem (4 * RI) (toLE 4 L)) (4 * RI + 4 + L)
            (List.replicate 8 0)) _ _ ?_ ?_
        · have hB0 : B ≤ 16 * cbPos scatter outer i jbase 0 := hB 0 (by omega)
          refine sameBelow_trans _ (if 0 < L then
              storeBytes (storeBytes mem (4 * RI) (toLE 4 L)) (4 * RI + 4)
                (blobSlice blob DP.1 16)
            else storeBytes mem (4 * RI) (toLE 4 L)) _ _ ?_ ?_
          · by_cases hz : 0 < L
            · rw [if_pos hz]
              refine sameBelow_trans _ (storeBytes mem (4 * RI) (toLE 4 L)) _ _
                (sameBelow_storeBytes mem (4 * RI) (toLE 4 L) B (by rw [hri]; omega)) ?_
              exact sameBelow_storeBytes _ _ _ _ (by rw [hri]; omega)
            · rw [if_neg hz]
              exact sameBelow_storeBytes _ _ _ _ (by rw [hri]; omega)
          · exact sameBelow_storeBytes _ _ _ _ (by rw [hri]; omega)
        · refine hFm B ?_
          intro t ht
          rw [cbPos_shift0]
          exact hB (t + 1) (by omega)
      · intro t ht
        cases t with
        | zero =>
          rw [hL0, ← hD, if_pos h2]
          have hstab := recordAt_stable
            (storeBytes (if 0 < L then
                storeBytes (storeBytes mem (4 * RI) (toLE 4 L)) (4 * RI + 4)
                  (blobSlice blob DP.1 16)
              else storeBytes mem (4 * RI) (toLE 4 L)) (4 * RI + 4 + L)
              (List.replicate 8 0)) mem' arena arena'
            (cbPos scatter outer i jbase 0) rawUsed
            (hFm (16 * cbPos scatter outer i jbase 0 + 16) hchain)
            hFa
            (by intro off hoff
                rw [hrec0] at hoff
                exact absurd hoff (by simp))
          rw [hstab, hrec0]
        | succ s =>
          have h := hRec s (by omega)
          rw [cbPos_shift0, g8Len_shift] at h
          rw [hD, ← hL0, hP, g8Data_shift] at h
          have hsp : rawUsed + g8Spill rawLengths rows (i + 1) s =
              rawUsed + g8Spill rawLengths rows i (s + 1) := by
            have hf := g8Spill_front rawLengths rows i s
            rw [hL0, if_neg (by omega)] at hf
            omega
          rw [hsp] at h
          exact h
    · rw [if_neg h2]
      have hsp1 : g8Spill rawLengths rows i (k + 1) =
          L + g8Spill rawLengths rows (i + 1) k := by
        have h := g8Spill_front rawLengths rows i k
        rw [hL0, if_pos (by omega)] at h
        exact h
      have h3 : ¬ rawStringSize < rawUsed + L := by
        omega
      rw [if_neg h3]
      have hz : 0 < L := by omega
      have hblob : DP.1 + 16 ≤ blob.length := by
        have := roundUp16_ge16 L hz
        omega
      have hSS' : rawUsed + L + g8Spill rawLengths rows (i + 1) k ≤ rawStringSize := by
        omega
      have e1 : 4 * RI = 16 * cbPos scatter outer i jbase 0 := by
        rw [hri]
        omega
      have hused : rawUsed + L + g8Spill rawLengths rows (i + 1) k =
          rawUsed + g8Spill rawLengths rows i (k + 1) := by
        omega
      have hmemBfr : ∀ B, B ≤ 16 * cbPos scatter outer i jbase 0 →
          sameBelow mem (storeBytes (if 0 < L then
              storeBytes (storeBytes mem (4 * RI) (toLE 4 L)) (4 * RI + 4)
                (blobSlice blob DP.1 16)
            else storeBytes mem (4 * RI) (toLE 4 L)) (4 * RI + 8) (toLE 8 rawUsed)) B := by
        intro B hB0
        refine sameBelow_trans _ (if 0 < L then
            storeBytes (storeBytes mem (4 * RI) (toLE 4 L)) (4 * RI + 4)
              (blobSlice blob DP.1 16)
          else storeBytes mem (4 * RI) (toLE 4 L)) _ _ ?_ ?_
        · rw [if_pos hz]
          refine sameBelow_trans _ (storeBytes mem (4 * RI) (toLE 4 L)) _ _
            (sameBelow_storeBytes mem (4 * RI) (toLE 4 L) B (by rw [hri]; omega)) ?_
          exact sameBelow_storeBytes _ _ _ _ (by rw [hri]; omega)
        · exact sameBelow_storeBytes _ _ _ _ (by rw [hri]; omega)
      by_cases h4 : 16 < L
      · rw [if_pos h4]
        have h5 : roundUp16 (L - 16) ≤ bufEnd - DP.1 - 16 := by
          have hr := roundUp16_sub16 L h4
          have hg := roundUp16_ge16 L hz
          omega
        rw [if_pos h5, hri4]
        have hblob2 : DP.1 + 16 + roundUp16 (L - 16) ≤ blob.length := by
          have hr := roundUp16_sub16 L h4
          have hg := roundUp16_ge16 L hz
          omega
        obtain ⟨mem', arena', eIH, hFm, hFa, hRec⟩ :=
          ih (i + 1) (DP.1 + L) (rawUsed + L) (cbPos scatter outer i jbase 0 + 1) DP.2
            (storeBytes (if 0 < L then
                storeBytes (storeBytes mem (4 * RI) (toLE 4 L)) (4 * RI + 4)
                  (blobSlice blob DP.1 16)
              else storeBytes mem (4 * RI) (toLE 4 L)) (4 * RI + 8) (toLE 8 rawUsed))
            (storeBytes (storeBytes arena rawUsed (blobSlice blob DP.1 16))
              (rawUsed + 16) (blobSlice blob (DP.1 + 16) (roundUp16 (L - 16))))
            hBE' hSS' hlen32' hmono'
        have hrec0 : recordAt (storeBytes (if 0 < L then
            storeBytes (storeBytes mem (4 * RI) (toLE 4 L)) (4 * RI + 4)
              (blobSlice blob DP.1 16)
          else storeBytes mem (4 * RI) (toLE 4 L)) (4 * RI + 8) (toLE 8 rawUsed))
            (storeBytes (storeBytes arena rawUsed (blobSlice blob DP.1 16))
              (rawUsed + 16) (blobSlice blob (DP.1 + 16) (roundUp16 (L - 16))))
            (cbPos scatter outer i jbase 0) =
            (L, blobSlice blob DP.1 L, some rawUsed) := by
          rw [if_pos hz, e1]
          rw [gen8_record_ptr blob mem _ (cbPos scatter outer i jbase 0) L DP.1 rawUsed
            (by omega) hL32 hu64 hblob]
          rw [gen8_arena_long blob arena rawUsed DP.1 L (roundUp16 (L - 16)) (by omega)
            (roundUp16_ge (L - 16)) hblob2]
        refine ⟨mem', arena', ?_, ?_, ?_, ?_⟩
        · rw [eIH, hdataeq 0, hused]
        · intro B hB
          refine sameBelow_trans _ (storeBytes (if 0 < L then
              storeBytes (storeBytes mem (4 * RI) (toLE 4 L)) (4 * RI + 4)
                (blobSlice blob DP.1 16)
            else storeBytes mem (4 * RI) (toLE 4 L)) (4 * RI + 8) (toLE 8 rawUsed)) _ _
            (hmemBfr B (hB 0 (by omega))) ?_
          refine hFm B ?_
          intro t ht
          rw [cbPos_shift0]
          exact hB (t + 1) (by omega)
        · refine sameBelow_trans _ (storeBytes (storeBytes arena rawUsed
              (blobSlice blob DP.1 16)) (rawUsed + 16)
              (blobSlice blob (DP.1 + 16) (roundUp16 (L - 16)))) _ _ ?_ ?_
          · refine sameBelow_trans _ (storeBytes arena rawUsed (blobSlice blob DP.1 16))
              _ _ (sameBelow_storeBytes _ _ _ _ (le_refl _)) ?_
            exact sameBelow_storeBytes _ _ _ _ (by omega)
          · exact sameBelow_mono _ _ _ _ hFa (by omega)
        · intro t ht
          cases t with
          | zero =>
            rw [hL0, ← hD, if_neg h2]
            rw [show rawUsed + g8Spill rawLengths rows i 0 = rawUsed from by
              show rawUsed + 0 = rawUsed; omega]
            have hstab := recordAt_stable
              (storeBytes (if 0 < L then
                  storeBytes (storeBytes mem (4 * RI) (toLE 4 L)) (4 * RI + 4)
                    (blobSlice blob DP.1 16)
                else storeBytes mem (4 * RI) (toLE 4 L)) (4 * RI + 8) (toLE 8 rawUsed))
              mem'
              (storeBytes (storeBytes arena rawUsed (blobSlice blob DP.1 16))
                (rawUsed + 16) (blobSlice blob (DP.1 + 16) (roundUp16 (L - 16))))
              arena' (cbPos scatter outer i jbase 0) (rawUsed + L)
              (hFm (16 * cbPos scatter outer i jbase 0 + 16) hchain)
              hFa
              (by intro off hoff
                  rw [hrec0] at hoff ⊢
                  have he : off = rawUsed := (Option.some.inj hoff).symm
                  show off + L ≤ rawUsed + L
                  omega)
            rw [hstab, hrec0]
          | succ s =>
            have h := hRec s (by omega)
            rw [cbPos_shift0, g8Len_shift] at h
            have hsp : rawUsed + L + g8Spill rawLengths rows (i + 1) s =
                rawUsed + g8Spill rawLengths rows i (s + 1) := by
              have hf := g8Spill_front rawLengths rows i s
              rw [hL0, if_pos (by omega)] at hf
              omega
            rw [hsp] at h
            rw [hD, ← hL0, hP, g8Data_shift] at h
            exact h
      · rw [if_neg h4]
        rw [hri4]
        obtain ⟨mem', arena', eIH, hFm, hFa, hRec⟩ :=
          ih (i + 1) (DP.1 + L) (rawUsed + L) (cbPos scatter outer i jbase 0 + 1) DP.2
            (storeBytes (if 0 < L then
                storeBytes (storeBytes mem (4 * RI) (toLE 4 L)) (4 * RI + 4)
                  (blobSlice blob DP.1 16)
              else storeBytes mem (4 * RI) (toLE 4 L)) (4 * RI + 8) (toLE 8 rawUsed))
            (storeBytes arena rawUsed (blobSlice blob DP.1 16))
            hBE' hSS' hlen32' hmono'
        have hrec0 : recordAt (storeBytes (if 0 < L then
            storeBytes (storeBytes mem (4 * RI) (toLE 4 L)) (4 * RI + 4)
              (blobSlice blob DP.1 16)
          else storeBytes mem (4 * RI) (toLE 4 L)) (4 * RI + 8) (toLE 8 rawUsed))
            (storeBytes arena rawUsed (blobSlice blob DP.1 16))
            (cbPos scatter outer i jbase 0) =
            (L, blobSlice blob DP.1 L, some rawUsed) := by
          rw [if_pos hz, e1]
          rw [gen8_record_ptr blob mem _ (cbPos scatter outer i jbase 0) L DP.1 rawUsed
            (by omega) hL32 hu64 hblob]
          rw [gen8_arena_short blob arena rawUsed DP.1 L (by omega) hblob]
        refine ⟨mem', arena', ?_, ?_, ?_, ?_⟩
        · rw [eIH, hdataeq 0, hused]
        · intro B hB
          refine sameBelow_trans _ (storeBytes (if 0 < L then
              storeBytes (storeBytes mem (4 * RI) (toLE 4 L)) (4 * RI + 4)
                (blobSlice blob DP.1 16)
            else storeBytes mem (4 * RI) (toLE 4 L)) (4 * RI + 8) (toLE 8 rawUsed)) _ _
            (hmemBfr B (hB 0 (by omega))) ?_
          refine hFm B ?_
          intro t ht
          rw [cbPos_shift0]
          exact hB (t + 1) (by omega)
        · refine sameBelow_trans _ (storeBytes arena rawUsed (blobSlice blob DP.1 16))
            _ _ (sameBelow_storeBytes _ _ _ _ (le_refl _)) ?_
          exact sameBelow_mono _ _ _ _ hFa (by omega)
        · intro t ht
          cases t with
          | zero =>
            rw [hL0, ← hD, if_neg h2]
            rw [show rawUsed + g8Spill rawLengths rows i 0 = rawUsed from by
              show rawUsed + 0 = rawUsed; omega]
            have hstab := recordAt_stable
              (storeBytes (if 0 < L then
                  storeBytes (storeBytes mem (4 * RI) (toLE 4 L)) (4 * RI + 4)
                    (blobSlice blob DP.1 16)
                else storeBytes mem (4 * RI) (toLE 4 L)) (4 * RI + 8) (toLE 8 rawUsed))
              mem' (storeBytes arena rawUsed (blobSlice blob DP.1 16))
              arena' (cbPos scatter outer i jbase 0) (rawUsed + L)
              (hFm (16 * cbPos scatter outer i jbase 0 + 16) hchain)
              hFa
              (by intro off hoff
                  rw [hrec0] at hoff ⊢
                  have he : off = rawUsed := (Option.some.inj hoff).symm
                  show off + L ≤ rawUsed + L
                  omega)
            rw [hstab, hrec0]
          | succ s =>
            have h := hRec s (by omega)
            rw [cbPos_shift0, g8Len_shift] at h
            have hsp : rawUsed + L + g8Spill rawLengths rows (i + 1) s =
                rawUsed + g8Spill rawLengths rows i (s + 1) := by
              have hf := g8Spill_front rawLengths rows i s
              rw [hL0, if_pos (by omega)] at hf
              omega
            rw [hsp] at h
            rw [hD, ← hL0, hP, g8Data_shift] at h
            exact h

theorem try8General_ok (blob : List Nat) (sparse : Bool) (start : Nat) (rows : List Nat)
    (row : Nat) (c : CState) (o : OState)
    (hwin : c.pos + c.winLen ≤ blob.length)
    (hsz64 : o.rawStringSize < 2 ^ 64)
    (hBE : ∀ t, t < 8 → g8Data c.rawLengths rows sparse (c.pos + start + c.toSkip)
        (if sparse then c.lengthIndex else 0) row t +
        roundUp16 (g8Len c.rawLengths rows row t) ≤ c.pos + c.winLen)
    (hSS : o.rawStringUsed + g8Spill c.rawLengths rows row 8 ≤ o.rawStringSize)
    (hlen32 : ∀ t, t < 8 → g8Len c.rawLengths rows row t < 2 ^ 32)
    (hmono : ∀ t, t + 1 < 8 → cbPos (!o.outerNonNullRows.isEmpty) o.outerNonNullRows row
        o.numValues t < cbPos (!o.outerNonNullRows.isEmpty) o.outerNonNullRows row
        o.numValues (t + 1)) :
    ∃ c' o', try8General blob sparse start rows row c o = some (true, c', o') ∧
      c'.pos = g8Data c.rawLengths rows sparse (c.pos + start + c.toSkip)
          (if sparse then c.lengthIndex else 0) row 7 + g8Len c.rawLengths rows row 7 ∧
      c'.toSkip = 0 ∧ c'.pos + c'.winLen ≤ blob.length ∧
      c'.rawLengths = c.rawLengths ∧
      c'.lengthIndex = (if sparse then rowAt rows (row + 7) + 1 else c.lengthIndex + 8) ∧
      c'.lenStream = c.lenStream ∧
      o'.numValues = cbPos (!o.outerNonNullRows.isEmpty) o.outerNonNullRows row
          o.numValues 7 + 1 ∧
      o'.rawStringUsed = o.rawStringUsed + g8Spill c.rawLengths rows row 8 ∧
      o'.resultNulls = o.resultNulls ∧ o'.returnReaderNulls = o.returnReaderNulls ∧
      o'.anyNulls = o.anyNulls ∧ o'.outerNonNullRows = o.outerNonNullRows ∧
      o'.rawStringSize = o.rawStringSize ∧
      (∀ B, (∀ t, t < 8 → B ≤ 16 * cbPos (!o.outerNonNullRows.isEmpty) o.outerNonNullRows
          row o.numValues t) → sameBelow o.rawValues o'.rawValues B) ∧
      sameBelow o.arena o'.arena o.rawStringUsed ∧
      (∀ t, t < 8 → recordAt o'.rawValues o'.arena
          (cbPos (!o.outerNonNullRows.isEmpty) o.outerNonNullRows row o.numValues t) =
        (g8Len c.rawLengths rows row t,
         blobSlice blob (g8Data c.rawLengths rows sparse (c.pos + start + c.toSkip)
           (if sparse then c.lengthIndex else 0) row t) (g8Len c.rawLengths rows row t),
         if g8Len c.rawLengths rows row t ≤ 12 then none
         else some (o.rawStringUsed + g8Spill c.rawLengths rows row t))) := by
  obtain ⟨mem', arena', eL, hFm, hFa, hRec⟩ :=
    try8GenLoop_ok blob rows o.outerNonNullRows c.rawLengths (!o.outerNonNullRows.isEmpty)
      sparse (c.pos + c.winLen) o.rawStringSize hwin hsz64 8 row
      (c.pos + start + c.toSkip) o.rawStringUsed o.numValues
      (if sparse then c.lengthIndex else 0) o.rawValues o.arena hBE hSS hlen32 hmono
  rw [if_neg (show ¬ (8 : Nat) = 0 from by omega)] at eL
  unfold try8General
  rw [show o.numValues * 4 = 4 * o.numValues from by omega, eL]
  rw [show (8 : Nat) - 1 = 7 from rfl] at eL ⊢
  refine ⟨_, _, rfl, rfl, rfl, ?_, rfl, rfl, rfl, ?_, rfl, rfl, rfl, rfl, rfl, rfl,
    ?_, hFa, ?_⟩
  · show g8Data c.rawLengths rows sparse (c.pos + start + c.toSkip)
        (if sparse then c.lengthIndex else 0) row 7 + g8Len c.rawLengths rows row 7 +
        (c.pos + c.winLen -
          (g8Data c.rawLengths rows sparse (c.pos + start + c.toSkip)
            (if sparse then c.lengthIndex else 0) row 7 + g8Len c.rawLengths rows row 7)) ≤
      blob.length
    have h7 := hBE 7 (by omega)
    have hr := roundUp16_ge (g8Len c.rawLengths rows row 7)
    omega
  · show (if !o.outerNonNullRows.isEmpty then o.outerNonNullRows.getD (row + 7) 0 + 1
        else o.numValues + 8) =
      cbPos (!o.outerNonNullRows.isEmpty) o.outerNonNullRows row o.numValues 7 + 1
    cases hsc : o.outerNonNullRows.isEmpty with
    | true => rfl
    | false => rfl
  · intro B hB
    exact hFm B hB
  · intro t ht
    exact hRec t ht

theorem try8General_false_frames (blob : List Nat) (sparse : Bool) (start : Nat)
    (rows : List Nat) (row : Nat) (c c' : CState) (o o' : OState) (Bm Ba : Nat)
    (h : try8General blob sparse start rows row c o = some (false, c', o'))
    (hB : ∀ t, t < 8 → Bm ≤ 16 * cbPos (!o.outerNonNullRows.isEmpty) o.outerNonNullRows
        row o.numValues t)
    (hBa : Ba ≤ o.rawStringUsed) :
    sameBelow o.rawValues o'.rawValues Bm ∧ sameBelow o.arena o'.arena Ba := by
  have hfr := try8GenLoop_frames blob rows o.outerNonNullRows c.rawLengths
    (!o.outerNonNullRows.isEmpty) sparse (c.pos + c.winLen) o.rawStringSize Bm Ba
    8 row (c.pos + start + c.toSkip) o.rawStringUsed o.numValues
    (if sparse then c.lengthIndex else 0) o.rawValues o.arena hB hBa
  unfold try8General at h
  rw [show o.numValues * 4 = 4 * o.numValues from by omega] at h
  revert hfr
  cases hres : try8GenLoop blob rows o.outerNonNullRows c.rawLengths
      (!o.outerNonNullRows.isEmpty) sparse (c.pos + c.winLen) o.rawStringSize 8 row
      (c.pos + start + c.toSkip) o.rawStringUsed (4 * o.numValues)
      (if sparse then c.lengthIndex else 0) o.rawValues o.arena with
  | abort m a =>
    intro hfr
    rw [hres] at h
    simp only [try8Commit, Option.some.injEq, Prod.mk.injEq] at h
    obtain ⟨-, hc, ho⟩ := h
    rw [← ho]
    exact hfr
  | fatal =>
    intro _
    rw [hres] at h
    simp [try8Commit] at h
  | ok d u m a =>
    intro _
    rw [hres] at h
    simp [try8Commit] at h

theorem try8GenLoop_okchar (blob rows outer rawLengths : List Nat) (scatter sparse : Bool)
    (bufEnd rawStringSize : Nat) (hbe : bufEnd ≤ blob.length)
    (hsz64 : rawStringSize < 2 ^ 64) :
    ∀ (k i data rawUsed jbase previousRow : Nat) (mem arena : List Nat)
      (d u : Nat) (m a : List Nat),
    (∀ t, t < k → g8Len rawLengths rows i t < 2 ^ 32) →
    (∀ t, t + 1 < k → cbPos scatter outer i jbase t < cbPos scatter outer i jbase (t + 1)) →
    try8GenLoop blob rows outer rawLengths scatter sparse bufEnd rawStringSize
      k i data rawUsed (4 * jbase) previousRow mem arena = .ok d u m a →
    d = (if k = 0 then data
         else g8Data rawLengths rows sparse data previousRow i (k - 1) +
           g8Len rawLengths rows i (k - 1)) ∧
    u = rawUsed + g8Spill rawLengths rows i k ∧
    (∀ B, (∀ t, t < k → B ≤ 16 * cbPos scatter outer i jbase t) → sameBelow mem m B) ∧
    sameBelow arena a rawUsed ∧
    (∀ t, t < k →
      recordAt m a (cbPos scatter outer i jbase t) =
        (g8Len rawLengths rows i t,
         blobSlice blob (g8Data rawLengths rows sparse data previousRow i t)
           (g8Len rawLengths rows i t),
         if g8Len rawLengths rows i t ≤ 12 then none
         else some (rawUsed + g8Spill rawLengths rows i t))) := by
  intro k
  induction k with
  | zero =>
    intro i data rawUsed jbase previousRow mem arena d u m a _ _ heq
    have heq' : Gen8Res.ok data rawUsed mem arena = Gen8Res.ok d u m a := heq
    injection heq' with h1 h2 h3 h4
    subst h1
    subst h2
    subst h3
    subst h4
    refine ⟨by rw [if_pos rfl], by show rawUsed = rawUsed + 0; omega,
      fun B _ => sameBelow_refl _ _, sameBelow_refl _ _,
      fun t ht => absurd ht (by omega)⟩
  | succ k ih =>
    intro i data rawUsed jbase previousRow mem arena d u m a hlen32 hmono heq
    rw [try8GenLoop_succ] at heq
    dsimp only at heq
    set RI := (if scatter then outer.getD i 0 * 4 else 4 * jbase) with hRIdef
    set DP := (if sparse then
        (data + rangeSumL rawLengths 0 previousRow (rows.getD i 0), rows.getD i 0 + 1)
      else (data, previousRow)) with hDPdef
    set L := rawLengths.getD (rows.getD i 0) 0 with hLdef
    have hri : RI = 4 * cbPos scatter outer i jbase 0 := by
      rw [hRIdef]
      unfold cbPos
      cases scatter with
      | true =>
        show outer.getD i 0 * 4 = 4 * outer.getD (i + 0) 0
        rw [Nat.add_zero]
        omega
      | false =>
        show 4 * jbase = 4 * (jbase + 0)
        omega
    have hri4 : RI + 4 = 4 * (cbPos scatter outer i jbase 0 + 1) := by
      rw [hri]
      omega
    have hL0 : g8Len rawLengths rows i 0 = L := by
      rw [hLdef]
      unfold g8Len
      rw [Nat.add_zero]
    have hD : DP.1 = g8Data rawLengths rows sparse data previousRow i 0 := by
      rw [hDPdef]
      cases sparse with
      | false =>
        show data = data + 0
        omega
      | true =>
        show data + (0 + sumRange rawLengths previousRow (rows.getD i 0 - previousRow)) =
          data + sumRange rawLengths previousRow (rows.getD i 0 - previousRow)
        omega
    have hP : DP.2 = (if sparse then rows.getD i 0 + 1 else previousRow) := by
      rw [hDPdef]
      cases sparse with
      | false => rfl
      | true => rfl
    have hL32 : L < 2 ^ 32 := by
      have h := hlen32 0 (by omega)
      rw [hL0] at h
      exact h
    have hlen32' : ∀ t, t < k → g8Len rawLengths rows (i + 1) t < 2 ^ 32 := by
      intro t ht
      rw [g8Len_shift]
      exact hlen32 (t + 1) (by omega)
    have hmono' : ∀ t, t + 1 < k →
        cbPos scatter outer (i + 1) (cbPos scatter outer i jbase 0 + 1) t <
        cbPos scatter outer (i + 1) (cbPos scatter outer i jbase 0 + 1) (t + 1) := by
      intro t ht
      rw [cbPos_shift0, cbPos_shift0]
      exact hmono (t + 1) (by omega)
    have hchain : ∀ s, s < k →
        16 * cbPos scatter outer i jbase 0 + 16 ≤
          16 * cbPos scatter outer (i + 1) (cbPos scatter outer i jbase 0 + 1) s := by
      intro s hs
      rw [cbPos_shift0]
      have h : cbPos scatter outer i jbase 0 < cbPos scatter outer i jbase (s + 1) := by
        refine chain_lt (fun t => cbPos scatter outer i jbase t) (k + 1)
          (fun t htk => hmono t htk) 0 (s + 1) (by omega) (by omega)
      omega
    by_cases h1 : bufEnd < DP.1 + roundUp16 L
    · rw [if_pos h1] at heq
      exact absurd heq (by simp)
    · rw [if_neg h1] at heq
      have hBE0 : DP.1 + roundUp16 L ≤ bufEnd := by omega
      have hdataeq :
          (if k = 0 then DP.1 + L
           else g8Data rawLengths rows sparse (DP.1 + L) DP.2 (i + 1) (k - 1) +
             g8Len rawLengths rows (i + 1) (k - 1)) =
          (if k + 1 = 0 then data
           else g8Data rawLengths rows sparse data previousRow i (k + 1 - 1) +
             g8Len rawLengths rows i (k + 1 - 1)) := by
        rw [if_neg (Nat.succ_ne_zero k)]
        by_cases hk : k = 0
        · subst hk
          rw [if_pos rfl]
          show DP.1 + L = g8Data rawLengths rows sparse data previousRow i 0 +
            g8Len rawLengths rows i 0
          rw [hD, hL0]
        · rw [if_neg hk]
          have e1 : k - 1 + 1 = k := by omega
          have h2' := g8Data_shift rawLengths rows sparse data previousRow i (k - 1)
          rw [e1] at h2'
          have h3' := g8Len_shift rawLengths rows i (k - 1)
          rw [e1] at h3'
          rw [hD, ← hL0, hP, h2', h3']
          rw [show k + 1 - 1 = k from by omega]
      by_cases h2 : L ≤ 12
      · rw [if_pos h2] at heq
        obtain ⟨hd, hu, hFm, hFa, hRec⟩ :=
          ih (i + 1) (DP.1 + L) rawUsed (cbPos scatter outer i jbase 0 + 1) DP.2
            (storeBytes (if 0 < L then
                storeBytes (storeBytes mem (4 * RI) (toLE 4 L)) (4 * RI + 4)
                  (blobSlice blob DP.1 16)
              else storeBytes mem (4 * RI) (toLE 4 L)) (4 * RI + 4 + L)
              (List.replicate 8 0)) arena d u m a hlen32' hmono' (by rw [← hri4]; exact heq)
        have hused : rawUsed + g8Spill rawLengths rows (i + 1) k =
            rawUsed + g8Spill rawLengths rows i (k + 1) := by
          have h := g8Spill_front rawLengths rows i k
          rw [hL0, if_neg (by omega)] at h
          omega
        have hrec0 : recordAt (storeBytes (if 0 < L then
            storeBytes (storeBytes mem (4 * RI) (toLE 4 L)) (4 * RI + 4)
              (blobSlice blob DP.1 16)
          else storeBytes mem (4 * RI) (toLE 4 L)) (4 * RI + 4 + L)
            (List.replicate 8 0)) arena (cbPos scatter outer i jbase 0) =
            (L, blobSlice blob DP.1 L, none) := by
          by_cases hz : 0 < L
          · rw [if_pos hz]
            have e1 : 4 * RI = 16 * cbPos scatter outer i jbase 0 := by
              rw [hri]
              omega
            rw [e1]
            have hblob : DP.1 + 16 ≤ blob.length := by
              have := roundUp16_ge16 L hz
              omega
            exact gen8_record_inline blob mem arena (cbPos scatter outer i jbase 0) L DP.1
              h2 hz hblob
          · rw [if_neg hz]
            have hzz : L = 0 := by omega
            rw [hzz]
            have e1 : 4 * RI = 16 * cbPos scatter outer i jbase 0 := by
              rw [hri]
              omega
            rw [e1, Nat.add_zero]
            rw [show blobSlice blob DP.1 0 = ([] : List Nat) from rfl]
            exact gen8_record_zero blob mem arena (cbPos scatter outer i jbase 0)
        refine ⟨by rw [hd, hdataeq], by rw [hu, hused], ?_, hFa, ?_⟩
        · intro B hB
          refine sameBelow_trans _ (storeBytes (if 0 < L then
              storeBytes (storeBytes mem (4 * RI) (toLE 4 L)) (4 * RI + 4)
                (blobSlice blob DP.1 16)
            else storeBytes mem (4 * RI) (toLE 4 L)) (4 * RI + 4 + L)
              (List.replicate 8 0)) _ _ ?_ ?_
          · have hB0 : B ≤ 16 * cbPos scatter outer i jbase 0 := hB 0 (by omega)
            refine sameBelow_trans _ (if 0 < L then
                storeBytes (storeBytes mem (4 * RI) (toLE 4 L)) (4 * RI + 4)
                  (blobSlice blob DP.1 16)
              else storeBytes mem (4 * RI) (toLE 4 L)) _ _ ?_ ?_
            · by_cases hz : 0 < L
              · rw [if_pos hz]
                refine sameBelow_trans _ (storeBytes mem (4 * RI) (toLE 4 L)) _ _
                  (sameBelow_storeBytes mem (4 * RI) (toLE 4 L) B (by rw [hri]; omega)) ?_
                exact sameBelow_storeBytes _ _ _ _ (by rw [hri]; omega)
              · rw [if_neg hz]
                exact sameBelow_storeBytes _ _ _ _ (by rw [hri]; omega)
            · exact sameBelow_storeBytes _ _ _ _ (by rw [hri]; omega)
          · refine hFm B ?_
            intro t ht
            rw [cbPos_shift0]
            exact hB (t + 1) (by omega)
        · intro t ht
          cases t with
          | zero =>
            rw [hL0, ← hD, if_pos h2]
            have hstab := recordAt_stable
              (storeBytes (if 0 < L then
                  storeBytes (storeBytes mem (4 * RI) (toLE 4 L)) (4 * RI + 4)
                    (blobSlice blob DP.1 16)
                else storeBytes mem (4 * RI) (toLE 4 L)) (4 * RI + 4 + L)
                (List.replicate 8 0)) m arena a
              (cbPos scatter outer i jbase 0) rawUsed
              (hFm (16 * cbPos scatter outer i jbase 0 + 16) hchain)
              hFa
              (by intro off hoff
                  rw [hrec0] at hoff
                  exact absurd hoff (by simp))
            rw [hstab, hrec0]
          | succ s =>
            have h := hRec s (by omega)
            rw [cbPos_shift0, g8Len_shift] at h
            have hsp : rawUsed + g8Spill rawLengths rows (i + 1) s =
                rawUsed + g8Spill rawLengths rows i (s + 1) := by
              have hf := g8Spill_front rawLengths rows i s
              rw [hL0, if_neg (by omega)] at hf
              omega
            rw [hsp] at h
            rw [hD, ← hL0, hP, g8Data_shift] at h
            exact h
      · rw [if_neg h2] at heq
        have hsp1 : g8Spill rawLengths rows i (k + 1) =
            L + g8Spill rawLengths rows (i + 1) k := by
          have h := g8Spill_front rawLengths rows i k
          rw [hL0, if_pos (by omega)] at h
          exact h
        by_cases h3 : rawStringSize < rawUsed + L
        · rw [if_pos h3] at heq
          exact absurd heq (by simp)
        · rw [if_neg h3] at heq
          have hz : 0 < L := by omega
          have hblob : DP.1 + 16 ≤ blob.length := by
            have := roundUp16_ge16 L hz
            omega
          have hu64 : rawUsed < 2 ^ 64 := by omega
          have e1 : 4 * RI = 16 * cbPos scatter outer i jbase 0 := by
            rw [hri]
            omega
          have hused : rawUsed + L + g8Spill rawLengths rows (i + 1) k =
              rawUsed + g8Spill rawLengths rows i (k + 1) := by
            omega
          have hmemBfr : ∀ B, B ≤ 16 * cbPos scatter outer i jbase 0 →
              sameBelow mem (storeBytes (if 0 < L then
                  storeBytes (storeBytes mem (4 * RI) (toLE 4 L)) (4 * RI + 4)
                    (blobSlice blob DP.1 16)
                else storeBytes mem (4 * RI) (toLE 4 L)) (4 * RI + 8)
                (toLE 8 rawUsed)) B := by
            intro B hB0
            refine sameBelow_trans _ (if 0 < L then
                storeBytes (storeBytes mem (4 * RI) (toLE 4 L)) (4 * RI + 4)
                  (blobSlice blob DP.1 16)
              else storeBytes mem (4 * RI) (toLE 4 L)) _ _ ?_ ?_
            · rw [if_pos hz]
              refine sameBelow_trans _ (storeBytes mem (4 * RI) (toLE 4 L)) _ _
                (sameBelow_storeBytes mem (4 * RI) (toLE 4 L) B (by rw [hri]; omega)) ?_
              exact sameBelow_storeBytes _ _ _ _ (by rw [hri]; omega)
            · exact sameBelow_storeBytes _ _ _ _ (by rw [hri]; omega)
          by_cases h4 : 16 < L
          · rw [if_pos h4] at heq
            by_cases h5 : roundUp16 (L - 16) ≤ bufEnd - DP.1 - 16
            · rw [if_pos h5] at heq
              have hblob2 : DP.1 + 16 + roundUp16 (L - 16) ≤ blob.length := by
                have hr := roundUp16_sub16 L h4
                have hg := roundUp16_ge16 L hz
                omega
              obtain ⟨hd, hu, hFm, hFa, hRec⟩ :=
                ih (i + 1) (DP.1 + L) (rawUsed + L)
                  (cbPos scatter outer i jbase 0 + 1) DP.2
                  (storeBytes (if 0 < L then
                      storeBytes (storeBytes mem (4 * RI) (toLE 4 L)) (4 * RI + 4)
                        (blobSlice blob DP.1 16)
                    else storeBytes mem (4 * RI) (toLE 4 L)) (4 * RI + 8)
                    (toLE 8 rawUsed))
                  (storeBytes (storeBytes arena rawUsed (blobSlice blob DP.1 16))
                    (rawUsed + 16) (blobSlice blob (DP.1 + 16) (roundUp16 (L - 16))))
                  d u m a hlen32' hmono' (by rw [← hri4]; exact heq)
              have hrec0 : recordAt (storeBytes (if 0 < L then
                  storeBytes (storeBytes mem (4 * RI) (toLE 4 L)) (4 * RI + 4)
                    (blobSlice blob DP.1 16)
                else storeBytes mem (4 * RI) (toLE 4 L)) (4 * RI + 8) (toLE 8 rawUsed))
                  (storeBytes (storeBytes arena rawUsed (blobSlice blob DP.1 16))
                    (rawUsed + 16) (blobSlice blob (DP.1 + 16) (roundUp16 (L - 16))))
                  (cbPos scatter outer i jbase 0) =
                  (L, blobSlice blob DP.1 L, some rawUsed) := by
                rw [if_pos hz, e1]
                rw [gen8_record_ptr blob mem _ (cbPos scatter outer i jbase 0) L DP.1
                  rawUsed (by omega) hL32 hu64 hblob]
                rw [gen8_arena_long blob arena rawUsed DP.1 L (roundUp16 (L - 16))
                  (by omega) (roundUp16_ge (L - 16)) hblob2]
              refine ⟨by rw [hd, hdataeq], by rw [hu, hused], ?_, ?_, ?_⟩
              · intro B hB
                refine sameBelow_trans _ (storeBytes (if 0 < L then
                    storeBytes (storeBytes mem (4 * RI) (toLE 4 L)) (4 * RI + 4)
                      (blobSlice blob DP.1 16)
                  else storeBytes mem (4 * RI) (toLE 4 L)) (4 * RI + 8)
                  (toLE 8 rawUsed)) _ _ (hmemBfr B (hB 0 (by omega))) ?_
                refine hFm B ?_
                intro t ht
                rw [cbPos_shift0]
                exact hB (t + 1) (by omega)
              · refine sameBelow_trans _ (storeBytes (storeBytes arena rawUsed
                    (blobSlice blob DP.1 16)) (rawUsed + 16)
                    (blobSlice blob (DP.1 + 16) (roundUp16 (L - 16)))) _ _ ?_ ?_
                · refine sameBelow_trans _ (storeBytes arena rawUsed
                      (blobSlice blob DP.1 16)) _ _
                    (sameBelow_storeBytes _ _ _ _ (le_refl _)) ?_
                  exact sameBelow_storeBytes _ _ _ _ (by omega)
                · exact sameBelow_mono _ _ _ _ hFa (by omega)
              · intro t ht
                cases t with
                | zero =>
                  rw [hL0, ← hD, if_neg h2]
                  rw [show rawUsed + g8Spill rawLengths rows i 0 = rawUsed from by
                    show rawUsed + 0 = rawUsed; omega]
                  have hstab := recordAt_stable
                    (storeBytes (if 0 < L then
                        storeBytes (storeBytes mem (4 * RI) (toLE 4 L)) (4 * RI + 4)
                          (blobSlice blob DP.1 16)
                      else storeBytes mem (4 * RI) (toLE 4 L)) (4 * RI + 8)
                      (toLE 8 rawUsed))
                    m
                    (storeBytes (storeBytes arena rawUsed (blobSlice blob DP.1 16))
                      (rawUsed + 16) (blobSlice blob (DP.1 + 16) (roundUp16 (L - 16))))
                    a (cbPos scatter outer i jbase 0) (rawUsed + L)
                    (hFm (16 * cbPos scatter outer i jbase 0 + 16) hchain)
                    hFa
                    (by intro off hoff
                        rw [hrec0] at hoff ⊢
                        have he : off = rawUsed := (Option.some.inj hoff).symm
                        show off + L ≤ rawUsed + L
                        omega)
                  rw [hstab, hrec0]
                | succ s =>
                  have h := hRec s (by omega)
                  rw [cbPos_shift0, g8Len_shift] at h
                  have hsp : rawUsed + L + g8Spill rawLengths rows (i + 1) s =
                      rawUsed + g8Spill rawLengths rows i (s + 1) := by
                    have hf := g8Spill_front rawLengths rows i s
                    rw [hL0, if_pos (by omega)] at hf
                    omega
                  rw [hsp] at h
                  rw [hD, ← hL0, hP, g8Data_shift] at h
                  exact h
            · rw [if_neg h5] at heq
              exact absurd heq (by simp)
          · rw [if_neg h4] at heq
            obtain ⟨hd, hu, hFm, hFa, hRec⟩ :=
              ih (i + 1) (DP.1 + L) (rawUsed + L) (cbPos scatter outer i jbase 0 + 1) DP.2
                (storeBytes (if 0 < L then
                    storeBytes (storeBytes mem (4 * RI) (toLE 4 L)) (4 * RI + 4)
                      (blobSlice blob DP.1 16)
                  else storeBytes mem (4 * RI) (toLE 4 L)) (4 * RI + 8) (toLE 8 rawUsed))
                (storeBytes arena rawUsed (blobSlice blob DP.1 16))
                d u m a hlen32' hmono' (by rw [← hri4]; exact heq)
            have hrec0 : recordAt (storeBytes (if 0 < L then
                storeBytes (storeBytes mem (4 * RI) (toLE 4 L)) (4 * RI + 4)
                  (blobSlice blob DP.1 16)
              else storeBytes mem (4 * RI) (toLE 4 L)) (4 * RI + 8) (toLE 8 rawUsed))
                (storeBytes arena rawUsed (blobSlice blob DP.1 16))
                (cbPos scatter outer i jbase 0) =
                (L, blobSlice blob DP.1 L, some rawUsed) := by
              rw [if_pos hz, e1]
              rw [gen8_record_ptr blob mem _ (cbPos scatter outer i jbase 0) L DP.1
                rawUsed (by omega) hL32 hu64 hblob]
              rw [gen8_arena_short blob arena rawUsed DP.1 L (by omega) hblob]
            refine ⟨by rw [hd, hdataeq], by rw [hu, hused], ?_, ?_, ?_⟩
            · intro B hB
              refine sameBelow_trans _ (storeBytes (if 0 < L then
                  storeBytes (storeBytes mem (4 * RI) (toLE 4 L)) (4 * RI + 4)
                    (blobSlice blob DP.1 16)
                else storeBytes mem (4 * RI) (toLE 4 L)) (4 * RI + 8)
                (toLE 8 rawUsed)) _ _ (hmemBfr B (hB 0 (by omega))) ?_
              refine hFm B ?_
              intro t ht
              rw [cbPos_shift0]
              exact hB (t + 1) (by omega)
            · refine sameBelow_trans _ (storeBytes arena rawUsed (blobSlice blob DP.1 16))
                _ _ (sameBelow_storeBytes _ _ _ _ (le_refl _)) ?_
              exact sameBelow_mono _ _ _ _ hFa (by omega)
            · intro t ht
              cases t with
              | zero =>
                rw [hL0, ← hD, if_neg h2]
                rw [show rawUsed + g8Spill rawLengths rows i 0 = rawUsed from by
                  show rawUsed + 0 = rawUsed; omega]
                have hstab := recordAt_stable
                  (storeBytes (if 0 < L then
                      storeBytes (storeBytes mem (4 * RI) (toLE 4 L)) (4 * RI + 4)
                        (blobSlice blob DP.1 16)
                    else storeBytes mem (4 * RI) (toLE 4 L)) (4 * RI + 8)
                    (toLE 8 rawUsed))
                  m (storeBytes arena rawUsed (blobSlice blob DP.1 16))
                  a (cbPos scatter outer i jbase 0) (rawUsed + L)
                  (hFm (16 * cbPos scatter outer i jbase 0 + 16) hchain)
                  hFa
                  (by intro off hoff
                      rw [hrec0] at hoff ⊢
                      have he : off = rawUsed := (Option.some.inj hoff).symm
                      show off + L ≤ rawUsed + L
                      omega)
                rw [hstab, hrec0]
              | succ s =>
                have h := hRec s (by omega)
                rw [cbPos_shift0, g8Len_shift] at h
                have hsp : rawUsed + L + g8Spill rawLengths rows (i + 1) s =
                    rawUsed + g8Spill rawLengths rows i (s + 1) := by
                  have hf := g8Spill_front rawLengths rows i s
                  rw [hL0, if_pos (by omega)] at hf
                  omega
                rw [hsp] at h
                rw [hD, ← hL0, hP, g8Data_shift] at h
                exact h

theorem g8loop_data_le (blob rows outer rawLengths : List Nat) (scatter sparse : Bool)
    (bufEnd rawStringSize : Nat) :
    ∀ (k i data rawUsed pr4 previousRow : Nat) (mem arena : List Nat)
      (d u : Nat) (m a : List Nat), 0 < k →
    try8GenLoop blob rows outer rawLengths scatter sparse bufEnd rawStringSize
      k i data rawUsed pr4 previousRow mem arena = .ok d u m a →
    d ≤ bufEnd := by
  intro k
  induction k with
  | zero =>
    intro i data rawUsed pr4 previousRow mem arena d u m a hk _
    omega
  | succ k ih =>
    intro i data rawUsed pr4 previousRow mem arena d u m a _ heq
    rw [try8GenLoop_succ] at heq
    dsimp only at heq
    set RI := (if scatter then outer.getD i 0 * 4 else pr4) with hRIdef
    set DP := (if sparse then
        (data + rangeSumL rawLengths 0 previousRow (rows.getD i 0), rows.getD i 0 + 1)
      else (data, previousRow)) with hDPdef
    set L := rawLengths.getD (rows.getD i 0) 0 with hLdef
    by_cases h1 : bufEnd < DP.1 + roundUp16 L
    · rw [if_pos h1] at heq
      exact absurd heq (by simp)
    · rw [if_neg h1] at heq
      have hr16 : L ≤ roundUp16 L := roundUp16_ge L
      by_cases h2 : L ≤ 12
      · rw [if_pos h2] at heq
        cases k with
        | zero =>
          have heq2 : Gen8Res.ok (DP.1 + L) rawUsed
              (storeBytes (if 0 < L then
                  storeBytes (storeBytes mem (4 * RI) (toLE 4 L)) (4 * RI + 4)
                    (blobSlice blob DP.1 16)
                else storeBytes mem (4 * RI) (toLE 4 L)) (4 * RI + 4 + L)
                (List.replicate 8 0)) arena = Gen8Res.ok d u m a := heq
          injection heq2 with e1 e2 e3 e4
          omega
        | succ k2 =>
          exact ih _ _ _ _ _ _ _ _ _ _ _ (by omega) heq
      · rw [if_neg h2] at heq
        by_cases h3 : rawStringSize < rawUsed + L
        · rw [if_pos h3] at heq
          exact absurd heq (by simp)
        · rw [if_neg h3] at heq
          by_cases h4 : 16 < L
          · rw [if_pos h4] at heq
            by_cases h5 : roundUp16 (L - 16) ≤ bufEnd - DP.1 - 16
            · rw [if_pos h5] at heq
              cases k with
              | zero =>
                have heq2 : Gen8Res.ok (DP.1 + L) (rawUsed + L)
                    (storeBytes (if 0 < L then
                        storeBytes (storeBytes mem (4 * RI) (toLE 4 L)) (4 * RI + 4)
                          (blobSlice blob DP.1 16)
                      else storeBytes mem (4 * RI) (toLE 4 L)) (4 * RI + 8)
                      (toLE 8 rawUsed))
                    (storeBytes (storeBytes arena rawUsed (blobSlice blob DP.1 16))
                      (rawUsed + 16) (blobSlice blob (DP.1 + 16) (roundUp16 (L - 16)))) =
                    Gen8Res.ok d u m a := heq
                injection heq2 with e1 e2 e3 e4
                omega
              | succ k2 =>
                exact ih _ _ _ _ _ _ _ _ _ _ _ (by omega) heq
            · rw [if_neg h5] at heq
              exact absurd heq (by simp)
          · rw [if_neg h4] at heq
            cases k with
            | zero =>
              have heq2 : Gen8Res.ok (DP.1 + L) (rawUsed + L)
                  (storeBytes (if 0 < L then
                      storeBytes (storeBytes mem (4 * RI) (toLE 4 L)) (4 * RI + 4)
                        (blobSlice blob DP.1 16)
                    else storeBytes mem (4 * RI) (toLE 4 L)) (4 * RI + 8)
                    (toLE 8 rawUsed))
                  (storeBytes arena rawUsed (blobSlice blob DP.1 16)) =
                  Gen8Res.ok d u m a := heq
              injection heq2 with e1 e2 e3 e4
              omega
            | succ k2 =>
              exact ih _ _ _ _ _ _ _ _ _ _ _ (by omega) heq

theorem try8General_okchar (blob : List Nat) (sparse : Bool) (start : Nat)
    (rows : List Nat) (row : Nat) (c c' : CState) (o o' : OState)
    (hwin : c.pos + c.winLen ≤ blob.length)
    (hsz64 : o.rawStringSize < 2 ^ 64)
    (hlen32 : ∀ t, t < 8 → g8Len c.rawLengths rows row t < 2 ^ 32)
    (hmono : ∀ t, t + 1 < 8 → cbPos (!o.outerNonNullRows.isEmpty) o.outerNonNullRows row
        o.numValues t < cbPos (!o.outerNonNullRows.isEmpty) o.outerNonNullRows row
        o.numValues (t + 1))
    (h : try8General blob sparse start rows row c o = some (true, c', o')) :
    c'.pos = g8Data c.rawLengths rows sparse (c.pos + start + c.toSkip)
        (if sparse then c.lengthIndex else 0) row 7 + g8Len c.rawLengths rows row 7 ∧
    c'.toSkip = 0 ∧ c'.pos + c'.winLen ≤ blob.length ∧
    c'.rawLengths = c.rawLengths ∧
    c'.lengthIndex = (if sparse then rowAt rows (row + 7) + 1 else c.lengthIndex + 8) ∧
    c'.lenStream = c.lenStream ∧
    o'.numValues = cbPos (!o.outerNonNullRows.isEmpty) o.outerNonNullRows row
        o.numValues 7 + 1 ∧
    o'.rawStringUsed = o.rawStringUsed + g8Spill c.rawLengths rows row 8 ∧
    o'.resultNulls = o.resultNulls ∧ o'.returnReaderNulls = o.returnReaderNulls ∧
    o'.anyNulls = o.anyNulls ∧ o'.outerNonNullRows = o.outerNonNullRows ∧
    o'.rawStringSize = o.rawStringSize ∧
    (∀ B, (∀ t, t < 8 → B ≤ 16 * cbPos (!o.outerNonNullRows.isEmpty) o.outerNonNullRows
        row o.numValues t) → sameBelow o.rawValues o'.rawValues B) ∧
    sameBelow o.arena o'.arena o.rawStringUsed ∧
    (∀ t, t < 8 → recordAt o'.rawValues o'.arena
        (cbPos (!o.outerNonNullRows.isEmpty) o.outerNonNullRows row o.numValues t) =
      (g8Len c.rawLengths rows row t,
       blobSlice blob (g8Data c.rawLengths rows sparse (c.pos + start + c.toSkip)
         (if sparse then c.lengthIndex else 0) row t) (g8Len c.rawLengths rows row t),
       if g8Len c.rawLengths rows row t ≤ 12 then none
       else some (o.rawStringUsed + g8Spill c.rawLengths rows row t))) := by
  unfold try8General at h
  rw [show o.numValues * 4 = 4 * o.numValues from by omega] at h
  cases hres : try8GenLoop blob rows o.outerNonNullRows c.rawLengths
      (!o.outerNonNullRows.isEmpty) sparse (c.pos + c.winLen) o.rawStringSize 8 row
      (c.pos + start + c.toSkip) o.rawStringUsed (4 * o.numValues)
      (if sparse then c.lengthIndex else 0) o.rawValues o.arena with
  | abort m a =>
    rw [hres] at h
    simp [try8Commit] at h
  | fatal =>
    rw [hres] at h
    simp [try8Commit] at h
  | ok d u m a =>
    rw [hres] at h
    obtain ⟨hd, hu, hFm, hFa, hRec⟩ :=
      try8GenLoop_okchar blob rows o.outerNonNullRows c.rawLengths
        (!o.outerNonNullRows.isEmpty) sparse (c.pos + c.winLen) o.rawStringSize hwin hsz64
        8 row (c.pos + start + c.toSkip) o.rawStringUsed o.numValues
        (if sparse then c.lengthIndex else 0) o.rawValues o.arena d u m a
        hlen32 hmono hres
    rw [if_neg (show ¬ (8 : Nat) = 0 from by omega),
      show (8 : Nat) - 1 = 7 from rfl] at hd
    simp only [try8Commit, Option.some.injEq, Prod.mk.injEq] at h
    obtain ⟨-, hc, ho⟩ := h
    have hdbuf : d ≤ c.pos + c.winLen := by
      cases hres2 : try8GenLoop blob rows o.outerNonNullRows c.rawLengths
          (!o.outerNonNullRows.isEmpty) sparse (c.pos + c.winLen) o.rawStringSize 8 row
          (c.pos + start + c.toSkip) o.rawStringUsed (4 * o.numValues)
          (if sparse then c.lengthIndex else 0) o.rawValues o.arena with
      | abort m2 a2 => rw [hres2] at hres; exact absurd hres (by simp)
      | fatal => rw [hres2] at hres; exact absurd hres (by simp)
      | ok d2 u2 m2 a2 =>
        rw [hres2] at hres
        injection hres with e1 e2 e3 e4
        subst e1
        exact g8loop_data_le blob rows o.outerNonNullRows c.rawLengths
          (!o.outerNonNullRows.isEmpty) sparse (c.pos + c.winLen) o.rawStringSize 8 row
          (c.pos + start + c.toSkip) o.rawStringUsed (4 * o.numValues)
          (if sparse then c.lengthIndex else 0) o.rawValues o.arena d2 u2 m2 a2
          (by omega) hres2
    refine ⟨?_, ?_, ?_, ?_, ?_, ?_, ?_, ?_, ?_, ?_, ?_, ?_, ?_, ?_, ?_, ?_⟩
    · rw [← hc]
      exact hd
    · rw [← hc]
    · rw [← hc]
      show d + (c.pos + c.winLen - d) ≤ blob.length
      omega
    · rw [← hc]
    · rw [← hc]
    · rw [← hc]
    · rw [← ho]
      show (if !o.outerNonNullRows.isEmpty then o.outerNonNullRows.getD (row + 7) 0 + 1
          else o.numValues + 8) = _
      cases hsc : o.outerNonNullRows.isEmpty with
      | true => rfl
      | false => rfl
    · rw [← ho]
      exact hu
    · rw [← ho]
    · rw [← ho]
    · rw [← ho]
    · rw [← ho]
    · rw [← ho]
    · intro B hB
      rw [← ho]
      exact hFm B hB
    · rw [← ho]
      exact hFa
    · intro t ht
      rw [← ho]
      exact hRec t ht

theorem getD_map_range (f : Nat → Nat) (n t : Nat) (h : t < n) :
    ((List.range n).map f).getD t 0 = f t := by
  rw [List.getD_eq_getElem?_getD, List.getElem?_map, List.getElem?_range h]
  rfl

theorem sumRange_one (ls : List Nat) (p : Nat) : sumRange ls p 1 = ls.getD p 0 := by
  unfold sumRange
  by_cases h : p < ls.length
  · rw [List.take_one]
    rw [List.head?_eq_getElem?, List.getElem?_drop, Nat.add_zero]
    rw [List.getElem?_eq_getElem h]
    show ([ls[p]] : List Nat).sum = _
    rw [List.getD_eq_getElem?_getD, List.getElem?_eq_getElem h]
    show ls[p] + 0 = ls[p]
    omega
  · rw [List.drop_eq_nil_of_le (by omega)]
    rw [List.getD_eq_getElem?_getD, List.getElem?_eq_none (by omega)]
    rfl

theorem sumRange_add (ls : List Nat) (a m n : Nat) :
    sumRange ls a m + sumRange ls (a + m) n = sumRange ls a (m + n) := by
  show (blobSlice ls a m).sum + (blobSlice ls (a + m) n).sum = (blobSlice ls a (m + n)).sum
  rw [blobSlice_append, List.sum_append]

theorem sumRange_succ_right (ls : List Nat) (a m : Nat) :
    sumRange ls a (m + 1) = sumRange ls a m + ls.getD (a + m) 0 := by
  rw [← sumRange_add ls a m 1, sumRange_one]

theorem sumRange_mono (ls : List Nat) (a : Nat) :
    ∀ n m, m ≤ n → sumRange ls a m ≤ sumRange ls a n := by
  intro n
  induction n with
  | zero =>
    intro m hm
    have : m = 0 := by omega
    subst this
    exact le_refl _
  | succ n ih =>
    intro m hm
    by_cases he : m = n + 1
    · subst he
      exact le_refl _
    · have h1 := ih m (by omega)
      rw [sumRange_succ_right]
      omega

theorem chain_le (f : Nat → Nat) (n : Nat) (h : ∀ t, t + 1 < n → f t < f (t + 1)) :
    ∀ a b, a ≤ b → b < n → f a + (b - a) ≤ f b := by
  intro a b
  induction b with
  | zero =>
    intro hab _
    have : a = 0 := by omega
    subst this
    omega
  | succ b ih =>
    intro hab hbn
    by_cases he : a = b + 1
    · subst he
      omega
    · have h1 := ih (by omega) (by omega)
      have h2 := h b hbn
      omega

theorem run_consecutive (f : Nat → Nat) (n : Nat) (h : ∀ t, t + 1 < n → f t < f (t + 1))
    (hlast : 0 < n → f (n - 1) = f 0 + (n - 1)) :
    ∀ s, s < n → f s = f 0 + s := by
  intro s hs
  have h1 := chain_le f n h 0 s (by omega) hs
  have h2 := chain_le f n h s (n - 1) (by omega) (by omega)
  have h3 := hlast (by omega)
  omega

theorem spillPart_eq_g8Spill (lengths lens rows : List Nat) (row : Nat)
    (heq : ∀ t, lengths.getD t 0 = g8Len lens rows row t) :
    ∀ k, spillPart lengths 0 k = g8Spill lens rows row k := by
  intro k
  induction k with
  | zero => rfl
  | succ k ih =>
    rw [spillPart_succ]
    show _ = g8Spill lens rows row k +
      (if 12 < g8Len lens rows row k then g8Len lens rows row k else 0)
    rw [ih, Nat.zero_add, heq k]

theorem try8GenLoop_nofatal (blob rows outer rawLengths : List Nat) (scatter sparse : Bool)
    (bufEnd rawStringSize : Nat) :
    ∀ (k i data rawUsed pr4 previousRow : Nat) (mem arena : List Nat),
    try8GenLoop blob rows outer rawLengths scatter sparse bufEnd rawStringSize
      k i data rawUsed pr4 previousRow mem arena ≠ .fatal := by
  intro k
  induction k with
  | zero =>
    intro i data rawUsed pr4 previousRow mem arena
    simp [try8GenLoop]
  | succ k ih =>
    intro i data rawUsed pr4 previousRow mem arena
    rw [try8GenLoop_succ]
    dsimp only
    set DP := (if sparse then
        (data + rangeSumL rawLengths 0 previousRow (rows.getD i 0), rows.getD i 0 + 1)
      else (data, previousRow)) with hDPdef
    set L := rawLengths.getD (rows.getD i 0) 0 with hLdef
    by_cases h1 : bufEnd < DP.1 + roundUp16 L
    · rw [if_pos h1]
      simp
    · rw [if_neg h1]
      by_cases h2 : L ≤ 12
      · rw [if_pos h2]
        exact ih _ _ _ _ _ _ _
      · rw [if_neg h2]
        by_cases h3 : rawStringSize < rawUsed + L
        · rw [if_pos h3]
          simp
        · rw [if_neg h3]
          by_cases h4 : 16 < L
          · rw [if_pos h4]
            have h5 : roundUp16 (L - 16) ≤ bufEnd - DP.1 - 16 := by
              have hr := roundUp16_sub16 L h4
              have hg := roundUp16_ge16 L (by omega)
              omega
            rw [if_pos h5]
            exact ih _ _ _ _ _ _ _
          · rw [if_neg h4]
            exact ih _ _ _ _ _ _ _

theorem g8Data_sparse_off (lens rows : List Nat) (q0 i D : Nat)
    (hq0 : q0 ≤ rows.getD i 0) :
    ∀ t, (∀ s, s + 1 ≤ t → rows.getD (i + s) 0 < rows.getD (i + s + 1) 0) →
    g8Data lens rows true D q0 i t = D + sumRange lens q0 (rows.getD (i + t) 0 - q0) := by
  intro t
  induction t with
  | zero =>
    intro _
    show D + sumRange lens q0 (rows.getD i 0 - q0) = D + sumRange lens q0 (rows.getD (i + 0) 0 - q0)
    rw [Nat.add_zero]
  | succ t ih =>
    intro hmono
    have hmono' : ∀ s, s + 1 ≤ t → rows.getD (i + s) 0 < rows.getD (i + s + 1) 0 := by
      intro s hs
      exact hmono s (by omega)
    have hchain : rows.getD (i + 0) 0 + (t - 0) ≤ rows.getD (i + t) 0 :=
      chain_le (fun s => rows.getD (i + s) 0) (t + 2)
        (fun s hs => hmono s (by omega)) 0 t (by omega) (by omega)
    rw [Nat.add_zero] at hchain
    have hq1 : q0 ≤ rows.getD (i + t) 0 := by omega
    have hstep : rows.getD (i + t) 0 < rows.getD (i + t + 1) 0 := hmono t (by omega)
    show g8Data lens rows true D q0 i t + lens.getD (rows.getD (i + t) 0) 0 +
        sumRange lens (rows.getD (i + t) 0 + 1)
          (rows.getD (i + t + 1) 0 - rows.getD (i + t) 0 - 1) =
      D + sumRange lens q0 (rows.getD (i + t + 1) 0 - q0)
    rw [ih hmono']
    have ha : sumRange lens q0 (rows.getD (i + t) 0 - q0) +
        lens.getD (rows.getD (i + t) 0) 0 =
        sumRange lens q0 (rows.getD (i + t) 0 + 1 - q0) := by
      have h := sumRange_add lens q0 (rows.getD (i + t) 0 - q0) 1
      rw [sumRange_one] at h
      rw [show q0 + (rows.getD (i + t) 0 - q0) = rows.getD (i + t) 0 from by omega] at h
      rw [show rows.getD (i + t) 0 - q0 + 1 = rows.getD (i + t) 0 + 1 - q0 from
        by omega] at h
      exact h
    have hb : sumRange lens q0 (rows.getD (i + t) 0 + 1 - q0) +
        sumRange lens (rows.getD (i + t) 0 + 1)
          (rows.getD (i + t + 1) 0 - rows.getD (i + t) 0 - 1) =
        sumRange lens q0 (rows.getD (i + t + 1) 0 - q0) := by
      have h := sumRange_add lens q0 (rows.getD (i + t) 0 + 1 - q0)
        (rows.getD (i + t + 1) 0 - rows.getD (i + t) 0 - 1)
      rw [show q0 + (rows.getD (i + t) 0 + 1 - q0) = rows.getD (i + t) 0 + 1 from
        by omega] at h
      rw [show rows.getD (i + t) 0 + 1 - q0 +
          (rows.getD (i + t + 1) 0 - rows.getD (i + t) 0 - 1) =
          rows.getD (i + t + 1) 0 - q0 from by omega] at h
      exact h
    omega

theorem g8Data_dense_off (lens rows : List Nat) (i D prev : Nat)
    (hrun : ∀ s, s < 8 → rows.getD (i + s) 0 = rows.getD i 0 + s) :
    ∀ t, t < 8 →
    g8Data lens rows false D prev i t = D + sumRange lens (rows.getD i 0) t := by
  intro t
  induction t with
  | zero =>
    intro _
    show D + 0 = D + 0
    rfl
  | succ t ih =>
    intro ht
    show g8Data lens rows false D prev i t + lens.getD (rows.getD (i + t) 0) 0 =
      D + sumRange lens (rows.getD i 0) (t + 1)
    rw [ih (by omega)]
    rw [hrun t (by omega), sumRange_succ_right]
    omega

theorem copyStringValueOp_size (o : OState) (bs : List Nat) :
    (copyStringValueOp o bs).1.rawStringSize ≤
      max o.rawStringSize (o.rawStringUsed + bs.length) := by
  unfold copyStringValueOp
  by_cases h : o.rawStringUsed + bs.length ≤ o.rawStringSize <;> simp [h] <;> omega

theorem writeStringViewAt_size (o : OState) (j : Nat) (bs : List Nat) :
    (writeStringViewAt o j bs).rawStringSize ≤
      max o.rawStringSize ((writeStringViewAt o j bs).rawStringUsed) := by
  simp only [writeStringViewAt]
  by_cases h12 : bs.length ≤ 12
  · rw [if_pos h12]
    show o.rawStringSize ≤ max o.rawStringSize o.rawStringUsed
    exact le_max_left _ _
  · rw [if_neg h12]
    show (copyStringValueOp o bs).1.rawStringSize ≤
      max o.rawStringSize (copyStringValueOp o bs).1.rawStringUsed
    rw [copyStringValueOp_used]
    have h := copyStringValueOp_size o bs
    omega

theorem extractCBLoop_size (blob : List Nat) (sched : Nat → Nat)
    (lengths starts outer : List Nat) (scatter : Bool) (rowIndex : Nat) :
    ∀ (k i current : Nat) (c : CState) (o : OState) (c' : CState) (o' : OState),
    extractCBLoop blob sched lengths starts outer scatter rowIndex k i current c o =
      some (c', o') →
    o.rawStringUsed ≤ o'.rawStringUsed ∧
    o'.rawStringSize ≤ max o.rawStringSize o'.rawStringUsed := by
  intro k
  induction k with
  | zero =>
    intro i current c o c' o' h
    rw [show extractCBLoop blob sched lengths starts outer scatter rowIndex 0 i current c o =
      some (c, o) from rfl] at h
    simp only [Option.some.injEq, Prod.mk.injEq] at h
    obtain ⟨-, ho⟩ := h
    rw [← ho]
    exact ⟨le_refl _, le_max_left _ _⟩
  | succ k ih =>
    intro i current c o c' o' h
    rw [show extractCBLoop blob sched lengths starts outer scatter rowIndex (k + 1) i
          current c o =
        (match readValue blob sched
            { c with toSkip := c.toSkip + (starts.getD i 0 - current) }
            (lengths.getD i 0) with
          | none => none
          | some (value, c3) =>
            extractCBLoop blob sched lengths starts outer scatter rowIndex k (i + 1)
              (current + lengths.getD i 0 + (starts.getD i 0 - current)) c3
              (if !scatter then addValue o value
               else writeStringViewAt o (outer.getD (rowIndex + i) 0) value)) from rfl] at h
    cases e : readValue blob sched { c with toSkip := c.toSkip + (starts.getD i 0 - current) }
        (lengths.getD i 0) with
    | none =>
      rw [e] at h
      exact absurd h (by simp)
    | some p =>
      obtain ⟨value, c3⟩ := p
      rw [e] at h
      have h1 : o.rawStringUsed ≤
          (if !scatter then addValue o value
           else writeStringViewAt o (outer.getD (rowIndex + i) 0) value).rawStringUsed := by
        cases scatter with
        | false =>
          show o.rawStringUsed ≤ (writeStringViewAt o o.numValues value).rawStringUsed
          rw [writeStringViewAt_used]
          exact Nat.le_add_right _ _
        | true =>
          show o.rawStringUsed ≤
            (writeStringViewAt o (outer.getD (rowIndex + i) 0) value).rawStringUsed
          rw [writeStringViewAt_used]
          exact Nat.le_add_right _ _
      have h2 : (if !scatter then addValue o value
           else writeStringViewAt o (outer.getD (rowIndex + i) 0) value).rawStringSize ≤
          max o.rawStringSize
            (if !scatter then addValue o value
             else writeStringViewAt o (outer.getD (rowIndex + i) 0) value).rawStringUsed := by
        cases scatter with
        | false =>
          show (writeStringViewAt o o.numValues value).rawStringSize ≤
            max o.rawStringSize (writeStringViewAt o o.numValues value).rawStringUsed
          exact writeStringViewAt_size o _ value
        | true =>
          show (writeStringViewAt o (outer.getD (rowIndex + i) 0) value).rawStringSize ≤
            max o.rawStringSize
              (writeStringViewAt o (outer.getD (rowIndex + i) 0) value).rawStringUsed
          exact writeStringViewAt_size o _ value
      obtain ⟨hu, hs⟩ := ih (i + 1)
        (current + lengths.getD i 0 + (starts.getD i 0 - current)) c3
        (if !scatter then addValue o value
         else writeStringViewAt o (outer.getD (rowIndex + i) 0) value) c' o' h
      exact ⟨h1.trans hu, by omega⟩

theorem extractCrossBuffers_size (blob : List Nat) (sched : Nat → Nat)
    (lengths starts : List Nat) (rowIndex numValues : Nat) (c c' : CState) (o o' : OState)
    (h : extractCrossBuffers blob sched lengths starts rowIndex numValues c o =
      some (c', o')) :
    o.rawStringUsed ≤ o'.rawStringUsed ∧
    o'.rawStringSize ≤ max o.rawStringSize o'.rawStringUsed := by
  simp only [extractCrossBuffers] at h
  cases e : extractCBLoop blob sched lengths starts o.outerNonNullRows
      (!o.outerNonNullRows.isEmpty) rowIndex numValues 0 0 c o with
  | none =>
    rw [e] at h
    exact absurd h (by simp)
  | some p =>
    obtain ⟨c1, o1⟩ := p
    rw [e] at h
    obtain ⟨hu, hs⟩ := extractCBLoop_size blob sched lengths starts o.outerNonNullRows
      (!o.outerNonNullRows.isEmpty) rowIndex numValues 0 0 c o c1 o1 e
    simp only [Option.some.injEq, Prod.mk.injEq] at h
    obtain ⟨-, ho⟩ := h
    rw [← ho]
    cases hsc : o.outerNonNullRows.isEmpty with
    | true => exact ⟨hu, hs⟩
    | false => exact ⟨hu, hs⟩

theorem sumRange_bump (ls : List Nat) (q r : Nat) (h : q ≤ r) :
    sumRange ls q (r - q) + ls.getD r 0 = sumRange ls q (r + 1 - q) := by
  have h1 := sumRange_add ls q (r - q) 1
  rw [sumRange_one] at h1
  rw [show q + (r - q) = r from by omega] at h1
  rw [show r - q + 1 = r + 1 - q from by omega] at h1
  exact h1

theorem sumRange_glue (ls : List Nat) (q r R : Nat) (hq : q ≤ r) (hr : r < R) :
    sumRange ls q (r + 1 - q) + sumRange ls (r + 1) (R - r - 1) =
      sumRange ls q (R - q) := by
  have h := sumRange_add ls q (r + 1 - q) (R - r - 1)
  rw [show q + (r + 1 - q) = r + 1 from by omega] at h
  rw [show r + 1 - q + (R - r - 1) = R - q from by omega] at h
  exact h

theorem spillPart_eq_g8Spill_lt (lengths lens rows : List Nat) (row : Nat) :
    ∀ k, (∀ t, t < k → lengths.getD t 0 = g8Len lens rows row t) →
    spillPart lengths 0 k = g8Spill lens rows row k := by
  intro k
  induction k with
  | zero =>
    intro _
    rfl
  | succ k ih =>
    intro heq
    rw [spillPart_succ]
    show _ = g8Spill lens rows row k +
      (if 12 < g8Len lens rows row k then g8Len lens rows row k else 0)
    rw [ih (fun t ht => heq t (by omega)), Nat.zero_add, heq k (by omega)]

theorem makeSparseStartsAux_getD (lens rows : List Nat) (startRow : Nat) :
    ∀ (k i prev off t : Nat), t < k →
    prev ≤ rows.getD (startRow + i) 0 →
    (∀ s, s + 1 < k → rows.getD (startRow + i + s) 0 < rows.getD (startRow + i + s + 1) 0) →
    (makeSparseStartsAux lens rows startRow k i prev off).getD t 0 =
      off + sumRange lens prev (rows.getD (startRow + i + t) 0 - prev) := by
  intro k
  induction k with
  | zero =>
    intro i prev off t ht _ _
    exact absurd ht (by omega)
  | succ k ih =>
    intro i prev off t ht hprev hmono
    show ((rangeSumL lens off prev (rowAt rows (startRow + i))) ::
        makeSparseStartsAux lens rows startRow k (i + 1) (rowAt rows (startRow + i) + 1)
          (rangeSumL lens off prev (rowAt rows (startRow + i)) +
            lens.getD (rowAt rows (startRow + i)) 0)).getD t 0 =
      off + sumRange lens prev (rows.getD (startRow + i + t) 0 - prev)
    cases t with
    | zero =>
      rw [List.getD_cons_zero]
      rw [Nat.add_zero]
      rfl
    | succ t =>
      rw [List.getD_cons_succ]
      have h0 : rows.getD (startRow + i) 0 < rows.getD (startRow + (i + 1)) 0 := by
        have h := hmono 0 (by omega)
        rw [Nat.add_zero] at h
        rw [show startRow + i + 1 = startRow + (i + 1) from by omega] at h
        exact h
      have hm2 : ∀ s, s + 1 < k → rows.getD (startRow + (i + 1) + s) 0 <
          rows.getD (startRow + (i + 1) + s + 1) 0 := by
        intro s hs
        have h := hmono (s + 1) (by omega)
        rw [show startRow + i + (s + 1) = startRow + (i + 1) + s from by omega] at h
        exact h
      have hih := ih (i + 1) (rowAt rows (startRow + i) + 1)
        (rangeSumL lens off prev (rowAt rows (startRow + i)) +
          lens.getD (rowAt rows (startRow + i)) 0) t (by omega)
        (by show rows.getD (startRow + i) 0 + 1 ≤ rows.getD (startRow + (i + 1)) 0
            omega) hm2
      rw [hih]
      have hrs : rangeSumL lens off prev (rowAt rows (startRow + i)) =
          off + sumRange lens prev (rows.getD (startRow + i) 0 - prev) := rfl
      rw [hrs]
      rw [show rowAt rows (startRow + i) = rows.getD (startRow + i) 0 from rfl]
      rw [show startRow + (i + 1) + t = startRow + i + (t + 1) from by omega]
      have hchain : rows.getD (startRow + i) 0 + (t + 1) ≤
          rows.getD (startRow + i + (t + 1)) 0 :=
        chain_le (fun s => rows.getD (startRow + i + s) 0) (k + 1) hmono 0 (t + 1)
          (by omega) (by omega)
      have hq : prev ≤ rows.getD (startRow + i) 0 := hprev
      have hb1 := sumRange_bump lens prev (rows.getD (startRow + i) 0) hq
      have hb2 := sumRange_glue lens prev (rows.getD (startRow + i) 0)
        (rows.getD (startRow + i + (t + 1)) 0) hq (by omega)
      rw [show rows.getD (startRow + i + (t + 1)) 0 - (rows.getD (startRow + i) 0 + 1) =
        rows.getD (startRow + i + (t + 1)) 0 - rows.getD (startRow + i) 0 - 1 from by omega]
      omega

theorem try8General_nonone (blob : List Nat) (sparse : Bool) (start : Nat)
    (rows : List Nat) (row : Nat) (c : CState) (o : OState) :
    try8General blob sparse start rows row c o ≠ none := by
  unfold try8General
  cases hres : try8GenLoop blob rows o.outerNonNullRows c.rawLengths
      (!o.outerNonNullRows.isEmpty) sparse (c.pos + c.winLen) o.rawStringSize 8 row
      (c.pos + start + c.toSkip) o.rawStringUsed (o.numValues * 4)
      (if sparse then c.lengthIndex else 0) o.rawValues o.arena with
  | abort m a => simp [try8Commit]
  | fatal =>
    exact absurd hres (try8GenLoop_nofatal blob rows o.outerNonNullRows c.rawLengths
      (!o.outerNonNullRows.isEmpty) sparse (c.pos + c.winLen) o.rawStringSize 8 row
      (c.pos + start + c.toSkip) o.rawStringUsed (o.numValues * 4)
      (if sparse then c.lengthIndex else 0) o.rawValues o.arena)
  | ok d u m a => simp [try8Commit]

theorem try8Consecutive_sparse_nonone (blob : List Nat) (start : Nat) (rows : List Nat)
    (row : Nat) (c : CState) (o : OState) :
    try8Consecutive blob true start rows row c o ≠ none := by
  unfold try8Consecutive
  split
  · simp
  · rw [if_pos rfl]
    exact try8General_nonone blob true start rows row c o

theorem try8Consecutive_sparse_true (blob : List Nat) (start : Nat) (rows : List Nat)
    (row : Nat) (c c' : CState) (o o' : OState)
    (h : try8Consecutive blob true start rows row c o = some (true, c', o')) :
    try8General blob true start rows row c o = some (true, c', o') := by
  unfold try8Consecutive at h
  split at h
  · simp only [Option.some.injEq, Prod.mk.injEq] at h
    obtain ⟨hb, -⟩ := h
    exact absurd hb (by simp)
  · rw [if_pos rfl] at h
    exact h

theorem try8Consecutive_sparse_false (blob : List Nat) (start : Nat) (rows : List Nat)
    (row : Nat) (c c' : CState) (o o' : OState)
    (h : try8Consecutive blob true start rows row c o = some (false, c', o')) :
    c' = c ∧ o'.rawStringUsed = o.rawStringUsed ∧ o'.numValues = o.numValues ∧
    o'.resultNulls = o.resultNulls ∧ o'.outerNonNullRows = o.outerNonNullRows ∧
    o'.rawStringSize = o.rawStringSize ∧ o'.returnReaderNulls = o.returnReaderNulls ∧
    o'.anyNulls = o.anyNulls ∧
    (∀ B, (∀ t, t < 8 → B ≤ 16 * cbPos (!o.outerNonNullRows.isEmpty) o.outerNonNullRows
        row o.numValues t) → sameBelow o.rawValues o'.rawValues B) ∧
    sameBelow o.arena o'.arena o.rawStringUsed := by
  unfold try8Consecutive at h
  split at h
  · simp only [Option.some.injEq, Prod.mk.injEq] at h
    obtain ⟨-, hc, ho⟩ := h
    subst hc
    rw [← ho]
    exact ⟨rfl, rfl, rfl, rfl, rfl, rfl, rfl, rfl,
      fun B _ => sameBelow_refl _ _, sameBelow_refl _ _⟩
  · rw [if_pos rfl] at h
    obtain ⟨hc, h1, h2, h3, h4, h5, h6, h7⟩ := try8General_frame blob true start rows row
      c c' o o' h
    refine ⟨hc, h1, h2, h3, h4, h5, h6, h7, ?_, ?_⟩
    · intro B hB
      exact (try8General_false_frames blob true start rows row c c' o o' B
        o.rawStringUsed h hB (le_refl _)).1
    · exact (try8General_false_frames blob true start rows row c c' o o' 0
        o.rawStringUsed h (fun t ht => Nat.zero_le _) (le_refl _)).2

theorem extractNSparse_slowAux (blob : List Nat) (sched : Nat → Nat) (rows : List Nat)
    (row n : Nat) (c : CState) (o om : OState)
    (hn : 0 < n)
    (hwin : c.pos + c.winLen ≤ blob.length)
    (hq0 : c.lengthIndex ≤ rows.getD row 0)
    (hrmono : ∀ t, t + 1 < n → rows.getD (row + t) 0 < rows.getD (row + t + 1) 0)
    (hbound : ∀ t, t < n → c.pos + c.toSkip +
        sumRange c.rawLengths c.lengthIndex (rows.getD (row + t) 0 - c.lengthIndex) +
        g8Len c.rawLengths rows row t ≤ blob.length)
    (hlen32 : ∀ t, t < n → g8Len c.rawLengths rows row t < 2 ^ 32)
    (hu64 : o.rawStringUsed + g8Spill c.rawLengths rows row n < 2 ^ 64)
    (hmono : ∀ t, t + 1 < n → cbPos (!o.outerNonNullRows.isEmpty) o.outerNonNullRows row
        o.numValues t < cbPos (!o.outerNonNullRows.isEmpty) o.outerNonNullRows row
        o.numValues (t + 1))
    (hmu : om.rawStringUsed = o.rawStringUsed)
    (hmn : om.numValues = o.numValues)
    (hmo : om.outerNonNullRows = o.outerNonNullRows)
    (hmr : om.resultNulls = o.resultNulls)
    (hmt : om.returnReaderNulls = o.returnReaderNulls)
    (hma : om.anyNulls = o.anyNulls)
    (hms : om.rawStringSize = o.rawStringSize)
    (hfm : ∀ B, (∀ t, t < n → B ≤ 16 * cbPos (!o.outerNonNullRows.isEmpty)
        o.outerNonNullRows row o.numValues t) → sameBelow o.rawValues om.rawValues B)
    (hfa : sameBelow o.arena om.arena o.rawStringUsed) :
    ∃ c' o',
      (match extractCrossBuffers blob sched
          ((List.range n).map (fun t => c.rawLengths.getD (rowAt rows (row + t)) 0))
          (makeSparseStarts c rows row n) row n c om with
        | none => none
        | some (cf, om2) =>
          some ({ cf with lengthIndex := rowAt rows (row + n - 1) + 1 }, om2)) =
        some (c', o') ∧
      c'.pos + c'.toSkip = c.pos + c.toSkip +
        sumRange c.rawLengths c.lengthIndex
          (rows.getD (row + n - 1) 0 + 1 - c.lengthIndex) ∧
      c'.pos + c'.winLen ≤ blob.length ∧
      c'.rawLengths = c.rawLengths ∧
      c'.lengthIndex = rows.getD (row + n - 1) 0 + 1 ∧
      c'.lenStream = c.lenStream ∧
      o'.numValues = cbPos (!o.outerNonNullRows.isEmpty) o.outerNonNullRows row
          o.numValues (n - 1) + 1 ∧
      o'.rawStringUsed = o.rawStringUsed + g8Spill c.rawLengths rows row n ∧
      o'.resultNulls = o.resultNulls ∧ o'.returnReaderNulls = o.returnReaderNulls ∧
      o'.anyNulls = o.anyNulls ∧ o'.outerNonNullRows = o.outerNonNullRows ∧
      o'.rawStringSize ≤ max o.rawStringSize
        (o.rawStringUsed + g8Spill c.rawLengths rows row n) ∧
      (∀ B, (∀ t, t < n → B ≤ 16 * cbPos (!o.outerNonNullRows.isEmpty) o.outerNonNullRows
          row o.numValues t) → sameBelow o.rawValues o'.rawValues B) ∧
      sameBelow o.arena o'.arena o.rawStringUsed ∧
      (∀ t, t < n → recordAt o'.rawValues o'.arena
          (cbPos (!o.outerNonNullRows.isEmpty) o.outerNonNullRows row o.numValues t) =
        (g8Len c.rawLengths rows row t,
         blobSlice blob (c.pos + c.toSkip + sumRange c.rawLengths c.lengthIndex
           (rows.getD (row + t) 0 - c.lengthIndex)) (g8Len c.rawLengths rows row t),
         if g8Len c.rawLengths rows row t ≤ 12 then none
         else some (o.rawStringUsed + g8Spill c.rawLengths rows row t))) := by
  have hqt : ∀ t, t < n → c.lengthIndex ≤ rows.getD (row + t) 0 := by
    intro t ht
    have hc : rows.getD row 0 + t ≤ rows.getD (row + t) 0 :=
      chain_le (fun s => rows.getD (row + s) 0) n hrmono 0 t (by omega) ht
    omega
  have hlenD : ∀ t, t < n →
      ((List.range n).map (fun s => c.rawLengths.getD (rowAt rows (row + s)) 0)).getD t 0 =
      g8Len c.rawLengths rows row t := by
    intro t ht
    rw [getD_map_range _ n t ht]
    rfl
  have hstD : ∀ t, t < n → (makeSparseStarts c rows row n).getD t 0 =
      sumRange c.rawLengths c.lengthIndex (rows.getD (row + t) 0 - c.lengthIndex) := by
    intro t ht
    show (makeSparseStartsAux c.rawLengths rows row n 0 c.lengthIndex 0).getD t 0 = _
    have h := makeSparseStartsAux_getD c.rawLengths rows row n 0 c.lengthIndex 0 t ht
      (by exact hq0)
      (by intro s hs
          exact hrmono s hs)
    rw [show row + 0 + t = row + t from by omega] at h
    rw [h, Nat.zero_add]
  have hspill : ∀ k, k ≤ n →
      spillPart ((List.range n).map (fun s => c.rawLengths.getD (rowAt rows (row + s)) 0))
        0 k = g8Spill c.rawLengths rows row k := by
    intro k hk
    exact spillPart_eq_g8Spill_lt _ c.rawLengths rows row k (fun t ht => hlenD t (by omega))
  obtain ⟨cf, of, eCB, hpos, hts, hwinF, hrlF, hliF, hlsF, hnumF, husedF, hresF, hretF,
      hanyF, houtF, hrvF, harF, hrecF⟩ :=
    extractCrossBuffers_spec blob sched
      ((List.range n).map (fun s => c.rawLengths.getD (rowAt rows (row + s)) 0))
      (makeSparseStarts c rows row n) row n c om hn hwin
      (by intro t ht
          rw [hstD t (by omega), hstD (t + 1) ht, hlenD t (by omega)]
          rw [show row + (t + 1) = row + t + 1 from by omega]
          have hq := hqt t (by omega)
          have hb := sumRange_bump c.rawLengths c.lengthIndex (rows.getD (row + t) 0) hq
          have hs2 := sumRange_mono c.rawLengths c.lengthIndex
            (rows.getD (row + t + 1) 0 - c.lengthIndex)
            (rows.getD (row + t) 0 + 1 - c.lengthIndex)
            (by have := hrmono t ht; omega)
          rw [show g8Len c.rawLengths rows row t =
            c.rawLengths.getD (rows.getD (row + t) 0) 0 from rfl]
          omega)
      (by intro t ht
          rw [hstD t ht, hlenD t ht]
          exact hbound t ht)
      (by rw [hmo, hmn]
          exact hmono)
      (by intro t ht
          rw [hlenD t ht]
          exact hlen32 t ht)
      (by rw [hmu, hspill n (le_refl n)]
          exact hu64)
  obtain ⟨hszu, hszs⟩ := extractCrossBuffers_size blob sched
    ((List.range n).map (fun s => c.rawLengths.getD (rowAt rows (row + s)) 0))
    (makeSparseStarts c rows row n) row n c cf om of eCB
  rw [hmo, hmn] at hnumF
  rw [hmu, hspill n (le_refl n)] at husedF
  refine ⟨{ cf with lengthIndex := rowAt rows (row + n - 1) + 1 }, of, ?_, ?_, ?_, ?_, ?_,
    ?_, ?_, ?_, ?_, ?_, ?_, ?_, ?_, ?_, ?_, ?_⟩
  · rw [eCB]
  · show cf.pos + cf.toSkip = _
    rw [show row + n - 1 = row + (n - 1) from by omega]
    rw [hpos, hts, hstD (n - 1) (by omega), hlenD (n - 1) (by omega)]
    have hq := hqt (n - 1) (by omega)
    have hb := sumRange_bump c.rawLengths c.lengthIndex (rows.getD (row + (n - 1)) 0) hq
    rw [show g8Len c.rawLengths rows row (n - 1) =
      c.rawLengths.getD (rows.getD (row + (n - 1)) 0) 0 from rfl]
    omega
  · show cf.pos + cf.winLen ≤ blob.length
    exact hwinF
  · exact hrlF
  · show rowAt rows (row + n - 1) + 1 = rows.getD (row + n - 1) 0 + 1
    rfl
  · exact hlsF
  · exact hnumF
  · exact husedF
  · exact hresF.trans hmr
  · exact hretF.trans hmt
  · exact hanyF.trans hma
  · exact houtF.trans hmo
  · rw [husedF] at hszs
    rw [hms] at hszs
    exact hszs
  · intro B hB
    refine sameBelow_trans _ om.rawValues _ _ (hfm B hB) ?_
    refine hrvF B ?_
    rw [hmo, hmn]
    exact hB
  · refine sameBelow_trans _ om.arena _ _ hfa ?_
    rw [← hmu]
    exact harF
  · intro t ht
    have h := hrecF t ht
    rw [hmo, hmn] at h
    rw [hlenD t ht, hstD t ht, hmu] at h
    rw [hspill t (by omega)] at h
    exact h

theorem extractNSparse_spec (blob : List Nat) (sched : Nat → Nat) (rows : List Nat)
    (row n : Nat) (c : CState) (o : OState)
    (hn : 0 < n)
    (hwin : c.pos + c.winLen ≤ blob.length)
    (hsz64 : o.rawStringSize < 2 ^ 64)
    (hq0 : c.lengthIndex ≤ rows.getD row 0)
    (hrmono : ∀ t, t + 1 < n → rows.getD (row + t) 0 < rows.getD (row + t + 1) 0)
    (hbound : ∀ t, t < n → c.pos + c.toSkip +
        sumRange c.rawLengths c.lengthIndex (rows.getD (row + t) 0 - c.lengthIndex) +
        g8Len c.rawLengths rows row t ≤ blob.length)
    (hlen32 : ∀ t, t < n → g8Len c.rawLengths rows row t < 2 ^ 32)
    (hu64 : o.rawStringUsed + g8Spill c.rawLengths rows row n < 2 ^ 64)
    (hmono : ∀ t, t + 1 < n → cbPos (!o.outerNonNullRows.isEmpty) o.outerNonNullRows row
        o.numValues t < cbPos (!o.outerNonNullRows.isEmpty) o.outerNonNullRows row
        o.numValues (t + 1)) :
    ∃ c' o', extractNSparse blob sched rows row n c o = some (c', o') ∧
      c'.pos + c'.toSkip = c.pos + c.toSkip +
        sumRange c.rawLengths c.lengthIndex
          (rows.getD (row + n - 1) 0 + 1 - c.lengthIndex) ∧
      c'.pos + c'.winLen ≤ blob.length ∧
      c'.rawLengths = c.rawLengths ∧
      c'.lengthIndex = rows.getD (row + n - 1) 0 + 1 ∧
      c'.lenStream = c.lenStream ∧
      o'.numValues = cbPos (!o.outerNonNullRows.isEmpty) o.outerNonNullRows row
          o.numValues (n - 1) + 1 ∧
      o'.rawStringUsed = o.rawStringUsed + g8Spill c.rawLengths rows row n ∧
      o'.resultNulls = o.resultNulls ∧ o'.returnReaderNulls = o.returnReaderNulls ∧
      o'.anyNulls = o.anyNulls ∧ o'.outerNonNullRows = o.outerNonNullRows ∧
      o'.rawStringSize ≤ max o.rawStringSize
        (o.rawStringUsed + g8Spill c.rawLengths rows row n) ∧
      (∀ B, (∀ t, t < n → B ≤ 16 * cbPos (!o.outerNonNullRows.isEmpty) o.outerNonNullRows
          row o.numValues t) → sameBelow o.rawValues o'.rawValues B) ∧
      sameBelow o.arena o'.arena o.rawStringUsed ∧
      (∀ t, t < n → recordAt o'.rawValues o'.arena
          (cbPos (!o.outerNonNullRows.isEmpty) o.outerNonNullRows row o.numValues t) =
        (g8Len c.rawLengths rows row t,
         blobSlice blob (c.pos + c.toSkip + sumRange c.rawLengths c.lengthIndex
           (rows.getD (row + t) 0 - c.lengthIndex)) (g8Len c.rawLengths rows row t),
         if g8Len c.rawLengths rows row t ≤ 12 then none
         else some (o.rawStringUsed + g8Spill c.rawLengths rows row t))) := by
  have hqt : ∀ t, t < n → c.lengthIndex ≤ rows.getD (row + t) 0 := by
    intro t ht
    have hc : rows.getD row 0 + t ≤ rows.getD (row + t) 0 :=
      chain_le (fun s => rows.getD (row + s) 0) n hrmono 0 t (by omega) ht
    omega
  unfold extractNSparse
  by_cases hn8 : n = 8
  · subst hn8
    rw [if_pos (show (8 : Nat) = 8 from rfl)]
    cases e8 : try8Consecutive blob true 0 rows row c o with
    | none => exact absurd e8 (try8Consecutive_sparse_nonone blob 0 rows row c o)
    | some p =>
      obtain ⟨b, cm, om⟩ := p
      cases b with
      | true =>
        have eG := try8Consecutive_sparse_true blob 0 rows row c cm o om e8
        obtain ⟨hp, ht0, hw, hrl, hli, hls, hnv, hus, hrn, hrr, han, hou, hsz2, hFm,
            hFa, hRec⟩ :=
          try8General_okchar blob true 0 rows row c cm o om hwin hsz64 hlen32 hmono eG
        have hp2 : cm.pos = g8Data c.rawLengths rows true (c.pos + 0 + c.toSkip)
            c.lengthIndex row 7 + g8Len c.rawLengths rows row 7 := hp
        have hli2 : cm.lengthIndex = rows.getD (row + 7) 0 + 1 := hli
        have hRec2 : ∀ t, t < 8 → recordAt om.rawValues om.arena
            (cbPos (!o.outerNonNullRows.isEmpty) o.outerNonNullRows row o.numValues t) =
          (g8Len c.rawLengths rows row t,
           blobSlice blob (g8Data c.rawLengths rows true (c.pos + 0 + c.toSkip)
             c.lengthIndex row t) (g8Len c.rawLengths rows row t),
           if g8Len c.rawLengths rows row t ≤ 12 then none
           else some (o.rawStringUsed + g8Spill c.rawLengths rows row t)) := hRec
        have hgd : ∀ t, t < 8 → g8Data c.rawLengths rows true (c.pos + 0 + c.toSkip)
            c.lengthIndex row t = c.pos + 0 + c.toSkip +
            sumRange c.rawLengths c.lengthIndex
              (rows.getD (row + t) 0 - c.lengthIndex) := by
          intro t ht
          exact g8Data_sparse_off c.rawLengths rows c.lengthIndex row
            (c.pos + 0 + c.toSkip) hq0 t (fun s hs => hrmono s (by omega))
        refine ⟨cm, om, rfl, ?_, hw, hrl, ?_, hls, ?_, hus, hrn, hrr, han, hou, ?_,
          hFm, hFa, ?_⟩
        · rw [show row + 8 - 1 = row + 7 from by omega]
          rw [hp2, ht0, hgd 7 (by omega)]
          have hq7 := hqt 7 (by omega)
          have hb := sumRange_bump c.rawLengths c.lengthIndex (rows.getD (row + 7) 0) hq7
          rw [show g8Len c.rawLengths rows row 7 =
            c.rawLengths.getD (rows.getD (row + 7) 0) 0 from rfl]
          omega
        · rw [show row + 8 - 1 = row + 7 from by omega]
          exact hli2
        · rw [show (8 : Nat) - 1 = 7 from rfl]
          exact hnv
        · rw [hsz2]
          exact le_max_left _ _
        · intro t ht
          have h := hRec2 t ht
          rw [hgd t ht] at h
          rw [show c.pos + 0 + c.toSkip = c.pos + c.toSkip from by omega] at h
          exact h
      | false =>
        obtain ⟨hcm, hmu, hmn, hmr2, hmo2, hms2, hmt2, hma2, hFm, hFa⟩ :=
          try8Consecutive_sparse_false blob 0 rows row c cm o om e8
        rw [hcm]
        obtain ⟨c', o', e, hconc⟩ := extractNSparse_slowAux blob sched rows row 8 c o om
          hn hwin hq0 hrmono hbound hlen32 hu64 hmono hmu hmn hmo2 hmr2 hmt2 hma2 hms2
          (fun B hB => hFm B hB) hFa
        exact ⟨c', o', e, hconc⟩
  · rw [if_neg hn8]
    obtain ⟨c', o', e, hconc⟩ := extractNSparse_slowAux blob sched rows row n c o o
      hn hwin hq0 hrmono hbound hlen32 hu64 hmono rfl rfl rfl rfl rfl rfl rfl
      (fun B _ => sameBelow_refl _ _) (sameBelow_refl _ _)
    exact ⟨c', o', e, hconc⟩

theorem allSmallEnough_gt4 (lengths off : List Nat) (g : Bool)
    (h : allSmallEnough lengths = some (off, g)) (hg : g = false) :
    ∀ t, t < 8 → lengths.getD t 0 ≤ 4 := by
  unfold allSmallEnough at h
  split at h
  · injection h with h'
    injection h' with h1 h2
    rw [← h2] at hg
    rw [List.any_eq_false] at hg
    intro t ht
    have h3 := hg t (List.mem_range.mpr ht)
    simp only [decide_eq_true_eq] at h3
    omega
  · exact absurd h (by simp)

theorem try8Consecutive_dense_nonone (blob : List Nat) (start : Nat) (rows : List Nat)
    (row : Nat) (c : CState) (o : OState) :
    try8Consecutive blob false start rows row c o ≠ none := by
  unfold try8Consecutive
  split
  · simp
  · rw [if_neg (by simp)]
    split
    · simp
    · exact try8General_nonone blob false start rows row c o

theorem try8Consecutive_dense_false (blob : List Nat) (start : Nat) (rows : List Nat)
    (row : Nat) (c c' : CState) (o o' : OState)
    (h : try8Consecutive blob false start rows row c o = some (false, c', o')) :
    c' = c ∧ o'.rawStringUsed = o.rawStringUsed ∧ o'.numValues = o.numValues ∧
    o'.resultNulls = o.resultNulls ∧ o'.outerNonNullRows = o.outerNonNullRows ∧
    o'.rawStringSize = o.rawStringSize ∧ o'.returnReaderNulls = o.returnReaderNulls ∧
    o'.anyNulls = o.anyNulls ∧
    (∀ B, (∀ t, t < 8 → B ≤ 16 * cbPos (!o.outerNonNullRows.isEmpty) o.outerNonNullRows
        row o.numValues t) → sameBelow o.rawValues o'.rawValues B) ∧
    sameBelow o.arena o'.arena o.rawStringUsed := by
  unfold try8Consecutive at h
  split at h
  · simp only [Option.some.injEq, Prod.mk.injEq] at h
    obtain ⟨-, hc, ho⟩ := h
    subst hc
    rw [← ho]
    exact ⟨rfl, rfl, rfl, rfl, rfl, rfl, rfl, rfl,
      fun B _ => sameBelow_refl _ _, sameBelow_refl _ _⟩
  · rw [if_neg (by simp)] at h
    split at h
    · simp at h
    · obtain ⟨hc, h1, h2, h3, h4, h5, h6, h7⟩ := try8General_frame blob false start rows
        row c c' o o' h
      refine ⟨hc, h1, h2, h3, h4, h5, h6, h7, ?_, ?_⟩
      · intro B hB
        exact (try8General_false_frames blob false start rows row c c' o o' B
          o.rawStringUsed h hB (le_refl _)).1
      · exact (try8General_false_frames blob false start rows row c c' o o' 0
          o.rawStringUsed h (fun t ht => Nat.zero_le _) (le_refl _)).2

theorem dense_small_case (blob : List Nat) (rows : List Nat) (i : Nat)
    (offsets : List Nat) (gt4 : Bool) (c c2 : CState) (o o2 : OState)
    (hwin : c.pos + c.winLen ≤ blob.length)
    (h256 : ∀ b ∈ blob, b < 256)
    (hq0 : c.lengthIndex ≤ rows.getD i 0)
    (hrun : ∀ s, s < 8 → rows.getD (i + s) 0 = rows.getD i 0 + s)
    (hmono : ∀ t, t + 1 < 8 → cbPos (!o.outerNonNullRows.isEmpty) o.outerNonNullRows i
        o.numValues t < cbPos (!o.outerNonNullRows.isEmpty) o.outerNonNullRows i
        o.numValues (t + 1))
    (hg2 : c.toSkip + rangeSumL c.rawLengths 0 c.lengthIndex (rowAt rows i) + 96 ≤ c.winLen)
    (hsm : allSmallEnough ((List.range 8).map
        (fun t => c.rawLengths.getD (rowAt rows i + t) 0)) = some (offsets, gt4))
    (e : some (true, try8ConsecutiveSmall blob (!o.outerNonNullRows.isEmpty) gt4
        (c.pos + rangeSumL c.rawLengths 0 c.lengthIndex (rowAt rows i) + c.toSkip)
        offsets i { c with lengthIndex := rowAt rows i } o) =
      some ((true : Bool), c2, o2)) :
    c2.pos + c2.toSkip = c.pos + c.toSkip +
      sumRange c.rawLengths c.lengthIndex (rows.getD (i + 7) 0 + 1 - c.lengthIndex) ∧
    c2.pos + c2.winLen ≤ blob.length ∧
    c2.rawLengths = c.rawLengths ∧
    c2.lengthIndex = rows.getD (i + 7) 0 + 1 ∧
    c2.lenStream = c.lenStream ∧
    o2.numValues = cbPos (!o.outerNonNullRows.isEmpty) o.outerNonNullRows i
        o.numValues 7 + 1 ∧
    o2.rawStringUsed = o.rawStringUsed + g8Spill c.rawLengths rows i 8 ∧
    o2.resultNulls = o.resultNulls ∧ o2.returnReaderNulls = o.returnReaderNulls ∧
    o2.anyNulls = o.anyNulls ∧ o2.outerNonNullRows = o.outerNonNullRows ∧
    o2.rawStringSize ≤ max o.rawStringSize
      (o.rawStringUsed + g8Spill c.rawLengths rows i 8) ∧
    (∀ B, (∀ t, t < 8 → B ≤ 16 * cbPos (!o.outerNonNullRows.isEmpty) o.outerNonNullRows
        i o.numValues t) → sameBelow o.rawValues o2.rawValues B) ∧
    sameBelow o.arena o2.arena o.rawStringUsed ∧
    (∀ t, t < 8 → recordAt o2.rawValues o2.arena
        (cbPos (!o.outerNonNullRows.isEmpty) o.outerNonNullRows i o.numValues t) =
      (g8Len c.rawLengths rows i t,
       blobSlice blob (c.pos + c.toSkip + sumRange c.rawLengths c.lengthIndex
         (rows.getD (i + t) 0 - c.lengthIndex)) (g8Len c.rawLengths rows i t),
       if g8Len c.rawLengths rows i t ≤ 12 then none
       else some (o.rawStringUsed + g8Spill c.rawLengths rows i t))) := by
  injection e with e1
  injection e1 with eb ep
  have hc2 : (try8ConsecutiveSmall blob (!o.outerNonNullRows.isEmpty) gt4
      (c.pos + rangeSumL c.rawLengths 0 c.lengthIndex (rowAt rows i) + c.toSkip)
      offsets i { c with lengthIndex := rowAt rows i } o).1 = c2 := by rw [ep]
  have ho2 : (try8ConsecutiveSmall blob (!o.outerNonNullRows.isEmpty) gt4
      (c.pos + rangeSumL c.rawLengths 0 c.lengthIndex (rowAt rows i) + c.toSkip)
      offsets i { c with lengthIndex := rowAt rows i } o).2 = o2 := by rw [ep]
  obtain ⟨hoff, hle12⟩ := allSmallEnough_some
    ((List.range 8).map (fun t => c.rawLengths.getD (rowAt rows i + t) 0)) offsets gt4 hsm
  have hL : ((List.range 8).map
      (fun t => c.rawLengths.getD (rowAt rows i + t) 0)).length = 8 := by simp
  have hL2 : (List.range 8).map (fun t => ((List.range 8).map
      (fun t => c.rawLengths.getD (rowAt rows i + t) 0)).getD t 0) =
      (List.range 8).map (fun t => c.rawLengths.getD (rowAt rows i + t) 0) := by
    refine List.ext_getElem (by simp) (fun k h1 h2 => ?_)
    simp only [List.getElem_map, List.getElem_range]
    rw [List.getD_eq_getElem _ _ h2]
    simp only [List.getElem_map, List.getElem_range]
  rw [hL2] at hoff hle12
  have hLg : ∀ t, t < 8 → ((List.range 8).map
      (fun t => c.rawLengths.getD (rowAt rows i + t) 0)).getD t 0 =
      g8Len c.rawLengths rows i t := by
    intro t ht
    rw [getD_map_range _ 8 t ht]
    show c.rawLengths.getD (rowAt rows i + t) 0 = c.rawLengths.getD (rows.getD (i + t) 0) 0
    rw [hrun t ht]
    rfl
  have hL12 : ∀ t, t < 8 → ((List.range 8).map
      (fun t => c.rawLengths.getD (rowAt rows i + t) 0)).getD t 0 ≤ 12 := by
    intro t ht
    refine hle12 _ ?_
    rw [List.getD_eq_getElem _ _ (by rw [hL]; omega)]
    exact List.getElem_mem _
  have hsum : ∀ t, t ≤ 8 → sumRange ((List.range 8).map
      (fun t => c.rawLengths.getD (rowAt rows i + t) 0)) 0 t =
      sumRange c.rawLengths (rows.getD i 0) t := by
    intro t
    induction t with
    | zero => intro _; rfl
    | succ t ih =>
      intro ht
      rw [sumRange_succ_right, sumRange_succ_right, ih (by omega), Nat.zero_add,
        hLg t (by omega)]
      rw [show g8Len c.rawLengths rows i t =
        c.rawLengths.getD (rows.getD (i + t) 0) 0 from rfl, hrun t (by omega)]
  have hoffD : ∀ t, t ≤ 8 → offsets.getD t 0 = sumRange c.rawLengths (rows.getD i 0) t := by
    intro t ht
    rw [hoff, offsetsOf_getD _ t (by rw [hL]; omega)]
    exact hsum t ht
  have hstart : rangeSumL c.rawLengths 0 c.lengthIndex (rowAt rows i) =
      sumRange c.rawLengths c.lengthIndex (rows.getD i 0 - c.lengthIndex) := by
    show 0 + sumRange c.rawLengths c.lengthIndex (rowAt rows i - c.lengthIndex) = _
    rw [Nat.zero_add]
    rfl
  have hglue : ∀ t : Nat, sumRange c.rawLengths c.lengthIndex
      (rows.getD i 0 - c.lengthIndex) + sumRange c.rawLengths (rows.getD i 0) t =
      sumRange c.rawLengths c.lengthIndex (rows.getD i 0 + t - c.lengthIndex) := by
    intro t
    have h := sumRange_add c.rawLengths c.lengthIndex (rows.getD i 0 - c.lengthIndex) t
    rw [show c.lengthIndex + (rows.getD i 0 - c.lengthIndex) = rows.getD i 0 from
      by omega] at h
    rw [show rows.getD i 0 - c.lengthIndex + t = rows.getD i 0 + t - c.lengthIndex from
      by omega] at h
    exact h
  have hoffmono : ∀ t, t < 8 → offsets.getD t 0 ≤ offsets.getD (t + 1) 0 := by
    intro t ht
    rw [hoffD t (by omega), hoffD (t + 1) (by omega)]
    exact sumRange_mono _ _ (t + 1) t (by omega)
  have hdiff : ∀ t, t < 8 → offsets.getD (t + 1) 0 - offsets.getD t 0 =
      g8Len c.rawLengths rows i t := by
    intro t ht
    rw [hoffD (t + 1) (by omega), hoffD t (by omega), sumRange_succ_right]
    have h2 : c.rawLengths.getD (rows.getD i 0 + t) 0 = g8Len c.rawLengths rows i t := by
      show _ = c.rawLengths.getD (rows.getD (i + t) 0) 0
      rw [hrun t ht]
    omega
  have hspill0 : ∀ k, k ≤ 8 → g8Spill c.rawLengths rows i k = 0 := by
    intro k
    induction k with
    | zero => intro _; rfl
    | succ k ih =>
      intro hk
      show g8Spill c.rawLengths rows i k +
        (if 12 < g8Len c.rawLengths rows i k then g8Len c.rawLengths rows i k else 0) = 0
      rw [ih (by omega), if_neg (by
        have h1 := hL12 k (by omega)
        have h2 := hLg k (by omega)
        omega)]
  have hb12 : ∀ t, t < 8 → c.pos + rangeSumL c.rawLengths 0 c.lengthIndex (rowAt rows i) +
      c.toSkip + offsets.getD t 0 + 12 ≤ blob.length := by
    intro t ht
    have h84 : offsets.getD t 0 ≤ 84 := by
      rw [hoff, offsetsOf_getD _ t (by rw [hL]; omega)]
      have h := take_sum_le ((List.range 8).map
        (fun t => c.rawLengths.getD (rowAt rows i + t) 0)) 12 t hle12
      omega
    omega
  have hd8 : c.pos + rangeSumL c.rawLengths 0 c.lengthIndex (rowAt rows i) + c.toSkip +
      offsets.getD 8 0 ≤ blob.length := by
    have h96 : offsets.getD 8 0 ≤ 96 := by
      rw [hoff, offsetsOf_getD _ 8 (by rw [hL])]
      have h := take_sum_le ((List.range 8).map
        (fun t => c.rawLengths.getD (rowAt rows i + t) 0)) 12 8 hle12
      omega
    omega
  obtain ⟨hS1, hS2, hS3, hS4, hS5, hS6, hS7, hS8, hS9, hS10, hS11, hS12, hS13, hS14,
      hS15⟩ :=
    try8ConsecutiveSmall_spec blob (!o.outerNonNullRows.isEmpty) gt4
      (c.pos + rangeSumL c.rawLengths 0 c.lengthIndex (rowAt rows i) + c.toSkip)
      offsets i { c with lengthIndex := rowAt rows i } o
      hmono hoffmono
      (by intro t ht
          rw [hdiff t ht]
          have h1 := hL12 t ht
          have h2 := hLg t ht
          omega)
      (by intro hg t ht
          have h4 := allSmallEnough_gt4 _ offsets gt4 hsm hg t ht
          rw [hdiff t ht]
          have h2 := hLg t ht
          omega)
      hb12 h256 hwin hd8
  refine ⟨?_, ?_, ?_, ?_, ?_, ?_, ?_, ?_, ?_, ?_, ?_, ?_, ?_, ?_, ?_⟩
  · rw [← hc2, hS1, hS2, hrun 7 (by omega), hoffD 8 (by omega), hstart]
    rw [show rows.getD i 0 + 7 + 1 - c.lengthIndex =
      rows.getD i 0 + 8 - c.lengthIndex from by omega]
    have hg := hglue 8
    omega
  · rw [← hc2]
    exact hS3
  · rw [← hc2]
    exact hS4
  · rw [← hc2, hS5, hrun 7 (by omega)]
    show rows.getD i 0 + 8 = rows.getD i 0 + 7 + 1
    omega
  · rw [← hc2]
    exact hS6
  · rw [← ho2]
    exact hS7
  · rw [← ho2, hS8, hspill0 8 (le_refl _)]
    omega
  · rw [← ho2]
    exact hS10
  · rw [← ho2]
    exact hS11
  · rw [← ho2]
    exact hS12
  · rw [← ho2]
    exact hS13
  · rw [← ho2]
    have hsame : (try8ConsecutiveSmall blob (!o.outerNonNullRows.isEmpty) gt4
        (c.pos + rangeSumL c.rawLengths 0 c.lengthIndex (rowAt rows i) + c.toSkip)
        offsets i { c with lengthIndex := rowAt rows i } o).2.rawStringSize =
        o.rawStringSize := rfl
    rw [hsame]
    exact le_max_left _ _
  · intro B hB
    rw [← ho2]
    exact hS14 B hB
  · rw [← ho2, hS9]
    exact sameBelow_refl _ _
  · intro t ht
    rw [← ho2]
    have h := hS15 t ht
    rw [hdiff t ht] at h
    have hoffeq : c.pos + rangeSumL c.rawLengths 0 c.lengthIndex (rowAt rows i) +
        c.toSkip + offsets.getD t 0 = c.pos + c.toSkip +
        sumRange c.rawLengths c.lengthIndex
          (rows.getD (i + t) 0 - c.lengthIndex) := by
      rw [hoffD t (by omega), hstart, hrun t ht]
      have hg := hglue t
      omega
    rw [hoffeq] at h
    rw [h, if_pos (by
      have h1 := hL12 t ht
      have h2 := hLg t ht
      omega)]

theorem dense_general_case (blob : List Nat) (rows : List Nat) (i : Nat)
    (c c2 : CState) (o o2 : OState)
    (hwin : c.pos + c.winLen ≤ blob.length)
    (hsz64 : o.rawStringSize < 2 ^ 64)
    (hq0 : c.lengthIndex ≤ rows.getD i 0)
    (hrun : ∀ s, s < 8 → rows.getD (i + s) 0 = rows.getD i 0 + s)
    (hlen32 : ∀ t, t < 8 → g8Len c.rawLengths rows i t < 2 ^ 32)
    (hmono : ∀ t, t + 1 < 8 → cbPos (!o.outerNonNullRows.isEmpty) o.outerNonNullRows i
        o.numValues t < cbPos (!o.outerNonNullRows.isEmpty) o.outerNonNullRows i
        o.numValues (t + 1))
    (e : try8General blob false (rangeSumL c.rawLengths 0 c.lengthIndex (rowAt rows i))
        rows i { c with lengthIndex := rowAt rows i } o = some (true, c2, o2)) :
    c2.pos + c2.toSkip = c.pos + c.toSkip +
      sumRange c.rawLengths c.lengthIndex (rows.getD (i + 7) 0 + 1 - c.lengthIndex) ∧
    c2.pos + c2.winLen ≤ blob.length ∧
    c2.rawLengths = c.rawLengths ∧
    c2.lengthIndex = rows.getD (i + 7) 0 + 1 ∧
    c2.lenStream = c.lenStream ∧
    o2.numValues = cbPos (!o.outerNonNullRows.isEmpty) o.outerNonNullRows i
        o.numValues 7 + 1 ∧
    o2.rawStringUsed = o.rawStringUsed + g8Spill c.rawLengths rows i 8 ∧
    o2.resultNulls = o.resultNulls ∧ o2.returnReaderNulls = o.returnReaderNulls ∧
    o2.anyNulls = o.anyNulls ∧ o2.outerNonNullRows = o.outerNonNullRows ∧
    o2.rawStringSize ≤ max o.rawStringSize
      (o.rawStringUsed + g8Spill c.rawLengths rows i 8) ∧
    (∀ B, (∀ t, t < 8 → B ≤ 16 * cbPos (!o.outerNonNullRows.isEmpty) o.outerNonNullRows
        i o.numValues t) → sameBelow o.rawValues o2.rawValues B) ∧
    sameBelow o.arena o2.arena o.rawStringUsed ∧
    (∀ t, t < 8 → recordAt o2.rawValues o2.arena
        (cbPos (!o.outerNonNullRows.isEmpty) o.outerNonNullRows i o.numValues t) =
      (g8Len c.rawLengths rows i t,
       blobSlice blob (c.pos + c.toSkip + sumRange c.rawLengths c.lengthIndex
         (rows.getD (i + t) 0 - c.lengthIndex)) (g8Len c.rawLengths rows i t),
       if g8Len c.rawLengths rows i t ≤ 12 then none
       else some (o.rawStringUsed + g8Spill c.rawLengths rows i t))) := by
  obtain ⟨hp, ht0, hw, hrl, hli, hls, hnv, hus, hrn, hrr, han, hou, hsz2, hFm, hFa,
      hRec⟩ :=
    try8General_okchar blob false (rangeSumL c.rawLengths 0 c.lengthIndex (rowAt rows i))
      rows i { c with lengthIndex := rowAt rows i } c2 o o2 hwin hsz64 hlen32 hmono e
  have hstart : rangeSumL c.rawLengths 0 c.lengthIndex (rowAt rows i) =
      sumRange c.rawLengths c.lengthIndex (rows.getD i 0 - c.lengthIndex) := by
    show 0 + sumRange c.rawLengths c.lengthIndex (rowAt rows i - c.lengthIndex) = _
    rw [Nat.zero_add]
    rfl
  have hglue : ∀ t : Nat, sumRange c.rawLengths c.lengthIndex
      (rows.getD i 0 - c.lengthIndex) + sumRange c.rawLengths (rows.getD i 0) t =
      sumRange c.rawLengths c.lengthIndex (rows.getD i 0 + t - c.lengthIndex) := by
    intro t
    have h := sumRange_add c.rawLengths c.lengthIndex (rows.getD i 0 - c.lengthIndex) t
    rw [show c.lengthIndex + (rows.getD i 0 - c.lengthIndex) = rows.getD i 0 from
      by omega] at h
    rw [show rows.getD i 0 - c.lengthIndex + t = rows.getD i 0 + t - c.lengthIndex from
      by omega] at h
    exact h
  have hp2 : c2.pos = g8Data c.rawLengths rows false
      (c.pos + rangeSumL c.rawLengths 0 c.lengthIndex (rowAt rows i) + c.toSkip) 0 i 7 +
      g8Len c.rawLengths rows i 7 := hp
  have hli2 : c2.lengthIndex = rowAt rows i + 8 := hli
  have hus2 : o2.rawStringUsed = o.rawStringUsed + g8Spill c.rawLengths rows i 8 := hus
  have hRec2 : ∀ t, t < 8 → recordAt o2.rawValues o2.arena
      (cbPos (!o.outerNonNullRows.isEmpty) o.outerNonNullRows i o.numValues t) =
    (g8Len c.rawLengths rows i t,
     blobSlice blob (g8Data c.rawLengths rows false
       (c.pos + rangeSumL c.rawLengths 0 c.lengthIndex (rowAt rows i) + c.toSkip) 0 i t)
       (g8Len c.rawLengths rows i t),
     if g8Len c.rawLengths rows i t ≤ 12 then none
     else some (o.rawStringUsed + g8Spill c.rawLengths rows i t)) := hRec
  have hgd : ∀ t, t < 8 → g8Data c.rawLengths rows false
      (c.pos + rangeSumL c.rawLengths 0 c.lengthIndex (rowAt rows i) + c.toSkip) 0 i t =
      c.pos + c.toSkip + sumRange c.rawLengths c.lengthIndex
        (rows.getD (i + t) 0 - c.lengthIndex) := by
    intro t ht
    rw [g8Data_dense_off c.rawLengths rows i
      (c.pos + rangeSumL c.rawLengths 0 c.lengthIndex (rowAt rows i) + c.toSkip) 0
      hrun t ht]
    rw [hstart, hrun t ht]
    have hg := hglue t
    omega
  refine ⟨?_, hw, hrl, ?_, hls, hnv, hus2, hrn, hrr, han, hou, ?_, hFm, hFa, ?_⟩
  · rw [hp2, ht0, hgd 7 (by omega), hrun 7 (by omega)]
    have hsr : sumRange c.rawLengths (rows.getD i 0) 7 +
        c.rawLengths.getD (rows.getD i 0 + 7) 0 =
        sumRange c.rawLengths (rows.getD i 0) 8 := by
      have h := sumRange_succ_right c.rawLengths (rows.getD i 0) 7
      rw [show (7 : Nat) + 1 = 8 from rfl] at h
      omega
    have hg7 := hglue 7
    have hg8 := hglue 8
    rw [show g8Len c.rawLengths rows i 7 =
      c.rawLengths.getD (rows.getD (i + 7) 0) 0 from rfl, hrun 7 (by omega)]
    rw [show rows.getD i 0 + 7 + 1 - c.lengthIndex =
      rows.getD i 0 + 8 - c.lengthIndex from by omega]
    omega
  · rw [hli2, hrun 7 (by omega)]
    show rows.getD i 0 + 8 = rows.getD i 0 + 7 + 1
    omega
  · rw [hsz2]
    exact le_max_left _ _
  · intro t ht
    have h := hRec2 t ht
    rw [hgd t ht] at h
    exact h

theorem try8Consecutive_dense_true (blob : List Nat) (rows : List Nat) (i : Nat)
    (c c2 : CState) (o o2 : OState)
    (hwin : c.pos + c.winLen ≤ blob.length)
    (hsz64 : o.rawStringSize < 2 ^ 64)
    (h256 : ∀ b ∈ blob, b < 256)
    (hq0 : c.lengthIndex ≤ rows.getD i 0)
    (hrun : ∀ s, s < 8 → rows.getD (i + s) 0 = rows.getD i 0 + s)
    (hlen32 : ∀ t, t < 8 → g8Len c.rawLengths rows i t < 2 ^ 32)
    (hmono : ∀ t, t + 1 < 8 → cbPos (!o.outerNonNullRows.isEmpty) o.outerNonNullRows i
        o.numValues t < cbPos (!o.outerNonNullRows.isEmpty) o.outerNonNullRows i
        o.numValues (t + 1))
    (e : try8Consecutive blob false
        (rangeSumL c.rawLengths 0 c.lengthIndex (rowAt rows i)) rows i
        { c with lengthIndex := rowAt rows i } o = some (true, c2, o2)) :
    c2.pos + c2.toSkip = c.pos + c.toSkip +
      sumRange c.rawLengths c.lengthIndex (rows.getD (i + 7) 0 + 1 - c.lengthIndex) ∧
    c2.pos + c2.winLen ≤ blob.length ∧
    c2.rawLengths = c.rawLengths ∧
    c2.lengthIndex = rows.getD (i + 7) 0 + 1 ∧
    c2.lenStream = c.lenStream ∧
    o2.numValues = cbPos (!o.outerNonNullRows.isEmpty) o.outerNonNullRows i
        o.numValues 7 + 1 ∧
    o2.rawStringUsed = o.rawStringUsed + g8Spill c.rawLengths rows i 8 ∧
    o2.resultNulls = o.resultNulls ∧ o2.returnReaderNulls = o.returnReaderNulls ∧
    o2.anyNulls = o.anyNulls ∧ o2.outerNonNullRows = o.outerNonNullRows ∧
    o2.rawStringSize ≤ max o.rawStringSize
      (o.rawStringUsed + g8Spill c.rawLengths rows i 8) ∧
    (∀ B, (∀ t, t < 8 → B ≤ 16 * cbPos (!o.outerNonNullRows.isEmpty) o.outerNonNullRows
        i o.numValues t) → sameBelow o.rawValues o2.rawValues B) ∧
    sameBelow o.arena o2.arena o.rawStringUsed ∧
    (∀ t, t < 8 → recordAt o2.rawValues o2.arena
        (cbPos (!o.outerNonNullRows.isEmpty) o.outerNonNullRows i o.numValues t) =
      (g8Len c.rawLengths rows i t,
       blobSlice blob (c.pos + c.toSkip + sumRange c.rawLengths c.lengthIndex
         (rows.getD (i + t) 0 - c.lengthIndex)) (g8Len c.rawLengths rows i t),
       if g8Len c.rawLengths rows i t ≤ 12 then none
       else some (o.rawStringUsed + g8Spill c.rawLengths rows i t))) := by
  unfold try8Consecutive at e
  split at e
  · simp only [Option.some.injEq, Prod.mk.injEq] at e
    obtain ⟨hb, -⟩ := e
    exact absurd hb (by simp)
  · rename_i hguard
    rw [if_neg (by simp)] at e
    rw [Bool.or_eq_true] at hguard
    have hg2 : c.toSkip + rangeSumL c.rawLengths 0 c.lengthIndex (rowAt rows i) + 96 ≤
        c.winLen := by
      have hy2 : ¬ (c.winLen - c.toSkip <
          rangeSumL c.rawLengths 0 c.lengthIndex (rowAt rows i) + 8 * 12) :=
        fun hlt => hguard (Or.inr (decide_eq_true hlt))
      omega
    split at e
    · rename_i offsets gt4 hsm
      exact dense_small_case blob rows i offsets gt4 c c2 o o2 hwin h256 hq0 hrun hmono
        hg2 hsm e
    · rename_i hsm
      exact dense_general_case blob rows i c c2 o o2 hwin hsz64 hq0 hrun hlen32 hmono e

theorem dense8_slowAux (blob : List Nat) (sched : Nat → Nat) (rows : List Nat)
    (i : Nat) (c : CState) (o om : OState)
    (hwin : c.pos + c.winLen ≤ blob.length)
    (hq0 : c.lengthIndex ≤ rows.getD i 0)
    (hrun : ∀ s, s < 8 → rows.getD (i + s) 0 = rows.getD i 0 + s)
    (hbound : ∀ t, t < 8 → c.pos + c.toSkip +
        sumRange c.rawLengths c.lengthIndex (rows.getD (i + t) 0 - c.lengthIndex) +
        g8Len c.rawLengths rows i t ≤ blob.length)
    (hlen32 : ∀ t, t < 8 → g8Len c.rawLengths rows i t < 2 ^ 32)
    (hu64 : o.rawStringUsed + g8Spill c.rawLengths rows i 8 < 2 ^ 64)
    (hmono : ∀ t, t + 1 < 8 → cbPos (!o.outerNonNullRows.isEmpty) o.outerNonNullRows i
        o.numValues t < cbPos (!o.outerNonNullRows.isEmpty) o.outerNonNullRows i
        o.numValues (t + 1))
    (hmu : om.rawStringUsed = o.rawStringUsed)
    (hmn : om.numValues = o.numValues)
    (hmo : om.outerNonNullRows = o.outerNonNullRows)
    (hmr : om.resultNulls = o.resultNulls)
    (hmt : om.returnReaderNulls = o.returnReaderNulls)
    (hma : om.anyNulls = o.anyNulls)
    (hms : om.rawStringSize = o.rawStringSize)
    (hfm : ∀ B, (∀ t, t < 8 → B ≤ 16 * cbPos (!o.outerNonNullRows.isEmpty)
        o.outerNonNullRows i o.numValues t) → sameBelow o.rawValues om.rawValues B)
    (hfa : sameBelow o.arena om.arena o.rawStringUsed) :
    ∃ c2 o2, extractCrossBuffers blob sched
        ((List.range 8).map (fun t => c.rawLengths.getD (rowAt rows i + t) 0))
        ((List.range 8).map (fun t => rangeSumL c.rawLengths 0 c.lengthIndex
          (rowAt rows i) + sumRange c.rawLengths (rowAt rows i) t))
        i 8 { c with lengthIndex := rowAt rows i + 8 } om = some (c2, o2) ∧
      c2.pos + c2.toSkip = c.pos + c.toSkip +
        sumRange c.rawLengths c.lengthIndex (rows.getD (i + 7) 0 + 1 - c.lengthIndex) ∧
      c2.pos + c2.winLen ≤ blob.length ∧
      c2.rawLengths = c.rawLengths ∧
      c2.lengthIndex = rows.getD (i + 7) 0 + 1 ∧
      c2.lenStream = c.lenStream ∧
      o2.numValues = cbPos (!o.outerNonNullRows.isEmpty) o.outerNonNullRows i
          o.numValues 7 + 1 ∧
      o2.rawStringUsed = o.rawStringUsed + g8Spill c.rawLengths rows i 8 ∧
      o2.resultNulls = o.resultNulls ∧ o2.returnReaderNulls = o.returnReaderNulls ∧
      o2.anyNulls = o.anyNulls ∧ o2.outerNonNullRows = o.outerNonNullRows ∧
      o2.rawStringSize ≤ max o.rawStringSize
        (o.rawStringUsed + g8Spill c.rawLengths rows i 8) ∧
      (∀ B, (∀ t, t < 8 → B ≤ 16 * cbPos (!o.outerNonNullRows.isEmpty) o.outerNonNullRows
          i o.numValues t) → sameBelow o.rawValues o2.rawValues B) ∧
      sameBelow o.arena o2.arena o.rawStringUsed ∧
      (∀ t, t < 8 → recordAt o2.rawValues o2.arena
          (cbPos (!o.outerNonNullRows.isEmpty) o.outerNonNullRows i o.numValues t) =
        (g8Len c.rawLengths rows i t,
         blobSlice blob (c.pos + c.toSkip + sumRange c.rawLengths c.lengthIndex
           (rows.getD (i + t) 0 - c.lengthIndex)) (g8Len c.rawLengths rows i t),
         if g8Len c.rawLengths rows i t ≤ 12 then none
         else some (o.rawStringUsed + g8Spill c.rawLengths rows i t))) := by
  have hlenD : ∀ t, t < 8 →
      ((List.range 8).map (fun t => c.rawLengths.getD (rowAt rows i + t) 0)).getD t 0 =
      g8Len c.rawLengths rows i t := by
    intro t ht
    rw [getD_map_range _ 8 t ht]
    show c.rawLengths.getD (rowAt rows i + t) 0 = c.rawLengths.getD (rows.getD (i + t) 0) 0
    rw [hrun t ht]
    rfl
  have hstD : ∀ t, t < 8 →
      ((List.range 8).map (fun t => rangeSumL c.rawLengths 0 c.lengthIndex
        (rowAt rows i) + sumRange c.rawLengths (rowAt rows i) t)).getD t 0 =
      rangeSumL c.rawLengths 0 c.lengthIndex (rowAt rows i) +
        sumRange c.rawLengths (rows.getD i 0) t := by
    intro t ht
    rw [getD_map_range _ 8 t ht]
    rfl
  have hstart : rangeSumL c.rawLengths 0 c.lengthIndex (rowAt rows i) =
      sumRange c.rawLengths c.lengthIndex (rows.getD i 0 - c.lengthIndex) := by
    show 0 + sumRange c.rawLengths c.lengthIndex (rowAt rows i - c.lengthIndex) = _
    rw [Nat.zero_add]
    rfl
  have hglue : ∀ t : Nat, sumRange c.rawLengths c.lengthIndex
      (rows.getD i 0 - c.lengthIndex) + sumRange c.rawLengths (rows.getD i 0) t =
      sumRange c.rawLengths c.lengthIndex (rows.getD i 0 + t - c.lengthIndex) := by
    intro t
    have h := sumRange_add c.rawLengths c.lengthIndex (rows.getD i 0 - c.lengthIndex) t
    rw [show c.lengthIndex + (rows.getD i 0 - c.lengthIndex) = rows.getD i 0 from
      by omega] at h
    rw [show rows.getD i 0 - c.lengthIndex + t = rows.getD i 0 + t - c.lengthIndex from
      by omega] at h
    exact h
  have hsucc : ∀ t : Nat, sumRange c.rawLengths (rows.getD i 0) t +
      c.rawLengths.getD (rows.getD i 0 + t) 0 =
      sumRange c.rawLengths (rows.getD i 0) (t + 1) := by
    intro t
    have h := sumRange_succ_right c.rawLengths (rows.getD i 0) t
    omega
  have hgt : ∀ t, t < 8 → c.rawLengths.getD (rows.getD i 0 + t) 0 =
      g8Len c.rawLengths rows i t := by
    intro t ht
    show _ = c.rawLengths.getD (rows.getD (i + t) 0) 0
    rw [hrun t ht]
  have hspill : ∀ k, k ≤ 8 →
      spillPart ((List.range 8).map (fun t => c.rawLengths.getD (rowAt rows i + t) 0))
        0 k = g8Spill c.rawLengths rows i k := by
    intro k hk
    exact spillPart_eq_g8Spill_lt _ c.rawLengths rows i k (fun t ht => hlenD t (by omega))
  obtain ⟨cf, of, eCB, hpos, hts, hwinF, hrlF, hliF, hlsF, hnumF, husedF, hresF, hretF,
      hanyF, houtF, hrvF, harF, hrecF⟩ :=
    extractCrossBuffers_spec blob sched
      ((List.range 8).map (fun t => c.rawLengths.getD (rowAt rows i + t) 0))
      ((List.range 8).map (fun t => rangeSumL c.rawLengths 0 c.lengthIndex
        (rowAt rows i) + sumRange c.rawLengths (rowAt rows i) t))
      i 8 { c with lengthIndex := rowAt rows i + 8 } om (by omega) hwin
      (by intro t ht
          rw [hstD t (by omega), hstD (t + 1) ht, hlenD t (by omega)]
          have h1 := hsucc t
          have h2 := hgt t (by omega)
          omega)
      (by intro t ht
          rw [hstD t ht, hlenD t ht]
          show c.pos + c.toSkip + _ + _ ≤ _
          have h1 := hbound t ht
          rw [hrun t ht] at h1
          have h2 := hglue t
          rw [hstart]
          omega)
      (by rw [hmo, hmn]
          exact hmono)
      (by intro t ht
          rw [hlenD t ht]
          exact hlen32 t ht)
      (by rw [hmu, hspill 8 (le_refl _)]
          exact hu64)
  obtain ⟨hszu, hszs⟩ := extractCrossBuffers_size blob sched
    ((List.range 8).map (fun t => c.rawLengths.getD (rowAt rows i + t) 0))
    ((List.range 8).map (fun t => rangeSumL c.rawLengths 0 c.lengthIndex
      (rowAt rows i) + sumRange c.rawLengths (rowAt rows i) t))
    i 8 { c with lengthIndex := rowAt rows i + 8 } cf om of eCB
  rw [hmo, hmn] at hnumF
  rw [hmu, hspill 8 (le_refl _)] at husedF
  refine ⟨cf, of, eCB, ?_, ?_, hrlF, ?_, hlsF, hnumF, husedF, hresF.trans hmr,
    hretF.trans hmt, hanyF.trans hma, houtF.trans hmo, ?_, ?_, ?_, ?_⟩
  · rw [show (8 : Nat) - 1 = 7 from rfl] at hpos
    rw [hpos, hts, hstD 7 (by omega), hlenD 7 (by omega)]
    show c.pos + c.toSkip + _ + _ + 0 = _
    rw [hstart, hrun 7 (by omega)]
    have h1 := hglue 8
    have h2 := hsucc 7
    rw [show (7 : Nat) + 1 = 8 from rfl] at h2
    have h3 := hgt 7 (by omega)
    rw [show rows.getD i 0 + 7 + 1 - c.lengthIndex =
      rows.getD i 0 + 8 - c.lengthIndex from by omega]
    omega
  · exact hwinF
  · rw [hliF, hrun 7 (by omega)]
    show rowAt rows i + 8 = rows.getD i 0 + 7 + 1
    show rows.getD i 0 + 8 = rows.getD i 0 + 7 + 1
    omega
  · rw [husedF] at hszs
    rw [hms] at hszs
    exact hszs
  · intro B hB
    refine sameBelow_trans _ om.rawValues _ _ (hfm B hB) ?_
    refine hrvF B ?_
    rw [hmo, hmn]
    exact hB
  · refine sameBelow_trans _ om.arena _ _ hfa ?_
    rw [← hmu]
    exact harF
  · intro t ht
    have h := hrecF t ht
    rw [hmo, hmn] at h
    rw [hlenD t ht, hstD t ht, hmu] at h
    rw [hspill t (by omega)] at h
    rw [show ({ c with lengthIndex := rowAt rows i + 8 } : CState).pos +
        ({ c with lengthIndex := rowAt rows i + 8 } : CState).toSkip +
        (rangeSumL c.rawLengths 0 c.lengthIndex (rowAt rows i) +
          sumRange c.rawLengths (rows.getD i 0) t) =
      c.pos + c.toSkip + sumRange c.rawLengths c.lengthIndex
        (rows.getD (i + t) 0 - c.lengthIndex) from by
      show c.pos + c.toSkip + _ = _
      rw [hstart, hrun t ht]
      have h2 := hglue t
      omega] at h
    exact h

theorem extractSparseGo_succ (blob : List Nat) (sched : Nat → Nat) (rows : List Nat)
    (numRows fuel i : Nat) (c : CState) (o : OState) :
    extractSparseGo blob sched rows numRows (fuel + 1) i c o =
    (if i + 8 ≤ numRows then
      if rowAt rows (i + 7) = rowAt rows i + 7 then
        let start := rangeSumL c.rawLengths 0 c.lengthIndex (rowAt rows i)
        let c := { c with lengthIndex := rowAt rows i }
        match try8Consecutive blob false start rows i c o with
        | none => none
        | some (true, c, o) => extractSparseGo blob sched rows numRows fuel (i + 8) c o
        | some (false, c, o) =>
          let lengths := (List.range 8).map (fun t => c.rawLengths.getD (c.lengthIndex + t) 0)
          let starts := (List.range 8).map
            (fun t => start + sumRange c.rawLengths c.lengthIndex t)
          let c := { c with lengthIndex := c.lengthIndex + 8 }
          match extractCrossBuffers blob sched lengths starts i 8 c o with
          | none => none
          | some (c, o) => extractSparseGo blob sched rows numRows fuel (i + 8) c o
      else
        match extractNSparse blob sched rows i 8 c o with
        | none => none
        | some (c, o) => extractSparseGo blob sched rows numRows fuel (i + 8) c o
    else if i < numRows then extractNSparse blob sched rows i (numRows - i) c o
    else some (c, o)) := rfl

theorem extractSparseGo_done (blob : List Nat) (sched : Nat → Nat) (rows : List Nat)
    (numRows fuel i : Nat) (c : CState) (o : OState) (h : numRows ≤ i) :
    extractSparseGo blob sched rows numRows (fuel + 1) i c o = some (c, o) := by
  rw [extractSparseGo_succ]
  rw [if_neg (by omega), if_neg (by omega)]

theorem g8Len_shift8 (rawLengths rows : List Nat) (i t : Nat) :
    g8Len rawLengths rows (i + 8) t = g8Len rawLengths rows i (t + 8) := by
  show rawLengths.getD (rows.getD (i + 8 + t) 0) 0 =
    rawLengths.getD (rows.getD (i + (t + 8)) 0) 0
  rw [show i + 8 + t = i + (t + 8) from by omega]

theorem g8Spill_add (rawLengths rows : List Nat) (i a : Nat) :
    ∀ b, g8Spill rawLengths rows i (a + b) =
      g8Spill rawLengths rows i a + g8Spill rawLengths rows (i + a) b := by
  intro b
  induction b with
  | zero => rfl
  | succ b ih =>
    show g8Spill rawLengths rows i (a + b) +
        (if 12 < g8Len rawLengths rows i (a + b) then g8Len rawLengths rows i (a + b)
         else 0) =
      g8Spill rawLengths rows i a + (g8Spill rawLengths rows (i + a) b +
        (if 12 < g8Len rawLengths rows (i + a) b then g8Len rawLengths rows (i + a) b
         else 0))
    rw [ih]
    rw [show g8Len rawLengths rows i (a + b) = g8Len rawLengths rows (i + a) b from by
      show rawLengths.getD (rows.getD (i + (a + b)) 0) 0 =
        rawLengths.getD (rows.getD (i + a + b) 0) 0
      rw [show i + (a + b) = i + a + b from by omega]]
    omega

theorem cbPos_shift8 (scatter : Bool) (outer : List Nat) (i w t : Nat) :
    cbPos scatter outer (i + 8) (cbPos scatter outer i w 7 + 1) t =
      cbPos scatter outer i w (t + 8) := by
  unfold cbPos
  cases scatter with
  | true =>
    show outer.getD (i + 8 + t) 0 = outer.getD (i + (t + 8)) 0
    rw [show i + 8 + t = i + (t + 8) from by omega]
  | false =>
    show w + 7 + 1 + t = w + (t + 8)
    omega

theorem sparseGo_compose (blob : List Nat) (sched : Nat → Nat) (rows : List Nat)
    (numRows fuel i : Nat) (c c2 : CState) (o o2 : OState)
    (hrmonoAll : ∀ t, t + 1 < numRows → rows.getD t 0 < rows.getD (t + 1) 0)
    (ihp : ∀ (j : Nat) (cj : CState) (oj : OState), j % 8 = 0 →
      fuel = numRows / 8 + 1 - j / 8 → j < numRows →
      cj.pos + cj.winLen ≤ blob.length →
      oj.rawStringSize < 2 ^ 64 →
      cj.lengthIndex ≤ rows.getD j 0 →
      (∀ t, t < numRows - j → cj.pos + cj.toSkip +
          sumRange cj.rawLengths cj.lengthIndex (rows.getD (j + t) 0 - cj.lengthIndex) +
          g8Len cj.rawLengths rows j t ≤ blob.length) →
      (∀ t, t < numRows - j → g8Len cj.rawLengths rows j t < 2 ^ 32) →
      oj.rawStringUsed + g8Spill cj.rawLengths rows j (numRows - j) < 2 ^ 64 →
      (∀ t, t + 1 < numRows - j → cbPos (!oj.outerNonNullRows.isEmpty)
          oj.outerNonNullRows j oj.numValues t < cbPos (!oj.outerNonNullRows.isEmpty)
          oj.outerNonNullRows j oj.numValues (t + 1)) →
      ∃ c' o', extractSparseGo blob sched rows numRows fuel j cj oj = some (c', o') ∧
        c'.pos + c'.toSkip = cj.pos + cj.toSkip +
          sumRange cj.rawLengths cj.lengthIndex
            (rows.getD (numRows - 1) 0 + 1 - cj.lengthIndex) ∧
        c'.pos + c'.winLen ≤ blob.length ∧
        c'.rawLengths = cj.rawLengths ∧
        c'.lengthIndex = rows.getD (numRows - 1) 0 + 1 ∧
        c'.lenStream = cj.lenStream ∧
        o'.numValues = cbPos (!oj.outerNonNullRows.isEmpty) oj.outerNonNullRows j
            oj.numValues (numRows - j - 1) + 1 ∧
        o'.rawStringUsed = oj.rawStringUsed + g8Spill cj.rawLengths rows j (numRows - j) ∧
        o'.resultNulls = oj.resultNulls ∧ o'.returnReaderNulls = oj.returnReaderNulls ∧
        o'.anyNulls = oj.anyNulls ∧ o'.outerNonNullRows = oj.outerNonNullRows ∧
        o'.rawStringSize ≤ max oj.rawStringSize
          (oj.rawStringUsed + g8Spill cj.rawLengths rows j (numRows - j)) ∧
        (∀ B, (∀ t, t < numRows - j → B ≤ 16 * cbPos (!oj.outerNonNullRows.isEmpty)
            oj.outerNonNullRows j oj.numValues t) →
          sameBelow oj.rawValues o'.rawValues B) ∧
        sameBelow oj.arena o'.arena oj.rawStringUsed ∧
        (∀ t, t < numRows - j → recordAt o'.rawValues o'.arena
            (cbPos (!oj.outerNonNullRows.isEmpty) oj.outerNonNullRows j oj.numValues t) =
          (g8Len cj.rawLengths rows j t,
           blobSlice blob (cj.pos + cj.toSkip + sumRange cj.rawLengths cj.lengthIndex
             (rows.getD (j + t) 0 - cj.lengthIndex)) (g8Len cj.rawLengths rows j t),
           if g8Len cj.rawLengths rows j t ≤ 12 then none
           else some (oj.rawStringUsed + g8Spill cj.rawLengths rows j t))))
    (hi8 : i % 8 = 0)
    (hfuel : fuel + 1 = numRows / 8 + 1 - i / 8)
    (hN : i + 8 ≤ numRows)
    (hsz64 : o.rawStringSize < 2 ^ 64)
    (hbound : ∀ t, t < numRows - i → c.pos + c.toSkip +
        sumRange c.rawLengths c.lengthIndex (rows.getD (i + t) 0 - c.lengthIndex) +
        g8Len c.rawLengths rows i t ≤ blob.length)
    (hlen32 : ∀ t, t < numRows - i → g8Len c.rawLengths rows i t < 2 ^ 32)
    (hu64 : o.rawStringUsed + g8Spill c.rawLengths rows i (numRows - i) < 2 ^ 64)
    (hmono : ∀ t, t + 1 < numRows - i → cbPos (!o.outerNonNullRows.isEmpty)
        o.outerNonNullRows i o.numValues t < cbPos (!o.outerNonNullRows.isEmpty)
        o.outerNonNullRows i o.numValues (t + 1))
    (hq0 : c.lengthIndex ≤ rows.getD i 0)
    (g1 : c2.pos + c2.toSkip = c.pos + c.toSkip + sumRange c.rawLengths c.lengthIndex
        (rows.getD (i + 7) 0 + 1 - c.lengthIndex))
    (g2 : c2.pos + c2.winLen ≤ blob.length)
    (g3 : c2.rawLengths = c.rawLengths)
    (g4 : c2.lengthIndex = rows.getD (i + 7) 0 + 1)
    (g5 : c2.lenStream = c.lenStream)
    (g6 : o2.numValues = cbPos (!o.outerNonNullRows.isEmpty) o.outerNonNullRows i
        o.numValues 7 + 1)
    (g7 : o2.rawStringUsed = o.rawStringUsed + g8Spill c.rawLengths rows i 8)
    (g8r : o2.resultNulls = o.resultNulls)
    (g9 : o2.returnReaderNulls = o.returnReaderNulls)
    (g10 : o2.anyNulls = o.anyNulls)
    (g11 : o2.outerNonNullRows = o.outerNonNullRows)
    (g12 : o2.rawStringSize ≤ max o.rawStringSize
        (o.rawStringUsed + g8Spill c.rawLengths rows i 8))
    (g13 : ∀ B, (∀ t, t < 8 → B ≤ 16 * cbPos (!o.outerNonNullRows.isEmpty)
        o.outerNonNullRows i o.numValues t) → sameBelow o.rawValues o2.rawValues B)
    (g14 : sameBelow o.arena o2.arena o.rawStringUsed)
    (g15 : ∀ t, t < 8 → recordAt o2.rawValues o2.arena
        (cbPos (!o.outerNonNullRows.isEmpty) o.outerNonNullRows i o.numValues t) =
      (g8Len c.rawLengths rows i t,
       blobSlice blob (c.pos + c.toSkip + sumRange c.rawLengths c.lengthIndex
         (rows.getD (i + t) 0 - c.lengthIndex)) (g8Len c.rawLengths rows i t),
       if g8Len c.rawLengths rows i t ≤ 12 then none
       else some (o.rawStringUsed + g8Spill c.rawLengths rows i t))) :
    ∃ c' o', extractSparseGo blob sched rows numRows fuel (i + 8) c2 o2 = some (c', o') ∧
      c'.pos + c'.toSkip = c.pos + c.toSkip +
        sumRange c.rawLengths c.lengthIndex
          (rows.getD (numRows - 1) 0 + 1 - c.lengthIndex) ∧
      c'.pos + c'.winLen ≤ blob.length ∧
      c'.rawLengths = c.rawLengths ∧
      c'.lengthIndex = rows.getD (numRows - 1) 0 + 1 ∧
      c'.lenStream = c.lenStream ∧
      o'.numValues = cbPos (!o.outerNonNullRows.isEmpty) o.outerNonNullRows i
          o.numValues (numRows - i - 1) + 1 ∧
      o'.rawStringUsed = o.rawStringUsed + g8Spill c.rawLengths rows i (numRows - i) ∧
      o'.resultNulls = o.resultNulls ∧ o'.returnReaderNulls = o.returnReaderNulls ∧
      o'.anyNulls = o.anyNulls ∧ o'.outerNonNullRows = o.outerNonNullRows ∧
      o'.rawStringSize ≤ max o.rawStringSize
        (o.rawStringUsed + g8Spill c.rawLengths rows i (numRows - i)) ∧
      (∀ B, (∀ t, t < numRows - i → B ≤ 16 * cbPos (!o.outerNonNullRows.isEmpty)
          o.outerNonNullRows i o.numValues t) → sameBelow o.rawValues o'.rawValues B) ∧
      sameBelow o.arena o'.arena o.rawStringUsed ∧
      (∀ t, t < numRows - i → recordAt o'.rawValues o'.arena
          (cbPos (!o.outerNonNullRows.isEmpty) o.outerNonNullRows i o.numValues t) =
        (g8Len c.rawLengths rows i t,
         blobSlice blob (c.pos + c.toSkip + sumRange c.rawLengths c.lengthIndex
           (rows.getD (i + t) 0 - c.lengthIndex)) (g8Len c.rawLengths rows i t),
         if g8Len c.rawLengths rows i t ≤ 12 then none
         else some (o.rawStringUsed + g8Spill c.rawLengths rows i t))) := by
  have hchainAll : ∀ a b, a ≤ b → b < numRows → rows.getD a 0 + (b - a) ≤ rows.getD b 0 :=
    chain_le (fun s => rows.getD s 0) numRows hrmonoAll
  have hq7 : c.lengthIndex ≤ rows.getD (i + 7) 0 := by
    have h := hchainAll i (i + 7) (by omega) (by omega)
    omega
  have hglue2 : ∀ R, rows.getD (i + 7) 0 < R →
      sumRange c.rawLengths c.lengthIndex (rows.getD (i + 7) 0 + 1 - c.lengthIndex) +
      sumRange c.rawLengths (rows.getD (i + 7) 0 + 1) (R - rows.getD (i + 7) 0 - 1) =
      sumRange c.rawLengths c.lengthIndex (R - c.lengthIndex) :=
    fun R hR => sumRange_glue c.rawLengths c.lengthIndex (rows.getD (i + 7) 0) R hq7 hR
  by_cases hEnd : i + 8 = numRows
  · have hdiv : numRows / 8 = i / 8 + 1 := by
      rw [← hEnd]
      exact Nat.add_div_right i (by omega)
    have hf1 : fuel = 1 := by omega
    refine ⟨c2, o2, ?_, ?_, g2, g3, ?_, g5, ?_, ?_, g8r, g9, g10, g11, ?_, ?_, g14, ?_⟩
    · rw [hf1, hEnd]
      exact extractSparseGo_done blob sched rows numRows 0 numRows c2 o2 (le_refl _)
    · rw [show numRows - 1 = i + 7 from by omega]
      exact g1
    · rw [show numRows - 1 = i + 7 from by omega]
      exact g4
    · rw [show numRows - i - 1 = 7 from by omega]
      exact g6
    · rw [show numRows - i = 8 from by omega]
      exact g7
    · rw [show numRows - i = 8 from by omega]
      exact g12
    · intro B hB
      exact g13 B (fun t ht => hB t (by omega))
    · intro t ht
      exact g15 t (by omega)
  · have hlt : i + 8 < numRows := by omega
    have hq2 : c2.lengthIndex ≤ rows.getD (i + 8) 0 := by
      rw [g4]
      have h := hrmonoAll (i + 7) (by omega)
      rw [show i + 7 + 1 = i + 8 from by omega] at h
      omega
    have hbound2 : ∀ t, t < numRows - (i + 8) → c2.pos + c2.toSkip +
        sumRange c2.rawLengths c2.lengthIndex
          (rows.getD (i + 8 + t) 0 - c2.lengthIndex) +
        g8Len c2.rawLengths rows (i + 8) t ≤ blob.length := by
      intro t ht
      rw [g3, g4, g1, g8Len_shift8]
      have hb := hbound (t + 8) (by omega)
      rw [show i + (t + 8) = i + 8 + t from by omega] at hb
      have hR : rows.getD (i + 7) 0 < rows.getD (i + 8 + t) 0 := by
        have h := hchainAll (i + 7) (i + 8 + t) (by omega) (by omega)
        omega
      have hg := hglue2 (rows.getD (i + 8 + t) 0) hR
      rw [show rows.getD (i + 8 + t) 0 - (rows.getD (i + 7) 0 + 1) =
        rows.getD (i + 8 + t) 0 - rows.getD (i + 7) 0 - 1 from by omega]
      omega
    have hlen322 : ∀ t, t < numRows - (i + 8) →
        g8Len c2.rawLengths rows (i + 8) t < 2 ^ 32 := by
      intro t ht
      rw [g3, g8Len_shift8]
      exact hlen32 (t + 8) (by omega)
    have ha0 := g8Spill_add c.rawLengths rows i 8 (numRows - (i + 8))
    rw [show 8 + (numRows - (i + 8)) = numRows - i from by omega] at ha0
    have hu642 : o2.rawStringUsed +
        g8Spill c2.rawLengths rows (i + 8) (numRows - (i + 8)) < 2 ^ 64 := by
      rw [g3, g7]
      omega
    have hmono2 : ∀ t, t + 1 < numRows - (i + 8) →
        cbPos (!o2.outerNonNullRows.isEmpty) o2.outerNonNullRows (i + 8) o2.numValues t <
        cbPos (!o2.outerNonNullRows.isEmpty) o2.outerNonNullRows (i + 8) o2.numValues
          (t + 1) := by
      intro t ht
      rw [g11, g6, cbPos_shift8, cbPos_shift8]
      have h := hmono (t + 8) (by omega)
      rw [show t + 8 + 1 = t + 1 + 8 from by omega] at h
      exact h
    have hsz2 : o2.rawStringSize < 2 ^ 64 := by
      have hm8 := g8Spill_mono c.rawLengths rows i (numRows - i) 8 (by omega)
      omega
    obtain ⟨c', o', eR, k1, k2, k3, k4, k5, k6, k7, k8, k9, k10, k11, k12, k13, k14,
        k15⟩ :=
      ihp (i + 8) c2 o2 (by omega)
        (by have hdiv2 : (i + 8) / 8 = i / 8 + 1 := Nat.add_div_right i (by omega)
            have hdle : (i + 8) / 8 ≤ numRows / 8 := Nat.div_le_div_right (by omega)
            omega)
        hlt g2 hsz2 hq2 hbound2 hlen322 hu642 hmono2
    rw [g3, g4] at k1
    rw [g3, g7] at k7
    rw [g3, g7] at k12
    refine ⟨c', o', eR, ?_, k2, k3.trans g3, k4, k5.trans g5, ?_, ?_, k8.trans g8r,
      k9.trans g9, k10.trans g10, k11.trans g11, ?_, ?_, ?_, ?_⟩
    · rw [k1, g1]
      have hR : rows.getD (i + 7) 0 < rows.getD (numRows - 1) 0 + 1 := by
        have h := hchainAll (i + 7) (numRows - 1) (by omega) (by omega)
        omega
      have hg := hglue2 (rows.getD (numRows - 1) 0 + 1) hR
      rw [show rows.getD (numRows - 1) 0 + 1 - (rows.getD (i + 7) 0 + 1) =
        rows.getD (numRows - 1) 0 + 1 - rows.getD (i + 7) 0 - 1 from by omega]
      omega
    · rw [g11, g6, cbPos_shift8] at k6
      rw [show numRows - (i + 8) - 1 + 8 = numRows - i - 1 from by omega] at k6
      exact k6
    · rw [k7]
      omega
    · omega
    · intro B hB
      refine sameBelow_trans _ o2.rawValues _ _ (g13 B (fun t ht => hB t (by omega))) ?_
      refine k13 B ?_
      intro t ht
      rw [g11, g6, cbPos_shift8]
      exact hB (t + 8) (by omega)
    · refine sameBelow_trans _ o2.arena _ _ g14 ?_
      refine sameBelow_mono _ _ _ _ k14 ?_
      rw [g7]
      exact Nat.le_add_right _ _
    · intro t ht
      by_cases ht8 : t < 8
      · have hrec := g15 t ht8
        have hstab := recordAt_stable o2.rawValues o'.rawValues o2.arena o'.arena
          (cbPos (!o.outerNonNullRows.isEmpty) o.outerNonNullRows i o.numValues t)
          o2.rawStringUsed
          (by refine k13 _ ?_
              intro s hs
              rw [g11, g6, cbPos_shift8]
              have h : cbPos (!o.outerNonNullRows.isEmpty) o.outerNonNullRows i
                  o.numValues t < cbPos (!o.outerNonNullRows.isEmpty) o.outerNonNullRows
                  i o.numValues (s + 8) :=
                chain_lt (fun u => cbPos (!o.outerNonNullRows.isEmpty)
                  o.outerNonNullRows i o.numValues u) (numRows - i) hmono t (s + 8)
                  (by omega) (by omega)
              omega)
          k14
          (by intro off hoff
              have h2 : (recordAt o2.rawValues o2.arena
                  (cbPos (!o.outerNonNullRows.isEmpty) o.outerNonNullRows i
                    o.numValues t)).2.2 =
                  (if g8Len c.rawLengths rows i t ≤ 12 then none
                   else some (o.rawStringUsed + g8Spill c.rawLengths rows i t)) := by
                rw [hrec]
              have h1 : (recordAt o2.rawValues o2.arena
                  (cbPos (!o.outerNonNullRows.isEmpty) o.outerNonNullRows i
                    o.numValues t)).1 = g8Len c.rawLengths rows i t := by
                rw [hrec]
              rw [h2] at hoff
              rw [h1, g7]
              by_cases h12 : g8Len c.rawLengths rows i t ≤ 12
              · rw [if_pos h12] at hoff
                exact absurd hoff (by simp)
              · rw [if_neg h12] at hoff
                have he : off = o.rawStringUsed + g8Spill c.rawLengths rows i t :=
                  (Option.some.inj hoff).symm
                subst he
                have hs1 : g8Spill c.rawLengths rows i t +
                    (if 12 < g8Len c.rawLengths rows i t then
                      g8Len c.rawLengths rows i t else 0) =
                    g8Spill c.rawLengths rows i (t + 1) := rfl
                rw [if_pos (by omega)] at hs1
                have hs2 := g8Spill_mono c.rawLengths rows i 8 (t + 1) (by omega)
                omega)
        rw [hstab, hrec]
      · have hk := k15 (t - 8) (by omega)
        rw [g3, g4, g1, g7] at hk
        rw [g8Len_shift8] at hk
        rw [g11, g6, cbPos_shift8] at hk
        rw [show t - 8 + 8 = t from by omega] at hk
        rw [show i + 8 + (t - 8) = i + t from by omega] at hk
        have haT := g8Spill_add c.rawLengths rows i 8 (t - 8)
        rw [show 8 + (t - 8) = t from by omega] at haT
        rw [show o.rawStringUsed + g8Spill c.rawLengths rows i 8 +
            g8Spill c.rawLengths rows (i + 8) (t - 8) =
          o.rawStringUsed + g8Spill c.rawLengths rows i t from by omega] at hk
        have hR : rows.getD (i + 7) 0 < rows.getD (i + t) 0 := by
          have h := hchainAll (i + 7) (i + t) (by omega) (by omega)
          omega
        have hg := hglue2 (rows.getD (i + t) 0) hR
        rw [show c.pos + c.toSkip + sumRange c.rawLengths c.lengthIndex
              (rows.getD (i + 7) 0 + 1 - c.lengthIndex) +
            sumRange c.rawLengths (rows.getD (i + 7) 0 + 1)
              (rows.getD (i + t) 0 - (rows.getD (i + 7) 0 + 1)) =
          c.pos + c.toSkip + sumRange c.rawLengths c.lengthIndex
            (rows.getD (i + t) 0 - c.lengthIndex) from by
          rw [show rows.getD (i + t) 0 - (rows.getD (i + 7) 0 + 1) =
            rows.getD (i + t) 0 - rows.getD (i + 7) 0 - 1 from by omega]
          omega] at hk
        exact hk

theorem extractSparseGo_spec (blob : List Nat) (sched : Nat → Nat) (rows : List Nat)
    (numRows : Nat)
    (h256 : ∀ b ∈ blob, b < 256)
    (hrmonoAll : ∀ t, t + 1 < numRows → rows.getD t 0 < rows.getD (t + 1) 0) :
    ∀ (fuel i : Nat) (c : CState) (o : OState),
    i % 8 = 0 →
    fuel = numRows / 8 + 1 - i / 8 →
    i < numRows →
    c.pos + c.winLen ≤ blob.length →
    o.rawStringSize < 2 ^ 64 →
    c.lengthIndex ≤ rows.getD i 0 →
    (∀ t, t < numRows - i → c.pos + c.toSkip +
        sumRange c.rawLengths c.lengthIndex (rows.getD (i + t) 0 - c.lengthIndex) +
        g8Len c.rawLengths rows i t ≤ blob.length) →
    (∀ t, t < numRows - i → g8Len c.rawLengths rows i t < 2 ^ 32) →
    o.rawStringUsed + g8Spill c.rawLengths rows i (numRows - i) < 2 ^ 64 →
    (∀ t, t + 1 < numRows - i → cbPos (!o.outerNonNullRows.isEmpty) o.outerNonNullRows i
        o.numValues t < cbPos (!o.outerNonNullRows.isEmpty) o.outerNonNullRows i
        o.numValues (t + 1)) →
    ∃ c' o', extractSparseGo blob sched rows numRows fuel i c o = some (c', o') ∧
      c'.pos + c'.toSkip = c.pos + c.toSkip +
        sumRange c.rawLengths c.lengthIndex
          (rows.getD (numRows - 1) 0 + 1 - c.lengthIndex) ∧
      c'.pos + c'.winLen ≤ blob.length ∧
      c'.rawLengths = c.rawLengths ∧
      c'.lengthIndex = rows.getD (numRows - 1) 0 + 1 ∧
      c'.lenStream = c.lenStream ∧
      o'.numValues = cbPos (!o.outerNonNullRows.isEmpty) o.outerNonNullRows i
          o.numValues (numRows - i - 1) + 1 ∧
      o'.rawStringUsed = o.rawStringUsed + g8Spill c.rawLengths rows i (numRows - i) ∧
      o'.resultNulls = o.resultNulls ∧ o'.returnReaderNulls = o.returnReaderNulls ∧
      o'.anyNulls = o.anyNulls ∧ o'.outerNonNullRows = o.outerNonNullRows ∧
      o'.rawStringSize ≤ max o.rawStringSize
        (o.rawStringUsed + g8Spill c.rawLengths rows i (numRows - i)) ∧
      (∀ B, (∀ t, t < numRows - i → B ≤ 16 * cbPos (!o.outerNonNullRows.isEmpty)
          o.outerNonNullRows i o.numValues t) → sameBelow o.rawValues o'.rawValues B) ∧
      sameBelow o.arena o'.arena o.rawStringUsed ∧
      (∀ t, t < numRows - i → recordAt o'.rawValues o'.arena
          (cbPos (!o.outerNonNullRows.isEmpty) o.outerNonNullRows i o.numValues t) =
        (g8Len c.rawLengths rows i t,
         blobSlice blob (c.pos + c.toSkip + sumRange c.rawLengths c.lengthIndex
           (rows.getD (i + t) 0 - c.lengthIndex)) (g8Len c.rawLengths rows i t),
         if g8Len c.rawLengths rows i t ≤ 12 then none
         else some (o.rawStringUsed + g8Spill c.rawLengths rows i t))) := by
  intro fuel
  induction fuel with
  | zero =>
    intro i c o hi8 hfuel hi hwin hsz64 hq0 hbound hlen32 hu64 hmono
    exfalso
    have h1 : i / 8 ≤ numRows / 8 := Nat.div_le_div_right (by omega)
    omega
  | succ fuel ih =>
    intro i c o hi8 hfuel hi hwin hsz64 hq0 hbound hlen32 hu64 hmono
    rw [extractSparseGo_succ]
    by_cases hN : i + 8 ≤ numRows
    · rw [if_pos hN]
      by_cases hD : rowAt rows (i + 7) = rowAt rows i + 7
      · rw [if_pos hD]
        dsimp only
        have hrun : ∀ s, s < 8 → rows.getD (i + s) 0 = rows.getD i 0 + s := by
          refine run_consecutive (fun s => rows.getD (i + s) 0) 8 ?_ ?_
          · intro t ht
            exact hrmonoAll (i + t) (by omega)
          · intro _
            exact hD
        cases e1 : try8Consecutive blob false
            (rangeSumL c.rawLengths 0 c.lengthIndex (rowAt rows i)) rows i
            { c with lengthIndex := rowAt rows i } o with
        | none =>
          exact absurd e1 (try8Consecutive_dense_nonone blob
            (rangeSumL c.rawLengths 0 c.lengthIndex (rowAt rows i)) rows i
            { c with lengthIndex := rowAt rows i } o)
        | some p =>
          obtain ⟨b, cm, om⟩ := p
          cases b with
          | true =>
            obtain ⟨g1, g2, g3, g4, g5, g6, g7, g8r, g9, g10, g11, g12, g13, g14, g15⟩ :=
              try8Consecutive_dense_true blob rows i c cm o om hwin hsz64 h256 hq0 hrun
                (fun t ht => hlen32 t (by omega)) (fun t ht => hmono t (by omega)) e1
            exact sparseGo_compose blob sched rows numRows fuel i c cm o om hrmonoAll ih
              hi8 hfuel hN hsz64 hbound hlen32 hu64 hmono hq0 g1 g2 g3 g4 g5 g6 g7 g8r
              g9 g10 g11 g12 g13 g14 g15
          | false =>
            obtain ⟨hcm, hmu, hmn, hmr2, hmo2, hms2, hmt2, hma2, hFm, hFa⟩ :=
              try8Consecutive_dense_false blob
                (rangeSumL c.rawLengths 0 c.lengthIndex (rowAt rows i)) rows i
                { c with lengthIndex := rowAt rows i } cm o om e1
            rw [hcm]
            dsimp only
            obtain ⟨c2, o2, eCB, g1, g2, g3, g4, g5, g6, g7, g8r, g9, g10, g11, g12,
                g13, g14, g15⟩ :=
              dense8_slowAux blob sched rows i c o om hwin hq0 hrun
                (fun t ht => hbound t (by omega)) (fun t ht => hlen32 t (by omega))
                (by have h := g8Spill_mono c.rawLengths rows i (numRows - i) 8 (by omega)
                    omega)
                (fun t ht => hmono t (by omega)) hmu hmn hmo2 hmr2 hmt2 hma2 hms2 hFm hFa
            rw [eCB]
            exact sparseGo_compose blob sched rows numRows fuel i c c2 o o2 hrmonoAll ih
              hi8 hfuel hN hsz64 hbound hlen32 hu64 hmono hq0 g1 g2 g3 g4 g5 g6 g7 g8r
              g9 g10 g11 g12 g13 g14 g15
      · rw [if_neg hD]
        obtain ⟨c2, o2, eNS, hconc⟩ := extractNSparse_spec blob sched rows i 8 c o
          (by omega) hwin hsz64 hq0 (fun t ht => hrmonoAll (i + t) (by omega))
          (fun t ht => hbound t (by omega)) (fun t ht => hlen32 t (by omega))
          (by have h := g8Spill_mono c.rawLengths rows i (numRows - i) 8 (by omega)
              omega)
          (fun t ht => hmono t (by omega))
        rw [show i + 8 - 1 = i + 7 from by omega,
          show (8 : Nat) - 1 = 7 from rfl] at hconc
        obtain ⟨g1, g2, g3, g4, g5, g6, g7, g8r, g9, g10, g11, g12, g13, g14, g15⟩ :=
          hconc
        rw [eNS]
        exact sparseGo_compose blob sched rows numRows fuel i c c2 o o2 hrmonoAll ih
          hi8 hfuel hN hsz64 hbound hlen32 hu64 hmono hq0 g1 g2 g3 g4 g5 g6 g7 g8r
          g9 g10 g11 g12 g13 g14 g15
    · rw [if_neg hN, if_pos hi]
      obtain ⟨c', o', eNS, hconc⟩ := extractNSparse_spec blob sched rows i (numRows - i)
        c o (by omega) hwin hsz64 hq0 (fun t ht => hrmonoAll (i + t) (by omega))
        hbound hlen32 hu64 hmono
      rw [show i + (numRows - i) - 1 = numRows - 1 from by omega] at hconc
      exact ⟨c', o', eNS, hconc⟩

theorem extractSparse_spec (blob : List Nat) (sched : Nat → Nat) (rows : List Nat)
    (numRows : Nat) (c : CState) (o : OState)
    (hnum : 0 < numRows)
    (h256 : ∀ b ∈ blob, b < 256)
    (hrmonoAll : ∀ t, t + 1 < numRows → rows.getD t 0 < rows.getD (t + 1) 0)
    (hwin : c.pos + c.winLen ≤ blob.length)
    (hsz64 : o.rawStringSize < 2 ^ 64)
    (hq0 : c.lengthIndex ≤ rows.getD 0 0)
    (hbound : ∀ t, t < numRows → c.pos + c.toSkip +
        sumRange c.rawLengths c.lengthIndex (rows.getD t 0 - c.lengthIndex) +
        g8Len c.rawLengths rows 0 t ≤ blob.length)
    (hlen32 : ∀ t, t < numRows → g8Len c.rawLengths rows 0 t < 2 ^ 32)
    (hu64 : o.rawStringUsed + g8Spill c.rawLengths rows 0 numRows < 2 ^ 64)
    (hmono : ∀ t, t + 1 < numRows → cbPos (!o.outerNonNullRows.isEmpty)
        o.outerNonNullRows 0 o.numValues t < cbPos (!o.outerNonNullRows.isEmpty)
        o.outerNonNullRows 0 o.numValues (t + 1)) :
    ∃ c' o', extractSparse blob sched rows numRows c o = some (c', o') ∧
      c'.pos + c'.toSkip = c.pos + c.toSkip +
        sumRange c.rawLengths c.lengthIndex
          (rows.getD (numRows - 1) 0 + 1 - c.lengthIndex) ∧
      c'.pos + c'.winLen ≤ blob.length ∧
      c'.rawLengths = c.rawLengths ∧
      c'.lengthIndex = rows.getD (numRows - 1) 0 + 1 ∧
      c'.lenStream = c.lenStream ∧
      o'.numValues = cbPos (!o.outerNonNullRows.isEmpty) o.outerNonNullRows 0
          o.numValues (numRows - 1) + 1 ∧
      o'.rawStringUsed = o.rawStringUsed + g8Spill c.rawLengths rows 0 numRows ∧
      o'.resultNulls = o.resultNulls ∧ o'.returnReaderNulls = o.returnReaderNulls ∧
      o'.anyNulls = o.anyNulls ∧ o'.outerNonNullRows = o.outerNonNullRows ∧
      o'.rawStringSize ≤ max o.rawStringSize
        (o.rawStringUsed + g8Spill c.rawLengths rows 0 numRows) ∧
      (∀ B, (∀ t, t < numRows → B ≤ 16 * cbPos (!o.outerNonNullRows.isEmpty)
          o.outerNonNullRows 0 o.numValues t) → sameBelow o.rawValues o'.rawValues B) ∧
      sameBelow o.arena o'.arena o.rawStringUsed ∧
      (∀ t, t < numRows → recordAt o'.rawValues o'.arena
          (cbPos (!o.outerNonNullRows.isEmpty) o.outerNonNullRows 0 o.numValues t) =
        (g8Len c.rawLengths rows 0 t,
         blobSlice blob (c.pos + c.toSkip + sumRange c.rawLengths c.lengthIndex
           (rows.getD t 0 - c.lengthIndex)) (g8Len c.rawLengths rows 0 t),
         if g8Len c.rawLengths rows 0 t ≤ 12 then none
         else some (o.rawStringUsed + g8Spill c.rawLengths rows 0 t))) := by
  obtain ⟨c', o', eGo, k1, k2, k3, k4, k5, k6, k7, k8, k9, k10, k11, k12, k13, k14,
      k15⟩ :=
    extractSparseGo_spec blob sched rows numRows h256 hrmonoAll (numRows / 8 + 1) 0 c o
      (by omega) (by omega) hnum hwin hsz64 hq0
      (by intro t ht
          have h := hbound t (by omega)
          rw [show (0 : Nat) + t = t from by omega]
          exact h)
      (by intro t ht
          exact hlen32 t (by omega))
      (by rw [show numRows - 0 = numRows from rfl]
          exact hu64)
      (by intro t ht
          exact hmono t (by omega))
  rw [show numRows - 0 = numRows from rfl] at k6 k7 k12
  refine ⟨c', o', eGo, k1, k2, k3, k4, k5, k6, k7, k8, k9, k10, k11, k12, ?_, k14, ?_⟩
  · intro B hB
    refine k13 B ?_
    intro t ht
    exact hB t (by omega)
  · intro t ht
    have h := k15 t (by omega)
    rw [show (0 : Nat) + t = t from by omega] at h
    exact h

theorem cnn_zero (nulls : List Bool) (a : Nat) : countNonNulls nulls a a = 0 := by
  show ((nulls.drop a).take (a - a)).count true = 0
  rw [Nat.sub_self]
  rfl

theorem cnn_add (nulls : List Bool) (a m : Nat) :
    countNonNulls nulls 0 a + countNonNulls nulls a (a + m) = countNonNulls nulls 0 (a + m) := by
  show (nulls.take a).count true + ((nulls.drop a).take (a + m - a)).count true =
    (nulls.take (a + m)).count true
  rw [show a + m - a = m from by omega]
  rw [List.take_add, List.count_append]

theorem cnn_one (nulls : List Bool) (a : Nat) (h : a < nulls.length) :
    countNonNulls nulls a (a + 1) = (if isBitNull nulls a then 0 else 1) := by
  show ((nulls.drop a).take (a + 1 - a)).count true = _
  rw [show a + 1 - a = 1 from by omega]
  have hd : nulls.drop a = nulls.getD a true :: nulls.drop (a + 1) := by
    rw [List.getD_eq_getElem _ _ h]
    rw [List.drop_eq_getElem_cons h]
  rw [hd, List.take_one]
  show List.count true [nulls.getD a true] = _
  unfold isBitNull
  cases hb : nulls.getD a true with
  | true => rfl
  | false => rfl

theorem cnn_succ (nulls : List Bool) (a : Nat) (h : a < nulls.length) :
    countNonNulls nulls 0 (a + 1) =
      countNonNulls nulls 0 a + (if isBitNull nulls a then 0 else 1) := by
  rw [← cnn_add nulls a 1, cnn_one nulls a h]

theorem cnn_mono (nulls : List Bool) (a b : Nat) (h : a ≤ b) :
    countNonNulls nulls 0 a ≤ countNonNulls nulls 0 b := by
  have h1 := cnn_add nulls a (b - a)
  rw [show a + (b - a) = b from by omega] at h1
  omega

theorem cnn_lt (nulls : List Bool) (a b : Nat) (ha : a < nulls.length)
    (hb : a < b) (hnn : isBitNull nulls a = false) :
    countNonNulls nulls 0 a < countNonNulls nulls 0 b := by
  have h1 := cnn_succ nulls a ha
  rw [hnn] at h1
  simp only [Bool.false_eq_true, if_false] at h1
  have h2 := cnn_mono nulls (a + 1) b (by omega)
  omega

theorem cnn_le_length (nulls : List Bool) (a : Nat) :
    countNonNulls nulls 0 a ≤ a := by
  show (nulls.take a).count true ≤ a
  calc (nulls.take a).count true ≤ (nulls.take a).length := List.count_le_length _ _
    _ ≤ a := List.length_take_le _ _

theorem addNull_numValues (o : OState) : (addNull o).numValues = o.numValues + 1 := rfl

theorem addNull_anyNulls (o : OState) : (addNull o).anyNulls = true := rfl

theorem addNull_rawValues (o : OState) : (addNull o).rawValues = o.rawValues := rfl

theorem addNull_arena (o : OState) : (addNull o).arena = o.arena := rfl

theorem addNull_used (o : OState) : (addNull o).rawStringUsed = o.rawStringUsed := rfl

theorem addNull_size (o : OState) : (addNull o).rawStringSize = o.rawStringSize := rfl

theorem addNull_outer (o : OState) : (addNull o).outerNonNullRows = o.outerNonNullRows :=
  rfl

theorem addNull_returnReaderNulls (o : OState) :
    (addNull o).returnReaderNulls = o.returnReaderNulls := rfl

theorem addNull_resultNulls_length (o : OState) (h : o.numValues < o.resultNulls.length) :
    (addNull o).resultNulls.length = o.resultNulls.length := by
  show ((o.resultNulls.take o.numValues
      ++ List.replicate (o.numValues - o.resultNulls.length) false)
      ++ true :: o.resultNulls.drop (o.numValues + 1)).length = _
  simp only [List.length_append, List.length_take, List.length_replicate,
    List.length_cons, List.length_drop]
  omega

theorem addNull_resultNulls_getD_lt (o : OState) (k : Nat) (h : k < o.numValues) :
    (addNull o).resultNulls.getD k false = o.resultNulls.getD k false := by
  show ((o.resultNulls.take o.numValues
      ++ List.replicate (o.numValues - o.resultNulls.length) false)
      ++ true :: o.resultNulls.drop (o.numValues + 1)).getD k false = _
  by_cases hk : k < o.resultNulls.length
  · rw [List.getD_append _ _ _ _ (by
      simp only [List.length_append, List.length_take, List.length_replicate]
      omega)]
    rw [List.getD_append _ _ _ _ (by simp only [List.length_take]; omega)]
    rw [List.getD_eq_getElem _ _ (by simp only [List.length_take]; omega)]
    rw [List.getElem_take]
    rw [List.getD_eq_getElem _ _ hk]
  · rw [List.getD_append _ _ _ _ (by
      simp only [List.length_append, List.length_take, List.length_replicate]
      omega)]
    rw [List.getD_append_right _ _ _ _ (by simp only [List.length_take]; omega)]
    rw [List.getD_eq_getElem _ _ (by
      simp only [List.length_take, List.length_replicate]
      omega)]
    rw [List.getElem_replicate]
    rw [List.getD_eq_getElem?_getD, List.getElem?_eq_none (by omega)]
    rfl

theorem addNull_resultNulls_getD_eq (o : OState) :
    (addNull o).resultNulls.getD o.numValues false = true := by
  show ((o.resultNulls.take o.numValues
      ++ List.replicate (o.numValues - o.resultNulls.length) false)
      ++ true :: o.resultNulls.drop (o.numValues + 1)).getD o.numValues false = true
  by_cases hk : o.numValues ≤ o.resultNulls.length
  · rw [List.getD_append_right _ _ _ _ (by
      simp only [List.length_append, List.length_take, List.length_replicate]
      omega)]
    rw [show o.numValues - ((o.resultNulls.take o.numValues
        ++ List.replicate (o.numValues - o.resultNulls.length) false)).length = 0 from by
      simp only [List.length_append, List.length_take, List.length_replicate]
      omega]
    rfl
  · rw [List.getD_append_right _ _ _ _ (by
      simp only [List.length_append, List.length_take, List.length_replicate]
      omega)]
    rw [show o.numValues - ((o.resultNulls.take o.numValues
        ++ List.replicate (o.numValues - o.resultNulls.length) false)).length = 0 from by
      simp only [List.length_append, List.length_take, List.length_replicate]
      omega]
    rfl

theorem nnSpill_succ (lens : List Nat) (hasNulls : Bool) (nulls : List Bool)
    (rows : List Nat) (i t : Nat) :
    nnSpill lens hasNulls nulls rows i (t + 1) = nnSpill lens hasNulls nulls rows i t +
      (if hasNulls && isBitNull nulls (rowAt rows (i + t)) then 0
       else if 12 < lens.getD (lenOrd hasNulls nulls (rowAt rows (i + t))) 0 then
         lens.getD (lenOrd hasNulls nulls (rowAt rows (i + t))) 0
       else 0) := rfl

theorem nnSpill_front (lens : List Nat) (hasNulls : Bool) (nulls : List Bool)
    (rows : List Nat) (i : Nat) :
    ∀ t, nnSpill lens hasNulls nulls rows i (t + 1) =
      (if hasNulls && isBitNull nulls (rowAt rows i) then 0
       else if 12 < lens.getD (lenOrd hasNulls nulls (rowAt rows i)) 0 then
         lens.getD (lenOrd hasNulls nulls (rowAt rows i)) 0
       else 0) + nnSpill lens hasNulls nulls rows (i + 1) t := by
  intro t
  induction t with
  | zero =>
    rw [nnSpill_succ,
      show nnSpill lens hasNulls nulls rows i 0 = 0 from rfl,
      show nnSpill lens hasNulls nulls rows (i + 1) 0 = 0 from rfl,
      show i + 0 = i from rfl]
    omega
  | succ t ih =>
    rw [nnSpill_succ, ih, nnSpill_succ]
    rw [show i + (t + 1) = i + 1 + t from by omega]
    omega

theorem anyNullIn_succ (hasNulls : Bool) (nulls : List Bool) (rows : List Nat)
    (i n : Nat) :
    anyNullIn hasNulls nulls rows i (n + 1) =
      (anyNullIn hasNulls nulls rows i n ||
        (hasNulls && isBitNull nulls (rowAt rows (i + n)))) := by
  unfold anyNullIn
  rw [List.range_succ, List.any_append]
  simp

theorem anyNullIn_front (hasNulls : Bool) (nulls : List Bool) (rows : List Nat)
    (i : Nat) :
    ∀ n, anyNullIn hasNulls nulls rows i (n + 1) =
      ((hasNulls && isBitNull nulls (rowAt rows i)) ||
        anyNullIn hasNulls nulls rows (i + 1) n) := by
  intro n
  induction n with
  | zero =>
    rw [anyNullIn_succ]
    show (anyNullIn hasNulls nulls rows i 0 || _) = _
    rw [show anyNullIn hasNulls nulls rows i 0 = false from rfl]
    rw [show anyNullIn hasNulls nulls rows (i + 1) 0 = false from rfl]
    rw [Bool.false_or, Bool.or_false, Nat.add_zero]
  | succ n ih =>
    rw [anyNullIn_succ, ih, anyNullIn_succ]
    rw [show i + (n + 1) = i + 1 + n from by omega]
    rw [Bool.or_assoc]

theorem isBitNull_true_lt (nulls : List Bool) (r : Nat) (h : isBitNull nulls r = true) :
    r < nulls.length := by
  by_contra hge
  unfold isBitNull at h
  rw [List.getD_eq_getElem?_getD, List.getElem?_eq_none (by omega)] at h
  simp at h

theorem lenOrd_true (nulls : List Bool) (x : Nat) :
    lenOrd true nulls x = countNonNulls nulls 0 x := rfl

theorem lenOrd_false (nulls : List Bool) (x : Nat) : lenOrd false nulls x = x := rfl

theorem lenOrd_succ_null (hasNulls : Bool) (nulls : List Bool) (r : Nat)
    (h : (hasNulls && isBitNull nulls r) = true) :
    lenOrd hasNulls nulls (r + 1) = lenOrd hasNulls nulls r := by
  have h1 : hasNulls = true := by
    cases hasNulls
    · simp at h
    · rfl
  subst h1
  have h2 : isBitNull nulls r = true := by simpa using h
  rw [lenOrd_true, lenOrd_true, cnn_succ nulls r (isBitNull_true_lt nulls r h2), h2]
  simp

theorem lenOrd_succ_val (hasNulls : Bool) (nulls : List Bool) (r : Nat)
    (h : (hasNulls && isBitNull nulls r) = false)
    (hlt : hasNulls = true → r < nulls.length) :
    lenOrd hasNulls nulls (r + 1) = lenOrd hasNulls nulls r + 1 := by
  cases hasNulls with
  | false => rw [lenOrd_false, lenOrd_false]
  | true =>
    have h2 : isBitNull nulls r = false := by simpa using h
    rw [lenOrd_true, lenOrd_true, cnn_succ nulls r (hlt rfl), h2]
    simp

theorem lenOrd_mono (hasNulls : Bool) (nulls : List Bool) (a b : Nat) (h : a ≤ b) :
    lenOrd hasNulls nulls a ≤ lenOrd hasNulls nulls b := by
  cases hasNulls with
  | false => rw [lenOrd_false, lenOrd_false]; exact h
  | true => rw [lenOrd_true, lenOrd_true]; exact cnn_mono nulls a b h

theorem rowsMono_le (rows : List Nat)
    (hm : ∀ t, t + 1 < rows.length → rowAt rows t < rowAt rows (t + 1))
    (a b : Nat) (hab : a ≤ b) (hb : b < rows.length) : rowAt rows a ≤ rowAt rows b := by
  by_cases he : a = b
  · subst he; exact le_refl _
  · exact le_of_lt (chain_lt (rowAt rows) rows.length hm a b (by omega) hb)

theorem addNull_resultNulls_getD_gt (o : OState) (p : Nat)
    (h : o.numValues < o.resultNulls.length) (hp : o.numValues < p) :
    (addNull o).resultNulls.getD p false = o.resultNulls.getD p false := by
  show ((o.resultNulls.take o.numValues
      ++ List.replicate (o.numValues - o.resultNulls.length) false)
      ++ true :: o.resultNulls.drop (o.numValues + 1)).getD p false = _
  have hlen1 : (o.resultNulls.take o.numValues
      ++ List.replicate (o.numValues - o.resultNulls.length) false).length = o.numValues := by
    simp only [List.length_append, List.length_take, List.length_replicate]
    omega
  rw [List.getD_append_right _ _ _ _ (by rw [hlen1]; omega)]
  rw [hlen1]
  obtain ⟨d, hd⟩ : ∃ d, p - o.numValues = d + 1 := ⟨p - o.numValues - 1, by omega⟩
  rw [hd, List.getD_cons_succ]
  rw [List.getD_eq_getElem?_getD, List.getElem?_drop, List.getD_eq_getElem?_getD]
  rw [show o.numValues + 1 + d = p from by omega]

theorem decode_succ_some (blob : List Nat) (sched : Nat → Nat) (V : VisitorIface α)
    (k : Bool) (nl : List Bool) (fuel : Nat) (v : α) (cur : Nat) (c : CState) (o : OState)
    (r : DecodeRes α) (h : decodeStep blob sched V k nl v cur c o = some r) :
    decode blob sched V k nl (fuel + 1) v cur c o =
      if r.atEnd then some (r.c, r.o)
      else decode blob sched V k nl fuel r.v r.current r.c r.o := by
  show (match decodeStep blob sched V k nl v cur c o with
    | none => none
    | some r => if r.atEnd then some (r.c, r.o)
      else decode blob sched V k nl fuel r.v r.current r.c r.o) = _
  rw [h]

theorem decodeFinish_char_t (nl : List Bool) (c : CState) (o : OState) (v : α)
    (cur ts : Nat) (ae : Bool) :
    (decodeFinish true nl c o v cur ts ae).c.toSkip = c.toSkip +
      sumRange c.rawLengths c.lengthIndex (countNonNulls nl (cur + 1) (cur + 1 + ts)) ∧
    (decodeFinish true nl c o v cur ts ae).c.lengthIndex =
      c.lengthIndex + countNonNulls nl (cur + 1) (cur + 1 + ts) ∧
    (decodeFinish true nl c o v cur ts ae).current = cur + 1 + ts ∧
    (decodeFinish true nl c o v cur ts ae).c.rawLengths = c.rawLengths ∧
    (decodeFinish true nl c o v cur ts ae).c.lenStream = c.lenStream := by
  unfold decodeFinish
  by_cases h : ts = 0
  · subst h
    rw [if_neg (by omega)]
    rw [show cur + 1 + 0 = cur + 1 from rfl, cnn_zero]
    rw [show sumRange c.rawLengths c.lengthIndex 0 = 0 from rfl]
    refine ⟨?_, ?_, rfl, rfl, rfl⟩
    · show c.toSkip = c.toSkip + 0
      omega
    · show c.lengthIndex = c.lengthIndex + 0
      omega
  · rw [if_pos h]
    exact ⟨rfl, rfl, rfl, rfl, rfl⟩

theorem decodeFinish_char_f (nl : List Bool) (c : CState) (o : OState) (v : α)
    (cur ts : Nat) (ae : Bool) :
    (decodeFinish false nl c o v cur ts ae).c.toSkip = c.toSkip +
      sumRange c.rawLengths c.lengthIndex ts ∧
    (decodeFinish false nl c o v cur ts ae).c.lengthIndex = c.lengthIndex + ts ∧
    (decodeFinish false nl c o v cur ts ae).current = cur + 1 + ts ∧
    (decodeFinish false nl c o v cur ts ae).c.rawLengths = c.rawLengths ∧
    (decodeFinish false nl c o v cur ts ae).c.lenStream = c.lenStream := by
  unfold decodeFinish
  by_cases h : ts = 0
  · subst h
    rw [if_neg (by omega)]
    rw [show sumRange c.rawLengths c.lengthIndex 0 = 0 from rfl]
    refine ⟨?_, ?_, rfl, rfl, rfl⟩
    · show c.toSkip = c.toSkip + 0
      omega
    · show c.lengthIndex = c.lengthIndex + 0
      omega
  · rw [if_pos h]
    exact ⟨rfl, rfl, rfl, rfl, rfl⟩

theorem decodeStep_extractAll_null (blob : List Nat) (sched : Nat → Nat)
    (rows : List Nat) (dense : Bool) (hasNulls : Bool) (nulls : List Bool)
    (i current : Nat) (c : CState) (o : OState)
    (hnull : (hasNulls && isBitNull nulls current) = true) :
    decodeStep blob sched (extractAllVisitor rows dense) hasNulls nulls i current c o =
      some (decodeFinish hasNulls nulls c (addNull o) (i + 1) current (gapAfter rows i)
        (decide (rows.length ≤ i + 1))) := by
  have h1 : hasNulls = true := by
    cases hasNulls
    · simp at hnull
    · rfl
  subst h1
  have h2 : isBitNull nulls current = true := by simpa using hnull
  unfold decodeStep
  rw [if_pos (show (true && (true && (extractAllVisitor rows dense).allowNulls)
      && isBitNull nulls current) = true from by rw [h2]; rfl)]
  rfl

theorem decodeStep_extractAll_value (blob : List Nat) (sched : Nat → Nat)
    (rows : List Nat) (dense : Bool) (hasNulls : Bool) (nulls : List Bool)
    (i current : Nat) (c : CState) (o : OState)
    (hnn : (hasNulls && isBitNull nulls current) = false) :
    decodeStep blob sched (extractAllVisitor rows dense) hasNulls nulls i current c o =
      (match readValue blob sched { c with lengthIndex := c.lengthIndex + 1 }
          (c.rawLengths.getD c.lengthIndex 0) with
       | none => none
       | some (value, c2) =>
         some (decodeFinish hasNulls nulls c2 (addValue o value) (i + 1) current
           (gapAfter rows i) (decide (rows.length ≤ i + 1)))) := by
  have hc1 : (hasNulls && (hasNulls && (extractAllVisitor rows dense).allowNulls)
      && isBitNull nulls current) = false := by
    rw [show (extractAllVisitor rows dense).allowNulls = true from rfl]
    rw [Bool.and_true, Bool.and_self]
    exact hnn
  have hc2 : (hasNulls && !(hasNulls && (extractAllVisitor rows dense).allowNulls))
      = false := by
    rw [show (extractAllVisitor rows dense).allowNulls = true from rfl]
    rw [Bool.and_true, Bool.and_not_self]
  unfold decodeStep
  rw [if_neg (by rw [hc1]; exact Bool.false_ne_true)]
  rw [if_neg (by rw [hc2]; exact Bool.false_ne_true)]
  rfl

theorem decodeStep_extractAll_run (blob : List Nat) (sched : Nat → Nat) (rows : List Nat)
    (dense : Bool) (hasNulls : Bool) (nulls : List Bool) (i : Nat) (c : CState) (o : OState)
    (nxt : Nat)
    (hnxt : nxt = rowAt rows i + 1 + gapAfter rows i)
    (hnl : hasNulls = true → rowAt rows i < nulls.length)
    (hwin : c.pos + c.winLen ≤ blob.length)
    (hQ : c.lengthIndex = lenOrd hasNulls nulls (rowAt rows i))
    (hboundi : (hasNulls && isBitNull nulls (rowAt rows i)) = false →
      c.pos + c.toSkip + c.rawLengths.getD c.lengthIndex 0 ≤ blob.length)
    (h32i : c.rawLengths.getD c.lengthIndex 0 < 2 ^ 32)
    (hu : o.rawStringUsed < 2 ^ 64)
    (hres : o.numValues < o.resultNulls.length) :
    ∃ r : DecodeRes Nat,
      decodeStep blob sched (extractAllVisitor rows dense) hasNulls nulls i (rowAt rows i)
          c o = some r ∧
      r.v = i + 1 ∧
      r.atEnd = decide (rows.length ≤ i + 1) ∧
      r.current = nxt ∧
      r.c.pos + r.c.winLen ≤ blob.length ∧
      r.c.rawLengths = c.rawLengths ∧
      r.c.lenStream = c.lenStream ∧
      r.c.lengthIndex = lenOrd hasNulls nulls nxt ∧
      r.c.pos + r.c.toSkip = c.pos + c.toSkip +
        sumRange c.rawLengths c.lengthIndex
          (lenOrd hasNulls nulls nxt - c.lengthIndex) ∧
      r.o.numValues = o.numValues + 1 ∧
      r.o.rawStringUsed = o.rawStringUsed +
        (if hasNulls && isBitNull nulls (rowAt rows i) then 0
         else if 12 < c.rawLengths.getD c.lengthIndex 0 then
           c.rawLengths.getD c.lengthIndex 0 else 0) ∧
      r.o.returnReaderNulls = o.returnReaderNulls ∧
      r.o.outerNonNullRows = o.outerNonNullRows ∧
      r.o.anyNulls = (o.anyNulls || (hasNulls && isBitNull nulls (rowAt rows i))) ∧
      r.o.resultNulls.length = o.resultNulls.length ∧
      (∀ p, p < o.numValues → r.o.resultNulls.getD p false = o.resultNulls.getD p false) ∧
      r.o.resultNulls.getD o.numValues false =
        ((hasNulls && isBitNull nulls (rowAt rows i)) ||
          o.resultNulls.getD o.numValues false) ∧
      (∀ p, o.numValues < p → r.o.resultNulls.getD p false = o.resultNulls.getD p false) ∧
      r.o.rawStringSize ≤ max o.rawStringSize r.o.rawStringUsed ∧
      sameBelow o.rawValues r.o.rawValues (16 * o.numValues) ∧
      sameBelow o.arena r.o.arena o.rawStringUsed ∧
      ((hasNulls && isBitNull nulls (rowAt rows i)) = false →
        recordAt r.o.rawValues r.o.arena o.numValues =
          (c.rawLengths.getD c.lengthIndex 0,
           blobSlice blob (c.pos + c.toSkip) (c.rawLengths.getD c.lengthIndex 0),
           if c.rawLengths.getD c.lengthIndex 0 ≤ 12 then none
           else some o.rawStringUsed)) := by
  by_cases hg : (hasNulls && isBitNull nulls (rowAt rows i)) = true
  · -- null row: processNull / addNull
    have hh : hasNulls = true := by
      cases hasNulls
      · simp at hg
      · rfl
    subst hh
    have h2 : isBitNull nulls (rowAt rows i) = true := by simpa using hg
    obtain ⟨hts, hli, hcur, hrl, hls⟩ := decodeFinish_char_t nulls c (addNull o) (i + 1)
      (rowAt rows i) (gapAfter rows i) (decide (rows.length ≤ i + 1))
    have hQ' : c.lengthIndex = countNonNulls nulls 0 (rowAt rows i) := by
      rw [hQ, lenOrd_true]
    have hr1 : countNonNulls nulls 0 (rowAt rows i + 1) =
        countNonNulls nulls 0 (rowAt rows i) := by
      rw [cnn_succ nulls _ (isBitNull_true_lt nulls _ h2), h2]
      simp
    have hadd := cnn_add nulls (rowAt rows i + 1) (gapAfter rows i)
    refine ⟨_, decodeStep_extractAll_null blob sched rows dense true nulls i (rowAt rows i)
      c o hg, decodeFinish_v _ _ _ _ _ _ _ _, decodeFinish_atEnd _ _ _ _ _ _ _ _,
      ?_, ?_, hrl, hls, ?_, ?_, ?_, ?_, ?_, ?_, ?_, ?_, ?_, ?_, ?_, ?_, ?_, ?_, ?_⟩
    · rw [hcur]
      exact hnxt.symm
    · rw [decodeFinish_c_pos, decodeFinish_c_winLen]
      exact hwin
    · rw [hli, lenOrd_true, hnxt]
      omega
    · rw [decodeFinish_c_pos, hts, lenOrd_true, hnxt]
      rw [show countNonNulls nulls 0 (rowAt rows i + 1 + gapAfter rows i) - c.lengthIndex
          = countNonNulls nulls (rowAt rows i + 1) (rowAt rows i + 1 + gapAfter rows i)
        from by omega]
      omega
    · rw [decodeFinish_o]
      exact addNull_numValues o
    · rw [decodeFinish_o, addNull_used, hg, if_pos rfl]
      omega
    · rw [decodeFinish_o]
      exact addNull_returnReaderNulls o
    · rw [decodeFinish_o]
      exact addNull_outer o
    · rw [decodeFinish_o, addNull_anyNulls, hg, Bool.or_true]
    · rw [decodeFinish_o]
      exact addNull_resultNulls_length o hres
    · intro p hp
      rw [decodeFinish_o]
      exact addNull_resultNulls_getD_lt o p hp
    · rw [decodeFinish_o, addNull_resultNulls_getD_eq, hg, Bool.true_or]
    · intro p hp
      rw [decodeFinish_o]
      exact addNull_resultNulls_getD_gt o p hres hp
    · rw [decodeFinish_o, addNull_size, addNull_used]
      exact le_max_left _ _
    · rw [decodeFinish_o, addNull_rawValues]
      exact sameBelow_refl _ _
    · rw [decodeFinish_o, addNull_arena]
      exact sameBelow_refl _ _
    · intro hgf
      rw [hgf] at hg
      exact Bool.noConfusion hg
  · -- non-null row: processLength → readValue → addValue
    have hgf : (hasNulls && isBitNull nulls (rowAt rows i)) = false := by
      revert hg
      cases hasNulls && isBitNull nulls (rowAt rows i) <;> simp
    have e := decodeStep_extractAll_value blob sched rows dense hasNulls nulls i
      (rowAt rows i) c o hgf
    have hb := hboundi hgf
    obtain ⟨c2, erv, hpos2, hwin2, hrl2, hli2, hls2⟩ :=
      readValue_run blob sched { c with lengthIndex := c.lengthIndex + 1 }
        (c.rawLengths.getD c.lengthIndex 0) hwin hb
    have erv' : readValue blob sched { c with lengthIndex := c.lengthIndex + 1 }
        (c.rawLengths.getD c.lengthIndex 0) =
        some (blobSlice blob (c.pos + c.toSkip) (c.rawLengths.getD c.lengthIndex 0), c2) :=
      erv
    have hpos2' : c2.pos + c2.toSkip = c.pos + c.toSkip +
        c.rawLengths.getD c.lengthIndex 0 := hpos2
    have hrl2' : c2.rawLengths = c.rawLengths := hrl2
    have hli2' : c2.lengthIndex = c.lengthIndex + 1 := hli2
    have hls2' : c2.lenStream = c.lenStream := hls2
    have hvl : (blobSlice blob (c.pos + c.toSkip)
        (c.rawLengths.getD c.lengthIndex 0)).length =
        c.rawLengths.getD c.lengthIndex 0 := by
      rw [blobSlice_length]
      omega
    have estep : decodeStep blob sched (extractAllVisitor rows dense) hasNulls nulls i
        (rowAt rows i) c o = some (decodeFinish hasNulls nulls c2
          (addValue o (blobSlice blob (c.pos + c.toSkip)
            (c.rawLengths.getD c.lengthIndex 0))) (i + 1) (rowAt rows i)
          (gapAfter rows i) (decide (rows.length ≤ i + 1))) := by
      rw [e, erv']
    have hrecv := addValue_recordAt o (blobSlice blob (c.pos + c.toSkip)
      (c.rawLengths.getD c.lengthIndex 0)) (by rw [hvl]; exact h32i) hu
    cases hasNulls with
    | false =>
      obtain ⟨hts, hli, hcur, hrl, hls⟩ := decodeFinish_char_f nulls c2
        (addValue o (blobSlice blob (c.pos + c.toSkip)
          (c.rawLengths.getD c.lengthIndex 0))) (i + 1)
        (rowAt rows i) (gapAfter rows i) (decide (rows.length ≤ i + 1))
      have hQf : c.lengthIndex = rowAt rows i := by rw [hQ, lenOrd_false]
      have hs1 := sumRange_one c.rawLengths c.lengthIndex
      have hs2 := sumRange_add c.rawLengths c.lengthIndex 1 (gapAfter rows i)
      refine ⟨_, estep, decodeFinish_v _ _ _ _ _ _ _ _,
        decodeFinish_atEnd _ _ _ _ _ _ _ _, ?_, ?_, ?_, ?_, ?_, ?_, ?_, ?_, ?_, ?_, ?_,
        ?_, ?_, ?_, ?_, ?_, ?_, ?_, ?_⟩
      · rw [hcur]
        exact hnxt.symm
      · rw [decodeFinish_c_pos, decodeFinish_c_winLen]
        exact hwin2
      · rw [hrl]
        exact hrl2'
      · rw [hls]
        exact hls2'
      · rw [hli, hli2', lenOrd_false, hnxt]
        omega
      · rw [decodeFinish_c_pos, hts, hrl2', hli2', lenOrd_false, hnxt]
        rw [show rowAt rows i + 1 + gapAfter rows i - c.lengthIndex
            = 1 + gapAfter rows i from by omega]
        omega
      · rw [decodeFinish_o]
        exact addValue_numValues _ _
      · rw [decodeFinish_o, addValue_used, hvl, Bool.false_and,
          if_neg Bool.false_ne_true]
        by_cases h12 : c.rawLengths.getD c.lengthIndex 0 ≤ 12
        · rw [if_pos h12, if_neg (by omega)]
        · rw [if_neg h12, if_pos (by omega)]
      · rw [decodeFinish_o]
        exact addValue_returnReaderNulls _ _
      · rw [decodeFinish_o]
        exact addValue_outer _ _
      · rw [decodeFinish_o, addValue_anyNulls, Bool.false_and, Bool.or_false]
      · rw [decodeFinish_o, addValue_resultNulls]
      · intro p hp
        rw [decodeFinish_o, addValue_resultNulls]
      · rw [decodeFinish_o, addValue_resultNulls, Bool.false_and, Bool.false_or]
      · intro p hp
        rw [decodeFinish_o, addValue_resultNulls]
      · rw [decodeFinish_o]
        show (writeStringViewAt o o.numValues _).rawStringSize ≤
          max o.rawStringSize (writeStringViewAt o o.numValues _).rawStringUsed
        exact writeStringViewAt_size _ _ _
      · rw [decodeFinish_o]
        exact addValue_rawValues_frame _ _
      · rw [decodeFinish_o]
        exact addValue_arena_frame _ _
      · intro _
        rw [decodeFinish_o, hrecv, hvl]
    | true =>
      have hn2 : isBitNull nulls (rowAt rows i) = false := by simpa using hgf
      obtain ⟨hts, hli, hcur, hrl, hls⟩ := decodeFinish_char_t nulls c2
        (addValue o (blobSlice blob (c.pos + c.toSkip)
          (c.rawLengths.getD c.lengthIndex 0))) (i + 1)
        (rowAt rows i) (gapAfter rows i) (decide (rows.length ≤ i + 1))
      have hQt : c.lengthIndex = countNonNulls nulls 0 (rowAt rows i) := by
        rw [hQ, lenOrd_true]
      have hsucc : countNonNulls nulls 0 (rowAt rows i + 1) =
          countNonNulls nulls 0 (rowAt rows i) + 1 := by
        rw [cnn_succ nulls _ (hnl rfl), hn2]
        simp
      have hadd := cnn_add nulls (rowAt rows i + 1) (gapAfter rows i)
      have hs1 := sumRange_one c.rawLengths c.lengthIndex
      have hs2 := sumRange_add c.rawLengths c.lengthIndex 1
        (countNonNulls nulls (rowAt rows i + 1) (rowAt rows i + 1 + gapAfter rows i))
      refine ⟨_, estep, decodeFinish_v _ _ _ _ _ _ _ _,
        decodeFinish_atEnd _ _ _ _ _ _ _ _, ?_, ?_, ?_, ?_, ?_, ?_, ?_, ?_, ?_, ?_, ?_,
        ?_, ?_, ?_, ?_, ?_, ?_, ?_, ?_⟩
      · rw [hcur]
        exact hnxt.symm
      · rw [decodeFinish_c_pos, decodeFinish_c_winLen]
        exact hwin2
      · rw [hrl]
        exact hrl2'
      · rw [hls]
        exact hls2'
      · rw [hli, hli2', lenOrd_true, hnxt]
        omega
      · rw [decodeFinish_c_pos, hts, hrl2', hli2', lenOrd_true, hnxt]
        rw [show countNonNulls nulls 0 (rowAt rows i + 1 + gapAfter rows i) - c.lengthIndex
            = 1 + countNonNulls nulls (rowAt rows i + 1)
              (rowAt rows i + 1 + gapAfter rows i) from by omega]
        omega
      · rw [decodeFinish_o]
        exact addValue_numValues _ _
      · rw [decodeFinish_o, addValue_used, hvl, Bool.true_and, hn2,
          if_neg Bool.false_ne_true]
        by_cases h12 : c.rawLengths.getD c.lengthIndex 0 ≤ 12
        · rw [if_pos h12, if_neg (by omega)]
        · rw [if_neg h12, if_pos (by omega)]
      · rw [decodeFinish_o]
        exact addValue_returnReaderNulls _ _
      · rw [decodeFinish_o]
        exact addValue_outer _ _
      · rw [decodeFinish_o, addValue_anyNulls, Bool.true_and, hn2, Bool.or_false]
      · rw [decodeFinish_o, addValue_resultNulls]
      · intro p hp
        rw [decodeFinish_o, addValue_resultNulls]
      · rw [decodeFinish_o, addValue_resultNulls, Bool.true_and, hn2, Bool.false_or]
      · intro p hp
        rw [decodeFinish_o, addValue_resultNulls]
      · rw [decodeFinish_o]
        show (writeStringViewAt o o.numValues _).rawStringSize ≤
          max o.rawStringSize (writeStringViewAt o o.numValues _).rawStringUsed
        exact writeStringViewAt_size _ _ _
      · rw [decodeFinish_o]
        exact addValue_rawValues_frame _ _
      · rw [decodeFinish_o]
        exact addValue_arena_frame _ _
      · intro _
        rw [decodeFinish_o, hrecv, hvl]

theorem decode_extractAll_spec (blob : List Nat) (sched : Nat → Nat) (dense : Bool)
    (rows : List Nat) (hasNulls : Bool) (nulls : List Bool)
    (hrmono : ∀ t, t + 1 < rows.length → rowAt rows t < rowAt rows (t + 1))
    (hnl : hasNulls = true → ∀ k, k < rows.length → rowAt rows k < nulls.length) :
    ∀ (n i : Nat) (c : CState) (o : OState) (fuel : Nat),
    i < rows.length → n = rows.length - 1 - i → rows.length - i ≤ fuel →
    c.pos + c.winLen ≤ blob.length →
    c.lengthIndex = lenOrd hasNulls nulls (rowAt rows i) →
    (∀ k, i ≤ k → k < rows.length → (hasNulls && isBitNull nulls (rowAt rows k)) = false →
      c.pos + c.toSkip + sumRange c.rawLengths c.lengthIndex
          (lenOrd hasNulls nulls (rowAt rows k) - c.lengthIndex) +
        c.rawLengths.getD (lenOrd hasNulls nulls (rowAt rows k)) 0 ≤ blob.length) →
    (∀ k, i ≤ k → k < rows.length →
      c.rawLengths.getD (lenOrd hasNulls nulls (rowAt rows k)) 0 < 2 ^ 32) →
    o.rawStringUsed + nnSpill c.rawLengths hasNulls nulls rows i (rows.length - i) < 2 ^ 64 →
    o.numValues + (rows.length - i) ≤ o.resultNulls.length →
    ∃ c' o',
      decode blob sched (extractAllVisitor rows dense) hasNulls nulls fuel i
        (rowAt rows i) c o = some (c', o') ∧
      c'.pos + c'.toSkip = c.pos + c.toSkip + sumRange c.rawLengths c.lengthIndex
        (lenOrd hasNulls nulls (rowAt rows (rows.length - 1) + 1) - c.lengthIndex) ∧
      c'.pos + c'.winLen ≤ blob.length ∧
      c'.rawLengths = c.rawLengths ∧
      c'.lengthIndex = lenOrd hasNulls nulls (rowAt rows (rows.length - 1) + 1) ∧
      c'.lenStream = c.lenStream ∧
      o'.numValues = o.numValues + (rows.length - i) ∧
      o'.rawStringUsed = o.rawStringUsed +
        nnSpill c.rawLengths hasNulls nulls rows i (rows.length - i) ∧
      o'.returnReaderNulls = o.returnReaderNulls ∧
      o'.outerNonNullRows = o.outerNonNullRows ∧
      o'.anyNulls = (o.anyNulls || anyNullIn hasNulls nulls rows i (rows.length - i)) ∧
      o'.resultNulls.length = o.resultNulls.length ∧
      (∀ p, p < o.numValues → o'.resultNulls.getD p false = o.resultNulls.getD p false) ∧
      (∀ k, i ≤ k → k < rows.length →
        o'.resultNulls.getD (o.numValues + (k - i)) false =
          ((hasNulls && isBitNull nulls (rowAt rows k)) ||
            o.resultNulls.getD (o.numValues + (k - i)) false)) ∧
      o'.rawStringSize ≤ max o.rawStringSize o'.rawStringUsed ∧
      sameBelow o.rawValues o'.rawValues (16 * o.numValues) ∧
      sameBelow o.arena o'.arena o.rawStringUsed ∧
      (∀ k, i ≤ k → k < rows.length →
        (hasNulls && isBitNull nulls (rowAt rows k)) = false →
        recordAt o'.rawValues o'.arena (o.numValues + (k - i)) =
          (c.rawLengths.getD (lenOrd hasNulls nulls (rowAt rows k)) 0,
           blobSlice blob (c.pos + c.toSkip + sumRange c.rawLengths c.lengthIndex
             (lenOrd hasNulls nulls (rowAt rows k) - c.lengthIndex))
             (c.rawLengths.getD (lenOrd hasNulls nulls (rowAt rows k)) 0),
           if c.rawLengths.getD (lenOrd hasNulls nulls (rowAt rows k)) 0 ≤ 12 then none
           else some (o.rawStringUsed +
             nnSpill c.rawLengths hasNulls nulls rows i (k - i)))) := by
  intro n
  induction n with
  | zero =>
    intro i c o fuel hi hn hfuel hwin hQ hbound h32 hu64 hres
    have hboundi : (hasNulls && isBitNull nulls (rowAt rows i)) = false →
        c.pos + c.toSkip + c.rawLengths.getD c.lengthIndex 0 ≤ blob.length := by
      intro hgf
      have hb := hbound i (le_refl i) hi hgf
      rw [← hQ, Nat.sub_self] at hb
      rw [show sumRange c.rawLengths c.lengthIndex 0 = 0 from rfl] at hb
      omega
    have h32i : c.rawLengths.getD c.lengthIndex 0 < 2 ^ 32 := by
      have h := h32 i (le_refl i) hi
      rw [← hQ] at h
      exact h
    have hu : o.rawStringUsed < 2 ^ 64 := by omega
    have hresi : o.numValues < o.resultNulls.length := by omega
    have hgap : gapAfter rows i = 0 := by
      unfold gapAfter
      rw [if_neg (by omega)]
    obtain ⟨r, hstep, hv, hae, hcurr, hwinr, hrlr, hlsr, hlir, hcursor, hnv, hused, hrrn,
        houter, hany, hlen, hpre, hat, hgt, hsize, hfrv, hfar, hrec⟩ :=
      decodeStep_extractAll_run blob sched rows dense hasNulls nulls i c o
        (rowAt rows i + 1) (by omega) (fun hh => hnl hh i hi) hwin hQ hboundi h32i hu hresi
    have husedL := hused
    rw [hQ] at husedL
    obtain ⟨f, rfl⟩ : ∃ f, fuel = f + 1 := ⟨fuel - 1, by omega⟩
    have hend : r.atEnd = true := by
      rw [hae]
      exact decide_eq_true (by omega)
    have hdec : decode blob sched (extractAllVisitor rows dense) hasNulls nulls (f + 1) i
        (rowAt rows i) c o = some (r.c, r.o) := by
      rw [decode_succ_some blob sched (extractAllVisitor rows dense) hasNulls nulls f i
        (rowAt rows i) c o r hstep, hend, if_pos rfl]
    refine ⟨r.c, r.o, hdec, ?_, hwinr, hrlr, ?_, hlsr, ?_, ?_, hrrn, houter, ?_, hlen,
      hpre, ?_, hsize, hfrv, hfar, ?_⟩
    · rw [show rows.length - 1 = i from by omega]
      exact hcursor
    · rw [show rows.length - 1 = i from by omega]
      exact hlir
    · rw [hnv]
      omega
    · rw [show rows.length - i = 0 + 1 from by omega, nnSpill_front]
      rw [show nnSpill c.rawLengths hasNulls nulls rows (i + 1) 0 = 0 from rfl]
      omega
    · rw [hany]
      rw [show rows.length - i = 0 + 1 from by omega, anyNullIn_front]
      rw [show anyNullIn hasNulls nulls rows (i + 1) 0 = false from rfl, Bool.or_false]
    · intro k hk1 hk2
      have hik : k = i := by omega
      subst hik
      rw [Nat.sub_self, Nat.add_zero]
      exact hat
    · intro k hk1 hk2 hkg
      have hik : k = i := by omega
      subst hik
      rw [Nat.sub_self, Nat.add_zero]
      rw [show nnSpill c.rawLengths hasNulls nulls rows k 0 = 0 from rfl, Nat.add_zero]
      rw [← hQ, Nat.sub_self]
      rw [show sumRange c.rawLengths c.lengthIndex 0 = 0 from rfl, Nat.add_zero]
      exact hrec hkg
  | succ n ih =>
    intro i c o fuel hi hn hfuel hwin hQ hbound h32 hu64 hres
    have hi1 : i + 1 < rows.length := by omega
    have hboundi : (hasNulls && isBitNull nulls (rowAt rows i)) = false →
        c.pos + c.toSkip + c.rawLengths.getD c.lengthIndex 0 ≤ blob.length := by
      intro hgf
      have hb := hbound i (le_refl i) hi hgf
      rw [← hQ, Nat.sub_self] at hb
      rw [show sumRange c.rawLengths c.lengthIndex 0 = 0 from rfl] at hb
      omega
    have h32i : c.rawLengths.getD c.lengthIndex 0 < 2 ^ 32 := by
      have h := h32 i (le_refl i) hi
      rw [← hQ] at h
      exact h
    have hu : o.rawStringUsed < 2 ^ 64 := by omega
    have hresi : o.numValues < o.resultNulls.length := by omega
    have hmi : rowAt rows i < rowAt rows (i + 1) := hrmono i hi1
    have hgap : gapAfter rows i = rowAt rows (i + 1) - rowAt rows i - 1 := by
      unfold gapAfter
      rw [if_pos hi1]
    obtain ⟨r, hstep, hv, hae, hcurr, hwinr, hrlr, hlsr, hlir, hcursor, hnv, hused, hrrn,
        houter, hany, hlen, hpre, hat, hgt, hsize, hfrv, hfar, hrec⟩ :=
      decodeStep_extractAll_run blob sched rows dense hasNulls nulls i c o
        (rowAt rows (i + 1)) (by omega) (fun hh => hnl hh i hi) hwin hQ hboundi h32i hu
        hresi
    have husedL := hused
    rw [hQ] at husedL
    obtain ⟨f, rfl⟩ : ∃ f, fuel = f + 1 := ⟨fuel - 1, by omega⟩
    have hend : r.atEnd = false := by
      rw [hae]
      exact decide_eq_false (by omega)
    have hdec1 : decode blob sched (extractAllVisitor rows dense) hasNulls nulls (f + 1) i
        (rowAt rows i) c o =
        decode blob sched (extractAllVisitor rows dense) hasNulls nulls f (i + 1)
          (rowAt rows (i + 1)) r.c r.o := by
      rw [decode_succ_some blob sched (extractAllVisitor rows dense) hasNulls nulls f i
        (rowAt rows i) c o r hstep, hend, if_neg Bool.false_ne_true, hv, hcurr]
    have hQle : c.lengthIndex ≤ lenOrd hasNulls nulls (rowAt rows (i + 1)) := by
      rw [hQ]
      exact lenOrd_mono hasNulls nulls _ _ (le_of_lt hmi)
    have hglue : ∀ m, lenOrd hasNulls nulls (rowAt rows (i + 1)) ≤ m →
        sumRange c.rawLengths c.lengthIndex
            (lenOrd hasNulls nulls (rowAt rows (i + 1)) - c.lengthIndex) +
          sumRange c.rawLengths (lenOrd hasNulls nulls (rowAt rows (i + 1)))
            (m - lenOrd hasNulls nulls (rowAt rows (i + 1))) =
        sumRange c.rawLengths c.lengthIndex (m - c.lengthIndex) := by
      intro m hm
      have h := sumRange_add c.rawLengths c.lengthIndex
        (lenOrd hasNulls nulls (rowAt rows (i + 1)) - c.lengthIndex)
        (m - lenOrd hasNulls nulls (rowAt rows (i + 1)))
      rw [show c.lengthIndex + (lenOrd hasNulls nulls (rowAt rows (i + 1)) - c.lengthIndex)
          = lenOrd hasNulls nulls (rowAt rows (i + 1)) from by omega] at h
      rw [show lenOrd hasNulls nulls (rowAt rows (i + 1)) - c.lengthIndex
          + (m - lenOrd hasNulls nulls (rowAt rows (i + 1)))
          = m - c.lengthIndex from by omega] at h
      exact h
    obtain ⟨c', o', hdecIH, k1, k2, k3, k4, k5, k6, k7, k8, k9, k10, k11, k12, k13, k14,
        k15, k16, k17⟩ :=
      ih (i + 1) r.c r.o f hi1 (by omega) (by omega) hwinr hlir
        (by
          intro k hk1 hk2 hkg
          rw [hrlr, hlir]
          have hQk1 : lenOrd hasNulls nulls (rowAt rows (i + 1)) ≤
              lenOrd hasNulls nulls (rowAt rows k) :=
            lenOrd_mono hasNulls nulls _ _ (rowsMono_le rows hrmono (i + 1) k hk1 hk2)
          have hb := hbound k (by omega) hk2 hkg
          have hg := hglue (lenOrd hasNulls nulls (rowAt rows k)) hQk1
          omega)
        (by
          intro k hk1 hk2
          rw [hrlr]
          exact h32 k (by omega) hk2)
        (by
          rw [hrlr, show rows.length - (i + 1) = rows.length - i - 1 from by omega]
          rw [show rows.length - i = (rows.length - i - 1) + 1 from by omega,
            nnSpill_front] at hu64
          omega)
        (by
          rw [hnv, hlen]
          omega)
    have hum : r.o.rawStringUsed ≤ o'.rawStringUsed := by
      rw [k7]
      omega
    have hr1e : rowAt rows (i + 1) ≤ rowAt rows (rows.length - 1) + 1 := by
      have h := rowsMono_le rows hrmono (i + 1) (rows.length - 1) (by omega) (by omega)
      omega
    have hQ1End : lenOrd hasNulls nulls (rowAt rows (i + 1)) ≤
        lenOrd hasNulls nulls (rowAt rows (rows.length - 1) + 1) :=
      lenOrd_mono hasNulls nulls _ _ hr1e
    rw [hrlr, hlir] at k1
    refine ⟨c', o', hdec1.trans hdecIH, ?_, k2, k3.trans hrlr, k4, k5.trans hlsr, ?_, ?_,
      k8.trans hrrn, k9.trans houter, ?_, k11.trans hlen, ?_, ?_, ?_, ?_, ?_, ?_⟩
    · have hg := hglue (lenOrd hasNulls nulls (rowAt rows (rows.length - 1) + 1)) hQ1End
      omega
    · rw [k6, hnv]
      omega
    · rw [hrlr, show rows.length - (i + 1) = rows.length - i - 1 from by omega] at k7
      rw [show rows.length - i = (rows.length - i - 1) + 1 from by omega, nnSpill_front]
      omega
    · rw [hany, show rows.length - (i + 1) = rows.length - i - 1 from by omega] at k10
      rw [show rows.length - i = (rows.length - i - 1) + 1 from by omega, anyNullIn_front]
      rw [k10, Bool.or_assoc]
    · intro p hp
      exact (k12 p (by rw [hnv]; omega)).trans (hpre p hp)
    · intro k hk1 hk2
      by_cases hik : k = i
      · subst hik
        rw [Nat.sub_self, Nat.add_zero]
        exact (k12 o.numValues (by rw [hnv]; omega)).trans hat
      · have h13 := k13 k (by omega) hk2
        rw [show r.o.numValues + (k - (i + 1)) = o.numValues + (k - i) from by
          rw [hnv]; omega] at h13
        rw [hgt (o.numValues + (k - i)) (by omega)] at h13
        exact h13
    · omega
    · exact sameBelow_trans _ _ _ _ hfrv
        (sameBelow_mono _ _ _ _ k15 (by rw [hnv]; omega))
    · exact sameBelow_trans _ _ _ _ hfar
        (sameBelow_mono _ _ _ _ k16 (by rw [hused]; omega))
    · intro k hk1 hk2 hkg
      by_cases hik : k = i
      · subst hik
        rw [Nat.sub_self, Nat.add_zero]
        rw [show nnSpill c.rawLengths hasNulls nulls rows k 0 = 0 from rfl, Nat.add_zero]
        rw [← hQ, Nat.sub_self]
        rw [show sumRange c.rawLengths c.lengthIndex 0 = 0 from rfl, Nat.add_zero]
        have hrstable : recordAt o'.rawValues o'.arena o.numValues =
            recordAt r.o.rawValues r.o.arena o.numValues := by
          refine recordAt_stable r.o.rawValues o'.rawValues r.o.arena o'.arena
            o.numValues r.o.rawStringUsed
            (sameBelow_mono _ _ _ _ k15 (by rw [hnv]; omega)) k16 ?_
          intro off hoff
          rw [hrec hkg] at hoff ⊢
          show off + c.rawLengths.getD c.lengthIndex 0 ≤ r.o.rawStringUsed
          by_cases h12 : c.rawLengths.getD c.lengthIndex 0 ≤ 12
          · rw [if_pos h12] at hoff
            exact Option.noConfusion hoff
          · rw [if_neg h12] at hoff
            have hoff2 : some o.rawStringUsed = some off := hoff
            have hoff3 : o.rawStringUsed = off := by injection hoff2
            rw [hused, hkg, if_neg Bool.false_ne_true, if_pos (by omega)]
            omega
        rw [hrstable]
        exact hrec hkg
      · have h17 := k17 k (by omega) hk2 hkg
        rw [hrlr, hlir] at h17
        rw [show r.o.numValues + (k - (i + 1)) = o.numValues + (k - i) from by
          rw [hnv]; omega] at h17
        have hQk1 : lenOrd hasNulls nulls (rowAt rows (i + 1)) ≤
            lenOrd hasNulls nulls (rowAt rows k) :=
          lenOrd_mono hasNulls nulls _ _ (rowsMono_le rows hrmono (i + 1) k (by omega) hk2)
        have hg := hglue (lenOrd hasNulls nulls (rowAt rows k)) hQk1
        rw [show r.c.pos + r.c.toSkip + sumRange c.rawLengths
            (lenOrd hasNulls nulls (rowAt rows (i + 1)))
            (lenOrd hasNulls nulls (rowAt rows k) -
              lenOrd hasNulls nulls (rowAt rows (i + 1))) =
          c.pos + c.toSkip + sumRange c.rawLengths c.lengthIndex
            (lenOrd hasNulls nulls (rowAt rows k) - c.lengthIndex) from by omega] at h17
        rw [show k - (i + 1) = k - i - 1 from by omega] at h17
        rw [show r.o.rawStringUsed + nnSpill c.rawLengths hasNulls nulls rows (i + 1)
            (k - i - 1) = o.rawStringUsed +
              nnSpill c.rawLengths hasNulls nulls rows i (k - i) from by
          have hm : k - i = (k - i - 1) + 1 := by omega
          rw [show nnSpill c.rawLengths hasNulls nulls rows i (k - i) =
              nnSpill c.rawLengths hasNulls nulls rows i ((k - i - 1) + 1) from by
            rw [← hm]]
          rw [nnSpill_front]
          omega] at h17
        exact h17

theorem frg_succ (g : Nat → Bool) (n : Nat) :
    (List.range (n + 1)).filter g =
      (List.range n).filter g ++ (if g n then [n] else []) := by
  rw [List.range_succ, List.filter_append]
  congr 1
  by_cases h : g n
  · rw [if_pos h]
    simp [h]
  · rw [if_neg h]
    simp [h]

theorem frg_length_mono (g : Nat → Bool) (a b : Nat) (h : a ≤ b) :
    ((List.range a).filter g).length ≤ ((List.range b).filter g).length := by
  obtain ⟨d, rfl⟩ : ∃ d, b = a + d := ⟨b - a, by omega⟩
  clear h
  induction d with
  | zero => exact le_refl _
  | succ d ih =>
    rw [show a + (d + 1) = (a + d) + 1 from rfl, frg_succ, List.length_append]
    omega

theorem frg_length_succ (g : Nat → Bool) (p : Nat) (h : g p = true) :
    ((List.range (p + 1)).filter g).length = ((List.range p).filter g).length + 1 := by
  rw [frg_succ, List.length_append, if_pos h]
  rfl

theorem frg_rank_lt (g : Nat → Bool) (p n : Nat) (hp : p < n) (h : g p = true) :
    ((List.range p).filter g).length < ((List.range n).filter g).length := by
  have h1 := frg_length_succ g p h
  have h2 := frg_length_mono g (p + 1) n (by omega)
  omega

theorem frg_master (g : Nat → Bool) :
    ∀ n t, t < ((List.range n).filter g).length →
    ((List.range n).filter g).getD t 0 < n ∧
    g (((List.range n).filter g).getD t 0) = true ∧
    ((List.range (((List.range n).filter g).getD t 0)).filter g).length = t := by
  intro n
  induction n with
  | zero =>
    intro t ht
    simp at ht
  | succ n ih =>
    intro t ht
    rw [frg_succ]
    by_cases hlt : t < ((List.range n).filter g).length
    · rw [List.getD_append _ _ _ _ hlt]
      obtain ⟨h1, h2, h3⟩ := ih t hlt
      exact ⟨by omega, h2, h3⟩
    · rw [frg_succ, List.length_append] at ht
      by_cases hg : g n
      · rw [if_pos hg] at ht
        have hteq : t = ((List.range n).filter g).length := by
          simp at ht
          omega
        rw [List.getD_append_right _ _ _ _ (by omega)]
        rw [hteq, Nat.sub_self]
        rw [if_pos hg]
        have hgd : ([n] : List Nat).getD 0 0 = n := rfl
        rw [hgd]
        exact ⟨by omega, hg, rfl⟩
      · rw [if_neg hg] at ht
        simp at ht
        omega

theorem frg_inj (g : Nat → Bool) (p q : Nat) (hp : g p = true) (hq : g q = true)
    (h : ((List.range p).filter g).length = ((List.range q).filter g).length) : p = q := by
  by_contra hne
  rcases Nat.lt_or_ge p q with hlt | hge
  · have := frg_rank_lt g p q hlt hp
    omega
  · have hlt : q < p := by omega
    have := frg_rank_lt g q p hlt hq
    omega

theorem frg_rank (g : Nat → Bool) (n p : Nat) (hp : p < n) (h : g p = true) :
    ((List.range n).filter g).getD (((List.range p).filter g).length) 0 = p := by
  have ht := frg_rank_lt g p n hp h
  obtain ⟨h1, h2, h3⟩ := frg_master g n (((List.range p).filter g).length) ht
  exact frg_inj g _ p h2 h h3

theorem frg_getD_lt (g : Nat → Bool) (n t : Nat)
    (ht : t + 1 < ((List.range n).filter g).length) :
    ((List.range n).filter g).getD t 0 < ((List.range n).filter g).getD (t + 1) 0 := by
  obtain ⟨h1, h2, h3⟩ := frg_master g n t (by omega)
  obtain ⟨h4, h5, h6⟩ := frg_master g n (t + 1) ht
  by_contra hge
  have hm := frg_length_mono g (((List.range n).filter g).getD (t + 1) 0)
    (((List.range n).filter g).getD t 0) (by omega)
  omega

theorem count_true_add_count_false (l : List Bool) :
    l.count true + l.count false = l.length := by
  induction l with
  | nil => rfl
  | cons b l ih =>
    cases b <;> simp [List.count_cons] <;> omega

theorem cnn_cnl (nulls : List Bool) (e : Nat) (h : e ≤ nulls.length) :
    countNonNulls nulls 0 e + countNullsL nulls 0 e = e := by
  show ((nulls.drop 0).take (e - 0)).count true +
    ((nulls.drop 0).take (e - 0)).count false = e
  rw [count_true_add_count_false]
  simp
  omega

theorem rank_eq_cnn (nulls : List Bool) :
    ∀ p, p ≤ nulls.length →
    ((List.range p).filter (fun i => !(isBitNull nulls i))).length =
      countNonNulls nulls 0 p := by
  intro p
  induction p with
  | zero =>
    intro _
    rfl
  | succ p ih =>
    intro h
    rw [frg_succ, List.length_append, ih (by omega), cnn_succ nulls p (by omega)]
    by_cases hb : isBitNull nulls p
    · rw [hb, if_neg (by simp), if_pos rfl]
      rfl
    · have hb' : isBitNull nulls p = false := by
        revert hb
        cases isBitNull nulls p <;> simp
      rw [hb', if_pos (by simp), if_neg (by simp)]
      rfl

theorem sumRange_le_sum (L : List Nat) (k : Nat) : sumRange L 0 k ≤ L.sum := by
  show ((L.drop 0).take k).sum ≤ L.sum
  rw [List.drop_zero]
  conv_rhs => rw [← List.take_append_drop k L]
  rw [List.sum_append]
  omega

theorem getD_lt_of_all (L : List Nat) (B : Nat) (hB : 0 < B)
    (h : ∀ l ∈ L, l < B) (q : Nat) : L.getD q 0 < B := by
  by_cases hq : q < L.length
  · rw [List.getD_eq_getElem _ _ hq]
    exact h _ (List.getElem_mem hq)
  · rw [List.getD_eq_getElem?_getD, List.getElem?_eq_none (by omega)]
    exact hB

theorem take_sum_le_sum (L : List Nat) (m : Nat) : (L.take m).sum ≤ L.sum := by
  conv_rhs => rw [← List.take_append_drop m L]
  rw [List.sum_append]
  omega

theorem sumRange_le_sum_any (L : List Nat) (a m : Nat) : sumRange L a m ≤ L.sum := by
  show ((L.drop a).take m).sum ≤ L.sum
  have h1 := take_sum_le_sum (L.drop a) m
  have h2 : (L.drop a).sum ≤ L.sum := by
    conv_rhs => rw [← List.take_append_drop a L]
    rw [List.sum_append]
    omega
  omega

theorem getD_replicate_false (n k : Nat) :
    (List.replicate n false).getD k false = false := by
  by_cases h : k < n
  · rw [List.getD_eq_getElem _ _ (by simp; omega), List.getElem_replicate]
  · rw [List.getD_eq_getElem?_getD, List.getElem?_eq_none (by simp; omega)]
    rfl

theorem getLastD_eq_getD (l : List Nat) (h : l ≠ []) :
    (match l.getLast? with | some r => r | none => 0) = l.getD (l.length - 1) 0 := by
  rw [List.getLast?_eq_getElem?]
  have hl : 0 < l.length := List.length_pos.mpr h
  rw [List.getElem?_eq_getElem (by omega)]
  rw [List.getD_eq_getElem _ _ (by omega)]

theorem getLastD_eq_getD_nat (l : List Nat) (h : l ≠ []) :
    l.getLast?.getD 0 = l.getD (l.length - 1) 0 := by
  have := getLastD_eq_getD l h
  cases hq : l.getLast? with
  | none => rw [hq] at this; exact this
  | some r => rw [hq] at this; exact this

theorem anyNullIn_true_of (hasN : Bool) (nb : List Bool) (rows : List Nat) (i n k : Nat)
    (hk : k < n) (h : (hasN && isBitNull nb (rowAt rows (i + k))) = true) :
    anyNullIn hasN nb rows i n = true := by
  unfold anyNullIn
  rw [List.any_eq_true]
  exact ⟨k, List.mem_range.mpr hk, h⟩

theorem anyNullIn_false_all (hasN : Bool) (nb : List Bool) (rows : List Nat) (i n : Nat)
    (h : anyNullIn hasN nb rows i n = false) :
    ∀ k, k < n → (hasN && isBitNull nb (rowAt rows (i + k))) = false := by
  intro k hk
  unfold anyNullIn at h
  rw [List.any_eq_false] at h
  have := h k (List.mem_range.mpr hk)
  revert this
  cases hasN && isBitNull nb (rowAt rows (i + k)) <;> simp

theorem getD_map_range_bool (f : Nat → Bool) (n t : Nat) (h : t < n) :
    ((List.range n).map f).getD t false = f t := by
  rw [List.getD_eq_getElem?_getD, List.getElem?_map, List.getElem?_range h]
  rfl

theorem map_getD_nat (l : List Nat) (f : Nat → Nat) (k : Nat) (h : k < l.length) :
    (l.map f).getD k 0 = f (l.getD k 0) := by
  rw [List.getD_eq_getElem _ _ (by simp; omega), List.getElem_map,
    List.getD_eq_getElem _ _ h]

theorem g8Spill_le (L r : List Nat) :
    ∀ n i, (∀ t, t + 1 < n → r.getD (i + t) 0 < r.getD (i + t + 1) 0) → 0 < n →
    g8Spill L r i n ≤
      sumRange L (r.getD i 0) (r.getD (i + (n - 1)) 0 + 1 - r.getD i 0) := by
  intro n
  induction n with
  | zero => intro i _ h0; omega
  | succ m ihm =>
    intro i hmono hpos
    by_cases hm0 : m = 0
    · subst hm0
      show g8Spill L r i 0 +
        (if 12 < g8Len L r i 0 then g8Len L r i 0 else 0) ≤ _
      rw [show g8Spill L r i 0 = 0 from rfl]
      rw [show i + (0 + 1 - 1) = i from by omega]
      rw [show r.getD i 0 + 1 - r.getD i 0 = 1 from by omega, sumRange_one]
      have hg : g8Len L r i 0 = L.getD (r.getD i 0) 0 := rfl
      rw [hg]
      by_cases h12 : 12 < L.getD (r.getD i 0) 0
      · rw [if_pos h12]; omega
      · rw [if_neg h12]; omega
    · have ih := ihm i (fun t ht => hmono t (by omega)) (by omega)
      rw [show i + (m + 1 - 1) = i + m from by omega]
      show g8Spill L r i m +
        (if 12 < g8Len L r i m then g8Len L r i m else 0) ≤ _
      have hlt : r.getD (i + (m - 1)) 0 < r.getD (i + m) 0 := by
        have h := hmono (m - 1) (by omega)
        rw [show i + (m - 1) + 1 = i + m from by omega] at h
        exact h
      have h0m : r.getD i 0 ≤ r.getD (i + (m - 1)) 0 := by
        by_cases hz : m - 1 = 0
        · rw [show i + (m - 1) = i from by omega]
        · have h : r.getD (i + 0) 0 < r.getD (i + (m - 1)) 0 :=
            chain_lt (fun t => r.getD (i + t) 0) (m + 1) hmono 0 (m - 1)
              (by omega) (by omega)
          rw [show i + 0 = i from rfl] at h
          omega
      have e1 := sumRange_add L (r.getD i 0) (r.getD (i + (m - 1)) 0 + 1 - r.getD i 0)
        (r.getD (i + m) 0 - r.getD (i + (m - 1)) 0)
      rw [show r.getD i 0 + (r.getD (i + (m - 1)) 0 + 1 - r.getD i 0)
          = r.getD (i + (m - 1)) 0 + 1 from by omega] at e1
      rw [show r.getD (i + (m - 1)) 0 + 1 - r.getD i 0 +
          (r.getD (i + m) 0 - r.getD (i + (m - 1)) 0)
          = r.getD (i + m) 0 + 1 - r.getD i 0 from by omega] at e1
      have e2 := sumRange_succ_right L (r.getD (i + (m - 1)) 0 + 1)
        (r.getD (i + m) 0 - r.getD (i + (m - 1)) 0 - 1)
      rw [show r.getD (i + (m - 1)) 0 + 1 +
          (r.getD (i + m) 0 - r.getD (i + (m - 1)) 0 - 1)
          = r.getD (i + m) 0 from by omega] at e2
      rw [show r.getD (i + m) 0 - r.getD (i + (m - 1)) 0
          = (r.getD (i + m) 0 - r.getD (i + (m - 1)) 0 - 1) + 1 from by omega] at e1
      have hg : g8Len L r i m = L.getD (r.getD (i + m) 0) 0 := rfl
      rw [hg]
      by_cases h12 : 12 < L.getD (r.getD (i + m) 0) 0
      · rw [if_pos h12]; omega
      · rw [if_neg h12]; omega

theorem nnSpill_le (L : List Nat) (hasN : Bool) (nb : List Bool) (rows : List Nat)
    (hrm : ∀ t, t + 1 < rows.length → rowAt rows t < rowAt rows (t + 1))
    (hnl : hasN = true → ∀ k, k < rows.length → rowAt rows k < nb.length) :
    ∀ n i, 0 < n → i + n ≤ rows.length →
    nnSpill L hasN nb rows i n ≤
      sumRange L (lenOrd hasN nb (rowAt rows i))
        (lenOrd hasN nb (rowAt rows (i + n - 1)) + 1 - lenOrd hasN nb (rowAt rows i)) := by
  intro n
  induction n with
  | zero => intro i h0 _; omega
  | succ m ihm =>
    intro i hpos hin
    by_cases hm0 : m = 0
    · subst hm0
      rw [show i + 1 - 1 = i from by omega]
      rw [show lenOrd hasN nb (rowAt rows i) + 1 - lenOrd hasN nb (rowAt rows i) = 1
        from by omega, sumRange_one]
      rw [nnSpill_succ]
      rw [show nnSpill L hasN nb rows i 0 = 0 from rfl, show i + 0 = i from rfl]
      by_cases hg : (hasN && isBitNull nb (rowAt rows i)) = true
      · rw [if_pos hg]; omega
      · rw [if_neg hg]
        by_cases h12 : 12 < L.getD (lenOrd hasN nb (rowAt rows i)) 0
        · rw [if_pos h12]; omega
        · rw [if_neg h12]; omega
    · have ih := ihm (i + 1) (by omega) (by omega)
      rw [show i + 1 + m - 1 = i + m from by omega] at ih
      rw [nnSpill_front]
      rw [show i + (m + 1) - 1 = i + m from by omega]
      have hQ1 : lenOrd hasN nb (rowAt rows i) ≤ lenOrd hasN nb (rowAt rows (i + 1)) :=
        lenOrd_mono hasN nb _ _
          (le_of_lt (by
            have := hrm i (by omega)
            omega))
      have hQm : lenOrd hasN nb (rowAt rows (i + 1)) ≤ lenOrd hasN nb (rowAt rows (i + m)) :=
        lenOrd_mono hasN nb _ _ (rowsMono_le rows hrm (i + 1) (i + m) (by omega) (by omega))
      have e1 := sumRange_add L (lenOrd hasN nb (rowAt rows i))
        (lenOrd hasN nb (rowAt rows (i + 1)) - lenOrd hasN nb (rowAt rows i))
        (lenOrd hasN nb (rowAt rows (i + m)) + 1 - lenOrd hasN nb (rowAt rows (i + 1)))
      rw [show lenOrd hasN nb (rowAt rows i) +
          (lenOrd hasN nb (rowAt rows (i + 1)) - lenOrd hasN nb (rowAt rows i))
          = lenOrd hasN nb (rowAt rows (i + 1)) from by omega] at e1
      rw [show lenOrd hasN nb (rowAt rows (i + 1)) - lenOrd hasN nb (rowAt rows i) +
          (lenOrd hasN nb (rowAt rows (i + m)) + 1 - lenOrd hasN nb (rowAt rows (i + 1)))
          = lenOrd hasN nb (rowAt rows (i + m)) + 1 - lenOrd hasN nb (rowAt rows i)
          from by omega] at e1
      by_cases hg : (hasN && isBitNull nb (rowAt rows i)) = true
      · rw [if_pos hg]
        omega
      · rw [if_neg hg]
        have hgf : (hasN && isBitNull nb (rowAt rows i)) = false := by
          revert hg
          cases hasN && isBitNull nb (rowAt rows i) <;> simp
        have hsucc : lenOrd hasN nb (rowAt rows i + 1) =
            lenOrd hasN nb (rowAt rows i) + 1 :=
          lenOrd_succ_val hasN nb (rowAt rows i) hgf
            (fun hh => hnl hh i (by omega))
        have hQs : lenOrd hasN nb (rowAt rows i + 1) ≤
            lenOrd hasN nb (rowAt rows (i + 1)) :=
          lenOrd_mono hasN nb _ _ (by have := hrm i (by omega); omega)
        have hsm := sumRange_mono L (lenOrd hasN nb (rowAt rows i))
          (lenOrd hasN nb (rowAt rows (i + 1)) - lenOrd hasN nb (rowAt rows i)) 1
          (by omega)
        rw [sumRange_one] at hsm
        by_cases h12 : 12 < L.getD (lenOrd hasN nb (rowAt rows i)) 0
        · rw [if_pos h12]
          omega
        · rw [if_neg h12]
          omega

theorem skipInDecodeOp_toSkip_eq (k : Bool) (c : CState) (n cur : Nat) (nl : List Bool) :
    (skipInDecodeOp k c n cur nl).toSkip = c.toSkip +
      sumRange c.rawLengths c.lengthIndex
        (if k then countNonNulls nl cur (cur + n) else n) := rfl

theorem skipInDecodeOp_lengthIndex_eq (k : Bool) (c : CState) (n cur : Nat)
    (nl : List Bool) :
    (skipInDecodeOp k c n cur nl).lengthIndex = c.lengthIndex +
      (if k then countNonNulls nl cur (cur + n) else n) := rfl

theorem readReader_scalar_obs (blob : List Nat) (sched : Nat → Nat) (rows : List Nat)
    (nulls : Option (List Bool)) (c : CState) (o : OState) (numRows m : Nat) (L : List Nat)
    (hNR : numRows = (match rows.getLast? with | some r => r | none => 0) + 1)
    (hm : m = numRows -
      (if nulls.isSome then countNullsL (nulls.getD []) 0 numRows else 0))
    (hL : L = c.lenStream.take m)
    (hr0 : 0 < rows.length)
    (hrmono : ∀ t, t + 1 < rows.length → rows.getD t 0 < rows.getD (t + 1) 0)
    (hwin : c.pos + c.winLen ≤ blob.length)
    (hnl : nulls.isSome = true → numRows ≤ (nulls.getD []).length)
    (h32 : ∀ l ∈ c.lenStream, l < 2 ^ 32)
    (hsum : c.pos + c.toSkip + c.lenStream.sum ≤ blob.length)
    (hsum64 : c.lenStream.sum < 2 ^ 64) :
    ∃ c' o', readReader blob sched false rows nulls c o = some (c', o') ∧
      o'.numValues = rows.length ∧
      c'.pos + c'.toSkip = c.pos + c.toSkip + sumRange L 0
        (lenOrd nulls.isSome (nulls.getD []) (rowAt rows (rows.length - 1) + 1)) ∧
      c'.lengthIndex =
        lenOrd nulls.isSome (nulls.getD []) (rowAt rows (rows.length - 1) + 1) ∧
      (∀ k, k < rows.length → effNull (nulls.getD []) rows o' k =
        (nulls.isSome && isBitNull (nulls.getD []) (rowAt rows k))) ∧
      (∀ k, k < rows.length →
        (nulls.isSome && isBitNull (nulls.getD []) (rowAt rows k)) = false →
        (recordAt o'.rawValues o'.arena k).1 =
          L.getD (lenOrd nulls.isSome (nulls.getD []) (rowAt rows k)) 0 ∧
        (recordAt o'.rawValues o'.arena k).2.1 =
          blobSlice blob (c.pos + c.toSkip + sumRange L 0
            (lenOrd nulls.isSome (nulls.getD []) (rowAt rows k)))
            (L.getD (lenOrd nulls.isSome (nulls.getD []) (rowAt rows k)) 0)) := by
  have hrm' : ∀ t, t + 1 < rows.length → rowAt rows t < rowAt rows (t + 1) := hrmono
  have hne : rows ≠ [] := by
    intro he
    rw [he] at hr0
    simp at hr0
  have hNR' : numRows = rows.getD (rows.length - 1) 0 + 1 := by
    rw [hNR, getLastD_eq_getD rows hne]
  have hnl' : nulls.isSome = true → ∀ k, k < rows.length →
      rowAt rows k < (nulls.getD []).length := by
    intro hh k hk
    have h1 : rowAt rows k ≤ rows.getD (rows.length - 1) 0 :=
      rowsMono_le rows hrm' k (rows.length - 1) (by omega) (by omega)
    have h2 := hnl hh
    omega
  have hQmono : ∀ a b, a ≤ b → b < rows.length →
      lenOrd nulls.isSome (nulls.getD []) (rowAt rows a) ≤
        lenOrd nulls.isSome (nulls.getD []) (rowAt rows b) := by
    intro a b hab hb
    exact lenOrd_mono _ _ _ _ (rowsMono_le rows hrm' a b hab hb)
  set M : Nat := ((match rows.getLast? with | some r => r | none => 0) + 1) -
      (if nulls.isSome then
        countNullsL (nulls.getD []) 0
          ((match rows.getLast? with | some r => r | none => 0) + 1)
       else 0) with hM
  set c1 : CState := ({ c with
      rawLengths := c.lenStream.take M,
      lenStream := c.lenStream.drop M,
      lengthIndex := 0 } : CState) with hc1
  set c2 : CState := skipInDecodeOp nulls.isSome c1 (rowAt rows 0) 0 (nulls.getD [])
    with hc2
  have hMm : M = m := by
    rw [hM, hm, hNR]
  have hLsum : L.sum ≤ c.lenStream.sum := by
    rw [hL]
    exact take_sum_le_sum _ _
  have hQn : (if nulls.isSome then
      countNonNulls (nulls.getD []) 0 (0 + rowAt rows 0) else rowAt rows 0) =
      lenOrd nulls.isSome (nulls.getD []) (rowAt rows 0) := by
    cases hN : nulls.isSome with
    | false => rw [if_neg (by simp), lenOrd_false]
    | true =>
      rw [if_pos (by simp), lenOrd_true,
        show (0 : Nat) + rowAt rows 0 = rowAt rows 0 from by omega]
  have hLe2 : c2.rawLengths = L := by
    rw [hc2, skipInDecodeOp_rawLengths]
    rw [show c1.rawLengths = c.lenStream.take M from rfl]
    rw [hMm, ← hL]
  have hQ2 : c2.lengthIndex = lenOrd nulls.isSome (nulls.getD []) (rowAt rows 0) := by
    rw [hc2, skipInDecodeOp_lengthIndex_eq]
    rw [show c1.lengthIndex = 0 from rfl, Nat.zero_add, hQn]
  have hC2 : c2.pos + c2.toSkip = c.pos + c.toSkip +
      sumRange L 0 (lenOrd nulls.isSome (nulls.getD []) (rowAt rows 0)) := by
    rw [hc2, skipInDecodeOp_pos, skipInDecodeOp_toSkip_eq]
    rw [show c1.pos = c.pos from rfl, show c1.toSkip = c.toSkip from rfl,
      show c1.rawLengths = c.lenStream.take M from rfl,
      show c1.lengthIndex = 0 from rfl]
    rw [hQn, hMm, ← hL]
    omega
  have hwin2 : c2.pos + c2.winLen ≤ blob.length := hwin
  have hbound2 : ∀ k, 0 ≤ k → k < rows.length →
      (nulls.isSome && isBitNull (nulls.getD []) (rowAt rows k)) = false →
      c2.pos + c2.toSkip + sumRange c2.rawLengths c2.lengthIndex
          (lenOrd nulls.isSome (nulls.getD []) (rowAt rows k) - c2.lengthIndex) +
        c2.rawLengths.getD (lenOrd nulls.isSome (nulls.getD []) (rowAt rows k)) 0 ≤
        blob.length := by
    intro k hk0 hk hkg
    rw [hLe2, hQ2]
    have hQ0k := hQmono 0 k (by omega) hk
    have e1 := sumRange_add L 0 (lenOrd nulls.isSome (nulls.getD []) (rowAt rows 0))
      (lenOrd nulls.isSome (nulls.getD []) (rowAt rows k) -
        lenOrd nulls.isSome (nulls.getD []) (rowAt rows 0))
    rw [show (0 : Nat) + lenOrd nulls.isSome (nulls.getD []) (rowAt rows 0) =
        lenOrd nulls.isSome (nulls.getD []) (rowAt rows 0) from by omega] at e1
    rw [show lenOrd nulls.isSome (nulls.getD []) (rowAt rows 0) +
        (lenOrd nulls.isSome (nulls.getD []) (rowAt rows k) -
         lenOrd nulls.isSome (nulls.getD []) (rowAt rows 0)) =
        lenOrd nulls.isSome (nulls.getD []) (rowAt rows k) from by omega] at e1
    have e2 := sumRange_succ_right L 0
      (lenOrd nulls.isSome (nulls.getD []) (rowAt rows k))
    rw [show (0 : Nat) + lenOrd nulls.isSome (nulls.getD []) (rowAt rows k) =
        lenOrd nulls.isSome (nulls.getD []) (rowAt rows k) from by omega] at e2
    have e3 := sumRange_le_sum L
      (lenOrd nulls.isSome (nulls.getD []) (rowAt rows k) + 1)
    omega
  have h322 : ∀ k, 0 ≤ k → k < rows.length →
      c2.rawLengths.getD (lenOrd nulls.isSome (nulls.getD []) (rowAt rows k)) 0 <
        2 ^ 32 := by
    intro k hk0 hk
    rw [hLe2]
    refine getD_lt_of_all L _ (by omega) ?_ _
    intro l hl
    refine h32 l ?_
    rw [hL] at hl
    exact List.mem_of_mem_take hl
  have hu642 : (prepareReadM rows o).rawStringUsed +
      nnSpill c2.rawLengths nulls.isSome (nulls.getD []) rows 0 (rows.length - 0) <
      2 ^ 64 := by
    rw [show (prepareReadM rows o).rawStringUsed = 0 from rfl, hLe2,
      show rows.length - 0 = rows.length from rfl]
    have h := nnSpill_le L nulls.isSome (nulls.getD []) rows hrm' hnl' rows.length 0
      hr0 (by omega)
    rw [show (0 : Nat) + rows.length - 1 = rows.length - 1 from by omega] at h
    have h2 := sumRange_le_sum_any L
      (lenOrd nulls.isSome (nulls.getD []) (rowAt rows 0))
      (lenOrd nulls.isSome (nulls.getD []) (rowAt rows (rows.length - 1)) + 1 -
        lenOrd nulls.isSome (nulls.getD []) (rowAt rows 0))
    omega
  have hres2 : (prepareReadM rows o).numValues + (rows.length - 0) ≤
      (prepareReadM rows o).resultNulls.length := by
    rw [show (prepareReadM rows o).numValues = 0 from rfl,
      show (prepareReadM rows o).resultNulls = List.replicate rows.length false from rfl,
      List.length_replicate]
    omega
  obtain ⟨cv, ov, hdec, d1, d2, d3, d4, d5, d6, d7, d8, d9, d10, d11, d12, d13, d14,
      d15, d16, d17⟩ :=
    decode_extractAll_spec blob sched (decide (rows = List.range rows.length)) rows
      nulls.isSome (nulls.getD []) hrm' hnl' (rows.length - 1) 0 c2
      (prepareReadM rows o) (rows.length + 1) hr0 rfl (by omega) hwin2 hQ2 hbound2
      h322 hu642 hres2
  have hQE : lenOrd nulls.isSome (nulls.getD []) (rowAt rows 0) ≤
      lenOrd nulls.isSome (nulls.getD []) (rowAt rows (rows.length - 1) + 1) :=
    le_trans (hQmono 0 (rows.length - 1) (by omega) (by omega))
      (lenOrd_mono _ _ _ _ (by omega))
  refine ⟨cv, ov, hdec, ?_, ?_, d4, ?_, ?_⟩
  · rw [d6, show (prepareReadM rows o).numValues = 0 from rfl]
    omega
  · rw [hLe2, hQ2] at d1
    have e1 := sumRange_add L 0 (lenOrd nulls.isSome (nulls.getD []) (rowAt rows 0))
      (lenOrd nulls.isSome (nulls.getD []) (rowAt rows (rows.length - 1) + 1) -
        lenOrd nulls.isSome (nulls.getD []) (rowAt rows 0))
    rw [show (0 : Nat) + lenOrd nulls.isSome (nulls.getD []) (rowAt rows 0) =
        lenOrd nulls.isSome (nulls.getD []) (rowAt rows 0) from by omega] at e1
    rw [show lenOrd nulls.isSome (nulls.getD []) (rowAt rows 0) +
        (lenOrd nulls.isSome (nulls.getD []) (rowAt rows (rows.length - 1) + 1) -
         lenOrd nulls.isSome (nulls.getD []) (rowAt rows 0)) =
        lenOrd nulls.isSome (nulls.getD []) (rowAt rows (rows.length - 1) + 1)
        from by omega] at e1
    omega
  · intro k hk
    unfold effNull
    have hrrn : ov.returnReaderNulls = false := by
      rw [d8]
      rfl
    rw [hrrn, if_neg (by simp)]
    have hgetD := d13 k (by omega) hk
    rw [show (prepareReadM rows o).numValues + (k - 0) = k from by
      rw [show (prepareReadM rows o).numValues = 0 from rfl]; omega] at hgetD
    rw [show (prepareReadM rows o).resultNulls.getD k false = false from by
      rw [show (prepareReadM rows o).resultNulls = List.replicate rows.length false
        from rfl]
      exact getD_replicate_false _ _] at hgetD
    rw [Bool.or_false] at hgetD
    rw [hgetD, d10]
    rw [show (prepareReadM rows o).anyNulls = false from rfl, Bool.false_or]
    rw [show rows.length - 0 = rows.length from rfl]
    cases hgk : (nulls.isSome && isBitNull (nulls.getD []) (rowAt rows k)) with
    | false => rw [Bool.and_false]
    | true =>
      rw [Bool.and_true]
      refine anyNullIn_true_of _ _ _ 0 rows.length k hk ?_
      rw [show (0 : Nat) + k = k from by omega]
      exact hgk
  · intro k hk hkg
    have h17 := d17 k (by omega) hk hkg
    rw [hLe2, hQ2] at h17
    rw [show (prepareReadM rows o).numValues + (k - 0) = k from by
      rw [show (prepareReadM rows o).numValues = 0 from rfl]; omega] at h17
    have hQ0k := hQmono 0 k (by omega) hk
    have e1 := sumRange_add L 0 (lenOrd nulls.isSome (nulls.getD []) (rowAt rows 0))
      (lenOrd nulls.isSome (nulls.getD []) (rowAt rows k) -
        lenOrd nulls.isSome (nulls.getD []) (rowAt rows 0))
    rw [show (0 : Nat) + lenOrd nulls.isSome (nulls.getD []) (rowAt rows 0) =
        lenOrd nulls.isSome (nulls.getD []) (rowAt rows 0) from by omega] at e1
    rw [show lenOrd nulls.isSome (nulls.getD []) (rowAt rows 0) +
        (lenOrd nulls.isSome (nulls.getD []) (rowAt rows k) -
         lenOrd nulls.isSome (nulls.getD []) (rowAt rows 0)) =
        lenOrd nulls.isSome (nulls.getD []) (rowAt rows k) from by omega] at e1
    rw [show c2.pos + c2.toSkip + sumRange L
        (lenOrd nulls.isSome (nulls.getD []) (rowAt rows 0))
        (lenOrd nulls.isSome (nulls.getD []) (rowAt rows k) -
         lenOrd nulls.isSome (nulls.getD []) (rowAt rows 0)) =
        c.pos + c.toSkip + sumRange L 0
          (lenOrd nulls.isSome (nulls.getD []) (rowAt rows k)) from by omega] at h17
    exact ⟨by rw [h17], by rw [h17]⟩

theorem range_getD (n k : Nat) (h : k < n) : (List.range n).getD k 0 = k := by
  rw [List.getD_eq_getElem _ _ (by simp; omega), List.getElem_range]

theorem any_id_true_of_getD (l : List Bool) (k : Nat) (h : l.getD k false = true) :
    l.any id = true := by
  by_cases hk : k < l.length
  · rw [List.any_eq_true]
    rw [List.getD_eq_getElem _ _ hk] at h
    exact ⟨l[k], List.getElem_mem hk, h⟩
  · rw [List.getD_eq_getElem?_getD, List.getElem?_eq_none (by omega)] at h
    simp at h

theorem cnn_eq_zero_of_null (nb : List Bool) :
    ∀ R, R ≤ nb.length → (∀ p, p < R → isBitNull nb p = true) →
    countNonNulls nb 0 R = 0 := by
  intro R
  induction R with
  | zero => intro _ _; rfl
  | succ R ih =>
    intro hR h
    rw [cnn_succ nb R (by omega), h R (by omega), if_pos rfl,
      ih (by omega) (fun p hp => h p (by omega))]

theorem isEmpty_false_of_pos (l : List Nat) (h : 0 < l.length) : l.isEmpty = false := by
  cases l with
  | nil => simp at h
  | cons a t => rfl

theorem extractSparse_zero (blob : List Nat) (sched : Nat → Nat) (rows : List Nat)
    (c : CState) (o : OState) : extractSparse blob sched rows 0 c o = some (c, o) := by
  show extractSparseGo blob sched rows 0 (0 / 8 + 1) 0 c o = some (c, o)
  rw [show (0 : Nat) / 8 + 1 = 0 + 1 from rfl]
  exact extractSparseGo_done blob sched rows 0 0 0 c o (le_refl 0)

theorem matchLast_succ (l : List Nat) (h : l ≠ []) :
    (match l.getLast? with | some t => t + 1 | none => 0) = l.getD (l.length - 1) 0 + 1 := by
  have hl : 0 < l.length := List.length_pos.mpr h
  rw [List.getLast?_eq_getElem?, List.getElem?_eq_getElem (by omega)]
  rw [List.getD_eq_getElem _ _ (by omega)]

theorem nonNullRowsFromSparse_eq (nb : List Bool) (rows : List Nat) :
    nonNullRowsFromSparse nb rows =
      (((List.range rows.length).filter (fun k => !(isBitNull nb (rowAt rows k)))).map
         (fun k => countNonNulls nb 0 (rowAt rows k)),
       (List.range rows.length).filter (fun k => !(isBitNull nb (rowAt rows k))),
       (List.range rows.length).map (fun k => isBitNull nb (rowAt rows k)),
       ((List.range rows.length).map (fun k => isBitNull nb (rowAt rows k))).any id,
       countNonNulls nb 0 ((match rows.getLast? with | some r => r | none => 0) + 1) -
         (match (((List.range rows.length).filter
             (fun k => !(isBitNull nb (rowAt rows k)))).map
             (fun k => countNonNulls nb 0 (rowAt rows k))).getLast? with
          | some t => t + 1
          | none => 0)) := rfl

theorem nonNullPositions_eq (nb : List Bool) (n : Nat) :
    nonNullPositions nb n = (List.range n).filter (fun i => !(isBitNull nb i)) := rfl

theorem cbPos_scatter (outer : List Nat) (w t : Nat) (h : outer.isEmpty = false) :
    cbPos (!outer.isEmpty) outer 0 w t = outer.getD t 0 := by
  unfold cbPos
  rw [h]
  rw [if_pos (show (!false) = true from rfl)]
  rw [show (0 : Nat) + t = t from by omega]

theorem vectorExtractPath_nonull (blob : List Nat) (sched : Nat → Nat) (dense : Bool)
    (rows : List Nat) (nb : List Bool) (c : CState) (o : OState) :
    vectorExtractPath blob sched dense rows false nb c o =
      (match extractSparse blob sched rows rows.length c o with
       | none => none
       | some (c2, o2) => some (c2, { o2 with numValues := rows.length })) := rfl

theorem vectorExtractPath_dense (blob : List Nat) (sched : Nat → Nat)
    (rows : List Nat) (nb : List Bool) (c : CState) (o : OState) :
    vectorExtractPath blob sched true rows true nb c o =
      (match extractSparse blob sched rows (nonNullPositions nb rows.length).length c
          { o with returnReaderNulls := true,
                   outerNonNullRows := nonNullPositions nb rows.length } with
       | none => none
       | some (c2, o2) => some (c2, { o2 with numValues := rows.length })) := rfl

theorem vectorExtractPath_sparse (blob : List Nat) (sched : Nat → Nat)
    (rows : List Nat) (nb : List Bool) (c : CState) (o : OState) :
    vectorExtractPath blob sched false rows true nb c o =
      (match (match extractSparse blob sched
          (((List.range rows.length).filter
            (fun k => !(isBitNull nb (rowAt rows k)))).map
            (fun k => countNonNulls nb 0 (rowAt rows k)))
          (((List.range rows.length).filter
            (fun k => !(isBitNull nb (rowAt rows k)))).map
            (fun k => countNonNulls nb 0 (rowAt rows k))).length c
          { o with
              outerNonNullRows := (List.range rows.length).filter
                (fun k => !(isBitNull nb (rowAt rows k))),
              resultNulls := (List.range rows.length).map
                (fun k => isBitNull nb (rowAt rows k)),
              anyNulls := ((List.range rows.length).map
                (fun k => isBitNull nb (rowAt rows k))).any id } with
        | none => none
        | some (c2, o2) =>
          some (skipInDecodeOp false c2
              (countNonNulls nb 0
                 ((match rows.getLast? with | some r => r | none => 0) + 1) -
               (match (((List.range rows.length).filter
                   (fun k => !(isBitNull nb (rowAt rows k)))).map
                   (fun k => countNonNulls nb 0 (rowAt rows k))).getLast? with
                | some t => t + 1
                | none => 0)) 0 [], o2)) with
       | none => none
       | some (c3, o3) => some (c3, { o3 with numValues := rows.length })) := by
  unfold vectorExtractPath
  rw [nonNullRowsFromSparse_eq]
  exact rfl
end StringDirect
